import Mathlib

/-!
# Geometric mapping engine of `ElemType_Jac_templ.hpp` and assemblers of `ex11.cpp`

A shallow embedding of the three specialisations `(1,3)`, `(2,3)`, `(3,3)` of
`elem_type_jac_templ`, of the functions `AssembleStandardProblem`, `GetErrorNorm` and
`BuidProjection` of `ex11.cpp` with its manufactured solution, and of the statements made
about them.

* The scalar type `type_mov` is a parameter `K` (a field, ordered where the
  source calls `abs`), and the `sqrt` overload of `type_mov` is a parameter
  `sqrt : K → K`.  Theorems that are about the value of a square root are stated
  for `K = ℝ` and `sqrt = Real.sqrt`.
* `std::vector` is a `List`; an access outside the bounds of a vector or of a
  local array ends the run with `Fault.out_of_range`, a call of `abort()` with
  `Fault.abort`.
* Division is the division of the field `K`.  Where the source divides by zero
  it produces an IEEE infinity or NaN, which `K` does not have: no theorem
  below depends on the value of a quotient whose divisor is zero.
* The differentiation tape `FemusInit::_adeptStack` is an explicit state of the
  functions of `ex11.cpp`; the classes of the library that they call (mesh,
  solution, systems, global vectors and matrices) are parameters.
-/

namespace femus

/-! ## Runs, vectors and loops -/

/-- The two ways a run of the embedded code can end without returning. -/
inductive Fault where
  | abort (msg : String)
  | out_of_range
  deriving DecidableEq

/-- A run either returns a value or ends with a `Fault`. -/
abbrev Run (α : Type) : Type := Except Fault α

/-- The loop `for (unsigned i = 0; i < n; i++) body`, threading the state `s`. -/
def forLoop {σ : Type} (n : Nat) (body : Nat → σ → Run σ) (s : σ) : Run σ :=
  match n with
  | 0 => pure s
  | k + 1 => forLoop k body s >>= body k

/-- The matrix type `std::vector< std::vector< type_mov > >`. -/
abbrev Mat (K : Type) : Type := List (List K)

/-- The read `v[i]` of a vector. -/
def Vec.read {α : Type} (v : List α) (i : Nat) : Run α :=
  match v[i]? with
  | some x => pure x
  | none => throw Fault.out_of_range

/-- The assignment `v[i] = x` of a vector. -/
def Vec.write {α : Type} (v : List α) (i : Nat) (x : α) : Run (List α) :=
  if i < v.length then pure (v.set i x) else throw Fault.out_of_range

/-- The call `v.resize(n)`: the first `n` entries are kept, new ones are `d`. -/
def resize {α : Type} (n : Nat) (v : List α) (d : α) : List α :=
  v.take n ++ List.replicate (n - v.length) d

/-- The call `std::fill(v.begin(), v.end(), x)`. -/
def fill {α : Type} (v : List α) (x : α) : List α :=
  v.map (fun _ => x)

/-- The read `M[i][j]`. -/
def Mat.read {K : Type} (M : Mat K) (i j : Nat) : Run K := do
  let row ← Vec.read M i
  Vec.read row j

/-- The assignment `M[i][j] = x`. -/
def Mat.write {K : Type} (M : Mat K) (i j : Nat) (x : K) : Run (Mat K) := do
  let row ← Vec.read M i
  let row' ← Vec.write row j x
  Vec.write M i row'

/-- The compound assignment `M[i][j] += x`. -/
def Mat.addTo {K : Type} [Add K] (M : Mat K) (i j : Nat) (x : K) : Run (Mat K) := do
  let a ← Mat.read M i j
  Mat.write M i j (a + x)

/-- The statements `M.resize(r); for (d < r) M[d].resize(c);`. -/
def Mat.resize {K : Type} [Zero K] (r c : Nat) (M : Mat K) : Mat K :=
  (femus.resize r M []).map (fun row => femus.resize c row 0)

/-- The statements `M.resize(r); for (d < r) { M[d].resize(c); std::fill(M[d].begin(), M[d].end(), 0.); }`. -/
def Mat.resizeFill {K : Type} [Zero K] (r c : Nat) (M : Mat K) : Mat K :=
  (femus.resize r M []).map (fun row => fill (femus.resize c row 0) 0)

/-! ## The reference element tables -/

/-- The tables of `elem_type_1D`, `elem_type_2D`, `elem_type_3D` that the
mapping engine reads (`ElemType.hpp` declares them): the number of nodes `_nc`
(the bound of the loops `inode < _nc`), and for each quadrature index `ig` and
node `inode` the reference value and the reference derivatives of the shape
functions, and the Gauss weights `_gauss.GetGaussWeightsPointer()`.  They are raw
`double` arrays in the source, so they carry no length. -/
structure elem_type (K : Type) where
  _nc : Nat
  _phi : Nat → Nat → K
  _dphidxi : Nat → Nat → K
  _dphideta : Nat → Nat → K
  _dphidzeta : Nat → Nat → K
  _d2phidxi2 : Nat → Nat → K
  _d2phideta2 : Nat → Nat → K
  _d2phidzeta2 : Nat → Nat → K
  _d2phidxideta : Nat → Nat → K
  _d2phidetadzeta : Nat → Nat → K
  _d2phidzetadxi : Nat → Nat → K
  GetGaussWeightsPointer : Nat → K

/-- The output triple `(Jac, JacI, detJac)` of `Jacobian_geometry_templ`. -/
structure JacOut (K : Type) where
  Jac : Mat K
  JacI : Mat K
  detJac : K

/-! ## Specialisation `(1,3)` -/

/-- `elem_type_jac_templ<type, type_mov, 1, 3>::Jacobian_geometry_templ`.
`Jac` and `JacI` are the vectors passed in by reference. -/
def Jacobian_geometry_templ_1_3 {K : Type} [Field K] (sqrt : K → K) (e : elem_type K)
    (vt : Mat K) (ig : Nat) (Jac JacI : Mat K) (dim space_dim : Nat) : Run (JacOut K) := do
  let Jac := Mat.resizeFill dim space_dim Jac
  let Jac ← forLoop space_dim (fun d Jac =>
    forLoop e._nc (fun inode Jac => do
      let x ← Mat.read vt d inode
      Mat.addTo Jac 0 d (e._dphidxi ig inode * x)) Jac) Jac
  let JacJacT ← forLoop space_dim (fun d acc => do
    let a ← Mat.read Jac 0 d
    pure (acc + a * a)) (0 : K)
  let detJac := sqrt JacJacT
  let JacI := Mat.resize space_dim dim JacI
  let JacI ← forLoop space_dim (fun d JacI => do
    let a ← Mat.read Jac 0 d
    Mat.write JacI d 0 (a * 1 / JacJacT)) JacI
  pure ⟨Jac, JacI, detJac⟩

/-- `elem_type_jac_templ<type, type_mov, 1, 3>::compute_normal`.
`normal` is the vector passed in by reference. -/
def compute_normal_1_3 {K : Type} [Field K] (sqrt : K → K)
    (Jac : Mat K) (normal : List K) : Run (List K) := do
  let JacJacT ← forLoop 3 (fun d acc => do
    let a ← Mat.read Jac 0 d
    pure (acc + a * a)) (0 : K)
  let detJac := sqrt JacJacT
  let normal := resize 3 normal 0
  let normal ← Vec.write normal 0 ((← Mat.read Jac 0 1) / detJac)
  let normal ← Vec.write normal 1 (-(← Mat.read Jac 0 0) / detJac)
  let normal ← Vec.write normal 2 0
  pure normal

/-! ## Specialisation `(2,3)` -/

/-- `elem_type_jac_templ<type, type_mov, 2, 3>::Jacobian_geometry_templ`.
`JacJacT` and `JacJacT_inv` are the local `2 × 2` arrays, and `abs` is the absolute
value of `type_mov`. -/
def Jacobian_geometry_templ_2_3 {K : Type} [LinearOrderedField K] (sqrt : K → K)
    (e : elem_type K) (vt : Mat K) (ig : Nat) (Jac JacI : Mat K) (dim space_dim : Nat) :
    Run (JacOut K) := do
  let Jac := Mat.resizeFill dim space_dim Jac
  let Jac ← forLoop space_dim (fun d Jac =>
    forLoop e._nc (fun inode Jac => do
      let Jac ← Mat.addTo Jac 0 d (e._dphidxi ig inode * (← Mat.read vt d inode))
      Mat.addTo Jac 1 d (e._dphideta ig inode * (← Mat.read vt d inode))) Jac) Jac
  let JacJacT : Mat K := [[0, 0], [0, 0]]
  let JacJacT_inv : Mat K := [[0, 0], [0, 0]]
  let JacJacT ← forLoop 2 (fun i JacJacT =>
    forLoop 2 (fun j JacJacT =>
      forLoop space_dim (fun k JacJacT => do
        Mat.addTo JacJacT i j ((← Mat.read Jac i k) * (← Mat.read Jac j k))) JacJacT)
      JacJacT) JacJacT
  let detJacJacT := (← Mat.read JacJacT 0 0) * (← Mat.read JacJacT 1 1)
    - (← Mat.read JacJacT 0 1) * (← Mat.read JacJacT 1 0)
  let detJac := sqrt |detJacJacT|
  let JacJacT_inv ← Mat.write JacJacT_inv 0 0 ((← Mat.read JacJacT 1 1) / detJacJacT)
  let JacJacT_inv ← Mat.write JacJacT_inv 0 1 (-(← Mat.read JacJacT 0 1) / detJacJacT)
  let JacJacT_inv ← Mat.write JacJacT_inv 1 0 (-(← Mat.read JacJacT 1 0) / detJacJacT)
  let JacJacT_inv ← Mat.write JacJacT_inv 1 1 ((← Mat.read JacJacT 0 0) / detJacJacT)
  let JacI := Mat.resizeFill space_dim dim JacI
  let JacI ← forLoop space_dim (fun i JacI =>
    forLoop dim (fun j JacI =>
      forLoop dim (fun k JacI => do
        Mat.addTo JacI i j ((← Mat.read Jac k i) * (← Mat.read JacJacT_inv k j))) JacI)
      JacI) JacI
  pure ⟨Jac, JacI, detJac⟩

/-- `elem_type_jac_templ<type, type_mov, 2, 3>::compute_normal`. -/
def compute_normal_2_3 {K : Type} [Field K] (sqrt : K → K)
    (Jac : Mat K) (normal : List K) : Run (List K) := do
  let nx := (← Mat.read Jac 0 1) * (← Mat.read Jac 1 2)
    - (← Mat.read Jac 1 1) * (← Mat.read Jac 0 2)
  let ny := (← Mat.read Jac 1 0) * (← Mat.read Jac 0 2)
    - (← Mat.read Jac 1 2) * (← Mat.read Jac 0 0)
  let nz := (← Mat.read Jac 0 0) * (← Mat.read Jac 1 1)
    - (← Mat.read Jac 1 0) * (← Mat.read Jac 0 1)
  let invModn := 1 / sqrt (nx * nx + ny * ny + nz * nz)
  let normal := resize 3 normal 0
  let normal ← Vec.write normal 0 (nx * invModn)
  let normal ← Vec.write normal 1 (ny * invModn)
  let normal ← Vec.write normal 2 (nz * invModn)
  pure normal

/-! ## Specialisation `(3,3)` -/

/-- `elem_type_jac_templ<type, type_mov, 3, 3>::Jacobian_geometry_templ`. -/
def Jacobian_geometry_templ_3_3 {K : Type} [Field K] (e : elem_type K)
    (vt : Mat K) (ig : Nat) (Jac JacI : Mat K) (dim space_dim : Nat) : Run (JacOut K) := do
  let Jac := Mat.resizeFill 3 3 Jac
  let Jac ← forLoop 3 (fun d Jac =>
    forLoop e._nc (fun inode Jac => do
      let Jac ← Mat.addTo Jac 0 d (e._dphidxi ig inode * (← Mat.read vt d inode))
      let Jac ← Mat.addTo Jac 1 d (e._dphideta ig inode * (← Mat.read vt d inode))
      Mat.addTo Jac 2 d (e._dphidzeta ig inode * (← Mat.read vt d inode))) Jac) Jac
  let JacI := Mat.resize space_dim dim JacI
  let detJac :=
    (← Mat.read Jac 0 0) * ((← Mat.read Jac 1 1) * (← Mat.read Jac 2 2)
        - (← Mat.read Jac 1 2) * (← Mat.read Jac 2 1)) +
    (← Mat.read Jac 0 1) * ((← Mat.read Jac 1 2) * (← Mat.read Jac 2 0)
        - (← Mat.read Jac 1 0) * (← Mat.read Jac 2 2)) +
    (← Mat.read Jac 0 2) * ((← Mat.read Jac 1 0) * (← Mat.read Jac 2 1)
        - (← Mat.read Jac 1 1) * (← Mat.read Jac 2 0))
  let JacI ← Mat.write JacI 0 0
    ((-(← Mat.read Jac 1 2) * (← Mat.read Jac 2 1) + (← Mat.read Jac 1 1) * (← Mat.read Jac 2 2)) / detJac)
  let JacI ← Mat.write JacI 0 1
    (((← Mat.read Jac 0 2) * (← Mat.read Jac 2 1) - (← Mat.read Jac 0 1) * (← Mat.read Jac 2 2)) / detJac)
  let JacI ← Mat.write JacI 0 2
    ((-(← Mat.read Jac 0 2) * (← Mat.read Jac 1 1) + (← Mat.read Jac 0 1) * (← Mat.read Jac 1 2)) / detJac)
  let JacI ← Mat.write JacI 1 0
    (((← Mat.read Jac 1 2) * (← Mat.read Jac 2 0) - (← Mat.read Jac 1 0) * (← Mat.read Jac 2 2)) / detJac)
  let JacI ← Mat.write JacI 1 1
    ((-(← Mat.read Jac 0 2) * (← Mat.read Jac 2 0) + (← Mat.read Jac 0 0) * (← Mat.read Jac 2 2)) / detJac)
  let JacI ← Mat.write JacI 1 2
    (((← Mat.read Jac 0 2) * (← Mat.read Jac 1 0) - (← Mat.read Jac 0 0) * (← Mat.read Jac 1 2)) / detJac)
  let JacI ← Mat.write JacI 2 0
    ((-(← Mat.read Jac 1 1) * (← Mat.read Jac 2 0) + (← Mat.read Jac 1 0) * (← Mat.read Jac 2 1)) / detJac)
  let JacI ← Mat.write JacI 2 1
    (((← Mat.read Jac 0 1) * (← Mat.read Jac 2 0) - (← Mat.read Jac 0 0) * (← Mat.read Jac 2 1)) / detJac)
  let JacI ← Mat.write JacI 2 2
    ((-(← Mat.read Jac 0 1) * (← Mat.read Jac 1 0) + (← Mat.read Jac 0 0) * (← Mat.read Jac 1 1)) / detJac)
  pure ⟨Jac, JacI, detJac⟩

/-- `elem_type_jac_templ<type, type_mov, 3, 3>::compute_normal`: the message
is printed and `abort()` is called. -/
def compute_normal_3_3 {K : Type} (_Jac : Mat K) (_normal : List K) : Run (List K) :=
  throw (Fault.abort "Normal non-defined for 3D objects")

/-! ## The shape evaluator `Jacobian_non_isoparametric_templ` -/

/-- An object behind a pointer `elem_type_jac_templ_base<type, type_mov> *`: one of the three
specialisations `elem_type_jac_templ<type, type_mov, D, 3>`, each with its own tables. -/
inductive elem_type_jac_templ_base (K : Type) where
  | templ_1_3 (e : elem_type K)
  | templ_2_3 (e : elem_type K)
  | templ_3_3 (e : elem_type K)

/-- The template argument `dim` of the specialisation. -/
def elem_type_jac_templ_base.dim {K : Type} : elem_type_jac_templ_base K → Nat
  | .templ_1_3 _ => 1
  | .templ_2_3 _ => 2
  | .templ_3_3 _ => 3

/-- The template argument `space_dim` of the specialisation. -/
def elem_type_jac_templ_base.space_dim {K : Type} : elem_type_jac_templ_base K → Nat
  | .templ_1_3 _ => 3
  | .templ_2_3 _ => 3
  | .templ_3_3 _ => 3

/-- The virtual call `fe_elem_coords_in->Jacobian_geometry_templ(...)`. -/
def elem_type_jac_templ_base.Jacobian_geometry_templ {K : Type} [LinearOrderedField K]
    (sqrt : K → K) (fe : elem_type_jac_templ_base K) (vt : Mat K) (ig : Nat)
    (Jac JacI : Mat K) (dim space_dim : Nat) : Run (JacOut K) :=
  match fe with
  | .templ_1_3 e => Jacobian_geometry_templ_1_3 sqrt e vt ig Jac JacI dim space_dim
  | .templ_2_3 e => Jacobian_geometry_templ_2_3 sqrt e vt ig Jac JacI dim space_dim
  | .templ_3_3 e => Jacobian_geometry_templ_3_3 e vt ig Jac JacI dim space_dim

/-- The outputs `Weight`, `phi`, `gradphi` and the optional `nablaphi` of
`Jacobian_non_isoparametric_templ`. -/
structure ShapeOut (K : Type) where
  Weight : K
  phi : List K
  gradphi : List K
  nablaphi : Option (List K)

/-- `elem_type_jac_templ<type, type_mov, 1, 3>::Jacobian_non_isoparametric_templ`.
`phi`, `gradphi` and `nablaphi` are the vectors passed in by reference, `nablaphi` being
`none` when the second derivatives are not requested. -/
def Jacobian_non_isoparametric_templ_1_3 {K : Type} [LinearOrderedField K] (sqrt : K → K)
    (e : elem_type K) (fe_elem_coords_in : elem_type_jac_templ_base K) (vt : Mat K) (ig : Nat)
    (phi gradphi : List K) (nablaphi : Option (List K)) (dim space_dim : Nat) :
    Run (ShapeOut K) := do
  let geom ← fe_elem_coords_in.Jacobian_geometry_templ sqrt vt ig [] [] dim space_dim
  let JacI := geom.JacI
  let Weight := geom.detJac * e.GetGaussWeightsPointer ig
  let phi := resize e._nc phi 0
  let gradphi := fill (resize (e._nc * space_dim) gradphi 0) 0
  let nablaphi := nablaphi.map (fun v => resize (e._nc * space_dim) v 0)
  forLoop e._nc (fun inode s => do
    let phi ← Vec.write s.phi inode (e._phi ig inode)
    let gradphi ← forLoop space_dim (fun d gradphi => do
      Vec.write gradphi (inode * space_dim + d)
        (e._dphidxi ig inode * (← Mat.read JacI d 0))) s.gradphi
    let nablaphi ← match s.nablaphi with
      | some v => do
        let v ← Vec.write v inode
          (e._d2phidxi2 ig inode * (← Mat.read JacI 0 0) * (← Mat.read JacI 0 0))
        pure (some v)
      | none => pure none
    pure ⟨s.Weight, phi, gradphi, nablaphi⟩) ⟨Weight, phi, gradphi, nablaphi⟩

/-- `elem_type_jac_templ<type, type_mov, 2, 3>::Jacobian_non_isoparametric_templ`. -/
def Jacobian_non_isoparametric_templ_2_3 {K : Type} [LinearOrderedField K] (sqrt : K → K)
    (e : elem_type K) (fe_elem_coords_in : elem_type_jac_templ_base K) (vt : Mat K) (ig : Nat)
    (phi gradphi : List K) (nablaphi : Option (List K)) (dim space_dim : Nat) :
    Run (ShapeOut K) := do
  let geom ← fe_elem_coords_in.Jacobian_geometry_templ sqrt vt ig [] [] dim space_dim
  let JacI := geom.JacI
  let Weight := geom.detJac * e.GetGaussWeightsPointer ig
  let phi := resize e._nc phi 0
  let gradphi := fill (resize (e._nc * space_dim) gradphi 0) 0
  let nablaphi := nablaphi.map (fun v => resize (e._nc * 3) v 0)
  forLoop e._nc (fun inode s => do
    let dxi := e._dphidxi ig inode
    let deta := e._dphideta ig inode
    let dxi2 := e._d2phidxi2 ig inode
    let deta2 := e._d2phideta2 ig inode
    let dxideta := e._d2phidxideta ig inode
    let phi ← Vec.write s.phi inode (e._phi ig inode)
    let gradphi ← forLoop space_dim (fun d gradphi => do
      Vec.write gradphi (inode * space_dim + d)
        (dxi * (← Mat.read JacI d 0) + deta * (← Mat.read JacI d 1))) s.gradphi
    let nablaphi ← match s.nablaphi with
      | some v => do
        let v ← Vec.write v (3 * inode + 0)
          ((dxi2 * (← Mat.read JacI 0 0) + dxideta * (← Mat.read JacI 0 1))
              * (← Mat.read JacI 0 0) +
            (dxideta * (← Mat.read JacI 0 0) + deta2 * (← Mat.read JacI 0 1))
              * (← Mat.read JacI 0 1))
        let v ← Vec.write v (3 * inode + 1)
          ((dxi2 * (← Mat.read JacI 1 0) + dxideta * (← Mat.read JacI 1 1))
              * (← Mat.read JacI 1 0) +
            (dxideta * (← Mat.read JacI 1 0) + deta2 * (← Mat.read JacI 1 1))
              * (← Mat.read JacI 1 1))
        let v ← Vec.write v (3 * inode + 2)
          ((dxi2 * (← Mat.read JacI 0 0) + dxideta * (← Mat.read JacI 0 1))
              * (← Mat.read JacI 1 0) +
            (dxideta * (← Mat.read JacI 0 0) + deta2 * (← Mat.read JacI 0 1))
              * (← Mat.read JacI 1 1))
        pure (some v)
      | none => pure none
    pure ⟨s.Weight, phi, gradphi, nablaphi⟩) ⟨Weight, phi, gradphi, nablaphi⟩

/-- `elem_type_jac_templ<type, type_mov, 3, 3>::Jacobian_non_isoparametric_templ`. -/
def Jacobian_non_isoparametric_templ_3_3 {K : Type} [LinearOrderedField K] (sqrt : K → K)
    (e : elem_type K) (fe_elem_coords_in : elem_type_jac_templ_base K) (vt : Mat K) (ig : Nat)
    (phi gradphi : List K) (nablaphi : Option (List K)) (dim space_dim : Nat) :
    Run (ShapeOut K) := do
  let geom ← fe_elem_coords_in.Jacobian_geometry_templ sqrt vt ig [] [] dim space_dim
  let JacI := geom.JacI
  let Weight := geom.detJac * e.GetGaussWeightsPointer ig
  let phi := resize e._nc phi 0
  let gradphi := fill (resize (e._nc * 3) gradphi 0) 0
  let nablaphi := nablaphi.map (fun v => resize (e._nc * 6) v 0)
  forLoop e._nc (fun inode s => do
    let dxi := e._dphidxi ig inode
    let deta := e._dphideta ig inode
    let dzeta := e._dphidzeta ig inode
    let dxi2 := e._d2phidxi2 ig inode
    let deta2 := e._d2phideta2 ig inode
    let dzeta2 := e._d2phidzeta2 ig inode
    let dxideta := e._d2phidxideta ig inode
    let detadzeta := e._d2phidetadzeta ig inode
    let dzetadxi := e._d2phidzetadxi ig inode
    let phi ← Vec.write s.phi inode (e._phi ig inode)
    let gradphi := s.gradphi
    let gradphi ← Vec.write gradphi (3 * inode + 0)
      (dxi * (← Mat.read JacI 0 0) + deta * (← Mat.read JacI 0 1) + dzeta * (← Mat.read JacI 0 2))
    let gradphi ← Vec.write gradphi (3 * inode + 1)
      (dxi * (← Mat.read JacI 1 0) + deta * (← Mat.read JacI 1 1) + dzeta * (← Mat.read JacI 1 2))
    let gradphi ← Vec.write gradphi (3 * inode + 2)
      (dxi * (← Mat.read JacI 2 0) + deta * (← Mat.read JacI 2 1) + dzeta * (← Mat.read JacI 2 2))
    let nablaphi ← match s.nablaphi with
      | some v => do
        let v ← Vec.write v (6 * inode + 0)
          ((dxi2 * (← Mat.read JacI 0 0) + dxideta * (← Mat.read JacI 0 1) + dzetadxi * (← Mat.read JacI 0 2))
              * (← Mat.read JacI 0 0) +
            (dxideta * (← Mat.read JacI 0 0) + deta2 * (← Mat.read JacI 0 1) + detadzeta * (← Mat.read JacI 0 2))
              * (← Mat.read JacI 0 1) +
            (dzetadxi * (← Mat.read JacI 0 0) + detadzeta * (← Mat.read JacI 0 1) + dzeta2 * (← Mat.read JacI 0 2))
              * (← Mat.read JacI 0 2))
        let v ← Vec.write v (6 * inode + 1)
          ((dxi2 * (← Mat.read JacI 1 0) + dxideta * (← Mat.read JacI 1 1) + dzetadxi * (← Mat.read JacI 1 2))
              * (← Mat.read JacI 1 0) +
            (dxideta * (← Mat.read JacI 1 0) + deta2 * (← Mat.read JacI 1 1) + detadzeta * (← Mat.read JacI 1 2))
              * (← Mat.read JacI 1 1) +
            (dzetadxi * (← Mat.read JacI 1 0) + detadzeta * (← Mat.read JacI 1 1) + dzeta2 * (← Mat.read JacI 1 2))
              * (← Mat.read JacI 1 2))
        let v ← Vec.write v (6 * inode + 2)
          ((dxi2 * (← Mat.read JacI 2 0) + dxideta * (← Mat.read JacI 2 1) + dzetadxi * (← Mat.read JacI 2 2))
              * (← Mat.read JacI 2 0) +
            (dxideta * (← Mat.read JacI 2 0) + deta2 * (← Mat.read JacI 2 1) + detadzeta * (← Mat.read JacI 2 2))
              * (← Mat.read JacI 2 1) +
            (dzetadxi * (← Mat.read JacI 2 0) + detadzeta * (← Mat.read JacI 2 1) + dzeta2 * (← Mat.read JacI 2 2))
              * (← Mat.read JacI 2 2))
        let v ← Vec.write v (6 * inode + 3)
          ((dxi2 * (← Mat.read JacI 0 0) + dxideta * (← Mat.read JacI 0 1) + dzetadxi * (← Mat.read JacI 0 2))
              * (← Mat.read JacI 1 0) +
            (dxideta * (← Mat.read JacI 0 0) + deta2 * (← Mat.read JacI 0 1) + detadzeta * (← Mat.read JacI 0 2))
              * (← Mat.read JacI 1 1) +
            (dzetadxi * (← Mat.read JacI 0 0) + detadzeta * (← Mat.read JacI 0 1) + dzeta2 * (← Mat.read JacI 0 2))
              * (← Mat.read JacI 1 2))
        let v ← Vec.write v (6 * inode + 4)
          ((dxi2 * (← Mat.read JacI 1 0) + dxideta * (← Mat.read JacI 1 1) + dzetadxi * (← Mat.read JacI 1 2))
              * (← Mat.read JacI 2 0) +
            (dxideta * (← Mat.read JacI 1 0) + deta2 * (← Mat.read JacI 1 1) + detadzeta * (← Mat.read JacI 1 2))
              * (← Mat.read JacI 2 1) +
            (dzetadxi * (← Mat.read JacI 1 0) + detadzeta * (← Mat.read JacI 1 1) + dzeta2 * (← Mat.read JacI 1 2))
              * (← Mat.read JacI 2 2))
        let v ← Vec.write v (6 * inode + 5)
          ((dxi2 * (← Mat.read JacI 2 0) + dxideta * (← Mat.read JacI 2 1) + dzetadxi * (← Mat.read JacI 2 2))
              * (← Mat.read JacI 0 0) +
            (dxideta * (← Mat.read JacI 2 0) + deta2 * (← Mat.read JacI 2 1) + detadzeta * (← Mat.read JacI 2 2))
              * (← Mat.read JacI 0 1) +
            (dzetadxi * (← Mat.read JacI 2 0) + detadzeta * (← Mat.read JacI 2 1) + dzeta2 * (← Mat.read JacI 2 2))
              * (← Mat.read JacI 0 2))
        pure (some v)
      | none => pure none
    pure ⟨s.Weight, phi, gradphi, nablaphi⟩) ⟨Weight, phi, gradphi, nablaphi⟩

/-- The tables of the base class `elem_type_1D`, `elem_type_2D` or `elem_type_3D` of the
object. -/
def elem_type_jac_templ_base.tables {K : Type} : elem_type_jac_templ_base K → elem_type K
  | .templ_1_3 e => e
  | .templ_2_3 e => e
  | .templ_3_3 e => e

/-- The virtual call `->Jacobian_non_isoparametric_templ(...)` on an object behind a pointer
`elem_type_jac_templ_base<type, type_mov> *`. -/
def elem_type_jac_templ_base.Jacobian_non_isoparametric_templ {K : Type}
    [LinearOrderedField K] (sqrt : K → K) (self : elem_type_jac_templ_base K)
    (fe_elem_coords_in : elem_type_jac_templ_base K) (vt : Mat K) (ig : Nat)
    (phi gradphi : List K) (nablaphi : Option (List K)) (dim space_dim : Nat) :
    Run (ShapeOut K) :=
  match self with
  | .templ_1_3 e =>
    Jacobian_non_isoparametric_templ_1_3 sqrt e fe_elem_coords_in vt ig phi gradphi nablaphi
      dim space_dim
  | .templ_2_3 e =>
    Jacobian_non_isoparametric_templ_2_3 sqrt e fe_elem_coords_in vt ig phi gradphi nablaphi
      dim space_dim
  | .templ_3_3 e =>
    Jacobian_non_isoparametric_templ_3_3 sqrt e fe_elem_coords_in vt ig phi gradphi nablaphi
      dim space_dim

/-! ## The enumeration of `GeomElTypeEnum.hpp` -/

/-- The enumeration `GeomElType` of `GeomElTypeEnum.hpp`. -/
inductive GeomElType where
  | HEX
  | TET
  | WEDGE
  | QUAD
  | TRI
  | LINE
  deriving DecidableEq

/-- The integer value of an enumerator: `HEX = 0`, and each next enumerator is one more
than the one before it. -/
def GeomElType.val : GeomElType → Nat
  | .HEX => 0
  | .TET => 1
  | .WEDGE => 2
  | .QUAD => 3
  | .TRI => 4
  | .LINE => 5

/-- The macro `N_GEOM_ELS`. -/
def N_GEOM_ELS : Nat := 6

/-! ## The factory `build` -/

/-- The vector `geom_elems` of `GeomElTypeEnum.hpp`. -/
def geom_elems : List String := ["hex", "tet", "wedge", "quad", "tri", "line"]

/-- `elem_type_jac_templ_base<type, type_mov>::build`.  The constructors of `elem_type_1D`,
`elem_type_2D` and `elem_type_3D` (declared in `ElemType.hpp`), which the constructors of the
specialisations call with the three strings, are the parameters of the same names. -/
def elem_type_jac_templ_base.build {K : Type}
    (elem_type_1D elem_type_2D elem_type_3D : String → String → String → Run (elem_type K))
    (geom_elem fe_fam order_gauss : String) (_space_dimension : Nat) :
    Run (elem_type_jac_templ_base K) :=
  if geom_elem = "hex" then do
    pure (.templ_3_3 (← elem_type_3D geom_elem fe_fam order_gauss))
  else if geom_elem = "tet" then do
    pure (.templ_3_3 (← elem_type_3D geom_elem fe_fam order_gauss))
  else if geom_elem = "wedge" then do
    pure (.templ_3_3 (← elem_type_3D geom_elem fe_fam order_gauss))
  else if geom_elem = "quad" then do
    pure (.templ_2_3 (← elem_type_2D geom_elem fe_fam order_gauss))
  else if geom_elem = "tri" then do
    pure (.templ_2_3 (← elem_type_2D geom_elem fe_fam order_gauss))
  else if geom_elem = "line" then do
    pure (.templ_1_3 (← elem_type_1D geom_elem fe_fam order_gauss))
  else throw (Fault.abort "Not implemented")

/-! ## The manufactured solution of `ex11.cpp` -/

/-- `GetExactSolutionValue`. `acos` and `cos` are the functions of `<cmath>`. -/
def GetExactSolutionValue {K : Type} [Field K] (acos cos : K → K) (x : List K) : Run K := do
  let pi := acos (-1)
  pure (cos (pi * (← Vec.read x 0)) * cos (pi * (← Vec.read x 1)))

/-- `GetExactSolutionGradient`. `solGrad` is the vector passed in by reference. -/
def GetExactSolutionGradient {K : Type} [Field K] (acos cos sin : K → K) (x solGrad : List K) :
    Run (List K) := do
  let pi := acos (-1)
  let solGrad ← Vec.write solGrad 0
    (-pi * sin (pi * (← Vec.read x 0)) * cos (pi * (← Vec.read x 1)))
  let solGrad ← Vec.write solGrad 1
    (-pi * cos (pi * (← Vec.read x 0)) * sin (pi * (← Vec.read x 1)))
  pure solGrad

/-- `GetExactSolutionLaplace`. -/
def GetExactSolutionLaplace {K : Type} [Field K] (acos cos : K → K) (x : List K) : Run K := do
  let pi := acos (-1)
  pure (-2 * pi * pi * cos (pi * (← Vec.read x 0)) * cos (pi * (← Vec.read x 1)))

/-! ## The differentiation tape of `adept.h`

`adept.h` is a library header outside the sources embedded here.  The tape is modelled
after the specification: a recorded sequence of elementary operations over tracked
variables, between a call of `new_recording` and the extraction of the Jacobian.  A tracked
variable is a value with a gradient index; a statement `lhs ← Σ multiplier · rhs` is recorded
for every assignment to a tracked variable; gradient indices are handed out by a counter and
not reused.  The extraction of the Jacobian needs a matching sequence of a recording, a
declaration of the dependent variables and a declaration of the independent variables; the
tape keeps track of the three. -/

/-- Modelled from the spec: a tape-tracked scalar `adept::adouble`, its numeric value and the
index under which the tape knows it. -/
structure adouble (K : Type) where
  value : K
  gradient_index : Nat

/-- Modelled from the spec: one recorded elementary operation, the differential statement
`d lhs = Σ multiplier · d rhs` over the pairs `(multiplier, rhs)` of `operations`. -/
structure Statement (K : Type) where
  lhs : Nat
  operations : List (K × Nat)

/-- Modelled from the spec: the differentiation tape `adept::Stack`: the number of gradient
indices handed out, the recorded statements (oldest first), the gradient indices registered
as independent and as dependent variables, and the three parts of the sequence that an
extraction of the Jacobian needs: whether a recording has been started, and whether
independent and dependent variables have been declared since they were last cleared. -/
structure Stack (K : Type) where
  n_gradients_registered : Nat
  statements : List (Statement K)
  independent_index : List Nat
  dependent_index : List Nat
  recording : Bool
  independents_declared : Bool
  dependents_declared : Bool

/-- Modelled from the spec: the right-hand side of an assignment to a tracked variable, its
value and its differential as pairs `(multiplier, gradient index)`. -/
structure Expression (K : Type) where
  value : K
  operations : List (K × Nat)

/-- A tracked variable used as an expression. -/
def Expression.active {K : Type} [Field K] (a : adouble K) : Expression K :=
  ⟨a.value, [(1, a.gradient_index)]⟩

/-- The product `c * e` of a plain number and an expression. -/
def Expression.passive_mul {K : Type} [Field K] (c : K) (e : Expression K) : Expression K :=
  ⟨c * e.value, e.operations.map (fun op => (c * op.1, op.2))⟩

/-- The product `e * c` of an expression and a plain number. -/
def Expression.mul_passive {K : Type} [Field K] (e : Expression K) (c : K) : Expression K :=
  ⟨e.value * c, e.operations.map (fun op => (op.1 * c, op.2))⟩

/-- The difference `c - e` of a plain number and an expression. -/
def Expression.passive_sub {K : Type} [Field K] (c : K) (e : Expression K) : Expression K :=
  ⟨c - e.value, e.operations.map (fun op => (-op.1, op.2))⟩

/-- The statement `lhs ← operations` is appended to the tape. -/
def Stack.push {K : Type} (s : Stack K) (lhs : Nat) (operations : List (K × Nat)) : Stack K :=
  ⟨s.n_gradients_registered, s.statements ++ [⟨lhs, operations⟩], s.independent_index,
    s.dependent_index, s.recording, s.independents_declared, s.dependents_declared⟩

/-- Modelled from the spec: `Stack::new_recording()` starts a new recording: the recorded
statements are dropped, the tracked variables keep their gradient indices. -/
def Stack.new_recording {K : Type} (s : Stack K) : Stack K :=
  ⟨s.n_gradients_registered, [], s.independent_index, s.dependent_index, true,
    s.independents_declared, s.dependents_declared⟩

/-- The declaration `adept::adouble a = v` with a plain number `v`: a new gradient index,
and a statement without operations. -/
def adouble.passive {K : Type} (v : K) (s : Stack K) : adouble K × Stack K :=
  (⟨v, s.n_gradients_registered⟩,
    ⟨s.n_gradients_registered + 1, s.statements ++ [⟨s.n_gradients_registered, []⟩],
      s.independent_index, s.dependent_index, s.recording, s.independents_declared,
      s.dependents_declared⟩)

/-- The assignment `a = v` of a plain number `v` to a tracked variable. -/
def adouble.assign {K : Type} (a : adouble K) (v : K) (s : Stack K) : adouble K × Stack K :=
  (⟨v, a.gradient_index⟩, s.push a.gradient_index [])

/-- The compound assignment `a += e` of an expression to a tracked variable. -/
def adouble.add_assign {K : Type} [Field K] (a : adouble K) (e : Expression K) (s : Stack K) :
    adouble K × Stack K :=
  (⟨a.value + e.value, a.gradient_index⟩,
    s.push a.gradient_index ((1, a.gradient_index) :: e.operations))

/-- The declaration `std::vector< adept::adouble > v (n, x)` with a plain number `x`: `n`
tracked variables with new gradient indices, each with a statement without operations. -/
def adouble.vector {K : Type} (n : Nat) (x : K) (s : Stack K) : List (adouble K) × Stack K :=
  match n with
  | 0 => ([], s)
  | k + 1 =>
    let (v, s) := adouble.vector k x s
    let (a, s) := adouble.passive x s
    (v ++ [a], s)

/-- The call `v.resize(n)` of a `std::vector< adept::adouble >`: the first `n` entries are
kept, new ones are tracked variables with new gradient indices. -/
def adouble.resize {K : Type} [Zero K] (n : Nat) (v : List (adouble K)) (s : Stack K) :
    List (adouble K) × Stack K :=
  (v.take n ++ (List.range (n - v.length)).map (fun k => ⟨0, s.n_gradients_registered + k⟩),
    ⟨s.n_gradients_registered + (n - v.length), s.statements, s.independent_index,
      s.dependent_index, s.recording, s.independents_declared, s.dependents_declared⟩)

/-- The call `v.assign(n, x)` of a `std::vector< adept::adouble >` with a plain number `x`:
the vector gets `n` entries, each assigned `x`. -/
def adouble.assign_vector {K : Type} [Zero K] (n : Nat) (x : K) (v : List (adouble K))
    (s : Stack K) : List (adouble K) × Stack K :=
  let (v, s) := adouble.resize n v s
  (v.map (fun a => ⟨x, a.gradient_index⟩),
    ⟨s.n_gradients_registered, s.statements ++ v.map (fun a => ⟨a.gradient_index, []⟩),
      s.independent_index, s.dependent_index, s.recording, s.independents_declared,
      s.dependents_declared⟩)

/-- Modelled from the spec: the call `s.dependent(&v[0], n)` declares the dependent
variables: the gradient indices of `v[0], …, v[n-1]` are registered as dependent
variables. -/
def Stack.dependent {K : Type} (s : Stack K) (v : List (adouble K)) (n : Nat) : Run (Stack K) :=
  forLoop n (fun i s => do
    let a ← Vec.read v i
    pure ⟨s.n_gradients_registered, s.statements, s.independent_index,
      s.dependent_index ++ [a.gradient_index], s.recording, s.independents_declared,
      s.dependents_declared⟩)
    ⟨s.n_gradients_registered, s.statements, s.independent_index, s.dependent_index,
      s.recording, s.independents_declared, true⟩

/-- Modelled from the spec: the call `s.independent(&v[0], n)` declares the independent
variables: the gradient indices of `v[0], …, v[n-1]` are registered as independent
variables. -/
def Stack.independent {K : Type} (s : Stack K) (v : List (adouble K)) (n : Nat) :
    Run (Stack K) :=
  forLoop n (fun i s => do
    let a ← Vec.read v i
    pure ⟨s.n_gradients_registered, s.statements, s.independent_index ++ [a.gradient_index],
      s.dependent_index, s.recording, s.independents_declared, s.dependents_declared⟩)
    ⟨s.n_gradients_registered, s.statements, s.independent_index, s.dependent_index,
      s.recording, true, s.dependents_declared⟩

/-- Modelled from the spec: the call `s.clear_independents()` clears the registration of
the independent variables. -/
def Stack.clear_independents {K : Type} (s : Stack K) : Stack K :=
  ⟨s.n_gradients_registered, s.statements, [], s.dependent_index, s.recording, false,
    s.dependents_declared⟩

/-- Modelled from the spec: the call `s.clear_dependents()` clears the registration of the
dependent variables. -/
def Stack.clear_dependents {K : Type} (s : Stack K) : Stack K :=
  ⟨s.n_gradients_registered, s.statements, s.independent_index, [], s.recording,
    s.independents_declared, false⟩

/-- One statement applied to the gradients `g` in a forward sweep:
`g[lhs] ← Σ multiplier · g[rhs]`. -/
def Statement.forward {K : Type} [Field K] (st : Statement K) (g : Nat → K) : Nat → K :=
  fun l => if l = st.lhs then (st.operations.map (fun op => op.1 * g op.2)).sum else g l

/-- The forward sweep of the recorded statements from the seed gradients `g`. -/
def Stack.forward {K : Type} [Field K] (s : Stack K) (g : Nat → K) : Nat → K :=
  s.statements.foldl (fun g st => st.forward g) g

/-- The derivative of the variable with gradient index `l` with respect to the variable with
gradient index `seed`, as the tape records it. -/
def Stack.gradient {K : Type} [Field K] (s : Stack K) (seed l : Nat) : K :=
  s.forward (fun i => if i = seed then 1 else 0) l

/-- Modelled from the spec: `Stack::jacobian(jacobian_out, true)`, the extraction of the
Jacobian of the registered dependent variables with respect to the registered independent
ones, ordered by column: with `m` dependent variables, entry `j * m + i` of `jacobian_out`
is the derivative of the `i`-th dependent with respect to the `j`-th independent variable.
Extracting a Jacobian without a matching sequence of a recording, a declaration of the
dependent variables and a declaration of the independent variables is the tape-discipline
fault of the specification. -/
def Stack.jacobian {K : Type} [Field K] (s : Stack K) (jacobian_out : List K) : Run (List K) :=
  if s.recording && s.independents_declared && s.dependents_declared then
    forLoop s.independent_index.length (fun j out =>
      forLoop s.dependent_index.length (fun i out =>
        Vec.write out (j * s.dependent_index.length + i)
          (s.gradient (s.independent_index.getD j 0) (s.dependent_index.getD i 0))) out)
      jacobian_out
  else
    throw (Fault.abort "TapeDisciplineFault")

/-! ## The collaborators of `ex11.cpp`

The classes of the library that `ex11.cpp` calls are declared in headers outside the sources
embedded here.  Each is a structure with the members that the three functions of `ex11.cpp`
use; the global vector and the global matrix are states of types `V` and `M` with the
operations of `NumericVector` and `SparseMatrix` as parameters. -/

/-- The members of `elem_type` (declared in `ElemType.hpp`) that `ex11.cpp` calls:
`GetGaussPointNumber()` and the shape evaluator
`Jacobian(vt, ig, Weight, phi, gradphi, nablaphi)`, whose last argument is `none` when the
second derivatives are not requested. -/
structure FiniteElement (K : Type) where
  GetGaussPointNumber : Nat
  Jacobian : Mat K → Nat → Option (List K) → Run (ShapeOut K)

/-- The members of `Mesh` that `ex11.cpp` calls.  `topology_Sol jdim dof` is
`(*msh->_topology->_Sol[jdim]) (dof)`. -/
structure Mesh (K : Type) where
  GetDimension : Nat
  processor_id : Nat
  n_processors : Nat
  elementOffset : Nat → Nat
  GetElementType : Nat → Nat
  GetElementDofNumber : Nat → Nat → Nat
  GetSolutionDof : Nat → Nat → Nat → Nat
  topology_Sol : Nat → Nat → K
  finiteElement : Nat → Nat → FiniteElement K

/-- The members of `MultiLevelMesh` that `ex11.cpp` calls. -/
structure MultiLevelMesh (K : Type) where
  GetNumberOfLevels : Nat
  GetLevel : Nat → Mesh K

/-- The member of `Solution` that `ex11.cpp` reads: `Sol index dof` is
`(*sol->_Sol[index]) (dof)`. -/
structure Solution (K : Type) where
  Sol : Nat → Nat → K

/-- The members of `MultiLevelSolution` that `ex11.cpp` calls. -/
structure MultiLevelSolution (K : Type) where
  mlMesh : MultiLevelMesh K
  GetIndex : String → Run Nat
  GetSolutionType : Nat → Nat
  GetSolutionLevel : Nat → Solution K

/-- The members of `LinearEquationSolver` that `ex11.cpp` uses: `GetSystemDof` and the
global matrix `_KK` and residual `_RES`. -/
structure LinearEquationSolver (V M : Type) where
  GetSystemDof : Nat → Nat → Nat → Nat → Int
  KK : M
  RES : V

/-- The members of `LinearImplicitSystem` and `NonLinearImplicitSystem` that `ex11.cpp`
uses. -/
structure ImplicitSystem (V M : Type) where
  GetLevelToAssemble : Nat
  GetSolPdeIndex : String → Run Nat
  LinSolver : Nat → LinearEquationSolver V M

/-- The members of `MultiLevelProblem` that `ex11.cpp` uses. -/
structure MultiLevelProblem (K V M : Type) where
  get_system : String → Run (ImplicitSystem V M)
  ml_msh : MultiLevelMesh K
  ml_sol : MultiLevelSolution K

/-- The operations of `NumericVector` that the assembler calls. -/
structure NumericVector (K V : Type) where
  zero : V → V
  add_vector_blocked : V → List K → List Int → V
  close : V → V

/-- The operations of `SparseMatrix` that the assemblers call. -/
structure SparseMatrix (K M : Type) where
  zero : M → M
  add_matrix_blocked : M → List K → List Int → List Int → M
  close : M → M

/-- The loop `for (int i = a; i < b; i++) body`, threading the state `s`. -/
def forRange {σ : Type} (a b : Nat) (body : Nat → σ → Run σ) (s : σ) : Run σ :=
  forLoop (b - a) (fun k => body (a + k)) s

/-! ## The gathering of the local arrays in `ex11.cpp` -/

/-- The loop `for (int i = 0; i < dim; i++) x[i].resize (n)`. -/
def resize_rows {K : Type} [Zero K] (dim n : Nat) (x : Mat K) : Run (Mat K) :=
  forLoop dim (fun i x => do
    let row ← Vec.read x i
    Vec.write x i (resize n row 0)) x

/-- The local storage of the global mapping and of the solution: for every node `i < nDofs`,
`solu[i] = (*sol->_Sol[soluIndex]) (solDof)` and
`sysDof[i] = pdeSys->GetSystemDof (soluIndex, soluPdeIndex, i, iel)`.  The state is the tape,
`solu` and `sysDof`. -/
def gather_solution {K V M : Type} (msh : Mesh K) (sol : Solution K)
    (pdeSys : LinearEquationSolver V M) (soluIndex soluType soluPdeIndex iel nDofs : Nat)
    (g : Stack K × List (adouble K) × List Int) : Run (Stack K × List (adouble K) × List Int) :=
  forLoop nDofs (fun i (g : Stack K × List (adouble K) × List Int) => do
    let solDof := msh.GetSolutionDof i iel soluType
    let a ← Vec.read g.2.1 i
    let solu ← Vec.write g.2.1 i (a.assign (sol.Sol soluIndex solDof) g.1).1
    let sysDof ← Vec.write g.2.2 i (pdeSys.GetSystemDof soluIndex soluPdeIndex i iel)
    pure ((a.assign (sol.Sol soluIndex solDof) g.1).2, solu, sysDof)) g

/-- The local storage of the coordinates: for every node `i < n` and direction
`jdim < dim`, `x[jdim][i] = (*msh->_topology->_Sol[jdim]) (xDof)`. -/
def gather_coordinates {K : Type} (msh : Mesh K) (dim n iel : Nat) (x : Mat K) : Run (Mat K) :=
  forLoop n (fun i x =>
    let xDof := msh.GetSolutionDof i iel 2
    forLoop dim (fun jdim x => Mat.write x jdim i (msh.topology_Sol jdim xDof)) x) x

/-! ## `AssembleStandardProblem` of `ex11.cpp` -/

/-- The variables of `AssembleStandardProblem` that live across the element loop, together
with the tape `s` and the global matrix `KK` and residual `RES`. -/
structure AssembleState (K V M : Type) where
  s : Stack K
  KK : M
  RES : V
  solu : List (adouble K)
  x : Mat K
  sysDof : List Int
  phi : List K
  phi_x : List K
  weight : K
  Res : List K
  aRes : List (adouble K)
  Jac : List K

/-- The tape and the variables `soluGauss`, `soluGauss_x`, `xGauss` declared at a Gauss
point. -/
structure GaussPoint (K : Type) where
  s : Stack K
  soluGauss : adouble K
  soluGauss_x : List (adouble K)
  xGauss : List K

/-- The evaluation of the solution, of its derivatives and of the coordinates at a Gauss
point: the three declarations and the loop over the nodes `i < nDofs` of
`AssembleStandardProblem`. -/
def AssembleStandardProblem.gauss_point {K : Type} [Field K] (dim nDofs : Nat)
    (phi phi_x : List K) (x : Mat K) (solu : List (adouble K)) (s : Stack K) :
    Run (GaussPoint K) :=
  forLoop nDofs (fun i g => do
    let phi_i ← Vec.read phi i
    let solu_i ← Vec.read solu i
    let sg := g.soluGauss.add_assign (Expression.passive_mul phi_i (Expression.active solu_i)) g.s
    forLoop dim (fun jdim g => do
      let phi_x_i ← Vec.read phi_x (i * dim + jdim)
      let a ← Vec.read g.soluGauss_x jdim
      let sgx := a.add_assign (Expression.passive_mul phi_x_i (Expression.active solu_i)) g.s
      let soluGauss_x ← Vec.write g.soluGauss_x jdim sgx.1
      let xg ← Vec.read g.xGauss jdim
      let xGauss ← Vec.write g.xGauss jdim (xg + (← Mat.read x jdim i) * phi_i)
      pure ⟨sgx.2, g.soluGauss, soluGauss_x, xGauss⟩)
      ⟨sg.2, sg.1, g.soluGauss_x, g.xGauss⟩)
    ⟨(adouble.vector dim 0 (adouble.passive 0 s).2).2, (adouble.passive 0 s).1,
      (adouble.vector dim 0 (adouble.passive 0 s).2).1, List.replicate dim 0⟩

/-- The loop over the test functions `phi_i` of `AssembleStandardProblem` at a Gauss point;
the state is the tape and the residual `aRes`. -/
def AssembleStandardProblem.phi_i_loop {K : Type} [Field K] (acos cos sin : K → K)
    (dim nDofs : Nat) (phi phi_x : List K) (weight : K) (soluGauss_x : List (adouble K))
    (xGauss : List K) (s : Stack K) (aRes : List (adouble K)) :
    Run (Stack K × List (adouble K)) :=
  forLoop nDofs (fun i st => do
    let mLaplace ← forLoop dim (fun jdim m => do
      let phi_x_i ← Vec.read phi_x (i * dim + jdim)
      let b ← Vec.read soluGauss_x jdim
      pure (m.1.add_assign (Expression.passive_mul phi_x_i (Expression.active b)) m.2))
      (adouble.passive 0 st.1)
    let _exactSolValue ← GetExactSolutionValue acos cos xGauss
    let _exactSolGrad ← GetExactSolutionGradient acos cos sin xGauss (List.replicate dim 0)
    let exactSolLaplace ← GetExactSolutionLaplace acos cos xGauss
    let f := (-exactSolLaplace) * (← Vec.read phi i)
    let a ← Vec.read st.2 i
    let r := a.add_assign (Expression.mul_passive
      (Expression.passive_sub f (Expression.active mLaplace.1)) weight) mLaplace.2
    let aRes ← Vec.write st.2 i r.1
    pure (r.2, aRes)) (s, aRes)

/-- The Gauss point loop of `AssembleStandardProblem`; the state is the tape, the residual
`aRes` and the outputs of the shape evaluator. -/
def AssembleStandardProblem.gauss_loop {K : Type} [Field K] (acos cos sin : K → K)
    (fe : FiniteElement K) (dim nDofs : Nat) (x : Mat K) (solu : List (adouble K))
    (r : Stack K × List (adouble K) × ShapeOut K) :
    Run (Stack K × List (adouble K) × ShapeOut K) :=
  forLoop fe.GetGaussPointNumber
    (fun ig (r : Stack K × List (adouble K) × ShapeOut K) => do
      -- get gauss point weight, test function and test function partial derivatives
      let shape ← fe.Jacobian x ig none
      let g ← AssembleStandardProblem.gauss_point dim nDofs shape.phi shape.gradphi x solu r.1
      let p ← AssembleStandardProblem.phi_i_loop acos cos sin dim nDofs shape.phi
        shape.gradphi shape.Weight g.soluGauss_x g.xGauss g.s r.2.1
      pure (p.1, p.2, shape)) r

/-- The body of the element loop of `AssembleStandardProblem` up to the extraction of the
Jacobian: the local arrays are resized and filled, the residual is recorded over the Gauss
points, copied with the opposite sign into `Res` and added to `RES`, and the dependent and
independent variables are registered. -/
def AssembleStandardProblem.record {K V M : Type} [Field K] (acos cos sin : K → K)
    (RESops : NumericVector K V) (msh : Mesh K) (sol : Solution K)
    (pdeSys : LinearEquationSolver V M) (soluIndex soluType soluPdeIndex : Nat) (iel : Nat)
    (st : AssembleState K V M) : Run (AssembleState K V M) := do
  let dim := msh.GetDimension
  let ielGeom := msh.GetElementType iel
  let nDofs := msh.GetElementDofNumber iel soluType
  -- resize local arrays
  let sysDof := resize nDofs st.sysDof 0
  let solu := adouble.resize nDofs st.solu st.s
  let x ← resize_rows dim nDofs st.x
  let Res := List.replicate nDofs (0 : K)
  let aRes := adouble.assign_vector nDofs 0 st.aRes solu.2
  let Jac := resize (nDofs * nDofs) st.Jac 0
  -- local storage of global mapping and solution
  let gathered ← gather_solution msh sol pdeSys soluIndex soluType soluPdeIndex iel nDofs
    (aRes.2, solu.1, sysDof)
  -- local storage of coordinates
  let x ← gather_coordinates msh dim nDofs iel x
  -- start a new recording of all the operations involving adept::adouble variables
  let s := gathered.1.new_recording
  -- Gauss point loop
  let fe := msh.finiteElement ielGeom soluType
  let recorded ← AssembleStandardProblem.gauss_loop acos cos sin fe dim nDofs x gathered.2.1
    (s, aRes.1, ⟨st.weight, st.phi, st.phi_x, none⟩)
  -- copy the value of the adept::adouble aRes in double Res and store
  let Res ← forLoop nDofs (fun i Res => do
    Vec.write Res i (-(← Vec.read recorded.2.1 i).value)) Res
  let RES := RESops.add_vector_blocked st.RES Res gathered.2.2
  -- define the dependent variables
  let s ← recorded.1.dependent recorded.2.1 nDofs
  -- define the independent variables
  let s ← s.independent gathered.2.1 nDofs
  pure ⟨s, st.KK, RES, gathered.2.1, x, gathered.2.2, recorded.2.2.phi, recorded.2.2.gradphi,
    recorded.2.2.Weight, Res, recorded.2.1, Jac⟩

/-- The body of the element loop of `AssembleStandardProblem`: after `record`, the Jacobian
is extracted from the tape into `Jac` and added to `KK`, and the registrations are cleared. -/
def AssembleStandardProblem.element {K V M : Type} [Field K] (acos cos sin : K → K)
    (RESops : NumericVector K V) (KKops : SparseMatrix K M) (msh : Mesh K) (sol : Solution K)
    (pdeSys : LinearEquationSolver V M) (soluIndex soluType soluPdeIndex : Nat) (iel : Nat)
    (st : AssembleState K V M) : Run (AssembleState K V M) := do
  let st ← AssembleStandardProblem.record acos cos sin RESops msh sol pdeSys soluIndex soluType
    soluPdeIndex iel st
  -- get the jacobian matrix
  let Jac ← st.s.jacobian st.Jac
  -- store Jac in the global matrix KK
  let KK := KKops.add_matrix_blocked st.KK Jac st.sysDof st.sysDof
  let s := st.s.clear_independents.clear_dependents
  pure ⟨s, KK, st.RES, st.solu, st.x, st.sysDof, st.phi, st.phi_x, st.weight, st.Res, st.aRes,
    Jac⟩

/-- `AssembleStandardProblem`.  The tape `FemusInit::_adeptStack` is the state `s`; the run
returns the tape, the global matrix and the global residual. -/
def AssembleStandardProblem {K V M : Type} [Field K] (acos cos sin : K → K)
    (RESops : NumericVector K V) (KKops : SparseMatrix K M) (ml_prob : MultiLevelProblem K V M)
    (s : Stack K) : Run (Stack K × M × V) := do
  let mlPdeSys ← ml_prob.get_system "Poisson"
  let level := mlPdeSys.GetLevelToAssemble
  let msh := ml_prob.ml_msh.GetLevel level
  let mlSol := ml_prob.ml_sol
  let sol := ml_prob.ml_sol.GetSolutionLevel level
  let pdeSys := mlPdeSys.LinSolver level
  let dim := msh.GetDimension
  let iproc := msh.processor_id
  let soluIndex ← mlSol.GetIndex "u"
  let soluType := mlSol.GetSolutionType soluIndex
  let soluPdeIndex ← mlPdeSys.GetSolPdeIndex "u"
  let KK := KKops.zero pdeSys.KK
  let RES := RESops.zero pdeSys.RES
  -- element loop: each process loops only on the elements that owns
  let st ← forRange (msh.elementOffset iproc) (msh.elementOffset (iproc + 1))
    (AssembleStandardProblem.element acos cos sin RESops KKops msh sol pdeSys soluIndex
      soluType soluPdeIndex)
    ⟨s, KK, RES, [], List.replicate dim [], [], [], [], 0, [], [], []⟩
  pure (st.s, KKops.close st.KK, RESops.close st.RES)

/-! ## `GetErrorNorm` of `ex11.cpp` -/

/-- The variables `soluGauss`, `soluGauss_x`, `xGauss` declared at a Gauss point of
`GetErrorNorm`. -/
structure ErrorGaussPoint (K : Type) where
  soluGauss : K
  soluGauss_x : List K
  xGauss : List K

/-- The variables of `GetErrorNorm` that live across the element loop. -/
structure ErrorNormState (K : Type) where
  solu : List K
  x : Mat K
  phi : List K
  phi_x : List K
  phi_xx : List K
  weight : K
  seminorm : K
  l2norm : K

/-- The evaluation of the solution, of its derivatives and of the coordinates at a Gauss
point: the three declarations and the loop over the nodes `i < nDofs` of `GetErrorNorm`. -/
def GetErrorNorm.gauss_point {K : Type} [Field K] (dim nDofs : Nat) (phi phi_x : List K)
    (x : Mat K) (solu : List K) : Run (ErrorGaussPoint K) :=
  forLoop nDofs (fun i g => do
    let phi_i ← Vec.read phi i
    let solu_i ← Vec.read solu i
    forLoop dim (fun jdim g => do
      let sgx ← Vec.read g.soluGauss_x jdim
      let soluGauss_x ← Vec.write g.soluGauss_x jdim
        (sgx + (← Vec.read phi_x (i * dim + jdim)) * solu_i)
      let xg ← Vec.read g.xGauss jdim
      let xGauss ← Vec.write g.xGauss jdim (xg + (← Mat.read x jdim i) * phi_i)
      pure ⟨g.soluGauss, soluGauss_x, xGauss⟩)
      ⟨g.soluGauss + phi_i * solu_i, g.soluGauss_x, g.xGauss⟩)
    ⟨0, List.replicate dim 0, List.replicate dim 0⟩

/-- The body of the Gauss point loop of `GetErrorNorm`. -/
def GetErrorNorm.gauss_loop_body {K : Type} [Field K] (acos cos sin : K → K)
    (fe : FiniteElement K) (dim nDofs : Nat) (ig : Nat) (st : ErrorNormState K) :
    Run (ErrorNormState K) := do
  -- get gauss point weight, test function and test function partial derivatives
  let shape ← fe.Jacobian st.x ig (some st.phi_xx)
  -- evaluate the solution, the solution derivatives and the coordinates in the gauss point
  let g ← GetErrorNorm.gauss_point dim nDofs shape.phi shape.gradphi st.x st.solu
  let solGrad ← GetExactSolutionGradient acos cos sin g.xGauss (List.replicate dim 0)
  let seminorm ← forLoop dim (fun j seminorm => do
    let a ← Vec.read g.soluGauss_x j
    let b ← Vec.read solGrad j
    pure (seminorm + ((a - b) * (a - b)) * shape.Weight)) st.seminorm
  let exactSol ← GetExactSolutionValue acos cos g.xGauss
  let l2norm := st.l2norm + (exactSol - g.soluGauss) * (exactSol - g.soluGauss) * shape.Weight
  pure ⟨st.solu, st.x, shape.phi, shape.gradphi, shape.nablaphi.getD st.phi_xx, shape.Weight,
    seminorm, l2norm⟩

/-- The body of the element loop of `GetErrorNorm`. -/
def GetErrorNorm.element {K : Type} [Field K] (acos cos sin : K → K) (msh : Mesh K)
    (sol : Solution K) (soluIndex soluType : Nat) (iel : Nat) (st : ErrorNormState K) :
    Run (ErrorNormState K) := do
  let dim := msh.GetDimension
  let xType := 2
  let ielGeom := msh.GetElementType iel
  let nDofs := msh.GetElementDofNumber iel soluType
  let nDofs2 := msh.GetElementDofNumber iel xType
  -- resize local arrays
  let solu := resize nDofs st.solu 0
  let x ← resize_rows dim nDofs2 st.x
  -- local storage of global mapping and solution
  let solu ← forLoop nDofs (fun i solu =>
    let solDof := msh.GetSolutionDof i iel soluType
    Vec.write solu i (sol.Sol soluIndex solDof)) solu
  -- local storage of coordinates
  let x ← gather_coordinates msh dim nDofs2 iel x
  -- Gauss point loop
  forLoop (msh.finiteElement ielGeom soluType).GetGaussPointNumber
    (GetErrorNorm.gauss_loop_body acos cos sin (msh.finiteElement ielGeom soluType) dim nDofs)
    ⟨solu, x, st.phi, st.phi_x, st.phi_xx, st.weight, st.seminorm, st.l2norm⟩

/-- The part of `GetErrorNorm` that a process runs on its own: the declarations and the
loop over the elements that the process owns.  It returns the sums `l2norm` and `seminorm` of
the process. -/
def GetErrorNorm.local_sums {K : Type} [Field K] (acos cos sin : K → K)
    (mlSol : MultiLevelSolution K) : Run (K × K) := do
  -- unsigned level = mlSol->_mlMesh->GetNumberOfLevels() - 1u
  let level := (mlSol.mlMesh.GetNumberOfLevels + 4294967295) % 4294967296
  let msh := mlSol.mlMesh.GetLevel level
  let sol := mlSol.GetSolutionLevel level
  let dim := msh.GetDimension
  let iproc := msh.processor_id
  let soluIndex ← mlSol.GetIndex "u"
  let soluType := mlSol.GetSolutionType soluIndex
  -- element loop: each process loops only on the elements that owns
  let st ← forRange (msh.elementOffset iproc) (msh.elementOffset (iproc + 1))
    (GetErrorNorm.element acos cos sin msh sol soluIndex soluType)
    ⟨[], List.replicate dim [], [], [], [], 0, 0, 0⟩
  pure (st.l2norm, st.seminorm)

/-- The mesh as the process of rank `r` holds it: `processor_id ()` returns `r`. -/
def Mesh.onRank {K : Type} (msh : Mesh K) (r : Nat) : Mesh K :=
  ⟨msh.GetDimension, r, msh.n_processors, msh.elementOffset, msh.GetElementType,
    msh.GetElementDofNumber, msh.GetSolutionDof, msh.topology_Sol, msh.finiteElement⟩

/-- The solution as the process of rank `r` holds it. -/
def MultiLevelSolution.onRank {K : Type} (mlSol : MultiLevelSolution K) (r : Nat) :
    MultiLevelSolution K :=
  ⟨⟨mlSol.mlMesh.GetNumberOfLevels, fun level => (mlSol.mlMesh.GetLevel level).onRank r⟩,
    mlSol.GetIndex, mlSol.GetSolutionType, mlSol.GetSolutionLevel⟩

/-- Modelled from the spec: the distributed vector `norm_vec` has one entry per process
rank; every process sets the entry of its own rank (`norm_vec->set (iproc, v)`), and after
`close ()` the call `l1_norm ()` returns on every process the sum of the absolute values of
all the entries. -/
def l1_norm {K : Type} [LinearOrderedField K] (entries : List K) : K :=
  (entries.map (fun v => |v|)).sum

/-- `GetErrorNorm`, run by the `n_processors` processes: every process runs `local_sums` on
the elements it owns, the sums of all the processes are added with `l1_norm`, and every
process returns the pair of the square roots. -/
def GetErrorNorm {K : Type} [LinearOrderedField K] (sqrt acos cos sin : K → K)
    (mlSol : MultiLevelSolution K) : Run (K × K) := do
  let level := (mlSol.mlMesh.GetNumberOfLevels + 4294967295) % 4294967296
  let msh := mlSol.mlMesh.GetLevel level
  let sums ← forLoop msh.n_processors (fun r sums => do
    let p ← GetErrorNorm.local_sums acos cos sin (mlSol.onRank r)
    pure (sums ++ [p])) []
  -- add the norms of all processes
  let l2norm := l1_norm (sums.map (fun p => p.1))
  let seminorm := l1_norm (sums.map (fun p => p.2))
  pure (sqrt l2norm, sqrt seminorm)

/-! ## `BuidProjection` of `ex11.cpp` -/

/-- The variables of `BuidProjection` that live across the element loop, together with the
tape `s` and the matrices `P[k]` of the `dim` directions. -/
structure ProjectionState (K M : Type) where
  s : Stack K
  P : List M
  solu : List (adouble K)
  x : Mat K
  sysDof : List Int
  phi : List K
  phi_x : List K
  weight : K
  Jac : List K
  aRes : Mat (adouble K)

/-- The loop `for (int k = 0; k < dim; k++) { x[k].resize (nDofs); aRes[k].assign (nDofs, 0.); }`
of `BuidProjection`; the state is the tape, `x` and `aRes`. -/
def BuidProjection.resize_loop {K : Type} [Zero K] (dim nDofs : Nat)
    (r : Stack K × Mat K × Mat (adouble K)) : Run (Stack K × Mat K × Mat (adouble K)) :=
  forLoop dim (fun k r => do
    let row ← Vec.read r.2.1 k
    let x ← Vec.write r.2.1 k (resize nDofs row 0)
    let a ← Vec.read r.2.2 k
    let aRes ← Vec.write r.2.2 k (adouble.assign_vector nDofs 0 a r.1).1
    pure ((adouble.assign_vector nDofs 0 a r.1).2, x, aRes)) r

/-- The evaluation of the derivatives of the solution at a Gauss point of `BuidProjection`:
the declaration of `solux_g` and the loop over the nodes `i < nDofs`; the state is the tape
and `solux_g`. -/
def BuidProjection.solux_g {K : Type} [Field K] (dim nDofs : Nat) (phi_x : List K)
    (solu : List (adouble K)) (s : Stack K) : Run (Stack K × List (adouble K)) :=
  forLoop nDofs (fun i g =>
    forLoop dim (fun k g => do
      let phi_x_i ← Vec.read phi_x (i * dim + k)
      let solu_i ← Vec.read solu i
      let a ← Vec.read g.2 k
      let sgx := a.add_assign (Expression.passive_mul phi_x_i (Expression.active solu_i)) g.1
      let solux_g ← Vec.write g.2 k sgx.1
      pure (sgx.2, solux_g)) g)
    ((adouble.vector dim 0 s).2, (adouble.vector dim 0 s).1)

/-- The loop over the test functions `phi_i` of `BuidProjection` at a Gauss point:
`aRes[k][i] += solux_g[k] * phi[i] * weight`; the state is the tape and `aRes`. -/
def BuidProjection.phi_i_loop {K : Type} [Field K] (dim nDofs : Nat) (phi : List K)
    (weight : K) (solux_g : List (adouble K)) (r : Stack K × Mat (adouble K)) :
    Run (Stack K × Mat (adouble K)) :=
  forLoop nDofs (fun i r =>
    forLoop dim (fun k r => do
      let g ← Vec.read solux_g k
      let phi_i ← Vec.read phi i
      let a ← Mat.read r.2 k i
      let upd := a.add_assign
        (Expression.mul_passive (Expression.mul_passive (Expression.active g) phi_i) weight) r.1
      let aRes ← Mat.write r.2 k i upd.1
      pure (upd.2, aRes)) r) r

/-- The Gauss point loop of `BuidProjection`; the state is the tape, the residuals `aRes` and
the outputs of the shape evaluator. -/
def BuidProjection.gauss_loop {K : Type} [Field K] (fe : FiniteElement K) (dim nDofs : Nat)
    (x : Mat K) (solu : List (adouble K)) (r : Stack K × Mat (adouble K) × ShapeOut K) :
    Run (Stack K × Mat (adouble K) × ShapeOut K) :=
  forLoop fe.GetGaussPointNumber
    (fun ig (r : Stack K × Mat (adouble K) × ShapeOut K) => do
      let shape ← fe.Jacobian x ig none
      let g ← BuidProjection.solux_g dim nDofs shape.gradphi solu r.1
      let p ← BuidProjection.phi_i_loop dim nDofs shape.phi shape.Weight g.2 (g.1, r.2.1)
      pure (p.1, p.2, shape)) r

/-- The registration `s.dependent (&aRes[k][0], nDofs)` of direction `k`. -/
def BuidProjection.register {K : Type} (nDofs : Nat) (aRes : Mat (adouble K)) (k : Nat)
    (s : Stack K) : Run (Stack K) := do
  let a ← Vec.read aRes k
  s.dependent a nDofs

/-- The loop over the directions `k < dim` at the end of an element of `BuidProjection`: the
residuals of direction `k` are registered as dependent variables, the Jacobian is extracted
into `Jac` and added to `P[k]`, and the dependent variables are cleared; the state is the
tape, the matrices `P` and `Jac`. -/
def BuidProjection.extract {K M : Type} [Field K] (Pops : SparseMatrix K M) (dim nDofs : Nat)
    (aRes : Mat (adouble K)) (sysDof : List Int) (r : Stack K × List M × List K) :
    Run (Stack K × List M × List K) :=
  forLoop dim (fun k r => do
    let s ← BuidProjection.register nDofs aRes k r.1
    let Jac ← s.jacobian r.2.2
    let Pk ← Vec.read r.2.1 k
    let P ← Vec.write r.2.1 k (Pops.add_matrix_blocked Pk Jac sysDof sysDof)
    pure (s.clear_dependents, P, Jac)) r

/-- The body of the element loop of `BuidProjection` up to the registration of the
independent variables: the local arrays are resized and filled, the residuals of the `dim`
directions are recorded over the Gauss points, and the local unknowns are registered. -/
def BuidProjection.record {K V M : Type} [Field K] (msh : Mesh K) (sol : Solution K)
    (sysP0 : LinearEquationSolver V M) (soluIndex soluType soluPdeIndex : Nat) (iel : Nat)
    (st : ProjectionState K M) : Run (ProjectionState K M) := do
  let dim := msh.GetDimension
  let ielGeom := msh.GetElementType iel
  let nDofs := msh.GetElementDofNumber iel soluType
  let solu := adouble.resize nDofs st.solu st.s
  let sysDof := resize nDofs st.sysDof 0
  let resized ← BuidProjection.resize_loop dim nDofs (solu.2, st.x, st.aRes)
  let Jac := resize (nDofs * nDofs) st.Jac 0
  -- local storage of global mapping and solution
  let gathered ← gather_solution msh sol sysP0 soluIndex soluType soluPdeIndex iel nDofs
    (resized.1, solu.1, sysDof)
  -- local storage of coordinates
  let x ← gather_coordinates msh dim nDofs iel resized.2.1
  let s := gathered.1.new_recording
  let fe := msh.finiteElement ielGeom soluType
  let recorded ← BuidProjection.gauss_loop fe dim nDofs x gathered.2.1
    (s, resized.2.2, ⟨st.weight, st.phi, st.phi_x, none⟩)
  let s ← recorded.1.independent gathered.2.1 nDofs
  pure ⟨s, st.P, gathered.2.1, x, gathered.2.2, recorded.2.2.phi, recorded.2.2.gradphi,
    recorded.2.2.Weight, Jac, recorded.2.1⟩

/-- The body of the element loop of `BuidProjection`: after `record`, the loop over the
directions extracts one Jacobian per direction, and the independent variables are cleared. -/
def BuidProjection.element {K V M : Type} [Field K] (Pops : SparseMatrix K M) (msh : Mesh K)
    (sol : Solution K) (sysP0 : LinearEquationSolver V M)
    (soluIndex soluType soluPdeIndex : Nat) (iel : Nat) (st : ProjectionState K M) :
    Run (ProjectionState K M) := do
  let st ← BuidProjection.record msh sol sysP0 soluIndex soluType soluPdeIndex iel st
  let e ← BuidProjection.extract Pops msh.GetDimension (msh.GetElementDofNumber iel soluType)
    st.aRes st.sysDof (st.s, st.P, st.Jac)
  pure ⟨e.1.clear_independents, e.2.1, st.solu, st.x, st.sysDof, st.phi, st.phi_x, st.weight,
    e.2.2, st.aRes⟩

/-- The array `Pname` of `BuidProjection`. -/
def Pname : List String := ["Px", "Py", "Pz"]

/-- The first loop of `BuidProjection`: for every direction `k < dim` the system `Pname[k]`
is looked up, and its matrix at the finest level is zeroed.  The vectors `mlSysP`, `sysP` and
`P`, declared with `dim` entries and filled in this order, are the lists of the entries
filled so far; the matrices of the `dim` systems are distinct objects. -/
def BuidProjection.systems {K V M : Type} (Pops : SparseMatrix K M)
    (ml_prob : MultiLevelProblem K V M) (dim level : Nat) :
    Run (List (ImplicitSystem V M) × List (LinearEquationSolver V M) × List M) :=
  forLoop dim (fun k r => do
    let name ← Vec.read Pname k
    let mlSysPk ← ml_prob.get_system name
    let sysPk := mlSysPk.LinSolver level
    pure (r.1 ++ [mlSysPk], r.2.1 ++ [sysPk], r.2.2 ++ [Pops.zero sysPk.KK])) ([], [], [])

/-- `BuidProjection`.  The tape `FemusInit::_adeptStack` is the state `s`; the run returns the
tape and the closed matrices `P[k]`, `k < dim`.  The view of the nested matrix that the
function prints at its end has no effect on them. -/
def BuidProjection {K V M : Type} [Field K] (Pops : SparseMatrix K M)
    (ml_prob : MultiLevelProblem K V M) (s : Stack K) : Run (Stack K × List M) := do
  let mlSol := ml_prob.ml_sol
  -- unsigned level = mlSol->_mlMesh->GetNumberOfLevels() - 1u
  let level := (mlSol.mlMesh.GetNumberOfLevels + 4294967295) % 4294967296
  let sol := ml_prob.ml_sol.GetSolutionLevel level
  let msh := ml_prob.ml_msh.GetLevel level
  let dim := msh.GetDimension
  let sys ← BuidProjection.systems Pops ml_prob dim level
  -- solution variable
  let soluIndex ← mlSol.GetIndex "u"
  let soluType := mlSol.GetSolutionType soluIndex
  let soluPdeIndex ← (← Vec.read sys.1 0).GetSolPdeIndex "ux"
  let sysP0 ← Vec.read sys.2.1 0
  let iproc := msh.processor_id
  -- element loop
  let st ← forRange (msh.elementOffset iproc) (msh.elementOffset (iproc + 1))
    (BuidProjection.element Pops msh sol sysP0 soluIndex soluType soluPdeIndex)
    ⟨s, sys.2.2, [], List.replicate dim [], [], [], [], 0, [], List.replicate dim []⟩
  let P ← forLoop dim (fun k P => do
    Vec.write P k (Pops.close (← Vec.read P k))) st.P
  pure (st.s, P)

/-! ## Vocabulary of the statements -/

section vocabulary
variable {K : Type}

/-- The entry `M[i][j]` read totally (`0` outside the bounds), for statements. -/
def Mat.entry [Zero K] (M : Mat K) (i j : Nat) : K := (M.getD i []).getD j 0

/-- The `r × c` matrix with entries `f i j`. -/
def Mat.ofFn (r c : Nat) (f : Nat → Nat → K) : Mat K :=
  (List.range r).map (fun i => (List.range c).map (fun j => f i j))

/-- The matrix `M` has `r` rows of `c` entries each. -/
def Mat.hasShape (r c : Nat) (M : Mat K) : Prop :=
  M.length = r ∧ ∀ row ∈ M, row.length = c

/-- The matrix `M` holds at least `S` rows of at least `n` entries: the reads
`M[d][i]` with `d < S` and `i < n` are inside the bounds. -/
def Mat.covers [Zero K] (S n : Nat) (M : Mat K) : Prop :=
  ∀ d < S, ∀ i < n, Mat.read M d i = Except.ok (Mat.entry M d i)

/-- The reference derivative tables by direction: `_dphidxi`, `_dphideta`, `_dphidzeta`. -/
def elem_type.dphi [Zero K] (e : elem_type K) (r : Nat) : Nat → Nat → K :=
  match r with
  | 0 => e._dphidxi
  | 1 => e._dphideta
  | 2 => e._dphidzeta
  | _ => fun _ _ => 0

/-- The `r × c` matrix of the entries of `M`, as a Mathlib matrix. -/
def Mat.toMatrix [Zero K] (r c : Nat) (M : Mat K) : Matrix (Fin r) (Fin c) K :=
  Matrix.of (fun i j => Mat.entry M i j)

end vocabulary

/-- The first `D` rows of `M`, read as vectors of `K³`, are linearly independent. -/
def Mat.rowsIndependent {K : Type} [Field K] (D : Nat) (M : Mat K) : Prop :=
  LinearIndependent K (fun r : Fin D => Mat.toMatrix D 3 M r)

/-! ## The values of the locals, for the closed forms of the runs -/

section locals
variable {K : Type}

/-- The sum `Σ_{inode < _nc} (∂φ_inode/∂ξ_r at ig) · vt[d][inode]`. -/
def JacSum [Field K] (e : elem_type K) (vt : Mat K) (ig r d : Nat) : K :=
  ∑ inode in Finset.range e._nc, e.dphi r ig inode * Mat.entry vt d inode

/-- The value of the local `JacJacT[0][0]` of the `(1,3)` specialisation. -/
def JacJacT_1_3 [Field K] (e : elem_type K) (vt : Mat K) (ig S : Nat) : K :=
  ∑ d in Finset.range S, JacSum e vt ig 0 d * JacSum e vt ig 0 d

/-- The value of the local array `JacJacT` of the `(2,3)` specialisation. -/
def JacJacT_2_3 [Field K] (e : elem_type K) (vt : Mat K) (ig S : Nat) (i j : Nat) : K :=
  ∑ k in Finset.range S, JacSum e vt ig i k * JacSum e vt ig j k

/-- The value of the local `detJacJacT` of the `(2,3)` specialisation. -/
def detJacJacT_2_3 [Field K] (e : elem_type K) (vt : Mat K) (ig S : Nat) : K :=
  JacJacT_2_3 e vt ig S 0 0 * JacJacT_2_3 e vt ig S 1 1
    - JacJacT_2_3 e vt ig S 0 1 * JacJacT_2_3 e vt ig S 1 0

/-- The value of the local array `JacJacT_inv` of the `(2,3)` specialisation. -/
def JacJacT_inv_2_3 [Field K] (e : elem_type K) (vt : Mat K) (ig S : Nat) (i j : Nat) : K :=
  match i, j with
  | 0, 0 => JacJacT_2_3 e vt ig S 1 1 / detJacJacT_2_3 e vt ig S
  | 0, 1 => -JacJacT_2_3 e vt ig S 0 1 / detJacJacT_2_3 e vt ig S
  | 1, 0 => -JacJacT_2_3 e vt ig S 1 0 / detJacJacT_2_3 e vt ig S
  | 1, 1 => JacJacT_2_3 e vt ig S 0 0 / detJacJacT_2_3 e vt ig S
  | _, _ => 0

/-- The value of `JacI` that the `(2,3)` specialisation accumulates. -/
def JacI_2_3 [Field K] (e : elem_type K) (vt : Mat K) (ig S : Nat) (i j : Nat) : K :=
  ∑ k in Finset.range 2, JacSum e vt ig k i * JacJacT_inv_2_3 e vt ig S k j

/-- The value of `detJac` of the `(3,3)` specialisation for the matrix `J`. -/
def detJac_3_3 [Field K] (J : Nat → Nat → K) : K :=
  J 0 0 * (J 1 1 * J 2 2 - J 1 2 * J 2 1) +
  J 0 1 * (J 1 2 * J 2 0 - J 1 0 * J 2 2) +
  J 0 2 * (J 1 0 * J 2 1 - J 1 1 * J 2 0)

/-- The entries that the `(3,3)` specialisation assigns to `JacI` for the matrix `J`. -/
def JacI_3_3 [Field K] (J : Nat → Nat → K) (i j : Nat) : K :=
  match i, j with
  | 0, 0 => (-J 1 2 * J 2 1 + J 1 1 * J 2 2) / detJac_3_3 J
  | 0, 1 => (J 0 2 * J 2 1 - J 0 1 * J 2 2) / detJac_3_3 J
  | 0, 2 => (-J 0 2 * J 1 1 + J 0 1 * J 1 2) / detJac_3_3 J
  | 1, 0 => (J 1 2 * J 2 0 - J 1 0 * J 2 2) / detJac_3_3 J
  | 1, 1 => (-J 0 2 * J 2 0 + J 0 0 * J 2 2) / detJac_3_3 J
  | 1, 2 => (J 0 2 * J 1 0 - J 0 0 * J 1 2) / detJac_3_3 J
  | 2, 0 => (-J 1 1 * J 2 0 + J 1 0 * J 2 1) / detJac_3_3 J
  | 2, 1 => (J 0 1 * J 2 0 - J 0 0 * J 2 1) / detJac_3_3 J
  | 2, 2 => (-J 0 1 * J 1 0 + J 0 0 * J 1 1) / detJac_3_3 J
  | _, _ => 0

end locals

/-- The local `nx` of the `(2,3)` `compute_normal`. -/
def nx_2_3 {K : Type} [Field K] (Jac : Mat K) : K :=
  Mat.entry Jac 0 1 * Mat.entry Jac 1 2 - Mat.entry Jac 1 1 * Mat.entry Jac 0 2

/-- The local `ny` of the `(2,3)` `compute_normal`. -/
def ny_2_3 {K : Type} [Field K] (Jac : Mat K) : K :=
  Mat.entry Jac 1 0 * Mat.entry Jac 0 2 - Mat.entry Jac 1 2 * Mat.entry Jac 0 0

/-- The local `nz` of the `(2,3)` `compute_normal`. -/
def nz_2_3 {K : Type} [Field K] (Jac : Mat K) : K :=
  Mat.entry Jac 0 0 * Mat.entry Jac 1 1 - Mat.entry Jac 1 0 * Mat.entry Jac 0 1

/-- The local `invModn` of the `(2,3)` `compute_normal`. -/
def invModn_2_3 {K : Type} [Field K] (sqrt : K → K) (Jac : Mat K) : K :=
  1 / sqrt (nx_2_3 Jac * nx_2_3 Jac + ny_2_3 Jac * ny_2_3 Jac + nz_2_3 Jac * nz_2_3 Jac)

/-! ## Concrete elements and coordinates -/

/-- The linear two-node line element: `φ = ((1-ξ)/2, (1+ξ)/2)`. -/
def line2 (K : Type) [Field K] : elem_type K :=
  ⟨2, fun _ _ => 1 / 2, fun _ i => (if i = 0 then -1 / 2 else 1 / 2),
    fun _ _ => 0, fun _ _ => 0, fun _ _ => 0, fun _ _ => 0, fun _ _ => 0, fun _ _ => 0,
    fun _ _ => 0, fun _ _ => 0, fun _ => 2⟩

/-- The linear three-node triangle: `φ = (1-ξ-η, ξ, η)`, one quadrature point. -/
def tri3 (K : Type) [Field K] : elem_type K :=
  ⟨3, fun _ _ => 1 / 3, fun _ i => (if i = 0 then -1 else if i = 1 then 1 else 0),
    fun _ i => (if i = 0 then -1 else if i = 2 then 1 else 0),
    fun _ _ => 0, fun _ _ => 0, fun _ _ => 0, fun _ _ => 0, fun _ _ => 0, fun _ _ => 0,
    fun _ _ => 0, fun _ => 1 / 2⟩

/-- The linear four-node tetrahedron: `φ = (1-ξ-η-ζ, ξ, η, ζ)`, one quadrature point. -/
def tet4 (K : Type) [Field K] : elem_type K :=
  ⟨4, fun _ _ => 1 / 4, fun _ i => (if i = 0 then -1 else if i = 1 then 1 else 0),
    fun _ i => (if i = 0 then -1 else if i = 2 then 1 else 0),
    fun _ i => (if i = 0 then -1 else if i = 3 then 1 else 0),
    fun _ _ => 0, fun _ _ => 0, fun _ _ => 0, fun _ _ => 0, fun _ _ => 0, fun _ _ => 0,
    fun _ => 1 / 6⟩

/-- The nodes of the reference tetrahedron, one row per coordinate. -/
def refTet (K : Type) [Field K] : Mat K := [[0, 1, 0, 0], [0, 0, 1, 0], [0, 0, 0, 1]]

/-- The nodes of the reference triangle in the plane `z = 0`, one row per coordinate. -/
def refTri (K : Type) [Field K] : Mat K := [[0, 1, 0], [0, 0, 1], [0, 0, 0]]

/-- The segment from the origin to `(2, 0, 0)`, one row per coordinate. -/
def refLine (K : Type) [Field K] : Mat K := [[0, 2], [0, 0], [0, 0]]

/-- The reference tetrahedron with its last node mirrored to `(0, 0, -1)`. -/
def mirroredTet (K : Type) [Field K] : Mat K := [[0, 1, 0, 0], [0, 0, 1, 0], [0, 0, 0, -1]]

/-- A two-node line whose nodes both lie at `(1, 2, 3)`. -/
def collapsedLine (K : Type) [Field K] : Mat K := [[1, 1], [2, 2], [3, 3]]

/-- The `2 × 3` Jacobian whose rows are the first two unit vectors. -/
def unitTangents (K : Type) [Field K] : Mat K := [[1, 0, 0], [0, 1, 0]]

/-- The vector of length `n` with entries `f i`. -/
def Vec.ofFn {K : Type} (n : Nat) (f : Nat → K) : List K :=
  (List.range n).map f

/-- The entry `v[i]` read totally (`0` outside the bounds), for statements. -/
def Vec.entry {K : Type} [Zero K] (v : List K) (i : Nat) : K := v.getD i 0

/-- The reference second-derivative tables as a symmetric Hessian: `(0,0)` is `_d2phidxi2`,
`(1,1)` is `_d2phideta2`, `(2,2)` is `_d2phidzeta2`, `(0,1)` is `_d2phidxideta`, `(1,2)` is
`_d2phidetadzeta` and `(2,0)` is `_d2phidzetadxi`. -/
def elem_type.d2phi {K : Type} [Zero K] (e : elem_type K) (a b : Nat) : Nat → Nat → K :=
  match a, b with
  | 0, 0 => e._d2phidxi2
  | 1, 1 => e._d2phideta2
  | 2, 2 => e._d2phidzeta2
  | 0, 1 => e._d2phidxideta
  | 1, 0 => e._d2phidxideta
  | 1, 2 => e._d2phidetadzeta
  | 2, 1 => e._d2phidetadzeta
  | 2, 0 => e._d2phidzetadxi
  | 0, 2 => e._d2phidzetadxi
  | _, _ => fun _ _ => 0

/-- The sum `Σ_{a < D} (∂φ_i/∂ξ_a at ig) · JacI[d][a]`. -/
def gradphiSum {K : Type} [Field K] (D : Nat) (e : elem_type K) (ig : Nat) (JacI : Mat K)
    (i d : Nat) : K :=
  ∑ a in Finset.range D, e.dphi a ig i * Mat.entry JacI d a

/-- The sum `Σ_{a, b < D} H[a][b] · JacI[p][a] · JacI[q][b]` for the reference Hessian `H`
of shape function `i` at `ig`. -/
def nablaphiSum {K : Type} [Field K] (D : Nat) (e : elem_type K) (ig : Nat) (JacI : Mat K)
    (i p q : Nat) : K :=
  ∑ a in Finset.range D, ∑ b in Finset.range D,
    e.d2phi a b ig i * Mat.entry JacI p a * Mat.entry JacI q b

/-- The pair `(p, q)` of component `c` of the 2D Hessian: `xx`, `yy`, `xy`. -/
def hessianPair_2D (c : Nat) : Nat × Nat :=
  match c with
  | 0 => (0, 0)
  | 1 => (1, 1)
  | _ => (0, 1)

/-- The pair `(p, q)` of component `c` of the 3D Hessian: `xx`, `yy`, `zz`, `xy`, `yz`, `zx`. -/
def hessianPair_3D (c : Nat) : Nat × Nat :=
  match c with
  | 0 => (0, 0)
  | 1 => (1, 1)
  | 2 => (2, 2)
  | 3 => (0, 1)
  | 4 => (1, 2)
  | _ => (2, 0)

/-- The value that the `(2,3)` evaluator assigns to `gradphi[inode * space_dim + d]`. -/
def gradphi_2_3 {K : Type} [Field K] (e : elem_type K) (ig : Nat) (JacI : Mat K)
    (inode d : Nat) : K :=
  e._dphidxi ig inode * Mat.entry JacI d 0 + e._dphideta ig inode * Mat.entry JacI d 1

/-- The value that the `(2,3)` evaluator assigns to a component of `nablaphi`: the inner
factors read row `p` of `JacI`, the outer factors row `q`. -/
def nablaphi_2_3 {K : Type} [Field K] (e : elem_type K) (ig : Nat) (JacI : Mat K)
    (inode p q : Nat) : K :=
  (e._d2phidxi2 ig inode * Mat.entry JacI p 0 + e._d2phidxideta ig inode * Mat.entry JacI p 1)
      * Mat.entry JacI q 0 +
    (e._d2phidxideta ig inode * Mat.entry JacI p 0 + e._d2phideta2 ig inode * Mat.entry JacI p 1)
      * Mat.entry JacI q 1

/-- The value that the `(3,3)` evaluator assigns to `gradphi[3 * inode + d]`. -/
def gradphi_3_3 {K : Type} [Field K] (e : elem_type K) (ig : Nat) (JacI : Mat K)
    (inode d : Nat) : K :=
  e._dphidxi ig inode * Mat.entry JacI d 0 + e._dphideta ig inode * Mat.entry JacI d 1
    + e._dphidzeta ig inode * Mat.entry JacI d 2

/-- The value that the `(3,3)` evaluator assigns to a component of `nablaphi`: the inner
factors read row `p` of `JacI`, the outer factors row `q`. -/
def nablaphi_3_3 {K : Type} [Field K] (e : elem_type K) (ig : Nat) (JacI : Mat K)
    (inode p q : Nat) : K :=
  (e._d2phidxi2 ig inode * Mat.entry JacI p 0 + e._d2phidxideta ig inode * Mat.entry JacI p 1
        + e._d2phidzetadxi ig inode * Mat.entry JacI p 2) * Mat.entry JacI q 0 +
    (e._d2phidxideta ig inode * Mat.entry JacI p 0 + e._d2phideta2 ig inode * Mat.entry JacI p 1
        + e._d2phidetadzeta ig inode * Mat.entry JacI p 2) * Mat.entry JacI q 1 +
    (e._d2phidzetadxi ig inode * Mat.entry JacI p 0
        + e._d2phidetadzeta ig inode * Mat.entry JacI p 1
        + e._d2phidzeta2 ig inode * Mat.entry JacI p 2) * Mat.entry JacI q 2

/-- A `1 × 3` Jacobian whose tangent `(3, 0, 4)` leaves the plane `z = 0`. -/
def tiltedTangent (K : Type) [Field K] : Mat K := [[3, 0, 4]]

/-- The result of `Jacobian_geometry_templ` for the reference tetrahedron: `Jac` and `JacI`
are the identity and `detJac` is `1`. -/
def refTetGeom (K : Type) [Field K] : JacOut K :=
  ⟨[[1, 0, 0], [0, 1, 0], [0, 0, 1]], [[1, 0, 0], [0, 1, 0], [0, 0, 1]], 1⟩

/-- The result of `Jacobian_geometry_templ` for the reference triangle over the reals: the
rows of `Jac` are the first two unit vectors, `JacI` is its transpose and `detJac` is `1`. -/
def refTriGeom : JacOut ℝ :=
  ⟨[[1, 0, 0], [0, 1, 0]], [[1, 0], [0, 1], [0, 0]], 1⟩

/-- The topological dimension that `build` selects for a geometry name. -/
def build_dim (geom_elem : String) : Nat :=
  if geom_elem = "hex" ∨ geom_elem = "tet" ∨ geom_elem = "wedge" then 3
  else if geom_elem = "quad" ∨ geom_elem = "tri" then 2
  else 1

/-- A constructor of the base class that returns the tables `e` for all arguments. -/
def constant_elem_type {K : Type} (e : elem_type K) :
    String → String → String → Run (elem_type K) :=
  fun _ _ _ => pure e

/-- A `1 × 3` Jacobian whose tangent `(3, 4, 0)` lies in the plane `z = 0`. -/
def planarTangent (K : Type) [Field K] : Mat K := [[3, 4, 0]]

/-- The `2 × 2` determinant `J00 · J11 − J01 · J10`. -/
def det_2_2 {K : Type} [Field K] (J : Nat → Nat → K) : K :=
  J 0 0 * J 1 1 - J 0 1 * J 1 0

/-- The closed `2 × 2` cofactor inverse of the specification:
`(1 / det J) · [[J11, −J01], [−J10, J00]]`. -/
def cofactor_inverse_2_2 {K : Type} [Field K] (J : Nat → Nat → K) (i j : Nat) : K :=
  match i, j with
  | 0, 0 => 1 / det_2_2 J * J 1 1
  | 0, 1 => 1 / det_2_2 J * -J 0 1
  | 1, 0 => 1 / det_2_2 J * -J 1 0
  | 1, 1 => 1 / det_2_2 J * J 0 0
  | _, _ => 0

/-- The reference triangle in the plane with its last two nodes exchanged, one row per
coordinate: the nodes are `(0,0)`, `(0,1)`, `(1,0)`. -/
def mirroredTri (K : Type) [Field K] : Mat K := [[0, 0, 1], [0, 1, 0]]

/-- The triangle with nodes `(0,0)`, `(2,0)`, `(1,3)` in the plane, one row per coordinate. -/
def skewTri (K : Type) [Field K] : Mat K := [[0, 2, 1], [0, 0, 3]]

/-! ## Vocabulary for the assemblers of `ex11.cpp` -/

/-- The gradient index of entry `i` of a vector of tracked variables. -/
def adouble.index {K : Type} [Zero K] (v : List (adouble K)) (i : Nat) : Nat :=
  (v.getD i ⟨0, 0⟩).gradient_index

/-- The tape `s` tracks the entries of `solu` and of `aRes`: their gradient indices have
been handed out by `s` and are pairwise different. -/
def Stack.tracks {K : Type} [Zero K] (s : Stack K) (solu aRes : List (adouble K)) : Prop :=
  (∀ i < solu.length, adouble.index solu i < s.n_gradients_registered)
  ∧ (∀ i < aRes.length, adouble.index aRes i < s.n_gradients_registered)
  ∧ (∀ i < solu.length, ∀ k < solu.length, adouble.index solu i = adouble.index solu k → i = k)
  ∧ (∀ i < aRes.length, ∀ k < aRes.length, adouble.index aRes i = adouble.index aRes k → i = k)
  ∧ (∀ j < solu.length, ∀ i < aRes.length, adouble.index solu j ≠ adouble.index aRes i)

/-- The matrix `x` of the local coordinates of the first `n` nodes of element `iel`:
`x[jdim][i] = (*msh->_topology->_Sol[jdim]) (msh->GetSolutionDof (i, iel, 2))`. -/
def Mesh.local_x {K : Type} (msh : Mesh K) (n iel : Nat) : Mat K :=
  Mat.ofFn msh.GetDimension n (fun jdim i => msh.topology_Sol jdim (msh.GetSolutionDof i iel 2))

/-- The outputs of the shape evaluator at Gauss point `ig` of element `iel`, called as the
assemblers call it, without second derivatives (zero outputs where it does not return). -/
def Mesh.shape {K : Type} [Zero K] (msh : Mesh K) (soluType iel ig : Nat) : ShapeOut K :=
  match (msh.finiteElement (msh.GetElementType iel) soluType).Jacobian
      (msh.local_x (msh.GetElementDofNumber iel soluType) iel) ig none with
  | Except.ok out => out
  | Except.error _ => ⟨0, [], [], none⟩

/-- The weight that the shape evaluator returns at Gauss point `ig` of element `iel`. -/
def Mesh.weight {K : Type} [Zero K] (msh : Mesh K) (soluType iel ig : Nat) : K :=
  (msh.shape soluType iel ig).Weight

/-- The value `phi[i]` that the shape evaluator returns at Gauss point `ig` of element
`iel`. -/
def Mesh.phi {K : Type} [Zero K] (msh : Mesh K) (soluType iel ig i : Nat) : K :=
  Vec.entry (msh.shape soluType iel ig).phi i

/-- The derivative `phi_x[i * dim + jdim]` that the shape evaluator returns at Gauss point
`ig` of element `iel`. -/
def Mesh.phi_x {K : Type} [Zero K] (msh : Mesh K) (soluType iel ig i jdim : Nat) : K :=
  Vec.entry (msh.shape soluType iel ig).gradphi (i * msh.GetDimension + jdim)

/-- The shape evaluator returns at every Gauss point of element `iel`, with at least `nDofs`
values in `phi` and at least `nDofs · dim` derivatives in `phi_x`. -/
def Mesh.evaluates {K : Type} (msh : Mesh K) (soluType iel : Nat) : Prop :=
  ∀ ig < (msh.finiteElement (msh.GetElementType iel) soluType).GetGaussPointNumber,
    ∃ out, (msh.finiteElement (msh.GetElementType iel) soluType).Jacobian
        (msh.local_x (msh.GetElementDofNumber iel soluType) iel) ig none = Except.ok out
      ∧ msh.GetElementDofNumber iel soluType ≤ out.phi.length
      ∧ msh.GetElementDofNumber iel soluType * msh.GetDimension ≤ out.gradphi.length

/-- The coordinate `jdim` of the Gauss point `ig` of element `iel`,
`x_ig = Σ_j x[jdim][j] · φ_j`. -/
def Mesh.xGauss {K : Type} [Field K] (msh : Mesh K) (soluType iel ig jdim : Nat) : K :=
  ∑ j in Finset.range (msh.GetElementDofNumber iel soluType),
    msh.topology_Sol jdim (msh.GetSolutionDof j iel 2) * msh.phi soluType iel ig j

/-- The value that `GetExactSolutionLaplace` returns at a point whose first two coordinates
are `x0` and `x1`. -/
def exactSolLaplace {K : Type} [Field K] (acos cos : K → K) (x0 x1 : K) : K :=
  -2 * acos (-1) * acos (-1) * cos (acos (-1) * x0) * cos (acos (-1) * x1)

/-- The local residual accumulator of element `iel`:
`aRes[i] = Σ_ig weight · ((−Δu_e(x_ig)) · φ_i − Σ_jdim ∂φ_i/∂x_jdim · Σ_j ∂φ_j/∂x_jdim · solu[j])`. -/
def local_aRes {K : Type} [Field K] (acos cos : K → K) (msh : Mesh K) (sol : Solution K)
    (soluIndex soluType iel i : Nat) : K :=
  ∑ ig in Finset.range (msh.finiteElement (msh.GetElementType iel) soluType).GetGaussPointNumber,
    msh.weight soluType iel ig
      * ((-exactSolLaplace acos cos (msh.xGauss soluType iel ig 0) (msh.xGauss soluType iel ig 1))
          * msh.phi soluType iel ig i
        - ∑ jdim in Finset.range msh.GetDimension, msh.phi_x soluType iel ig i jdim
            * ∑ j in Finset.range (msh.GetElementDofNumber iel soluType),
                msh.phi_x soluType iel ig j jdim
                  * sol.Sol soluIndex (msh.GetSolutionDof j iel soluType))

/-- The entry `(i, j)` of the local matrix of element `iel`:
`−Σ_ig weight · Σ_jdim ∂φ_i/∂x_jdim · ∂φ_j/∂x_jdim`. -/
def local_Jac {K : Type} [Field K] (msh : Mesh K) (soluType iel i j : Nat) : K :=
  -∑ ig in Finset.range (msh.finiteElement (msh.GetElementType iel) soluType).GetGaussPointNumber,
    msh.weight soluType iel ig
      * ∑ jdim in Finset.range msh.GetDimension,
          msh.phi_x soluType iel ig i jdim * msh.phi_x soluType iel ig j jdim

/-- The local-to-global map `sysDof` of element `iel`. -/
def local_sysDof {V M : Type} (pdeSys : LinearEquationSolver V M)
    (soluIndex soluPdeIndex n iel : Nat) : List Int :=
  Vec.ofFn n (fun i => pdeSys.GetSystemDof soluIndex soluPdeIndex i iel)

/-- The global residual after the local residuals `Res[i] = −aRes[i]` of the elements
`a, …, b − 1` have been added to `R0`, in this order. -/
def assembled_RES {K V M : Type} [Field K] (acos cos : K → K) (RESops : NumericVector K V)
    (msh : Mesh K) (sol : Solution K) (pdeSys : LinearEquationSolver V M)
    (soluIndex soluType soluPdeIndex a b : Nat) (R0 : V) : V :=
  (List.range (b - a)).foldl (fun R k =>
    RESops.add_vector_blocked R
      (Vec.ofFn (msh.GetElementDofNumber (a + k) soluType)
        (fun i => -local_aRes acos cos msh sol soluIndex soluType (a + k) i))
      (local_sysDof pdeSys soluIndex soluPdeIndex (msh.GetElementDofNumber (a + k) soluType)
        (a + k))) R0

/-- The global matrix after the local matrices of the elements `a, …, b − 1`, stored row by
row, have been added to `K0`, in this order; the local matrix is symmetric, so that the
block is the same ordered by column, as the tape extracts it. -/
def assembled_KK {K V M : Type} [Field K] (KKops : SparseMatrix K M)
    (msh : Mesh K) (pdeSys : LinearEquationSolver V M)
    (soluIndex soluType soluPdeIndex a b : Nat) (K0 : M) : M :=
  (List.range (b - a)).foldl (fun KK k =>
    KKops.add_matrix_blocked KK
      (Vec.ofFn (msh.GetElementDofNumber (a + k) soluType
          * msh.GetElementDofNumber (a + k) soluType)
        (fun e => local_Jac msh soluType (a + k)
          (e / msh.GetElementDofNumber (a + k) soluType)
          (e % msh.GetElementDofNumber (a + k) soluType)))
      (local_sysDof pdeSys soluIndex soluPdeIndex (msh.GetElementDofNumber (a + k) soluType)
        (a + k))
      (local_sysDof pdeSys soluIndex soluPdeIndex (msh.GetElementDofNumber (a + k) soluType)
        (a + k))) K0

/-! ## A concrete problem: one linear triangle -/

/-- The shape evaluator of the linear triangle with one Gauss point on the reference
triangle: weight `1/2`, `φ = (1/3, 1/3, 1/3)` and gradients `(−1,−1)`, `(1,0)`, `(0,1)`. -/
def refTriEvaluator (K : Type) [Field K] : FiniteElement K :=
  ⟨1, fun _ _ _ => pure ⟨1 / 2, [1 / 3, 1 / 3, 1 / 3], [-1, -1, 1, 0, 0, 1], none⟩⟩

/-- The mesh of one triangle with the nodes `(0,0)`, `(1,0)`, `(0,1)`, owned by the only
process; node `i` of the element is the global node `i`. -/
def oneTriangle (K : Type) [Field K] : Mesh K :=
  ⟨2, 0, 1, fun p => p, fun _ => 0, fun _ _ => 3, fun i _ _ => i,
    fun jdim dof => if (jdim = 0 ∧ dof = 1) ∨ (jdim = 1 ∧ dof = 2) then 1 else 0,
    fun _ _ => refTriEvaluator K⟩

/-- A global vector as the list of the blocks added to it since it was zeroed. -/
def blockVector (K : Type) : NumericVector K (List (List K × List Int)) :=
  ⟨fun _ => [], fun v values dofs => v ++ [(values, dofs)], fun v => v⟩

/-- A global matrix as the list of the blocks added to it since it was zeroed. -/
def blockMatrix (K : Type) : SparseMatrix K (List (List K × List Int × List Int)) :=
  ⟨fun _ => [], fun m values rows cols => m ++ [(values, rows, cols)], fun m => m⟩

/-- The solution whose value at the global node `dof` is `dof`. -/
def nodeNumberSolution (K : Type) [Field K] : Solution K :=
  ⟨fun _ dof => (dof : K)⟩

/-- The linear equation solver whose DOF `i` of every element is the global DOF `i`, with
empty global matrix and residual. -/
def oneTriangleSolver (K : Type) :
    LinearEquationSolver (List (List K × List Int)) (List (List K × List Int × List Int)) :=
  ⟨fun _ _ i _ => (i : Int), [], []⟩

/-- The system of every name on the mesh `oneTriangle`, with its unknown at index `0`. -/
def oneTriangleSystem (K : Type) :
    ImplicitSystem (List (List K × List Int)) (List (List K × List Int × List Int)) :=
  ⟨0, fun _ => pure 0, fun _ => oneTriangleSolver K⟩

/-- The problem on the mesh `oneTriangle`: every unknown has index `0` and type `0`. -/
def oneTriangleProblem (K : Type) [Field K] :
    MultiLevelProblem K (List (List K × List Int)) (List (List K × List Int × List Int)) :=
  ⟨fun _ => pure (oneTriangleSystem K), ⟨1, fun _ => oneTriangle K⟩,
    ⟨⟨1, fun _ => oneTriangle K⟩, fun _ => pure 0, fun _ => 0, fun _ => nodeNumberSolution K⟩⟩

/-- The tape before any variable is declared. -/
def emptyStack (K : Type) : Stack K := ⟨0, [], [], [], false, false, false⟩

/-- The mesh `oneTriangle` with an element that has no DOF: `GetElementDofNumber` is `0`. -/
def emptyElementMesh (K : Type) [Field K] : Mesh K :=
  ⟨2, 0, 1, fun p => p, fun _ => 0, fun _ _ => 0, fun i _ _ => i,
    fun jdim dof => if (jdim = 0 ∧ dof = 1) ∨ (jdim = 1 ∧ dof = 2) then 1 else 0,
    fun _ _ => refTriEvaluator K⟩

/-- The problem on the mesh `emptyElementMesh`. -/
def emptyElementProblem (K : Type) [Field K] :
    MultiLevelProblem K (List (List K × List Int)) (List (List K × List Int × List Int)) :=
  ⟨fun _ => pure (oneTriangleSystem K), ⟨1, fun _ => emptyElementMesh K⟩,
    ⟨⟨1, fun _ => emptyElementMesh K⟩, fun _ => pure 0, fun _ => 0,
      fun _ => nodeNumberSolution K⟩⟩

/-- The reference tetrahedron moved by the vector `(1, 2, 3)`. -/
def shiftedTet (K : Type) [Field K] : Mat K := [[1, 2, 1, 1], [2, 2, 3, 2], [3, 3, 3, 4]]

/-- The reference tetrahedron scaled by the factor `2`. -/
def scaledTet (K : Type) [Field K] : Mat K := [[0, 2, 0, 0], [0, 0, 2, 0], [0, 0, 0, 2]]

/-- The linear equation solver whose global matrix and residual hold `KK` and `RES`. -/
def LinearEquationSolver.store {V M : Type} (pdeSys : LinearEquationSolver V M) (KK : M)
    (RES : V) : LinearEquationSolver V M :=
  ⟨pdeSys.GetSystemDof, KK, RES⟩

/-- The system whose global matrix and residual at the level to assemble hold `KK` and
`RES`. -/
def ImplicitSystem.store {V M : Type} (sys : ImplicitSystem V M) (KK : M) (RES : V) :
    ImplicitSystem V M :=
  ⟨sys.GetLevelToAssemble, sys.GetSolPdeIndex,
    fun level => if level = sys.GetLevelToAssemble then (sys.LinSolver level).store KK RES
      else sys.LinSolver level⟩

/-- The problem on the same mesh and solution, whose systems hold `KK` and `RES` as global
matrix and residual at the level to assemble. -/
def MultiLevelProblem.store {K V M : Type} (ml_prob : MultiLevelProblem K V M) (KK : M)
    (RES : V) : MultiLevelProblem K V M :=
  ⟨fun name => (ml_prob.get_system name).map (fun sys => sys.store KK RES), ml_prob.ml_msh,
    ml_prob.ml_sol⟩

/-! ## Vocabulary of the error norms -/

/-- The value that `GetExactSolutionValue` returns at a point whose first two coordinates
are `x0` and `x1`. -/
def exactSolValue {K : Type} [Field K] (acos cos : K → K) (x0 x1 : K) : K :=
  cos (acos (-1) * x0) * cos (acos (-1) * x1)

/-- The entry `j` of a zeroed buffer after the call of `GetExactSolutionGradient` at a point
whose first two coordinates are `x0` and `x1`: the entries `0` and `1` are written, the
others keep the value `0`. -/
def exactSolGrad {K : Type} [Field K] (acos cos sin : K → K) (x0 x1 : K) (j : Nat) : K :=
  match j with
  | 0 => -acos (-1) * sin (acos (-1) * x0) * cos (acos (-1) * x1)
  | 1 => -acos (-1) * cos (acos (-1) * x0) * sin (acos (-1) * x1)
  | _ => 0

/-- The outputs of the shape evaluator at Gauss point `ig` of element `iel`, called as
`GetErrorNorm` calls it, with a buffer for the second derivatives and the coordinates of the
`nDofs2` nodes of the element (zero outputs where it does not return). -/
def Mesh.shape_xx {K : Type} [Zero K] (msh : Mesh K) (soluType iel ig : Nat) : ShapeOut K :=
  match (msh.finiteElement (msh.GetElementType iel) soluType).Jacobian
      (msh.local_x (msh.GetElementDofNumber iel 2) iel) ig (some []) with
  | Except.ok out => out
  | Except.error _ => ⟨0, [], [], none⟩

/-- The shape evaluator, called as `GetErrorNorm` calls it, returns at every Gauss point of
element `iel`, whatever the buffer of the second derivatives holds, the same weight, values
and derivatives, with at least `nDofs` values in `phi` and at least `nDofs · dim`
derivatives in `phi_x`. -/
def Mesh.evaluates_xx {K : Type} [Zero K] (msh : Mesh K) (soluType iel : Nat) : Prop :=
  ∀ ig < (msh.finiteElement (msh.GetElementType iel) soluType).GetGaussPointNumber,
    ∀ b : List K, ∃ out, (msh.finiteElement (msh.GetElementType iel) soluType).Jacobian
        (msh.local_x (msh.GetElementDofNumber iel 2) iel) ig (some b) = Except.ok out
      ∧ out.Weight = (msh.shape_xx soluType iel ig).Weight
      ∧ out.phi = (msh.shape_xx soluType iel ig).phi
      ∧ out.gradphi = (msh.shape_xx soluType iel ig).gradphi
      ∧ msh.GetElementDofNumber iel soluType ≤ out.phi.length
      ∧ msh.GetElementDofNumber iel soluType * msh.GetDimension ≤ out.gradphi.length

/-- The discrete solution at the Gauss point `ig` of element `iel`:
`u_h = Σ_i φ_i · solu[i]`. -/
def Mesh.solu_at {K : Type} [Field K] (msh : Mesh K) (sol : Solution K)
    (soluIndex soluType iel ig : Nat) : K :=
  ∑ i in Finset.range (msh.GetElementDofNumber iel soluType),
    Vec.entry (msh.shape_xx soluType iel ig).phi i
      * sol.Sol soluIndex (msh.GetSolutionDof i iel soluType)

/-- The derivative `j` of the discrete solution at the Gauss point `ig` of element `iel`:
`∂_j u_h = Σ_i phi_x[i · dim + j] · solu[i]`. -/
def Mesh.solu_x_at {K : Type} [Field K] (msh : Mesh K) (sol : Solution K)
    (soluIndex soluType iel ig j : Nat) : K :=
  ∑ i in Finset.range (msh.GetElementDofNumber iel soluType),
    Vec.entry (msh.shape_xx soluType iel ig).gradphi (i * msh.GetDimension + j)
      * sol.Sol soluIndex (msh.GetSolutionDof i iel soluType)

/-- The coordinate `jdim` of the Gauss point `ig` of element `iel` in `GetErrorNorm`:
`Σ_i x[jdim][i] · φ_i` over the `nDofs` nodes of the solution. -/
def Mesh.x_at {K : Type} [Field K] (msh : Mesh K) (soluType iel ig jdim : Nat) : K :=
  ∑ i in Finset.range (msh.GetElementDofNumber iel soluType),
    msh.topology_Sol jdim (msh.GetSolutionDof i iel 2)
      * Vec.entry (msh.shape_xx soluType iel ig).phi i

/-- The contribution of element `iel` to `l2norm`:
`Σ_ig (u_exact (x_ig) − u_h (x_ig))² · weight_ig`. -/
def element_l2norm {K : Type} [Field K] (acos cos : K → K) (msh : Mesh K) (sol : Solution K)
    (soluIndex soluType iel : Nat) : K :=
  ∑ ig in Finset.range (msh.finiteElement (msh.GetElementType iel) soluType).GetGaussPointNumber,
    (exactSolValue acos cos (msh.x_at soluType iel ig 0) (msh.x_at soluType iel ig 1)
        - msh.solu_at sol soluIndex soluType iel ig)
      * (exactSolValue acos cos (msh.x_at soluType iel ig 0) (msh.x_at soluType iel ig 1)
        - msh.solu_at sol soluIndex soluType iel ig)
      * (msh.shape_xx soluType iel ig).Weight

/-- The contribution of element `iel` to `seminorm`:
`Σ_ig Σ_{j < dim} (∂_j u_h (x_ig) − ∂_j u_exact (x_ig))² · weight_ig`. -/
def element_seminorm {K : Type} [Field K] (acos cos sin : K → K) (msh : Mesh K)
    (sol : Solution K) (soluIndex soluType iel : Nat) : K :=
  ∑ ig in Finset.range (msh.finiteElement (msh.GetElementType iel) soluType).GetGaussPointNumber,
    ∑ j in Finset.range msh.GetDimension,
      ((msh.solu_x_at sol soluIndex soluType iel ig j
          - exactSolGrad acos cos sin (msh.x_at soluType iel ig 0) (msh.x_at soluType iel ig 1) j)
        * (msh.solu_x_at sol soluIndex soluType iel ig j
          - exactSolGrad acos cos sin (msh.x_at soluType iel ig 0) (msh.x_at soluType iel ig 1)
              j))
      * (msh.shape_xx soluType iel ig).Weight

/-- The sum `s_r` of the process of rank `r`: the contributions to `l2norm` of the elements
that the process owns. -/
def rank_l2norm {K : Type} [Field K] (acos cos : K → K) (msh : Mesh K) (sol : Solution K)
    (soluIndex soluType r : Nat) : K :=
  ∑ iel in Finset.Ico (msh.elementOffset r) (msh.elementOffset (r + 1)),
    element_l2norm acos cos msh sol soluIndex soluType iel

/-- The sum `g_r` of the process of rank `r`: the contributions to `seminorm` of the
elements that the process owns. -/
def rank_seminorm {K : Type} [Field K] (acos cos sin : K → K) (msh : Mesh K) (sol : Solution K)
    (soluIndex soluType r : Nat) : K :=
  ∑ iel in Finset.Ico (msh.elementOffset r) (msh.elementOffset (r + 1)),
    element_seminorm acos cos sin msh sol soluIndex soluType iel

/-- The shape evaluator of a two-node segment: one Gauss point of weight `1`, values
`(1/2, 1/2)` and derivatives `(−1, 1)`. -/
def refSegmentEvaluator (K : Type) [Field K] : FiniteElement K :=
  ⟨1, fun _ _ _ => pure ⟨1, [1 / 2, 1 / 2], [-1, 1], none⟩⟩

/-- The mesh of dimension `1` with one segment from `0` to `1`, owned by the only process. -/
def oneSegment (K : Type) [Field K] : Mesh K :=
  ⟨1, 0, 1, fun p => p, fun _ => 0, fun _ _ => 2, fun i _ _ => i,
    fun _ dof => if dof = 1 then 1 else 0, fun _ _ => refSegmentEvaluator K⟩

/-- The problem on the mesh `oneSegment`: every unknown has index `0` and type `0`. -/
def oneSegmentProblem (K : Type) [Field K] :
    MultiLevelProblem K (List (List K × List Int)) (List (List K × List Int × List Int)) :=
  ⟨fun _ => pure (oneTriangleSystem K), ⟨1, fun _ => oneSegment K⟩,
    ⟨⟨1, fun _ => oneSegment K⟩, fun _ => pure 0, fun _ => 0, fun _ => nodeNumberSolution K⟩⟩

/-- The gradient index of the entry `aRes[k][i]` of the residuals of `BuidProjection`. -/
def adouble.index2 {K : Type} [Zero K] (aRes : Mat (adouble K)) (k i : Nat) : Nat :=
  adouble.index (aRes.getD k []) i

/-- The tape `s` tracks the entries of `solu` and of the rows of `aRes`: their gradient
indices have been handed out by `s` and are pairwise different. -/
def Stack.tracks_rows {K : Type} [Zero K] (s : Stack K) (solu : List (adouble K))
    (aRes : Mat (adouble K)) : Prop :=
  (∀ i < solu.length, adouble.index solu i < s.n_gradients_registered)
  ∧ (∀ k < aRes.length, ∀ i < (aRes.getD k []).length,
      adouble.index2 aRes k i < s.n_gradients_registered)
  ∧ (∀ i < solu.length, ∀ j < solu.length, adouble.index solu i = adouble.index solu j → i = j)
  ∧ (∀ k < aRes.length, ∀ i < (aRes.getD k []).length, ∀ k' < aRes.length,
      ∀ i' < (aRes.getD k' []).length,
      adouble.index2 aRes k i = adouble.index2 aRes k' i' → k = k' ∧ i = i')
  ∧ (∀ j < solu.length, ∀ k < aRes.length, ∀ i < (aRes.getD k []).length,
      adouble.index solu j ≠ adouble.index2 aRes k i)

/-- The residual of direction `k` of `BuidProjection` at node `i` of element `iel`:
`aRes[k][i] = Σ_ig (Σ_j ∂φ_j/∂x_k · solu[j]) · φ_i · weight`. -/
def local_aResP {K : Type} [Field K] (msh : Mesh K) (sol : Solution K)
    (soluIndex soluType iel k i : Nat) : K :=
  ∑ ig in Finset.range (msh.finiteElement (msh.GetElementType iel) soluType).GetGaussPointNumber,
    (∑ j in Finset.range (msh.GetElementDofNumber iel soluType),
        msh.phi_x soluType iel ig j k * sol.Sol soluIndex (msh.GetSolutionDof j iel soluType))
      * msh.phi soluType iel ig i * msh.weight soluType iel ig

/-- The entry `(i, j)` of the local matrix of direction `k` of element `iel`:
`Σ_ig weight · φ_i · ∂φ_j/∂x_k`. -/
def local_P {K : Type} [Field K] (msh : Mesh K) (soluType iel k i j : Nat) : K :=
  ∑ ig in Finset.range (msh.finiteElement (msh.GetElementType iel) soluType).GetGaussPointNumber,
    msh.weight soluType iel ig * msh.phi soluType iel ig i * msh.phi_x soluType iel ig j k

/-- The matrix of direction `k` after the local matrices of direction `k` of the elements
`a, …, b − 1`, ordered by column (entry `(i, j)` at position `j · nDofs + i`), have been
added to `P0`, in this order. -/
def assembled_P {K V M : Type} [Field K] (Pops : SparseMatrix K M)
    (msh : Mesh K) (sysP0 : LinearEquationSolver V M)
    (soluIndex soluType soluPdeIndex k a b : Nat) (P0 : M) : M :=
  (List.range (b - a)).foldl (fun P e =>
    Pops.add_matrix_blocked P
      (Vec.ofFn (msh.GetElementDofNumber (a + e) soluType
          * msh.GetElementDofNumber (a + e) soluType)
        (fun q => local_P msh soluType (a + e) k
          (q % msh.GetElementDofNumber (a + e) soluType)
          (q / msh.GetElementDofNumber (a + e) soluType)))
      (local_sysDof sysP0 soluIndex soluPdeIndex (msh.GetElementDofNumber (a + e) soluType)
        (a + e))
      (local_sysDof sysP0 soluIndex soluPdeIndex (msh.GetElementDofNumber (a + e) soluType)
        (a + e))) P0

/-! ## Lemmas on runs, loops and matrices -/

section runs
variable {K : Type}

@[simp]
theorem Run.pure_eq {α : Type} (a : α) : (pure a : Run α) = Except.ok a :=
  id rfl

@[simp]
theorem Run.ok_bind {α β : Type} (a : α) (f : α → Run β) :
    (Except.ok a : Run α) >>= f = f a :=
  id rfl

@[simp]
theorem Run.error_bind {α β : Type} (x : Fault) (f : α → Run β) :
    (Except.error x : Run α) >>= f = Except.error x :=
  id rfl

@[simp]
theorem Run.throw_eq {α : Type} (x : Fault) : (throw x : Run α) = Except.error x :=
  id rfl

theorem forLoop_succ {σ : Type} (n : Nat) (body : Nat → σ → Run σ) (s : σ) :
    forLoop (n + 1) body s = forLoop n body s >>= body n := rfl

@[simp]
theorem forLoop_zero {σ : Type} (body : Nat → σ → Run σ) (s : σ) :
    forLoop 0 body s = Except.ok s := rfl

/-- A loop whose state after `i` rounds is `F i`. -/
theorem forLoop_eq {σ : Type} (body : Nat → σ → Run σ) (F : Nat → σ) (n : Nat)
    (hstep : ∀ i < n, body i (F i) = Except.ok (F (i + 1))) :
    forLoop n body (F 0) = Except.ok (F n) := by
  induction n with
  | zero => rfl
  | succ k ih =>
    rw [forLoop_succ, ih (fun i hi => hstep i (Nat.lt_succ_of_lt hi))]
    exact hstep k (Nat.lt_succ_self k)

theorem Mat.length_ofFn (r c : Nat) (f : Nat → Nat → K) : (Mat.ofFn r c f).length = r := by
  simp [Mat.ofFn]

theorem Mat.read_ofFn (r c : Nat) (f : Nat → Nat → K) (i j : Nat) (hi : i < r) (hj : j < c) :
    Mat.read (Mat.ofFn r c f) i j = Except.ok (f i j) := by
  simp [Mat.read, Vec.read, Mat.ofFn, List.getElem?_map, List.getElem?_range, hi, hj]

theorem getElem?_map_range {α : Type} (n : Nat) (g : Nat → α) (i : Nat) :
    ((List.range n).map g)[i]? = if i < n then some (g i) else none := by
  by_cases h : i < n
  · simp [List.getElem?_map, List.getElem?_range, h]
  · simp [List.getElem?_map, h, List.getElem?_eq_none (l := List.range n) (by simpa using h)]

theorem set_map_range {α : Type} (n : Nat) (g : Nat → α) (i : Nat) (x : α) :
    ((List.range n).map g).set i x = (List.range n).map (fun a => if a = i then x else g a) := by
  apply List.ext_getElem?
  intro a
  rw [List.getElem?_set, getElem?_map_range, getElem?_map_range]
  by_cases ha : i = a
  · subst ha
    by_cases h : i < n <;> simp [h]
  · simp [ha, Ne.symm ha]

theorem Mat.write_ofFn (r c : Nat) (f : Nat → Nat → K) (i j : Nat) (x : K)
    (hi : i < r) (hj : j < c) :
    Mat.write (Mat.ofFn r c f) i j x
      = Except.ok (Mat.ofFn r c (fun a b => if a = i ∧ b = j then x else f a b)) := by
  simp only [Mat.write, Vec.read, Vec.write, Mat.ofFn, getElem?_map_range,
    hi, hj, List.length_map, List.length_range, Run.pure_eq, Run.ok_bind, if_true,
    set_map_range]
  congr 1
  apply List.map_congr_left
  intro a _
  by_cases ha : a = i
  · subst ha
    simp
  · simp [ha]

theorem Mat.ofFn_congr (r c : Nat) (f g : Nat → Nat → K)
    (h : ∀ a < r, ∀ b < c, f a b = g a b) : Mat.ofFn r c f = Mat.ofFn r c g := by
  unfold Mat.ofFn
  apply List.map_congr_left
  intro a ha
  apply List.map_congr_left
  intro b hb
  exact h a (List.mem_range.mp ha) b (List.mem_range.mp hb)

theorem Mat.addTo_ofFn [Add K] (r c : Nat) (f : Nat → Nat → K) (i j : Nat) (x : K)
    (hi : i < r) (hj : j < c) :
    Mat.addTo (Mat.ofFn r c f) i j x
      = Except.ok (Mat.ofFn r c (fun a b => if a = i ∧ b = j then f a b + x else f a b)) := by
  simp only [Mat.addTo, Mat.read_ofFn r c f i j hi hj, Mat.write_ofFn r c f i j _ hi hj,
    Run.ok_bind]
  congr 1
  apply Mat.ofFn_congr
  intro a _ b _
  by_cases h : a = i ∧ b = j
  · obtain ⟨rfl, rfl⟩ := h; simp
  · simp [h]

theorem length_resize {α : Type} (n : Nat) (v : List α) (d : α) : (resize n v d).length = n := by
  simp only [resize, List.length_append, List.length_take, List.length_replicate]
  omega

theorem Mat.hasShape_ofFn (r c : Nat) (f : Nat → Nat → K) : Mat.hasShape r c (Mat.ofFn r c f) := by
  refine ⟨Mat.length_ofFn r c f, ?_⟩
  intro row hrow
  simp only [Mat.ofFn, List.mem_map] at hrow
  obtain ⟨i, _, rfl⟩ := hrow
  simp

theorem Mat.entry_ofFn [Zero K] (r c : Nat) (f : Nat → Nat → K) (i j : Nat)
    (hi : i < r) (hj : j < c) : Mat.entry (Mat.ofFn r c f) i j = f i j := by
  simp [Mat.entry, Mat.ofFn, List.getD_eq_getElem?_getD, getElem?_map_range, hi, hj]

theorem Mat.eq_ofFn_of_hasShape [Zero K] (r c : Nat) (M : Mat K) (h : Mat.hasShape r c M) :
    M = Mat.ofFn r c (Mat.entry M) := by
  obtain ⟨hr, hc⟩ := h
  apply List.ext_getElem?
  intro i
  simp only [Mat.ofFn, getElem?_map_range]
  by_cases hi : i < r
  · have hi' : i < M.length := hr ▸ hi
    simp only [hi, if_true, List.getElem?_eq_getElem hi', Option.some.injEq]
    have hlen : (M[i]).length = c := hc _ (List.getElem_mem hi')
    apply List.ext_getElem?
    intro j
    rw [getElem?_map_range]
    by_cases hj : j < c
    · have hj' : j < (M[i]).length := hlen ▸ hj
      simp [hj, Mat.entry, List.getD_eq_getElem?_getD, List.getElem?_eq_getElem hi',
        List.getElem?_eq_getElem hj']
    · simp only [hj, if_false]
      exact List.getElem?_eq_none (by omega)
  · simp only [hi, if_false]
    exact List.getElem?_eq_none (by omega)

theorem Mat.read_of_hasShape [Zero K] (r c : Nat) (M : Mat K) (h : Mat.hasShape r c M)
    (i j : Nat) (hi : i < r) (hj : j < c) : Mat.read M i j = Except.ok (Mat.entry M i j) := by
  rw [Mat.eq_ofFn_of_hasShape r c M h, Mat.read_ofFn r c _ i j hi hj,
    Mat.entry_ofFn r c _ i j hi hj]

theorem Mat.hasShape_resize [Zero K] (r c : Nat) (M : Mat K) :
    Mat.hasShape r c (Mat.resize r c M) := by
  refine ⟨by simp [Mat.resize, length_resize], ?_⟩
  intro row hrow
  simp only [Mat.resize, List.mem_map] at hrow
  obtain ⟨v, _, rfl⟩ := hrow
  exact length_resize c v 0

theorem fill_eq {α : Type} (v : List α) (x : α) :
    fill v x = (List.range v.length).map (fun _ => x) := by
  apply List.ext_getElem?
  intro j
  rw [getElem?_map_range, fill, List.getElem?_map]
  by_cases hj : j < v.length
  · simp [hj, List.getElem?_eq_getElem hj]
  · simp [hj, List.getElem?_eq_none (Nat.le_of_not_lt hj)]

theorem Mat.resizeFill_eq [Zero K] (r c : Nat) (M : Mat K) :
    Mat.resizeFill r c M = Mat.ofFn r c (fun _ _ => 0) := by
  apply List.ext_getElem?
  intro i
  rw [Mat.ofFn, getElem?_map_range, Mat.resizeFill, List.getElem?_map]
  by_cases hi : i < r
  · have hi' : i < (femus.resize r M []).length := by rw [length_resize]; exact hi
    simp only [hi, if_true, List.getElem?_eq_getElem hi', Option.map_some', Option.some.injEq]
    rw [fill_eq, length_resize]
  · have hi' : (femus.resize r M []).length ≤ i := by rw [length_resize]; omega
    simp [hi, List.getElem?_eq_none hi']

/-- The accumulation loop `acc = s; for (d < n) acc += g d`. -/
theorem forLoop_sum [AddCommMonoid K] (n : Nat) (rd : Nat → Run K) (a : Nat → K) (g : K → K)
    (s : K) (h : ∀ d < n, rd d = Except.ok (a d)) :
    forLoop n (fun d acc => do let x ← rd d; pure (acc + g x)) s
      = Except.ok (s + ∑ d in Finset.range n, g (a d)) := by
  have := forLoop_eq (fun d acc => do let x ← rd d; pure (acc + g x))
    (fun i => s + ∑ d in Finset.range i, g (a d)) n (by
      intro i hi
      simp [h i hi, Finset.sum_range_succ, add_assoc])
  simpa using this

/-- A loop on an `r × c` matrix whose round `k` adds `u k a b` to the entry `(a, b)`. -/
theorem forLoop_add [AddCommMonoid K] (r c n : Nat) (body : Nat → Mat K → Run (Mat K))
    (u : Nat → Nat → Nat → K)
    (hbody : ∀ k < n, ∀ f : Nat → Nat → K, body k (Mat.ofFn r c f)
      = Except.ok (Mat.ofFn r c (fun a b => f a b + u k a b)))
    (G : Nat → Nat → K) :
    forLoop n body (Mat.ofFn r c G)
      = Except.ok (Mat.ofFn r c (fun a b => G a b + ∑ k in Finset.range n, u k a b)) := by
  have h := forLoop_eq body
    (fun i => Mat.ofFn r c (fun a b => G a b + ∑ k in Finset.range i, u k a b)) n (by
      intro i hi
      rw [hbody i hi]
      congr 1
      apply Mat.ofFn_congr
      intro a _ b _
      rw [Finset.sum_range_succ, add_assoc])
  simpa using h

/-- The loop `for (d < r) M[d][j] = v d` on an `r × c` matrix. -/
theorem forLoop_write (r c j : Nat) (hj : j < c) (body : Nat → Mat K → Run (Mat K))
    (v : Nat → K)
    (hbody : ∀ d < r, ∀ M : Mat K, body d M = Mat.write M d j (v d))
    (G : Nat → Nat → K) :
    forLoop r body (Mat.ofFn r c G)
      = Except.ok (Mat.ofFn r c (fun a b => if b = j then v a else G a b)) := by
  have h := forLoop_eq body
    (fun i => Mat.ofFn r c (fun a b => if a < i ∧ b = j then v a else G a b)) r (by
      intro i hi
      rw [hbody i hi, Mat.write_ofFn r c _ i j _ hi hj]
      congr 1
      apply Mat.ofFn_congr
      intro a _ b _
      by_cases hb : b = j
      · by_cases ha : a = i
        · subst ha; simp [hb]
        · have : a < i + 1 ↔ a < i := by omega
          simp [hb, ha, this]
      · simp [hb])
  simp only [not_lt_zero', false_and, if_false] at h
  rw [h]
  congr 1
  apply Mat.ofFn_congr
  intro a ha b _
  simp [ha]

end runs

/-! ## What the loops compute -/

section loops
variable {K : Type} [Field K]

theorem Mat.covers_of_hasShape (S n : Nat) (vt : Mat K) (h : Mat.hasShape S n vt) :
    Mat.covers S n vt :=
  fun d hd i hi => Mat.read_of_hasShape S n vt h d i hd hi

/-- The loops that fill `Jac`: round `(d, inode)` adds `dphi a ig inode * vt[d][inode]`
to the entries `(a, d)` of all rows `a < D`. -/
theorem Jac_loop (D S : Nat) (e : elem_type K) (vt : Mat K) (ig : Nat)
    (body : Nat → Nat → Mat K → Run (Mat K))
    (hbody : ∀ d < S, ∀ k < e._nc, ∀ f : Nat → Nat → K, body d k (Mat.ofFn D S f)
      = Except.ok (Mat.ofFn D S
          (fun a b => f a b + if b = d then e.dphi a ig k * Mat.entry vt d k else 0))) :
    forLoop S (fun d Jac => forLoop e._nc (fun inode Jac => body d inode Jac) Jac)
        (Mat.ofFn D S (fun _ _ => 0))
      = Except.ok (Mat.ofFn D S (JacSum e vt ig)) := by
  rw [forLoop_add D S S _ (fun d a b => if b = d then JacSum e vt ig a b else 0)]
  · congr 1
    apply Mat.ofFn_congr
    intro a _ b hb
    simp [Finset.sum_ite_eq, hb]
  · intro d hd f
    rw [forLoop_add D S e._nc _
      (fun k a b => if b = d then e.dphi a ig k * Mat.entry vt d k else 0)]
    · congr 1
      apply Mat.ofFn_congr
      intro a _ b _
      by_cases hb : b = d
      · subst hb; simp [JacSum]
      · simp [hb]
    · intro k hk g
      exact hbody d hd k hk g

/-- The triple loop `for (i < r) for (j < c) for (k < n) M[i][j] += t i j k`. -/
theorem forLoop_addTo3 (r c n : Nat) (body : Nat → Nat → Nat → Mat K → Run (Mat K))
    (t : Nat → Nat → Nat → K)
    (hbody : ∀ i < r, ∀ j < c, ∀ k < n, ∀ M : Mat K, body i j k M = Mat.addTo M i j (t i j k))
    (G : Nat → Nat → K) :
    forLoop r (fun i M => forLoop c (fun j M => forLoop n (fun k M => body i j k M) M) M)
        (Mat.ofFn r c G)
      = Except.ok (Mat.ofFn r c (fun a b => G a b + ∑ k in Finset.range n, t a b k)) := by
  rw [forLoop_add r c r _ (fun i a b => if a = i then ∑ k in Finset.range n, t a b k else 0)]
  · congr 1
    apply Mat.ofFn_congr
    intro a ha b _
    simp [Finset.sum_ite_eq, ha]
  · intro i hi f
    rw [forLoop_add r c c _
      (fun j a b => if a = i ∧ b = j then ∑ k in Finset.range n, t a b k else 0)]
    · congr 1
      apply Mat.ofFn_congr
      intro a _ b hb
      by_cases ha : a = i
      · subst ha; simp [Finset.sum_ite_eq, hb]
      · simp [ha]
    · intro j hj g
      rw [forLoop_add r c n _ (fun k a b => if a = i ∧ b = j then t a b k else 0)]
      · congr 1
        apply Mat.ofFn_congr
        intro a _ b _
        by_cases h : a = i ∧ b = j
        · simp [h]
        · simp [h]
      · intro k hk g'
        rw [hbody i hi j hj k hk, Mat.addTo_ofFn r c g' i j _ hi hj]
        congr 1
        apply Mat.ofFn_congr
        intro a _ b _
        by_cases h : a = i ∧ b = j
        · obtain ⟨rfl, rfl⟩ := h; simp
        · simp [h]

end loops

/-! ## The three specialisations in closed form -/

section closedForms
variable {K : Type}

theorem JacJacT_1_3_def [Field K] (e : elem_type K) (vt : Mat K) (ig S : Nat) :
    JacJacT_1_3 e vt ig S = ∑ d in Finset.range S, JacSum e vt ig 0 d * JacSum e vt ig 0 d := rfl

theorem Jacobian_geometry_templ_1_3_eq [Field K] (sqrt : K → K) (e : elem_type K) (vt : Mat K)
    (ig : Nat) (Jac JacI : Mat K) (S : Nat) (hvt : Mat.covers S e._nc vt) :
    Jacobian_geometry_templ_1_3 sqrt e vt ig Jac JacI 1 S
      = Except.ok ⟨Mat.ofFn 1 S (JacSum e vt ig),
          Mat.ofFn S 1 (fun d _ => JacSum e vt ig 0 d * 1 / JacJacT_1_3 e vt ig S),
          sqrt (JacJacT_1_3 e vt ig S)⟩ := by
  have hJac := Jac_loop 1 S e vt ig
    (fun d inode Jac => do
      let x ← Mat.read vt d inode
      Mat.addTo Jac 0 d (e._dphidxi ig inode * x))
    (by
      intro d hd k hk f
      simp only [hvt d hd k hk, Run.ok_bind, Mat.addTo_ofFn 1 S f 0 d _ (by omega) hd]
      congr 1
      apply Mat.ofFn_congr
      intro a ha b _
      have ha0 : a = 0 := by omega
      subst ha0
      by_cases hb : b = d
      · subst hb; simp [elem_type.dphi]
      · simp [hb])
  have hJJT := forLoop_sum S (fun d => Mat.read (Mat.ofFn 1 S (JacSum e vt ig)) 0 d)
    (fun d => JacSum e vt ig 0 d) (fun x => x * x) 0
    (fun d hd => Mat.read_ofFn 1 S _ 0 d (by omega) hd)
  have hJacI := forLoop_write S 1 0 (by omega)
    (fun d JacI => do
      let a ← Mat.read (Mat.ofFn 1 S (JacSum e vt ig)) 0 d
      Mat.write JacI d 0 (a * 1 / JacJacT_1_3 e vt ig S))
    (fun d => JacSum e vt ig 0 d * 1 / JacJacT_1_3 e vt ig S)
    (by
      intro d hd M
      simp only [Mat.read_ofFn 1 S _ 0 d (by omega) hd, Run.ok_bind])
    (Mat.entry (Mat.resize S 1 JacI))
  rw [← Mat.eq_ofFn_of_hasShape S 1 _ (Mat.hasShape_resize S 1 JacI)] at hJacI
  simp only [zero_add, Run.pure_eq, ← JacJacT_1_3_def] at hJJT
  beta_reduce at hJac hJJT hJacI
  simp only [Jacobian_geometry_templ_1_3, Mat.resizeFill_eq, Run.pure_eq, hJac, Run.ok_bind,
    hJJT, hJacI]
  rfl

theorem JacJacT_2_3_def [Field K] (e : elem_type K) (vt : Mat K) (ig S i j : Nat) :
    JacJacT_2_3 e vt ig S i j
      = ∑ k in Finset.range S, JacSum e vt ig i k * JacSum e vt ig j k := rfl

theorem JacI_2_3_def [Field K] (e : elem_type K) (vt : Mat K) (ig S i j : Nat) :
    JacI_2_3 e vt ig S i j
      = ∑ k in Finset.range 2, JacSum e vt ig k i * JacJacT_inv_2_3 e vt ig S k j := rfl

/-- The loop that fills `JacI` in the `(2,3)` specialisation (with `dim = 2`). -/
theorem JacI_loop_2_3 [Field K] (S : Nat) (Jac Minv : Mat K) (J inv : Nat → Nat → K)
    (hJ : ∀ k < 2, ∀ i < S, Mat.read Jac k i = Except.ok (J k i))
    (hinv : ∀ k < 2, ∀ j < 2, Mat.read Minv k j = Except.ok (inv k j)) :
    forLoop S (fun i JacI =>
      forLoop 2 (fun j JacI =>
        forLoop 2 (fun k JacI => do
          Mat.addTo JacI i j ((← Mat.read Jac k i) * (← Mat.read Minv k j))) JacI)
        JacI) (Mat.ofFn S 2 (fun _ _ => 0))
      = Except.ok (Mat.ofFn S 2 (fun i j => ∑ k in Finset.range 2, J k i * inv k j)) := by
  have hI := forLoop_addTo3 S 2 2
    (fun i j k JacI => do
      Mat.addTo JacI i j ((← Mat.read Jac k i) * (← Mat.read Minv k j)))
    (fun i j k => J k i * inv k j)
    (by
      intro i hi j hj k hk M
      simp only [hJ k hk i hi, hinv k hk j hj, Run.ok_bind])
    (fun _ _ => 0)
  simp only [zero_add] at hI
  exact hI

/-- The loop that fills the local `JacJacT` in the `(2,3)` specialisation. -/
theorem JacJacT_loop_2_3 [Field K] (S : Nat) (Jac : Mat K) (J : Nat → Nat → K)
    (hJ : ∀ k < 2, ∀ i < S, Mat.read Jac k i = Except.ok (J k i)) :
    forLoop 2 (fun i JacJacT =>
      forLoop 2 (fun j JacJacT =>
        forLoop S (fun k JacJacT => do
          Mat.addTo JacJacT i j ((← Mat.read Jac i k) * (← Mat.read Jac j k))) JacJacT)
        JacJacT) [[0, 0], [0, 0]]
      = Except.ok (Mat.ofFn 2 2 (fun i j => ∑ k in Finset.range S, J i k * J j k)) := by
  have hG := forLoop_addTo3 2 2 S
    (fun i j k JacJacT => do
      Mat.addTo JacJacT i j ((← Mat.read Jac i k) * (← Mat.read Jac j k)))
    (fun i j k => J i k * J j k)
    (by
      intro i hi j hj k hk M
      simp only [hJ i hi k hk, hJ j hj k hk, Run.ok_bind])
    (fun _ _ => 0)
  simp only [zero_add] at hG
  exact hG

theorem Jacobian_geometry_templ_2_3_eq [LinearOrderedField K] (sqrt : K → K) (e : elem_type K)
    (vt : Mat K) (ig : Nat) (Jac JacI : Mat K) (S : Nat) (hvt : Mat.covers S e._nc vt) :
    Jacobian_geometry_templ_2_3 sqrt e vt ig Jac JacI 2 S
      = Except.ok ⟨Mat.ofFn 2 S (JacSum e vt ig), Mat.ofFn S 2 (JacI_2_3 e vt ig S),
          sqrt |detJacJacT_2_3 e vt ig S|⟩ := by
  have hJac := Jac_loop 2 S e vt ig
    (fun d inode Jac => do
      let Jac ← Mat.addTo Jac 0 d (e._dphidxi ig inode * (← Mat.read vt d inode))
      Mat.addTo Jac 1 d (e._dphideta ig inode * (← Mat.read vt d inode)))
    (by
      intro d hd k hk f
      simp only [hvt d hd k hk, Run.ok_bind, Mat.addTo_ofFn 2 S _ 0 d _ (by omega) hd,
        Mat.addTo_ofFn 2 S _ 1 d _ (by omega) hd]
      congr 1
      apply Mat.ofFn_congr
      intro a ha b _
      by_cases hb : b = d
      · subst hb
        interval_cases a <;> simp [elem_type.dphi]
      · simp [hb])
  have hJ : ∀ k < 2, ∀ i < S, Mat.read (Mat.ofFn 2 S (JacSum e vt ig)) k i
      = Except.ok (JacSum e vt ig k i) :=
    fun k hk i hi => Mat.read_ofFn 2 S _ k i hk hi
  have hG := JacJacT_loop_2_3 S _ _ hJ
  have hGr : ∀ i < 2, ∀ j < 2, Mat.read (Mat.ofFn 2 2 (JacJacT_2_3 e vt ig S)) i j
      = Except.ok (JacJacT_2_3 e vt ig S i j) :=
    fun i hi j hj => Mat.read_ofFn 2 2 _ i j hi hj
  have hW : ∀ x00 x01 x10 x11 : K, ∀ k < 2, ∀ j < 2,
      Mat.read ([[x00, x01], [x10, x11]] : Mat K) k j
        = Except.ok (match k, j with
          | 0, 0 => x00 | 0, 1 => x01 | 1, 0 => x10 | 1, 1 => x11 | _, _ => 0) := by
    intro x00 x01 x10 x11 k hk j hj
    interval_cases k <;> interval_cases j <;> rfl
  simp only [← JacJacT_2_3_def] at hG
  beta_reduce at hJac
  simp only [Jacobian_geometry_templ_2_3, Mat.resizeFill_eq, Run.pure_eq, hJac, Run.ok_bind,
    hG, hGr 0 (by omega) 0 (by omega), hGr 0 (by omega) 1 (by omega),
    hGr 1 (by omega) 0 (by omega), hGr 1 (by omega) 1 (by omega)]
  simp only [Mat.write, Vec.read, Vec.write, List.getElem?_cons_zero, List.getElem?_cons_succ,
    Run.pure_eq, Run.ok_bind, List.length_cons, List.length_nil, List.set_cons_zero,
    List.set_cons_succ, Nat.zero_lt_succ, Nat.lt_add_one, if_true, zero_add, Nat.reduceAdd,
    Nat.one_lt_ofNat, Nat.ofNat_pos]
  rw [JacI_loop_2_3 S _ _ _ _ hJ (hW _ _ _ _)]
  rfl

theorem Jacobian_geometry_templ_3_3_eq [Field K] (e : elem_type K)
    (vt : Mat K) (ig : Nat) (Jac JacI : Mat K) (hvt : Mat.covers 3 e._nc vt) :
    Jacobian_geometry_templ_3_3 e vt ig Jac JacI 3 3
      = Except.ok ⟨Mat.ofFn 3 3 (JacSum e vt ig), Mat.ofFn 3 3 (JacI_3_3 (JacSum e vt ig)),
          detJac_3_3 (JacSum e vt ig)⟩ := by
  have hJac := Jac_loop 3 3 e vt ig
    (fun d inode Jac => do
      let Jac ← Mat.addTo Jac 0 d (e._dphidxi ig inode * (← Mat.read vt d inode))
      let Jac ← Mat.addTo Jac 1 d (e._dphideta ig inode * (← Mat.read vt d inode))
      Mat.addTo Jac 2 d (e._dphidzeta ig inode * (← Mat.read vt d inode)))
    (by
      intro d hd k hk f
      simp only [hvt d hd k hk, Run.ok_bind, Mat.addTo_ofFn 3 3 _ 0 d _ (by omega) hd,
        Mat.addTo_ofFn 3 3 _ 1 d _ (by omega) hd, Mat.addTo_ofFn 3 3 _ 2 d _ (by omega) hd]
      congr 1
      apply Mat.ofFn_congr
      intro a ha b _
      by_cases hb : b = d
      · subst hb
        interval_cases a <;> simp [elem_type.dphi]
      · simp [hb])
  have hJ : ∀ k < 3, ∀ i < 3, Mat.read (Mat.ofFn 3 3 (JacSum e vt ig)) k i
      = Except.ok (JacSum e vt ig k i) :=
    fun k hk i hi => Mat.read_ofFn 3 3 _ k i hk hi
  have hI : Mat.resize 3 3 JacI = Mat.ofFn 3 3 (Mat.entry (Mat.resize 3 3 JacI)) :=
    Mat.eq_ofFn_of_hasShape 3 3 _ (Mat.hasShape_resize 3 3 JacI)
  beta_reduce at hJac
  simp only [Jacobian_geometry_templ_3_3, Mat.resizeFill_eq, Run.pure_eq, hJac, Run.ok_bind,
    hJ 0 (by omega) 0 (by omega), hJ 0 (by omega) 1 (by omega), hJ 0 (by omega) 2 (by omega),
    hJ 1 (by omega) 0 (by omega), hJ 1 (by omega) 1 (by omega), hJ 1 (by omega) 2 (by omega),
    hJ 2 (by omega) 0 (by omega), hJ 2 (by omega) 1 (by omega), hJ 2 (by omega) 2 (by omega)]
  rw [hI]
  simp only [Mat.write_ofFn 3 3 _ 0 0 _ (by omega) (by omega),
    Mat.write_ofFn 3 3 _ 0 1 _ (by omega) (by omega),
    Mat.write_ofFn 3 3 _ 0 2 _ (by omega) (by omega),
    Mat.write_ofFn 3 3 _ 1 0 _ (by omega) (by omega),
    Mat.write_ofFn 3 3 _ 1 1 _ (by omega) (by omega),
    Mat.write_ofFn 3 3 _ 1 2 _ (by omega) (by omega),
    Mat.write_ofFn 3 3 _ 2 0 _ (by omega) (by omega),
    Mat.write_ofFn 3 3 _ 2 1 _ (by omega) (by omega),
    Mat.write_ofFn 3 3 _ 2 2 _ (by omega) (by omega), Run.ok_bind]
  have hfin : ∀ (f g : Nat → Nat → K), (∀ a < 3, ∀ b < 3, f a b = g a b) →
      ∀ (M : Mat K) (x : K), (Except.ok ⟨M, Mat.ofFn 3 3 f, x⟩ : Run (JacOut K))
        = Except.ok ⟨M, Mat.ofFn 3 3 g, x⟩ := by
    intro f g h M x
    rw [Mat.ofFn_congr 3 3 f g h]
  apply hfin
  intro a ha b hb
  interval_cases a <;> interval_cases b <;> simp [JacI_3_3, detJac_3_3]

end closedForms

/-! ## Pseudo-inverse and determinant identities -/

theorem Mat.toMatrix_ofFn {K : Type} [Zero K] (r c : Nat) (f : Nat → Nat → K) :
    Mat.toMatrix r c (Mat.ofFn r c f) = Matrix.of (fun (i : Fin r) (j : Fin c) => f i j) := by
  ext i j
  simp [Mat.toMatrix, Mat.entry_ofFn r c f i j i.isLt j.isLt]

/-- The first-row cofactor expansion of the source is the determinant. -/
theorem det_toMatrix_3_3 {K : Type} [Field K] (J : Nat → Nat → K) :
    (Mat.toMatrix 3 3 (Mat.ofFn 3 3 J)).det = detJac_3_3 J := by
  rw [Mat.toMatrix_ofFn, Matrix.det_fin_three]
  simp only [Matrix.of_apply, detJac_3_3]
  norm_num
  ring

/-- The nine assignments of the `(3,3)` specialisation give the inverse of `Jac`. -/
theorem inverse_3_3 {K : Type} [Field K] (J : Nat → Nat → K) (hd : detJac_3_3 J ≠ 0) :
    Mat.toMatrix 3 3 (Mat.ofFn 3 3 J) * Mat.toMatrix 3 3 (Mat.ofFn 3 3 (JacI_3_3 J)) = 1
    ∧ Mat.toMatrix 3 3 (Mat.ofFn 3 3 (JacI_3_3 J)) * Mat.toMatrix 3 3 (Mat.ofFn 3 3 J) = 1
    ∧ Mat.toMatrix 3 3 (Mat.ofFn 3 3 (JacI_3_3 J))
        = (detJac_3_3 J)⁻¹ • (Mat.toMatrix 3 3 (Mat.ofFn 3 3 J)).adjugate := by
  have hd' : J 0 0 * (J 1 1 * J 2 2 - J 1 2 * J 2 1) + J 0 1 * (J 1 2 * J 2 0 - J 1 0 * J 2 2)
      + J 0 2 * (J 1 0 * J 2 1 - J 1 1 * J 2 0) ≠ 0 := hd
  have h1 : Mat.toMatrix 3 3 (Mat.ofFn 3 3 J) * Mat.toMatrix 3 3 (Mat.ofFn 3 3 (JacI_3_3 J))
      = 1 := by
    simp only [Mat.toMatrix_ofFn]
    ext i j
    fin_cases i <;> fin_cases j <;>
      simp [Matrix.mul_apply, Fin.sum_univ_three, JacI_3_3, detJac_3_3] <;>
      field_simp <;> ring
  refine ⟨h1, Matrix.mul_eq_one_comm.mp h1, ?_⟩
  rw [← Matrix.inv_eq_right_inv h1, Matrix.inv_def, det_toMatrix_3_3, Ring.inverse_eq_inv']

/-- The local array `JacJacT` of the `(2,3)` specialisation is `Jac · Jacᵗ`. -/
theorem JacJacT_2_3_eq_mul_transpose {K : Type} [Field K] (e : elem_type K) (vt : Mat K)
    (ig S : Nat) :
    Mat.toMatrix 2 S (Mat.ofFn 2 S (JacSum e vt ig))
        * (Mat.toMatrix 2 S (Mat.ofFn 2 S (JacSum e vt ig))).transpose
      = Matrix.of (fun (i j : Fin 2) => JacJacT_2_3 e vt ig S i j) := by
  ext i j
  simp only [Mat.toMatrix_ofFn, Matrix.mul_apply, Matrix.transpose_apply, Matrix.of_apply,
    JacJacT_2_3]
  rw [Finset.sum_range]

/-- The determinant of `Jac · Jacᵗ` is the local `detJacJacT` of the `(2,3)` specialisation. -/
theorem det_JacJacT_2_3 {K : Type} [Field K] (e : elem_type K) (vt : Mat K) (ig S : Nat) :
    (Mat.toMatrix 2 S (Mat.ofFn 2 S (JacSum e vt ig))
        * (Mat.toMatrix 2 S (Mat.ofFn 2 S (JacSum e vt ig))).transpose).det
      = detJacJacT_2_3 e vt ig S := by
  rw [JacJacT_2_3_eq_mul_transpose, Matrix.det_fin_two]
  simp [detJacJacT_2_3]

/-- The local array `JacJacT_inv` of the `(2,3)` specialisation is `(Jac · Jacᵗ)⁻¹`. -/
theorem JacJacT_inv_2_3_eq_inv {K : Type} [Field K] (e : elem_type K) (vt : Mat K)
    (ig S : Nat) (hd : detJacJacT_2_3 e vt ig S ≠ 0) :
    (Mat.toMatrix 2 S (Mat.ofFn 2 S (JacSum e vt ig))
        * (Mat.toMatrix 2 S (Mat.ofFn 2 S (JacSum e vt ig))).transpose)⁻¹
      = Matrix.of (fun (i j : Fin 2) => JacJacT_inv_2_3 e vt ig S i j) := by
  rw [Matrix.inv_def, det_JacJacT_2_3, Ring.inverse_eq_inv', JacJacT_2_3_eq_mul_transpose,
    Matrix.adjugate_fin_two]
  ext i j
  fin_cases i <;> fin_cases j <;> simp [JacJacT_inv_2_3] <;> field_simp

/-- The `JacI` of the `(2,3)` specialisation is `Jacᵗ · (Jac · Jacᵗ)⁻¹`, a right inverse. -/
theorem pseudo_inverse_2_3 {K : Type} [Field K] (e : elem_type K) (vt : Mat K)
    (ig S : Nat) (hd : detJacJacT_2_3 e vt ig S ≠ 0) :
    Mat.toMatrix S 2 (Mat.ofFn S 2 (JacI_2_3 e vt ig S))
        = (Mat.toMatrix 2 S (Mat.ofFn 2 S (JacSum e vt ig))).transpose
          * (Mat.toMatrix 2 S (Mat.ofFn 2 S (JacSum e vt ig))
            * (Mat.toMatrix 2 S (Mat.ofFn 2 S (JacSum e vt ig))).transpose)⁻¹
    ∧ Mat.toMatrix 2 S (Mat.ofFn 2 S (JacSum e vt ig))
        * Mat.toMatrix S 2 (Mat.ofFn S 2 (JacI_2_3 e vt ig S)) = 1 := by
  have h1 : Mat.toMatrix S 2 (Mat.ofFn S 2 (JacI_2_3 e vt ig S))
        = (Mat.toMatrix 2 S (Mat.ofFn 2 S (JacSum e vt ig))).transpose
          * (Mat.toMatrix 2 S (Mat.ofFn 2 S (JacSum e vt ig))
            * (Mat.toMatrix 2 S (Mat.ofFn 2 S (JacSum e vt ig))).transpose)⁻¹ := by
    rw [JacJacT_inv_2_3_eq_inv e vt ig S hd]
    ext i j
    simp only [Mat.toMatrix_ofFn, Matrix.mul_apply, Matrix.transpose_apply, Matrix.of_apply,
      JacI_2_3]
    rw [Finset.sum_range]
  refine ⟨h1, ?_⟩
  rw [h1, ← Matrix.mul_assoc]
  apply Matrix.mul_nonsing_inv
  rw [det_JacJacT_2_3]
  exact isUnit_iff_ne_zero.mpr hd

/-! ## The concrete inputs -/

theorem hasShape_refTet (K : Type) [Field K] : Mat.hasShape 3 (tet4 K)._nc (refTet K) := by
  refine ⟨rfl, ?_⟩
  intro row hrow
  simp only [refTet, List.mem_cons, List.mem_singleton, List.not_mem_nil, or_false] at hrow
  rcases hrow with rfl | rfl | rfl <;> rfl

/-- The Jacobian sums of the reference tetrahedron: `Jac` is the identity. -/
theorem JacSum_refTet (K : Type) [Field K] (r d : Nat) (hr : r < 3) (hd : d < 3) :
    JacSum (tet4 K) (refTet K) 0 r d = if r = d then 1 else 0 := by
  interval_cases r <;> interval_cases d <;>
    simp [JacSum, tet4, refTet, elem_type.dphi, Mat.entry, Finset.sum_range_succ]

theorem detJac_refTet (K : Type) [Field K] :
    detJac_3_3 (JacSum (tet4 K) (refTet K) 0) = 1 := by
  simp [detJac_3_3, JacSum_refTet]

theorem hasShape_refTri (K : Type) [Field K] : Mat.hasShape 3 (tri3 K)._nc (refTri K) := by
  refine ⟨rfl, ?_⟩
  intro row hrow
  simp only [refTri, List.mem_cons, List.mem_singleton, List.not_mem_nil, or_false] at hrow
  rcases hrow with rfl | rfl | rfl <;> rfl

theorem hasShape_refLine (K : Type) [Field K] : Mat.hasShape 3 (line2 K)._nc (refLine K) := by
  refine ⟨rfl, ?_⟩
  intro row hrow
  simp only [refLine, List.mem_cons, List.mem_singleton, List.not_mem_nil, or_false] at hrow
  rcases hrow with rfl | rfl | rfl <;> rfl

/-- The Jacobian sums of the reference triangle: the two tangents are the first two unit vectors. -/
theorem JacSum_refTri (K : Type) [Field K] (r d : Nat) (hr : r < 2) (hd : d < 3) :
    JacSum (tri3 K) (refTri K) 0 r d = if r = d then 1 else 0 := by
  interval_cases r <;> interval_cases d <;>
    simp [JacSum, tri3, refTri, elem_type.dphi, Mat.entry, Finset.sum_range_succ]

theorem detJacJacT_refTri (K : Type) [Field K] :
    detJacJacT_2_3 (tri3 K) (refTri K) 0 3 = 1 := by
  simp [detJacJacT_2_3, JacJacT_2_3, Finset.sum_range_succ, JacSum_refTri]

/-- The Jacobian sums of the segment: the tangent is the first unit vector. -/
theorem JacSum_refLine (K : Type) [Field K] [CharZero K] (d : Nat) (hd : d < 3) :
    JacSum (line2 K) (refLine K) 0 0 d = if d = 0 then 1 else 0 := by
  interval_cases d <;>
    simp [JacSum, line2, refLine, elem_type.dphi, Mat.entry, Finset.sum_range_succ]

/-! ## Linear independence of the tangent rows -/

section independence
variable {K : Type}

/-- Lagrange's identity: the Gram determinant of two vectors is the squared length of
their cross product. -/
theorem gram_eq_cross_sq [CommRing K] (a0 a1 a2 b0 b1 b2 : K) :
    (a0 * a0 + a1 * a1 + a2 * a2) * (b0 * b0 + b1 * b1 + b2 * b2)
        - (a0 * b0 + a1 * b1 + a2 * b2) * (b0 * a0 + b1 * a1 + b2 * a2)
      = (a1 * b2 - b1 * a2) * (a1 * b2 - b1 * a2) + (b0 * a2 - b2 * a0) * (b0 * a2 - b2 * a0)
        + (a0 * b1 - b0 * a1) * (a0 * b1 - b0 * a1) := by
  ring

/-- A single row is linearly independent exactly when it is not the zero vector. -/
theorem rowsIndependent_one_iff [Field K] (M : Mat K) :
    Mat.rowsIndependent 1 M ↔ ∃ d < 3, Mat.entry M 0 d ≠ 0 := by
  unfold Mat.rowsIndependent
  rw [linearIndependent_unique_iff]
  constructor
  · intro h
    by_contra hcon
    push_neg at hcon
    apply h
    funext d
    exact hcon d d.isLt
  · rintro ⟨d, hd, hne⟩ h
    apply hne
    have := congrFun h ⟨d, hd⟩
    simpa [Mat.toMatrix] using this

/-- Two rows are linearly independent exactly when their cross product is not zero. -/
theorem rowsIndependent_two_iff [Field K] (M : Mat K) :
    Mat.rowsIndependent 2 M ↔
      ¬ (Mat.entry M 0 1 * Mat.entry M 1 2 - Mat.entry M 1 1 * Mat.entry M 0 2 = 0
        ∧ Mat.entry M 1 0 * Mat.entry M 0 2 - Mat.entry M 1 2 * Mat.entry M 0 0 = 0
        ∧ Mat.entry M 0 0 * Mat.entry M 1 1 - Mat.entry M 1 0 * Mat.entry M 0 1 = 0) := by
  unfold Mat.rowsIndependent
  have hfam : (fun r : Fin 2 => Mat.toMatrix 2 3 M r)
      = ![Mat.toMatrix 2 3 M 0, Mat.toMatrix 2 3 M 1] := by
    funext r
    fin_cases r <;> rfl
  rw [hfam, LinearIndependent.pair_iff]
  have hcomp : ∀ s t : K, s • Mat.toMatrix 2 3 M 0 + t • Mat.toMatrix 2 3 M 1 = 0 ↔
      (s * Mat.entry M 0 0 + t * Mat.entry M 1 0 = 0
        ∧ s * Mat.entry M 0 1 + t * Mat.entry M 1 1 = 0
        ∧ s * Mat.entry M 0 2 + t * Mat.entry M 1 2 = 0) := by
    intro s t
    constructor
    · intro h
      have h0 := congrFun h 0
      have h1 := congrFun h 1
      have h2 := congrFun h 2
      simp [Mat.toMatrix] at h0 h1 h2
      exact ⟨h0, h1, h2⟩
    · rintro ⟨h0, h1, h2⟩
      funext d
      fin_cases d <;> simp [Mat.toMatrix] <;> assumption
  simp only [hcomp]
  generalize Mat.entry M 0 0 = a0
  generalize Mat.entry M 0 1 = a1
  generalize Mat.entry M 0 2 = a2
  generalize Mat.entry M 1 0 = b0
  generalize Mat.entry M 1 1 = b1
  generalize Mat.entry M 1 2 = b2
  constructor
  · rintro h ⟨hx, hy, hz⟩
    by_cases ha0 : a0 = 0
    · by_cases ha1 : a1 = 0
      · by_cases ha2 : a2 = 0
        · have := h 1 0 (by simp [ha0, ha1, ha2])
          exact one_ne_zero this.1
        · have := h b2 (-a2) ⟨by linear_combination -hy, by linear_combination hx, by ring⟩
          exact ha2 (neg_eq_zero.mp this.2)
      · have := h b1 (-a1) ⟨by linear_combination hz, by ring, by linear_combination -hx⟩
        exact ha1 (neg_eq_zero.mp this.2)
    · have := h b0 (-a0) ⟨by ring, by linear_combination -hz, by linear_combination hy⟩
      exact ha0 (neg_eq_zero.mp this.2)
  · intro h s t ⟨h0, h1, h2⟩
    have hs : ∀ c : K, (c = a1 * b2 - b1 * a2 ∨ c = b0 * a2 - b2 * a0 ∨ c = a0 * b1 - b0 * a1) →
        s * c = 0 ∧ t * c = 0 := by
      rintro c (rfl | rfl | rfl)
      · exact ⟨by linear_combination b2 * h1 - b1 * h2, by linear_combination a1 * h2 - a2 * h1⟩
      · exact ⟨by linear_combination b0 * h2 - b2 * h0, by linear_combination a2 * h0 - a0 * h2⟩
      · exact ⟨by linear_combination b1 * h0 - b0 * h1, by linear_combination a0 * h1 - a1 * h0⟩
    by_contra hst
    apply h
    have key : ∀ c : K, (c = a1 * b2 - b1 * a2 ∨ c = b0 * a2 - b2 * a0 ∨ c = a0 * b1 - b0 * a1) →
        c = 0 := by
      intro c hc
      obtain ⟨h1', h2'⟩ := hs c hc
      by_contra hc0
      apply hst
      exact ⟨(mul_eq_zero.mp h1').resolve_right hc0, (mul_eq_zero.mp h2').resolve_right hc0⟩
    exact ⟨key _ (Or.inl rfl), key _ (Or.inr (Or.inl rfl)), key _ (Or.inr (Or.inr rfl))⟩

/-- Three rows are linearly independent exactly when the determinant is not zero. -/
theorem rowsIndependent_three_iff [Field K] (M : Mat K) :
    Mat.rowsIndependent 3 M ↔ (Mat.toMatrix 3 3 M).det ≠ 0 := by
  unfold Mat.rowsIndependent
  rw [Matrix.linearIndependent_rows_iff_isUnit, Matrix.isUnit_iff_isUnit_det,
    isUnit_iff_ne_zero]

end independence

/-! ## The normals in closed form -/

/-- Three assignments `v[0] = a; v[1] = b; v[2] = c` to a vector of length three. -/
theorem write_three {K : Type} (v : List K) (hv : v.length = 3) (a b c : K) :
    (do
      let v ← Vec.write v 0 a
      let v ← Vec.write v 1 b
      let v ← Vec.write v 2 c
      pure v : Run (List K)) = Except.ok [a, b, c] := by
  obtain ⟨x, y, z, rfl⟩ := List.length_eq_three.mp hv
  simp [Vec.write]

theorem compute_normal_2_3_eq {K : Type} [Field K] (sqrt : K → K) (Jac : Mat K)
    (normal : List K) (hJ : Mat.hasShape 2 3 Jac) :
    compute_normal_2_3 sqrt Jac normal
      = Except.ok [nx_2_3 Jac * invModn_2_3 sqrt Jac, ny_2_3 Jac * invModn_2_3 sqrt Jac,
          nz_2_3 Jac * invModn_2_3 sqrt Jac] := by
  have hr : ∀ i < 2, ∀ j < 3, Mat.read Jac i j = Except.ok (Mat.entry Jac i j) :=
    fun i hi j hj => Mat.read_of_hasShape 2 3 Jac hJ i j hi hj
  simp only [compute_normal_2_3, hr 0 (by omega) 0 (by omega), hr 0 (by omega) 1 (by omega),
    hr 0 (by omega) 2 (by omega), hr 1 (by omega) 0 (by omega), hr 1 (by omega) 1 (by omega),
    hr 1 (by omega) 2 (by omega), Run.ok_bind]
  exact write_three _ (length_resize 3 normal 0) _ _ _

/-! ## Degeneracy and the value of `detJac` -/

section degeneracy
variable {K : Type}

theorem rowsIndependent_ofFn_one [Field K] (J : Nat → Nat → K) :
    Mat.rowsIndependent 1 (Mat.ofFn 1 3 J) ↔ ∃ d < 3, J 0 d ≠ 0 := by
  rw [rowsIndependent_one_iff]
  constructor
  · rintro ⟨d, hd, h⟩
    exact ⟨d, hd, by rwa [Mat.entry_ofFn 1 3 J 0 d (by omega) hd] at h⟩
  · rintro ⟨d, hd, h⟩
    exact ⟨d, hd, by rwa [Mat.entry_ofFn 1 3 J 0 d (by omega) hd]⟩

theorem rowsIndependent_ofFn_two [Field K] (J : Nat → Nat → K) :
    Mat.rowsIndependent 2 (Mat.ofFn 2 3 J) ↔
      ¬ (J 0 1 * J 1 2 - J 1 1 * J 0 2 = 0 ∧ J 1 0 * J 0 2 - J 1 2 * J 0 0 = 0
        ∧ J 0 0 * J 1 1 - J 1 0 * J 0 1 = 0) := by
  rw [rowsIndependent_two_iff]
  simp only [Mat.entry_ofFn 2 3 J 0 0 (by omega) (by omega),
    Mat.entry_ofFn 2 3 J 0 1 (by omega) (by omega), Mat.entry_ofFn 2 3 J 0 2 (by omega) (by omega),
    Mat.entry_ofFn 2 3 J 1 0 (by omega) (by omega), Mat.entry_ofFn 2 3 J 1 1 (by omega) (by omega),
    Mat.entry_ofFn 2 3 J 1 2 (by omega) (by omega)]

theorem rowsIndependent_ofFn_three [Field K] (J : Nat → Nat → K) :
    Mat.rowsIndependent 3 (Mat.ofFn 3 3 J) ↔ detJac_3_3 J ≠ 0 := by
  rw [rowsIndependent_three_iff, det_toMatrix_3_3]

/-- The local `JacJacT[0][0]` of the `(1,3)` specialisation vanishes only for a zero tangent. -/
theorem JacJacT_1_3_pos_iff [LinearOrderedField K] (e : elem_type K) (vt : Mat K) (ig : Nat) :
    0 < JacJacT_1_3 e vt ig 3 ↔ ∃ d < 3, JacSum e vt ig 0 d ≠ 0 := by
  simp only [JacJacT_1_3, Finset.sum_range_succ, Finset.sum_range_zero, zero_add]
  have h0 := mul_self_nonneg (JacSum e vt ig 0 0)
  have h1 := mul_self_nonneg (JacSum e vt ig 0 1)
  have h2 := mul_self_nonneg (JacSum e vt ig 0 2)
  constructor
  · intro hpos
    by_contra hcon
    push_neg at hcon
    rw [hcon 0 (by omega), hcon 1 (by omega), hcon 2 (by omega)] at hpos
    simp at hpos
  · rintro ⟨d, hd, hne⟩
    have hp := mul_self_pos.mpr hne
    interval_cases d <;> linarith

theorem JacJacT_1_3_nonneg [LinearOrderedField K] (e : elem_type K) (vt : Mat K) (ig : Nat) :
    0 ≤ JacJacT_1_3 e vt ig 3 := by
  simp only [JacJacT_1_3, Finset.sum_range_succ, Finset.sum_range_zero, zero_add]
  have h0 := mul_self_nonneg (JacSum e vt ig 0 0)
  have h1 := mul_self_nonneg (JacSum e vt ig 0 1)
  have h2 := mul_self_nonneg (JacSum e vt ig 0 2)
  linarith

/-- The local `detJacJacT` of the `(2,3)` specialisation is the squared length of the cross
product of the two tangent rows. -/
theorem detJacJacT_2_3_eq_cross_sq [Field K] (e : elem_type K) (vt : Mat K) (ig : Nat) :
    detJacJacT_2_3 e vt ig 3
      = (JacSum e vt ig 0 1 * JacSum e vt ig 1 2 - JacSum e vt ig 1 1 * JacSum e vt ig 0 2)
          * (JacSum e vt ig 0 1 * JacSum e vt ig 1 2 - JacSum e vt ig 1 1 * JacSum e vt ig 0 2)
        + (JacSum e vt ig 1 0 * JacSum e vt ig 0 2 - JacSum e vt ig 1 2 * JacSum e vt ig 0 0)
          * (JacSum e vt ig 1 0 * JacSum e vt ig 0 2 - JacSum e vt ig 1 2 * JacSum e vt ig 0 0)
        + (JacSum e vt ig 0 0 * JacSum e vt ig 1 1 - JacSum e vt ig 1 0 * JacSum e vt ig 0 1)
          * (JacSum e vt ig 0 0 * JacSum e vt ig 1 1 - JacSum e vt ig 1 0 * JacSum e vt ig 0 1) := by
  simp only [detJacJacT_2_3, JacJacT_2_3, Finset.sum_range_succ, Finset.sum_range_zero, zero_add]
  exact gram_eq_cross_sq _ _ _ _ _ _

theorem detJacJacT_2_3_nonneg [LinearOrderedField K] (e : elem_type K) (vt : Mat K) (ig : Nat) :
    0 ≤ detJacJacT_2_3 e vt ig 3 := by
  rw [detJacJacT_2_3_eq_cross_sq]
  have h0 := mul_self_nonneg
    (JacSum e vt ig 0 1 * JacSum e vt ig 1 2 - JacSum e vt ig 1 1 * JacSum e vt ig 0 2)
  have h1 := mul_self_nonneg
    (JacSum e vt ig 1 0 * JacSum e vt ig 0 2 - JacSum e vt ig 1 2 * JacSum e vt ig 0 0)
  have h2 := mul_self_nonneg
    (JacSum e vt ig 0 0 * JacSum e vt ig 1 1 - JacSum e vt ig 1 0 * JacSum e vt ig 0 1)
  linarith

theorem detJacJacT_2_3_pos_iff [LinearOrderedField K] (e : elem_type K) (vt : Mat K) (ig : Nat) :
    0 < detJacJacT_2_3 e vt ig 3 ↔ Mat.rowsIndependent 2 (Mat.ofFn 2 3 (JacSum e vt ig)) := by
  rw [rowsIndependent_ofFn_two, detJacJacT_2_3_eq_cross_sq]
  have h0 := mul_self_nonneg
    (JacSum e vt ig 0 1 * JacSum e vt ig 1 2 - JacSum e vt ig 1 1 * JacSum e vt ig 0 2)
  have h1 := mul_self_nonneg
    (JacSum e vt ig 1 0 * JacSum e vt ig 0 2 - JacSum e vt ig 1 2 * JacSum e vt ig 0 0)
  have h2 := mul_self_nonneg
    (JacSum e vt ig 0 0 * JacSum e vt ig 1 1 - JacSum e vt ig 1 0 * JacSum e vt ig 0 1)
  constructor
  · rintro hpos ⟨hx, hy, hz⟩
    rw [hx, hy, hz] at hpos
    simp at hpos
  · intro h
    by_contra hcon
    apply h
    have hsum : (JacSum e vt ig 0 1 * JacSum e vt ig 1 2 - JacSum e vt ig 1 1 * JacSum e vt ig 0 2)
          * (JacSum e vt ig 0 1 * JacSum e vt ig 1 2 - JacSum e vt ig 1 1 * JacSum e vt ig 0 2) = 0
        ∧ (JacSum e vt ig 1 0 * JacSum e vt ig 0 2 - JacSum e vt ig 1 2 * JacSum e vt ig 0 0)
          * (JacSum e vt ig 1 0 * JacSum e vt ig 0 2 - JacSum e vt ig 1 2 * JacSum e vt ig 0 0) = 0
        ∧ (JacSum e vt ig 0 0 * JacSum e vt ig 1 1 - JacSum e vt ig 1 0 * JacSum e vt ig 0 1)
          * (JacSum e vt ig 0 0 * JacSum e vt ig 1 1 - JacSum e vt ig 1 0 * JacSum e vt ig 0 1) = 0 := by
      refine ⟨?_, ?_, ?_⟩ <;> linarith
    exact ⟨mul_self_eq_zero.mp hsum.1, mul_self_eq_zero.mp hsum.2.1,
      mul_self_eq_zero.mp hsum.2.2⟩

end degeneracy

theorem hasShape_mirroredTet (K : Type) [Field K] :
    Mat.hasShape 3 (tet4 K)._nc (mirroredTet K) := by
  refine ⟨rfl, ?_⟩
  intro row hrow
  simp only [mirroredTet, List.mem_cons, List.mem_singleton, List.not_mem_nil, or_false] at hrow
  rcases hrow with rfl | rfl | rfl <;> rfl

theorem hasShape_collapsedLine (K : Type) [Field K] :
    Mat.hasShape 3 (line2 K)._nc (collapsedLine K) := by
  refine ⟨rfl, ?_⟩
  intro row hrow
  simp only [collapsedLine, List.mem_cons, List.mem_singleton, List.not_mem_nil, or_false] at hrow
  rcases hrow with rfl | rfl | rfl <;> rfl

/-- The Jacobian sums of the mirrored tetrahedron: `Jac = diag(1, 1, -1)`. -/
theorem JacSum_mirroredTet (K : Type) [Field K] (r d : Nat) (hr : r < 3) (hd : d < 3) :
    JacSum (tet4 K) (mirroredTet K) 0 r d = if r = d then (if r = 2 then -1 else 1) else 0 := by
  interval_cases r <;> interval_cases d <;>
    simp [JacSum, tet4, mirroredTet, elem_type.dphi, Mat.entry, Finset.sum_range_succ]

theorem detJac_mirroredTet (K : Type) [Field K] :
    detJac_3_3 (JacSum (tet4 K) (mirroredTet K) 0) = -1 := by
  simp [detJac_3_3, JacSum_mirroredTet]

/-! ## The returned `Jac` of a run -/

theorem Jac_of_run_1_3 {K : Type} [Field K] (sqrt : K → K) (e : elem_type K) (vt : Mat K)
    (ig : Nat) (Jac JacI : Mat K) (hvt : Mat.hasShape 3 e._nc vt) (out : JacOut K)
    (h : Jacobian_geometry_templ_1_3 sqrt e vt ig Jac JacI 1 3 = Except.ok out) :
    out.Jac = Mat.ofFn 1 3 (JacSum e vt ig) := by
  rw [Jacobian_geometry_templ_1_3_eq sqrt e vt ig Jac JacI 3
    (Mat.covers_of_hasShape 3 _ _ hvt)] at h
  injection h with h
  rw [← h]

theorem Jac_of_run_2_3 {K : Type} [LinearOrderedField K] (sqrt : K → K) (e : elem_type K)
    (vt : Mat K) (ig : Nat) (Jac JacI : Mat K) (hvt : Mat.hasShape 3 e._nc vt) (out : JacOut K)
    (h : Jacobian_geometry_templ_2_3 sqrt e vt ig Jac JacI 2 3 = Except.ok out) :
    out.Jac = Mat.ofFn 2 3 (JacSum e vt ig) := by
  rw [Jacobian_geometry_templ_2_3_eq sqrt e vt ig Jac JacI 3
    (Mat.covers_of_hasShape 3 _ _ hvt)] at h
  injection h with h
  rw [← h]

theorem Jac_of_run_3_3 {K : Type} [Field K] (e : elem_type K) (vt : Mat K)
    (ig : Nat) (Jac JacI : Mat K) (hvt : Mat.hasShape 3 e._nc vt) (out : JacOut K)
    (h : Jacobian_geometry_templ_3_3 e vt ig Jac JacI 3 3 = Except.ok out) :
    out.Jac = Mat.ofFn 3 3 (JacSum e vt ig) := by
  rw [Jacobian_geometry_templ_3_3_eq e vt ig Jac JacI
    (Mat.covers_of_hasShape 3 _ _ hvt)] at h
  injection h with h
  rw [← h]

theorem rowsIndependent_refTet_one (K : Type) [Field K] :
    Mat.rowsIndependent 1 (Mat.ofFn 1 3 (JacSum (tet4 K) (refTet K) 0)) := by
  rw [rowsIndependent_ofFn_one]
  exact ⟨0, by omega, by simp [JacSum_refTet]⟩

theorem rowsIndependent_refTet_two (K : Type) [Field K] :
    Mat.rowsIndependent 2 (Mat.ofFn 2 3 (JacSum (tet4 K) (refTet K) 0)) := by
  rw [rowsIndependent_ofFn_two]
  simp [JacSum_refTet]

theorem rowsIndependent_refTet_three (K : Type) [Field K] :
    Mat.rowsIndependent 3 (Mat.ofFn 3 3 (JacSum (tet4 K) (refTet K) 0)) := by
  rw [rowsIndependent_ofFn_three, detJac_refTet]
  exact one_ne_zero

/-- The collapsed line read by the three specialisations: every Jacobian sum is zero. -/
theorem JacSum_collapsedLine_all (K : Type) [Field K] (r d : Nat) (hr : r < 3) (hd : d < 3) :
    JacSum (line2 K) (collapsedLine K) 0 r d = 0 := by
  interval_cases r <;> interval_cases d <;>
    simp [JacSum, line2, collapsedLine, elem_type.dphi, Mat.entry, Finset.sum_range_succ] <;>
    ring

theorem not_rowsIndependent_collapsedLine_one (K : Type) [Field K] :
    ¬ Mat.rowsIndependent 1 (Mat.ofFn 1 3 (JacSum (line2 K) (collapsedLine K) 0)) := by
  rw [rowsIndependent_ofFn_one]
  rintro ⟨d, hd, h⟩
  exact h (JacSum_collapsedLine_all K 0 d (by omega) hd)

theorem not_rowsIndependent_collapsedLine_two (K : Type) [Field K] :
    ¬ Mat.rowsIndependent 2 (Mat.ofFn 2 3 (JacSum (line2 K) (collapsedLine K) 0)) := by
  rw [rowsIndependent_ofFn_two]
  simp [JacSum_collapsedLine_all]

theorem not_rowsIndependent_collapsedLine_three (K : Type) [Field K] :
    ¬ Mat.rowsIndependent 3 (Mat.ofFn 3 3 (JacSum (line2 K) (collapsedLine K) 0)) := by
  rw [rowsIndependent_ofFn_three]
  simp [detJac_3_3, JacSum_collapsedLine_all]

theorem hasShape_unitTangents (K : Type) [Field K] : Mat.hasShape 2 3 (unitTangents K) := by
  refine ⟨rfl, ?_⟩
  intro row hrow
  simp only [unitTangents, List.mem_cons, List.mem_singleton, List.not_mem_nil, or_false] at hrow
  rcases hrow with rfl | rfl <;> rfl

theorem rowsIndependent_unitTangents (K : Type) [Field K] :
    Mat.rowsIndependent 2 (unitTangents K) := by
  rw [rowsIndependent_two_iff]
  simp [Mat.entry, unitTangents]

/-! ## Lemmas on vectors and on loops that fill them -/

section vectors
variable {K : Type}

theorem Vec.ofFn_length (n : Nat) (f : Nat → K) : (Vec.ofFn n f).length = n := by
  simp [Vec.ofFn]

theorem Vec.ofFn_read (n : Nat) (f : Nat → K) (i : Nat) (hi : i < n) :
    Vec.read (Vec.ofFn n f) i = Except.ok (f i) := by
  simp [Vec.read, Vec.ofFn, getElem?_map_range, hi]

theorem Vec.ofFn_entry [Zero K] (n : Nat) (f : Nat → K) (i : Nat) (hi : i < n) :
    Vec.entry (Vec.ofFn n f) i = f i := by
  simp [Vec.entry, Vec.ofFn, List.getD_eq_getElem?_getD, getElem?_map_range, hi]

theorem Vec.ofFn_write (n : Nat) (f : Nat → K) (i : Nat) (x : K) (hi : i < n) :
    Vec.write (Vec.ofFn n f) i x
      = Except.ok (Vec.ofFn n (fun k => if k = i then x else f k)) := by
  simp only [Vec.write, Vec.ofFn, List.length_map, List.length_range, hi, if_true,
    Run.pure_eq, set_map_range]

theorem Vec.ofFn_ext (n : Nat) (f g : Nat → K) (h : ∀ k < n, f k = g k) :
    Vec.ofFn n f = Vec.ofFn n g := by
  unfold Vec.ofFn
  apply List.map_congr_left
  intro k hk
  exact h k (List.mem_range.mp hk)

theorem Vec.eq_ofFn_of_length [Zero K] (n : Nat) (v : List K) (h : v.length = n) :
    v = Vec.ofFn n (Vec.entry v) := by
  apply List.ext_getElem?
  intro i
  simp only [Vec.ofFn, getElem?_map_range]
  by_cases hi : i < n
  · have hi' : i < v.length := h ▸ hi
    simp [hi, Vec.entry, List.getD_eq_getElem?_getD, List.getElem?_eq_getElem hi']
  · simp only [hi, if_false]
    exact List.getElem?_eq_none (by omega)

theorem Vec.fill_resize [Zero K] (n : Nat) (v : List K) :
    fill (resize n v 0) 0 = Vec.ofFn n (fun _ => 0) := by
  rw [fill_eq, length_resize]
  rfl

/-- The loop `for (i < n) v[i] = H i` on a vector of length `N ≥ n`. -/
theorem forLoop_vec_prefix (n N : Nat) (hN : n ≤ N) (body : Nat → List K → Run (List K))
    (H : Nat → K) (hbody : ∀ i < n, ∀ v : List K, body i v = Vec.write v i (H i))
    (f0 : Nat → K) :
    forLoop n body (Vec.ofFn N f0)
      = Except.ok (Vec.ofFn N (fun k => if k < n then H k else f0 k)) := by
  have h := forLoop_eq body
    (fun i => Vec.ofFn N (fun k => if k < i then H k else f0 k)) n (by
      intro i hi
      rw [hbody i hi, Vec.ofFn_write N _ i _ (by omega)]
      congr 1
      apply Vec.ofFn_ext
      intro k _
      by_cases hk : k = i
      · subst hk; simp
      · have : k < i + 1 ↔ k < i := by omega
        simp [hk, this])
  simpa using h

/-- A loop on a vector of length `n * c` whose round `i` assigns the values `V k` to the
`c` entries `k` of block `i`. -/
theorem forLoop_vec_blocks (n c : Nat) (body : Nat → List K → Run (List K)) (V : Nat → K)
    (hbody : ∀ i < n, ∀ f : Nat → K, body i (Vec.ofFn (n * c) f)
      = Except.ok (Vec.ofFn (n * c) (fun k => if k / c = i then V k else f k)))
    (f0 : Nat → K) :
    forLoop n body (Vec.ofFn (n * c) f0) = Except.ok (Vec.ofFn (n * c) V) := by
  have h := forLoop_eq body
    (fun i => Vec.ofFn (n * c) (fun k => if k / c < i then V k else f0 k)) n (by
      intro i hi
      rw [hbody i hi]
      congr 1
      apply Vec.ofFn_ext
      intro k _
      generalize k / c = q
      by_cases hq : q = i
      · subst hq; simp
      · by_cases hq2 : q < i
        · have : q < i + 1 := by omega
          simp [hq, hq2, this]
        · have : ¬ q < i + 1 := by omega
          simp [hq, hq2, this])
  simp only [not_lt_zero', if_false] at h
  rw [h]
  congr 1
  apply Vec.ofFn_ext
  intro k hk
  have : k / c < n := Nat.div_lt_of_lt_mul (by rw [Nat.mul_comm]; exact hk)
  simp [this]

/-- The loop of an optional vector: a vector that is present is run through `body`. -/
theorem forLoop_option (n : Nat) (fN : Nat → Option (List K) → Run (Option (List K)))
    (body : Nat → List K → Run (List K))
    (hsome : ∀ i < n, ∀ v : List K, fN i (some v) = (do
      let v ← body i v
      pure (some v)))
    (v v' : List K) (h : forLoop n body v = Except.ok v') :
    forLoop n fN (some v) = Except.ok (some v') := by
  induction n generalizing v' with
  | zero =>
    simp only [forLoop_zero] at h ⊢
    injection h with h
    rw [h]
  | succ k ih =>
    rw [forLoop_succ] at h ⊢
    cases hk : forLoop k body v with
    | error x => rw [hk] at h; cases h
    | ok w =>
      rw [hk, Run.ok_bind] at h
      rw [ih (fun i hi => hsome i (Nat.lt_succ_of_lt hi)) w hk, Run.ok_bind,
        hsome k (Nat.lt_succ_self k), h, Run.ok_bind, Run.pure_eq]

/-- The loop of an optional vector: nothing happens to `none`. -/
theorem forLoop_option_none (n : Nat) (fN : Nat → Option (List K) → Run (Option (List K)))
    (hnone : ∀ i < n, fN i none = Except.ok none) :
    forLoop n fN none = Except.ok none := by
  induction n with
  | zero => rfl
  | succ k ih =>
    rw [forLoop_succ, ih (fun i hi => hnone i (Nat.lt_succ_of_lt hi)), Run.ok_bind,
      hnone k (Nat.lt_succ_self k)]

/-- A loop on the three output vectors that treats each of them on its own. -/
theorem forLoop_shape (n : Nat) (body : Nat → ShapeOut K → Run (ShapeOut K))
    (fP fG : Nat → List K → Run (List K))
    (fN : Nat → Option (List K) → Run (Option (List K)))
    (hbody : ∀ i < n, ∀ s : ShapeOut K, body i s = (do
      let p ← fP i s.phi
      let g ← fG i s.gradphi
      let h ← fN i s.nablaphi
      pure ⟨s.Weight, p, g, h⟩))
    (W : K) (p0 g0 : List K) (h0 : Option (List K)) (p g : List K) (h : Option (List K))
    (hP : forLoop n fP p0 = Except.ok p) (hG : forLoop n fG g0 = Except.ok g)
    (hN : forLoop n fN h0 = Except.ok h) :
    forLoop n body ⟨W, p0, g0, h0⟩ = Except.ok ⟨W, p, g, h⟩ := by
  induction n generalizing p g h with
  | zero =>
    simp only [forLoop_zero] at hP hG hN ⊢
    injection hP with hP
    injection hG with hG
    injection hN with hN
    rw [hP, hG, hN]
  | succ k ih =>
    rw [forLoop_succ] at hP hG hN ⊢
    cases hPk : forLoop k fP p0 with
    | error x => rw [hPk] at hP; cases hP
    | ok p1 =>
      cases hGk : forLoop k fG g0 with
      | error x => rw [hGk] at hG; cases hG
      | ok g1 =>
        cases hNk : forLoop k fN h0 with
        | error x => rw [hNk] at hN; cases hN
        | ok h1 =>
          rw [hPk, Run.ok_bind] at hP
          rw [hGk, Run.ok_bind] at hG
          rw [hNk, Run.ok_bind] at hN
          rw [ih (fun i hi => hbody i (Nat.lt_succ_of_lt hi)) p1 g1 h1 hPk hGk hNk,
            Run.ok_bind, hbody k (Nat.lt_succ_self k)]
          simp only [hP, hG, hN, Run.ok_bind, Run.pure_eq]

end vectors

/-! ## The shape evaluators in closed form -/

section evaluators
variable {K : Type}

/-- Three assignments to the block `i` of a vector of length `n * 3`. -/
theorem write_block3 (n i : Nat) (hi : i < n) (f : Nat → K) (val : Nat → Nat → K) :
    (do
      let g ← Vec.write (Vec.ofFn (n * 3) f) (3 * i + 0) (val i 0)
      let g ← Vec.write g (3 * i + 1) (val i 1)
      Vec.write g (3 * i + 2) (val i 2) : Run (List K))
      = Except.ok (Vec.ofFn (n * 3)
          (fun k => if k / 3 = i then val (k / 3) (k % 3) else f k)) := by
  simp only [Vec.ofFn_write (n * 3) _ (3 * i + 0) _ (by omega),
    Vec.ofFn_write (n * 3) _ (3 * i + 1) _ (by omega),
    Vec.ofFn_write (n * 3) _ (3 * i + 2) _ (by omega), Run.ok_bind]
  congr 1
  apply Vec.ofFn_ext
  intro k _
  have hk : k = 3 * (k / 3) + k % 3 := (Nat.div_add_mod k 3).symm
  have hm : k % 3 < 3 := Nat.mod_lt k (by omega)
  generalize k / 3 = q at hk ⊢
  generalize k % 3 = r at hk hm ⊢
  subst hk
  by_cases hq : q = i
  · subst hq
    interval_cases r <;> simp
  · have h1 : ¬ (3 * q + r = 3 * i + 1) := by omega
    have h2 : ¬ (3 * q + r = 3 * i + 2) := by omega
    have h0' : ¬ (3 * q + r = 3 * i) := by omega
    simp [hq, h0', h1, h2]

/-- Three assignments to the block `i` of a vector of length `n * 3`, indexed `i * 3 + d`. -/
theorem write_block3_right (n i : Nat) (hi : i < n) (f : Nat → K) (val : Nat → Nat → K) :
    (do
      let g ← Vec.write (Vec.ofFn (n * 3) f) (i * 3 + 0) (val i 0)
      let g ← Vec.write g (i * 3 + 1) (val i 1)
      Vec.write g (i * 3 + 2) (val i 2) : Run (List K))
      = Except.ok (Vec.ofFn (n * 3)
          (fun k => if k / 3 = i then val (k / 3) (k % 3) else f k)) := by
  rw [Nat.mul_comm i 3]
  exact write_block3 n i hi f val

/-- Six assignments to the block `i` of a vector of length `n * 6`. -/
theorem write_block6 (n i : Nat) (hi : i < n) (f : Nat → K) (val : Nat → Nat → K) :
    (do
      let g ← Vec.write (Vec.ofFn (n * 6) f) (6 * i + 0) (val i 0)
      let g ← Vec.write g (6 * i + 1) (val i 1)
      let g ← Vec.write g (6 * i + 2) (val i 2)
      let g ← Vec.write g (6 * i + 3) (val i 3)
      let g ← Vec.write g (6 * i + 4) (val i 4)
      Vec.write g (6 * i + 5) (val i 5) : Run (List K))
      = Except.ok (Vec.ofFn (n * 6)
          (fun k => if k / 6 = i then val (k / 6) (k % 6) else f k)) := by
  simp only [Vec.ofFn_write (n * 6) _ (6 * i + 0) _ (by omega),
    Vec.ofFn_write (n * 6) _ (6 * i + 1) _ (by omega),
    Vec.ofFn_write (n * 6) _ (6 * i + 2) _ (by omega),
    Vec.ofFn_write (n * 6) _ (6 * i + 3) _ (by omega),
    Vec.ofFn_write (n * 6) _ (6 * i + 4) _ (by omega),
    Vec.ofFn_write (n * 6) _ (6 * i + 5) _ (by omega), Run.ok_bind]
  congr 1
  apply Vec.ofFn_ext
  intro k _
  have hk : k = 6 * (k / 6) + k % 6 := (Nat.div_add_mod k 6).symm
  have hm : k % 6 < 6 := Nat.mod_lt k (by omega)
  generalize k / 6 = q at hk ⊢
  generalize k % 6 = r at hk hm ⊢
  subst hk
  by_cases hq : q = i
  · subst hq
    interval_cases r <;> simp
  · have h0 : ¬ (6 * q + r = 6 * i) := by omega
    have h1 : ¬ (6 * q + r = 6 * i + 1) := by omega
    have h2 : ¬ (6 * q + r = 6 * i + 2) := by omega
    have h3 : ¬ (6 * q + r = 6 * i + 3) := by omega
    have h4 : ¬ (6 * q + r = 6 * i + 4) := by omega
    have h5 : ¬ (6 * q + r = 6 * i + 5) := by omega
    simp [hq, h0, h1, h2, h3, h4, h5]

/-- The loop that copies the reference values into `phi`. -/
theorem phi_loop [Zero K] (e : elem_type K) (ig : Nat) (phi : List K) :
    forLoop e._nc (fun i p => Vec.write p i (e._phi ig i)) (resize e._nc phi 0)
      = Except.ok (Vec.ofFn e._nc (e._phi ig)) := by
  rw [Vec.eq_ofFn_of_length e._nc (resize e._nc phi 0) (length_resize _ _ _),
    forLoop_vec_prefix e._nc e._nc (le_refl _) _ (e._phi ig) (fun _ _ _ => rfl)]
  congr 1
  apply Vec.ofFn_ext
  intro k hk
  simp [hk]

theorem gradphi_3_3_def [Field K] (e : elem_type K) (ig : Nat) (JacI : Mat K) (i d : Nat) :
    gradphi_3_3 e ig JacI i d
      = e._dphidxi ig i * Mat.entry JacI d 0 + e._dphideta ig i * Mat.entry JacI d 1
        + e._dphidzeta ig i * Mat.entry JacI d 2 := rfl

theorem nablaphi_3_3_def [Field K] (e : elem_type K) (ig : Nat) (JacI : Mat K) (i p q : Nat) :
    nablaphi_3_3 e ig JacI i p q
      = (e._d2phidxi2 ig i * Mat.entry JacI p 0 + e._d2phidxideta ig i * Mat.entry JacI p 1
            + e._d2phidzetadxi ig i * Mat.entry JacI p 2) * Mat.entry JacI q 0 +
        (e._d2phidxideta ig i * Mat.entry JacI p 0 + e._d2phideta2 ig i * Mat.entry JacI p 1
            + e._d2phidetadzeta ig i * Mat.entry JacI p 2) * Mat.entry JacI q 1 +
        (e._d2phidzetadxi ig i * Mat.entry JacI p 0
            + e._d2phidetadzeta ig i * Mat.entry JacI p 1
            + e._d2phidzeta2 ig i * Mat.entry JacI p 2) * Mat.entry JacI q 2 := rfl

theorem gradphi_3_3_eq_sum [Field K] (e : elem_type K) (ig : Nat) (JacI : Mat K) (i d : Nat) :
    gradphi_3_3 e ig JacI i d = gradphiSum 3 e ig JacI i d := by
  simp [gradphi_3_3, gradphiSum, Finset.sum_range_succ, elem_type.dphi]

theorem nablaphi_3_3_eq_sum [Field K] (e : elem_type K) (ig : Nat) (JacI : Mat K)
    (i p q : Nat) :
    nablaphi_3_3 e ig JacI i p q = nablaphiSum 3 e ig JacI i p q := by
  simp only [nablaphi_3_3, nablaphiSum, Finset.sum_range_succ, Finset.sum_range_zero,
    elem_type.d2phi, zero_add]
  ring

/-- The loop of the `(3,3)` evaluator on `gradphi`. -/
theorem gradphi_loop_3_3 [Field K] (e : elem_type K) (ig : Nat) (JacI : Mat K)
    (gradphi : List K) :
    forLoop e._nc (fun i g => do
        let g ← Vec.write g (3 * i + 0) (gradphi_3_3 e ig JacI i 0)
        let g ← Vec.write g (3 * i + 1) (gradphi_3_3 e ig JacI i 1)
        Vec.write g (3 * i + 2) (gradphi_3_3 e ig JacI i 2))
      (fill (resize (e._nc * 3) gradphi 0) 0)
      = Except.ok (Vec.ofFn (e._nc * 3) (fun k => gradphiSum 3 e ig JacI (k / 3) (k % 3))) := by
  rw [Vec.fill_resize, forLoop_vec_blocks e._nc 3 _
    (fun k => gradphi_3_3 e ig JacI (k / 3) (k % 3))
    (fun i hi f => write_block3 e._nc i hi f (gradphi_3_3 e ig JacI))]
  simp only [gradphi_3_3_eq_sum]

/-- The loop of the `(3,3)` evaluator on a requested `nablaphi`. -/
theorem nablaphi_loop_3_3 [Field K] (e : elem_type K) (ig : Nat) (JacI : Mat K)
    (v : List K) :
    forLoop e._nc (fun i v => do
        let v ← Vec.write v (6 * i + 0) (nablaphi_3_3 e ig JacI i 0 0)
        let v ← Vec.write v (6 * i + 1) (nablaphi_3_3 e ig JacI i 1 1)
        let v ← Vec.write v (6 * i + 2) (nablaphi_3_3 e ig JacI i 2 2)
        let v ← Vec.write v (6 * i + 3) (nablaphi_3_3 e ig JacI i 0 1)
        let v ← Vec.write v (6 * i + 4) (nablaphi_3_3 e ig JacI i 1 2)
        Vec.write v (6 * i + 5) (nablaphi_3_3 e ig JacI i 2 0))
      (resize (e._nc * 6) v 0)
      = Except.ok (Vec.ofFn (e._nc * 6) (fun k =>
          nablaphiSum 3 e ig JacI (k / 6) (hessianPair_3D (k % 6)).1
            (hessianPair_3D (k % 6)).2)) := by
  rw [Vec.eq_ofFn_of_length (e._nc * 6) (resize (e._nc * 6) v 0) (length_resize _ _ _),
    forLoop_vec_blocks e._nc 6 _
      (fun k => nablaphi_3_3 e ig JacI (k / 6) (hessianPair_3D (k % 6)).1
        (hessianPair_3D (k % 6)).2)
      (fun i hi f => write_block6 e._nc i hi f
        (fun i c => nablaphi_3_3 e ig JacI i (hessianPair_3D c).1 (hessianPair_3D c).2))]
  simp only [nablaphi_3_3_eq_sum]

theorem Jacobian_non_isoparametric_templ_3_3_eq [LinearOrderedField K] (sqrt : K → K)
    (e : elem_type K) (fe : elem_type_jac_templ_base K) (vt : Mat K) (ig : Nat)
    (phi gradphi : List K) (nablaphi : Option (List K)) (dim space_dim : Nat)
    (geom : JacOut K)
    (hgeom : fe.Jacobian_geometry_templ sqrt vt ig [] [] dim space_dim = Except.ok geom)
    (hI : Mat.covers 3 3 geom.JacI) :
    Jacobian_non_isoparametric_templ_3_3 sqrt e fe vt ig phi gradphi nablaphi dim space_dim
      = Except.ok ⟨geom.detJac * e.GetGaussWeightsPointer ig, Vec.ofFn e._nc (e._phi ig),
          Vec.ofFn (e._nc * 3) (fun k => gradphiSum 3 e ig geom.JacI (k / 3) (k % 3)),
          nablaphi.map (fun _ => Vec.ofFn (e._nc * 6) (fun k =>
            nablaphiSum 3 e ig geom.JacI (k / 6) (hessianPair_3D (k % 6)).1
              (hessianPair_3D (k % 6)).2))⟩ := by
  have r00 := hI 0 (by omega) 0 (by omega)
  have r01 := hI 0 (by omega) 1 (by omega)
  have r02 := hI 0 (by omega) 2 (by omega)
  have r10 := hI 1 (by omega) 0 (by omega)
  have r11 := hI 1 (by omega) 1 (by omega)
  have r12 := hI 1 (by omega) 2 (by omega)
  have r20 := hI 2 (by omega) 0 (by omega)
  have r21 := hI 2 (by omega) 1 (by omega)
  have r22 := hI 2 (by omega) 2 (by omega)
  simp only [Jacobian_non_isoparametric_templ_3_3, hgeom, Run.ok_bind, r00, r01, r02, r10,
    r11, r12, r20, r21, r22, ← gradphi_3_3_def, ← nablaphi_3_3_def]
  refine forLoop_shape e._nc _
    (fun i p => Vec.write p i (e._phi ig i))
    (fun i g => do
      let g ← Vec.write g (3 * i + 0) (gradphi_3_3 e ig geom.JacI i 0)
      let g ← Vec.write g (3 * i + 1) (gradphi_3_3 e ig geom.JacI i 1)
      Vec.write g (3 * i + 2) (gradphi_3_3 e ig geom.JacI i 2))
    (fun i o => match o with
      | some v => do
        let v ← Vec.write v (6 * i + 0) (nablaphi_3_3 e ig geom.JacI i 0 0)
        let v ← Vec.write v (6 * i + 1) (nablaphi_3_3 e ig geom.JacI i 1 1)
        let v ← Vec.write v (6 * i + 2) (nablaphi_3_3 e ig geom.JacI i 2 2)
        let v ← Vec.write v (6 * i + 3) (nablaphi_3_3 e ig geom.JacI i 0 1)
        let v ← Vec.write v (6 * i + 4) (nablaphi_3_3 e ig geom.JacI i 1 2)
        let v ← Vec.write v (6 * i + 5) (nablaphi_3_3 e ig geom.JacI i 2 0)
        pure (some v)
      | none => pure none)
    ?_ _ _ _ _ _ _ _ (phi_loop e ig phi) (gradphi_loop_3_3 e ig geom.JacI gradphi) ?_
  · intro i _ s
    obtain ⟨W, p, g, h⟩ := s
    cases h <;> simp only [bind_assoc, Run.pure_eq, Run.ok_bind]
  · cases nablaphi with
    | none => exact forLoop_option_none _ _ (fun _ _ => rfl)
    | some v =>
      exact forLoop_option _ _ _ (fun i _ w => by simp only [bind_assoc]) _ _
        (nablaphi_loop_3_3 e ig geom.JacI v)

/-- The loop `for (d < 3) body` unrolled. -/
theorem forLoop_three {σ : Type} (body : Nat → σ → Run σ) (s : σ) :
    forLoop 3 body s = (do
      let s ← body 0 s
      let s ← body 1 s
      body 2 s) := by
  show (body 0 s >>= body 1) >>= body 2 = _
  rw [bind_assoc]

theorem gradphi_2_3_def [Field K] (e : elem_type K) (ig : Nat) (JacI : Mat K) (i d : Nat) :
    gradphi_2_3 e ig JacI i d
      = e._dphidxi ig i * Mat.entry JacI d 0 + e._dphideta ig i * Mat.entry JacI d 1 := rfl

theorem nablaphi_2_3_def [Field K] (e : elem_type K) (ig : Nat) (JacI : Mat K) (i p q : Nat) :
    nablaphi_2_3 e ig JacI i p q
      = (e._d2phidxi2 ig i * Mat.entry JacI p 0 + e._d2phidxideta ig i * Mat.entry JacI p 1)
            * Mat.entry JacI q 0 +
        (e._d2phidxideta ig i * Mat.entry JacI p 0 + e._d2phideta2 ig i * Mat.entry JacI p 1)
            * Mat.entry JacI q 1 := rfl

theorem gradphi_2_3_eq_sum [Field K] (e : elem_type K) (ig : Nat) (JacI : Mat K) (i d : Nat) :
    gradphi_2_3 e ig JacI i d = gradphiSum 2 e ig JacI i d := by
  simp [gradphi_2_3, gradphiSum, Finset.sum_range_succ, elem_type.dphi]

theorem nablaphi_2_3_eq_sum [Field K] (e : elem_type K) (ig : Nat) (JacI : Mat K)
    (i p q : Nat) :
    nablaphi_2_3 e ig JacI i p q = nablaphiSum 2 e ig JacI i p q := by
  simp only [nablaphi_2_3, nablaphiSum, Finset.sum_range_succ, Finset.sum_range_zero,
    elem_type.d2phi, zero_add]
  ring

/-- The loop of the `(1,3)` and `(2,3)` evaluators on `gradphi`, for `space_dim = 3`. -/
theorem gradphi_loop_right [Field K] (n : Nat) (val : Nat → Nat → K) (gradphi : List K) :
    forLoop n (fun i g => do
        let g ← Vec.write g (i * 3 + 0) (val i 0)
        let g ← Vec.write g (i * 3 + 1) (val i 1)
        Vec.write g (i * 3 + 2) (val i 2))
      (fill (resize (n * 3) gradphi 0) 0)
      = Except.ok (Vec.ofFn (n * 3) (fun k => val (k / 3) (k % 3))) := by
  rw [Vec.fill_resize, forLoop_vec_blocks n 3 _ (fun k => val (k / 3) (k % 3))
    (fun i hi f => write_block3_right n i hi f val)]

/-- The loop of the `(2,3)` evaluator on a requested `nablaphi`. -/
theorem nablaphi_loop_2_3 [Field K] (e : elem_type K) (ig : Nat) (JacI : Mat K)
    (v : List K) :
    forLoop e._nc (fun i v => do
        let v ← Vec.write v (3 * i + 0) (nablaphi_2_3 e ig JacI i 0 0)
        let v ← Vec.write v (3 * i + 1) (nablaphi_2_3 e ig JacI i 1 1)
        Vec.write v (3 * i + 2) (nablaphi_2_3 e ig JacI i 0 1))
      (resize (e._nc * 3) v 0)
      = Except.ok (Vec.ofFn (e._nc * 3) (fun k =>
          nablaphiSum 2 e ig JacI (k / 3) (hessianPair_2D (k % 3)).1
            (hessianPair_2D (k % 3)).2)) := by
  rw [Vec.eq_ofFn_of_length (e._nc * 3) (resize (e._nc * 3) v 0) (length_resize _ _ _),
    forLoop_vec_blocks e._nc 3 _
      (fun k => nablaphi_2_3 e ig JacI (k / 3) (hessianPair_2D (k % 3)).1
        (hessianPair_2D (k % 3)).2)
      (fun i hi f => write_block3 e._nc i hi f
        (fun i c => nablaphi_2_3 e ig JacI i (hessianPair_2D c).1 (hessianPair_2D c).2))]
  simp only [nablaphi_2_3_eq_sum]

theorem Jacobian_non_isoparametric_templ_2_3_eq [LinearOrderedField K] (sqrt : K → K)
    (e : elem_type K) (fe : elem_type_jac_templ_base K) (vt : Mat K) (ig : Nat)
    (phi gradphi : List K) (nablaphi : Option (List K)) (dim : Nat)
    (geom : JacOut K)
    (hgeom : fe.Jacobian_geometry_templ sqrt vt ig [] [] dim 3 = Except.ok geom)
    (hI : Mat.covers 3 2 geom.JacI) :
    Jacobian_non_isoparametric_templ_2_3 sqrt e fe vt ig phi gradphi nablaphi dim 3
      = Except.ok ⟨geom.detJac * e.GetGaussWeightsPointer ig, Vec.ofFn e._nc (e._phi ig),
          Vec.ofFn (e._nc * 3) (fun k => gradphiSum 2 e ig geom.JacI (k / 3) (k % 3)),
          nablaphi.map (fun _ => Vec.ofFn (e._nc * 3) (fun k =>
            nablaphiSum 2 e ig geom.JacI (k / 3) (hessianPair_2D (k % 3)).1
              (hessianPair_2D (k % 3)).2))⟩ := by
  have r00 := hI 0 (by omega) 0 (by omega)
  have r01 := hI 0 (by omega) 1 (by omega)
  have r10 := hI 1 (by omega) 0 (by omega)
  have r11 := hI 1 (by omega) 1 (by omega)
  have r20 := hI 2 (by omega) 0 (by omega)
  have r21 := hI 2 (by omega) 1 (by omega)
  have hG := gradphi_loop_right e._nc (gradphi_2_3 e ig geom.JacI) gradphi
  simp only [gradphi_2_3_eq_sum] at hG
  simp only [Jacobian_non_isoparametric_templ_2_3, hgeom, Run.ok_bind, forLoop_three, r00, r01,
    r10, r11, r20, r21, ← gradphi_2_3_def, ← nablaphi_2_3_def]
  refine forLoop_shape e._nc _
    (fun i p => Vec.write p i (e._phi ig i))
    (fun i g => do
      let g ← Vec.write g (i * 3 + 0) (gradphiSum 2 e ig geom.JacI i 0)
      let g ← Vec.write g (i * 3 + 1) (gradphiSum 2 e ig geom.JacI i 1)
      Vec.write g (i * 3 + 2) (gradphiSum 2 e ig geom.JacI i 2))
    (fun i o => match o with
      | some v => do
        let v ← Vec.write v (3 * i + 0) (nablaphi_2_3 e ig geom.JacI i 0 0)
        let v ← Vec.write v (3 * i + 1) (nablaphi_2_3 e ig geom.JacI i 1 1)
        let v ← Vec.write v (3 * i + 2) (nablaphi_2_3 e ig geom.JacI i 0 1)
        pure (some v)
      | none => pure none)
    ?_ _ _ _ _ _ _ _ (phi_loop e ig phi) hG ?_
  · intro i _ s
    obtain ⟨W, p, g, h⟩ := s
    cases h <;> simp only [bind_assoc, Run.pure_eq, Run.ok_bind, gradphi_2_3_eq_sum]
  · cases nablaphi with
    | none => exact forLoop_option_none _ _ (fun _ _ => rfl)
    | some v =>
      exact forLoop_option _ _ _ (fun i _ w => by simp only [bind_assoc]) _ _
        (nablaphi_loop_2_3 e ig geom.JacI v)

theorem gradphiSum_one [Field K] (e : elem_type K) (ig : Nat) (JacI : Mat K) (i d : Nat) :
    gradphiSum 1 e ig JacI i d = e._dphidxi ig i * Mat.entry JacI d 0 := by
  simp [gradphiSum, elem_type.dphi]

/-- The loop of the `(1,3)` evaluator on a requested `nablaphi` of length `N ≥ _nc`: only
the first `_nc` entries are assigned. -/
theorem nablaphi_loop_1_3 [Field K] (e : elem_type K) (ig : Nat) (JacI : Mat K)
    (v : List K) :
    forLoop e._nc (fun i v =>
        Vec.write v i (e._d2phidxi2 ig i * Mat.entry JacI 0 0 * Mat.entry JacI 0 0))
      (resize (e._nc * 3) v 0)
      = Except.ok (Vec.ofFn (e._nc * 3) (fun k =>
          if k < e._nc then e._d2phidxi2 ig k * Mat.entry JacI 0 0 * Mat.entry JacI 0 0
          else Vec.entry (resize (e._nc * 3) v 0) k)) := by
  rw [Vec.eq_ofFn_of_length (e._nc * 3) (resize (e._nc * 3) v 0) (length_resize _ _ _),
    forLoop_vec_prefix e._nc (e._nc * 3) (by omega) _
      (fun k => e._d2phidxi2 ig k * Mat.entry JacI 0 0 * Mat.entry JacI 0 0)
      (fun _ _ _ => rfl)]
  rw [← Vec.eq_ofFn_of_length (e._nc * 3) (resize (e._nc * 3) v 0) (length_resize _ _ _)]

theorem Jacobian_non_isoparametric_templ_1_3_eq [LinearOrderedField K] (sqrt : K → K)
    (e : elem_type K) (fe : elem_type_jac_templ_base K) (vt : Mat K) (ig : Nat)
    (phi gradphi : List K) (nablaphi : Option (List K)) (dim : Nat)
    (geom : JacOut K)
    (hgeom : fe.Jacobian_geometry_templ sqrt vt ig [] [] dim 3 = Except.ok geom)
    (hI : Mat.covers 3 1 geom.JacI) :
    Jacobian_non_isoparametric_templ_1_3 sqrt e fe vt ig phi gradphi nablaphi dim 3
      = Except.ok ⟨geom.detJac * e.GetGaussWeightsPointer ig, Vec.ofFn e._nc (e._phi ig),
          Vec.ofFn (e._nc * 3) (fun k => gradphiSum 1 e ig geom.JacI (k / 3) (k % 3)),
          nablaphi.map (fun v => Vec.ofFn (e._nc * 3) (fun k =>
            if k < e._nc
            then e._d2phidxi2 ig k * Mat.entry geom.JacI 0 0 * Mat.entry geom.JacI 0 0
            else Vec.entry (resize (e._nc * 3) v 0) k))⟩ := by
  have r00 := hI 0 (by omega) 0 (by omega)
  have r10 := hI 1 (by omega) 0 (by omega)
  have r20 := hI 2 (by omega) 0 (by omega)
  have hG := gradphi_loop_right e._nc (gradphiSum 1 e ig geom.JacI) gradphi
  simp only [Jacobian_non_isoparametric_templ_1_3, hgeom, Run.ok_bind, forLoop_three, r00,
    r10, r20, ← gradphiSum_one]
  refine forLoop_shape e._nc _
    (fun i p => Vec.write p i (e._phi ig i))
    (fun i g => do
      let g ← Vec.write g (i * 3 + 0) (gradphiSum 1 e ig geom.JacI i 0)
      let g ← Vec.write g (i * 3 + 1) (gradphiSum 1 e ig geom.JacI i 1)
      Vec.write g (i * 3 + 2) (gradphiSum 1 e ig geom.JacI i 2))
    (fun i o => match o with
      | some v => do
        let v ← Vec.write v i
          (e._d2phidxi2 ig i * Mat.entry geom.JacI 0 0 * Mat.entry geom.JacI 0 0)
        pure (some v)
      | none => pure none)
    ?_ _ _ _ _ _ _ _ (phi_loop e ig phi) hG ?_
  · intro i _ s
    obtain ⟨W, p, g, h⟩ := s
    cases h <;> simp only [bind_assoc, Run.pure_eq, Run.ok_bind, gradphiSum_one]
  · cases nablaphi with
    | none => exact forLoop_option_none _ _ (fun _ _ => rfl)
    | some v =>
      exact forLoop_option _ _ _ (fun i _ w => rfl) _ _
        (nablaphi_loop_1_3 e ig geom.JacI v)

end evaluators

/-! ## The `(1,3)` normal in closed form -/

theorem compute_normal_1_3_eq {K : Type} [Field K] (sqrt : K → K) (Jac : Mat K)
    (normal : List K) (hJ : Mat.hasShape 1 3 Jac) :
    compute_normal_1_3 sqrt Jac normal
      = Except.ok
        [Mat.entry Jac 0 1 / sqrt (Mat.entry Jac 0 0 * Mat.entry Jac 0 0
            + Mat.entry Jac 0 1 * Mat.entry Jac 0 1 + Mat.entry Jac 0 2 * Mat.entry Jac 0 2),
          -Mat.entry Jac 0 0 / sqrt (Mat.entry Jac 0 0 * Mat.entry Jac 0 0
            + Mat.entry Jac 0 1 * Mat.entry Jac 0 1 + Mat.entry Jac 0 2 * Mat.entry Jac 0 2),
          0] := by
  have hr : ∀ j < 3, Mat.read Jac 0 j = Except.ok (Mat.entry Jac 0 j) :=
    fun j hj => Mat.read_of_hasShape 1 3 Jac hJ 0 j (by omega) hj
  simp only [compute_normal_1_3, forLoop_three, hr 0 (by omega), hr 1 (by omega),
    hr 2 (by omega), Run.ok_bind, Run.pure_eq, zero_add]
  exact write_three _ (length_resize 3 normal 0) _ _ _

/-- The squared norm of the `(1,3)` normal, for a non-zero tangent `(a, b, c)`. -/
theorem normal_1_3_norm (a b c : ℝ) (h : a ≠ 0 ∨ b ≠ 0 ∨ c ≠ 0) :
    Real.sqrt ((b / Real.sqrt (a * a + b * b + c * c)) ^ 2
        + (-a / Real.sqrt (a * a + b * b + c * c)) ^ 2 + (0 : ℝ) ^ 2) = 1 ↔ c = 0 := by
  have hS : 0 < a * a + b * b + c * c := by
    have h0 := mul_self_nonneg a
    have h1 := mul_self_nonneg b
    have h2 := mul_self_nonneg c
    rcases h with h | h | h
    · have := mul_self_pos.mpr h; linarith
    · have := mul_self_pos.mpr h; linarith
    · have := mul_self_pos.mpr h; linarith
  have hsq := Real.sqrt_pos.mpr hS
  have hmul := Real.mul_self_sqrt (le_of_lt hS)
  have hval : (b / Real.sqrt (a * a + b * b + c * c)) ^ 2
      + (-a / Real.sqrt (a * a + b * b + c * c)) ^ 2 + (0 : ℝ) ^ 2
      = (a * a + b * b) / (a * a + b * b + c * c) := by
    have hne := ne_of_gt hsq
    have hSne := ne_of_gt hS
    field_simp
    nlinarith [hmul]
  rw [hval, Real.sqrt_eq_one, div_eq_one_iff_eq (ne_of_gt hS)]
  constructor
  · intro h1
    have : c * c = 0 := by linarith
    exact mul_self_eq_zero.mp this
  · intro h1
    rw [h1]
    ring

theorem hasShape_tiltedTangent (K : Type) [Field K] : Mat.hasShape 1 3 (tiltedTangent K) := by
  refine ⟨rfl, ?_⟩
  intro row hrow
  simp only [tiltedTangent, List.mem_singleton] at hrow
  rw [hrow]
  rfl

theorem entry_tiltedTangent (K : Type) [Field K] :
    Mat.entry (tiltedTangent K) 0 0 = 3 ∧ Mat.entry (tiltedTangent K) 0 1 = 0
      ∧ Mat.entry (tiltedTangent K) 0 2 = 4 := by
  simp [Mat.entry, tiltedTangent]

theorem tangent_tiltedTangent : ∃ d < 3, Mat.entry (tiltedTangent ℝ) 0 d ≠ 0 :=
  ⟨2, by omega, by rw [(entry_tiltedTangent ℝ).2.2]; norm_num⟩

/-! ## What every specialisation of the evaluator returns -/

/-- The weight, the values and the gradients returned by the evaluator of any of the three
specialisations, called with `dim = D` and `space_dim = 3`, for a geometry source that
returns `geom` with a `3 × D` matrix `JacI`. -/
theorem Jacobian_non_isoparametric_templ_eq {K : Type} [LinearOrderedField K] (sqrt : K → K)
    (self fe : elem_type_jac_templ_base K) (vt : Mat K) (ig : Nat)
    (phi gradphi : List K) (nablaphi : Option (List K)) (geom : JacOut K)
    (hgeom : fe.Jacobian_geometry_templ sqrt vt ig [] [] self.dim 3 = Except.ok geom)
    (hI : Mat.hasShape 3 self.dim geom.JacI) :
    ∃ res, self.Jacobian_non_isoparametric_templ sqrt fe vt ig phi gradphi nablaphi self.dim 3
        = Except.ok res
      ∧ res.Weight = geom.detJac * self.tables.GetGaussWeightsPointer ig
      ∧ res.phi = Vec.ofFn self.tables._nc (self.tables._phi ig)
      ∧ res.gradphi = Vec.ofFn (self.tables._nc * 3)
          (fun k => gradphiSum self.dim self.tables ig geom.JacI (k / 3) (k % 3)) := by
  cases self with
  | templ_1_3 e =>
    exact ⟨_, Jacobian_non_isoparametric_templ_1_3_eq sqrt e fe vt ig phi gradphi nablaphi 1
      geom hgeom (Mat.covers_of_hasShape 3 1 _ hI), rfl, rfl, rfl⟩
  | templ_2_3 e =>
    exact ⟨_, Jacobian_non_isoparametric_templ_2_3_eq sqrt e fe vt ig phi gradphi nablaphi 2
      geom hgeom (Mat.covers_of_hasShape 3 2 _ hI), rfl, rfl, rfl⟩
  | templ_3_3 e =>
    exact ⟨_, Jacobian_non_isoparametric_templ_3_3_eq sqrt e fe vt ig phi gradphi nablaphi 3 3
      geom hgeom (Mat.covers_of_hasShape 3 3 _ hI), rfl, rfl, rfl⟩

/-- The index `i * 3 + d` lies in block `i` at offset `d`. -/
theorem block_index (i d : Nat) (hd : d < 3) : (i * 3 + d) / 3 = i ∧ (i * 3 + d) % 3 = d := by
  constructor <;> omega

theorem Mat.ofFn_three_three {K : Type} (f : Nat → Nat → K) :
    Mat.ofFn 3 3 f = [[f 0 0, f 0 1, f 0 2], [f 1 0, f 1 1, f 1 2], [f 2 0, f 2 1, f 2 2]] :=
  rfl

/-- The `(3,3)` geometry of the reference tetrahedron. -/
theorem geometry_refTet (K : Type) [LinearOrderedField K] (sqrt : K → K) :
    (elem_type_jac_templ_base.templ_3_3 (tet4 K)).Jacobian_geometry_templ sqrt (refTet K) 0
      [] [] 3 3 = Except.ok (refTetGeom K) := by
  show Jacobian_geometry_templ_3_3 (tet4 K) (refTet K) 0 [] [] 3 3 = _
  rw [Jacobian_geometry_templ_3_3_eq (tet4 K) (refTet K) 0 [] []
    (Mat.covers_of_hasShape 3 _ _ (hasShape_refTet K))]
  simp [Mat.ofFn_three_three, refTetGeom, JacI_3_3, detJac_3_3, JacSum_refTet]

theorem hasShape_refTetGeom (K : Type) [Field K] : Mat.hasShape 3 3 (refTetGeom K).JacI := by
  refine ⟨rfl, ?_⟩
  intro row hrow
  simp only [refTetGeom, List.mem_cons, List.mem_singleton, List.not_mem_nil, or_false] at hrow
  rcases hrow with rfl | rfl | rfl <;> rfl

/-- The reference values of the linear tetrahedron sum to one. -/
theorem phi_sum_tet4 (K : Type) [Field K] [CharZero K] :
    ∑ i in Finset.range (tet4 K)._nc, (tet4 K)._phi 0 i = 1 := by
  simp [tet4, Finset.sum_range_succ]

/-- The reference derivatives of the linear tetrahedron sum to zero in each direction. -/
theorem dphi_sum_tet4 (K : Type) [Field K] (a : Nat) (ha : a < 3) :
    ∑ i in Finset.range (tet4 K)._nc, (tet4 K).dphi a 0 i = 0 := by
  interval_cases a <;> simp [tet4, elem_type.dphi, Finset.sum_range_succ]

/-! ## The patch test -/

/-- The entries of `JacI · Jac` for the nine assignments of the `(3,3)` specialisation. -/
theorem JacI_mul_Jac_3_3 {K : Type} [Field K] (J : Nat → Nat → K) (hdet : detJac_3_3 J ≠ 0)
    (d k : Nat) (hd : d < 3) (hk : k < 3) :
    ∑ a in Finset.range 3, JacI_3_3 J d a * J a k = if d = k then 1 else 0 := by
  have hdet' : J 0 0 * (J 1 1 * J 2 2 - J 1 2 * J 2 1)
      + J 0 1 * (J 1 2 * J 2 0 - J 1 0 * J 2 2)
      + J 0 2 * (J 1 0 * J 2 1 - J 1 1 * J 2 0) ≠ 0 := hdet
  interval_cases d <;> interval_cases k <;>
    simp [Finset.sum_range_succ, JacI_3_3, detJac_3_3] <;>
    field_simp <;> ring

/-- Interpolating coordinate `k` with the physical gradients of the `(3,3)` evaluator. -/
theorem gradphiSum_patch {K : Type} [Field K] (e : elem_type K) (vt : Mat K) (ig : Nat)
    (hdet : detJac_3_3 (JacSum e vt ig) ≠ 0) (d k : Nat) (hd : d < 3) (hk : k < 3) :
    ∑ i in Finset.range e._nc,
        gradphiSum 3 e ig (Mat.ofFn 3 3 (JacI_3_3 (JacSum e vt ig))) i d * Mat.entry vt k i
      = if d = k then 1 else 0 := by
  rw [← JacI_mul_Jac_3_3 (JacSum e vt ig) hdet d k hd hk]
  have hI : ∀ a ∈ Finset.range 3,
      Mat.entry (Mat.ofFn 3 3 (JacI_3_3 (JacSum e vt ig))) d a
        = JacI_3_3 (JacSum e vt ig) d a :=
    fun a ha => Mat.entry_ofFn 3 3 _ d a hd (Finset.mem_range.mp ha)
  simp only [gradphiSum, JacSum, Finset.sum_mul, Finset.mul_sum]
  rw [Finset.sum_comm]
  apply Finset.sum_congr rfl
  intro a ha
  apply Finset.sum_congr rfl
  intro i _
  rw [hI a ha]
  ring

theorem Mat.ofFn_two_three {K : Type} (f : Nat → Nat → K) :
    Mat.ofFn 2 3 f = [[f 0 0, f 0 1, f 0 2], [f 1 0, f 1 1, f 1 2]] :=
  rfl

theorem Mat.ofFn_three_two {K : Type} (f : Nat → Nat → K) :
    Mat.ofFn 3 2 f = [[f 0 0, f 0 1], [f 1 0, f 1 1], [f 2 0, f 2 1]] :=
  rfl

/-- The `(2,3)` geometry of the reference triangle over the reals. -/
theorem geometry_refTri :
    (elem_type_jac_templ_base.templ_2_3 (tri3 ℝ)).Jacobian_geometry_templ Real.sqrt (refTri ℝ) 0
      [] [] 2 3 = Except.ok refTriGeom := by
  show Jacobian_geometry_templ_2_3 Real.sqrt (tri3 ℝ) (refTri ℝ) 0 [] [] 2 3 = _
  rw [Jacobian_geometry_templ_2_3_eq Real.sqrt (tri3 ℝ) (refTri ℝ) 0 [] [] 3
    (Mat.covers_of_hasShape 3 _ _ (hasShape_refTri ℝ))]
  simp [Mat.ofFn_two_three, Mat.ofFn_three_two, refTriGeom, JacI_2_3, JacJacT_inv_2_3,
    JacJacT_2_3, detJacJacT_refTri, JacSum_refTri, Finset.sum_range_succ]

theorem hasShape_refTriGeom : Mat.hasShape 3 2 refTriGeom.JacI := by
  refine ⟨rfl, ?_⟩
  intro row hrow
  simp only [refTriGeom, List.mem_cons, List.mem_singleton, List.not_mem_nil, or_false] at hrow
  rcases hrow with rfl | rfl | rfl <;> rfl

/-- The index `c * i + r` lies in block `i` at offset `r`. -/
theorem block_index_left (c i r : Nat) (hr : r < c) :
    (c * i + r) / c = i ∧ (c * i + r) % c = r := by
  have hc : 0 < c := by omega
  constructor
  · rw [Nat.add_comm, Nat.add_mul_div_left _ _ hc, Nat.div_eq_of_lt hr, Nat.zero_add]
  · rw [Nat.add_comm, Nat.add_mul_mod_self_left, Nat.mod_eq_of_lt hr]

theorem hasShape_planarTangent (K : Type) [Field K] : Mat.hasShape 1 3 (planarTangent K) := by
  refine ⟨rfl, ?_⟩
  intro row hrow
  simp only [planarTangent, List.mem_singleton] at hrow
  rw [hrow]
  rfl

theorem entry_planarTangent (K : Type) [Field K] :
    Mat.entry (planarTangent K) 0 0 = 3 ∧ Mat.entry (planarTangent K) 0 1 = 4
      ∧ Mat.entry (planarTangent K) 0 2 = 0 := by
  simp [Mat.entry, planarTangent]

theorem tangent_planarTangent : ∃ d < 3, Mat.entry (planarTangent ℝ) 0 d ≠ 0 :=
  ⟨0, by omega, by rw [(entry_planarTangent ℝ).1]; norm_num⟩

/-! ## The surface specialisation used in the plane -/

theorem hasShape_mirroredTri (K : Type) [Field K] :
    Mat.hasShape 2 (tri3 K)._nc (mirroredTri K) := by
  refine ⟨rfl, ?_⟩
  intro row hrow
  simp only [mirroredTri, List.mem_cons, List.mem_singleton, List.not_mem_nil, or_false] at hrow
  rcases hrow with rfl | rfl <;> rfl

theorem hasShape_skewTri (K : Type) [Field K] :
    Mat.hasShape 2 (tri3 K)._nc (skewTri K) := by
  refine ⟨rfl, ?_⟩
  intro row hrow
  simp only [skewTri, List.mem_cons, List.mem_singleton, List.not_mem_nil, or_false] at hrow
  rcases hrow with rfl | rfl <;> rfl

/-- The tangents of the mirrored triangle are `(0,1)` and `(1,0)`. -/
theorem JacSum_mirroredTri (K : Type) [Field K] (r d : Nat) (hr : r < 2) (hd : d < 2) :
    JacSum (tri3 K) (mirroredTri K) 0 r d = if r = d then 0 else 1 := by
  interval_cases r <;> interval_cases d <;>
    simp [JacSum, tri3, mirroredTri, elem_type.dphi, Mat.entry, Finset.sum_range_succ]

/-- The tangents of the skew triangle are `(2,0)` and `(1,3)`. -/
theorem JacSum_skewTri (K : Type) [Field K] :
    JacSum (tri3 K) (skewTri K) 0 0 0 = 2 ∧ JacSum (tri3 K) (skewTri K) 0 0 1 = 0
      ∧ JacSum (tri3 K) (skewTri K) 0 1 0 = 1 ∧ JacSum (tri3 K) (skewTri K) 0 1 1 = 3 := by
  simp [JacSum, tri3, skewTri, elem_type.dphi, Mat.entry, Finset.sum_range_succ]

/-- In the plane the determinant of `Jac · Jacᵗ` is the square of the determinant of `Jac`. -/
theorem detJacJacT_2_3_planar {K : Type} [Field K] (e : elem_type K) (vt : Mat K) (ig : Nat) :
    detJacJacT_2_3 e vt ig 2 = det_2_2 (JacSum e vt ig) ^ 2 := by
  simp only [detJacJacT_2_3, JacJacT_2_3, det_2_2, Finset.sum_range_succ, Finset.sum_range_zero]
  ring

/-- In the plane, for an invertible `Jac`, the accumulated `JacI` is the cofactor inverse. -/
theorem JacI_2_3_planar {K : Type} [Field K] (e : elem_type K) (vt : Mat K) (ig : Nat)
    (hdet : det_2_2 (JacSum e vt ig) ≠ 0) (i j : Nat) (hi : i < 2) (hj : j < 2) :
    JacI_2_3 e vt ig 2 i j = cofactor_inverse_2_2 (JacSum e vt ig) i j := by
  have hd2 : detJacJacT_2_3 e vt ig 2 ≠ 0 := by
    rw [detJacJacT_2_3_planar]
    exact pow_ne_zero 2 hdet
  have hd2' := hd2
  rw [detJacJacT_2_3_planar] at hd2'
  have key : detJacJacT_2_3 e vt ig 2 = det_2_2 (JacSum e vt ig) ^ 2 :=
    detJacJacT_2_3_planar e vt ig
  interval_cases i <;> interval_cases j <;>
    simp only [JacI_2_3, JacJacT_inv_2_3, cofactor_inverse_2_2, Finset.sum_range_succ,
      Finset.sum_range_zero, zero_add] <;>
    rw [key] <;>
    simp only [JacJacT_2_3, Finset.sum_range_succ, Finset.sum_range_zero, zero_add] <;>
    field_simp <;>
    simp only [det_2_2] <;>
    ring

theorem det_2_2_ofFn {K : Type} [Field K] (f : Nat → Nat → K) :
    det_2_2 (Mat.entry (Mat.ofFn 2 2 f)) = det_2_2 f := by
  simp only [det_2_2, Mat.entry_ofFn 2 2 f 0 0 (by omega) (by omega),
    Mat.entry_ofFn 2 2 f 0 1 (by omega) (by omega), Mat.entry_ofFn 2 2 f 1 0 (by omega) (by omega),
    Mat.entry_ofFn 2 2 f 1 1 (by omega) (by omega)]

theorem cofactor_inverse_2_2_ofFn {K : Type} [Field K] (f : Nat → Nat → K) (i j : Nat) :
    cofactor_inverse_2_2 (Mat.entry (Mat.ofFn 2 2 f)) i j = cofactor_inverse_2_2 f i j := by
  unfold cofactor_inverse_2_2
  rw [det_2_2_ofFn]
  simp only [Mat.entry_ofFn 2 2 f 0 0 (by omega) (by omega),
    Mat.entry_ofFn 2 2 f 0 1 (by omega) (by omega), Mat.entry_ofFn 2 2 f 1 0 (by omega) (by omega),
    Mat.entry_ofFn 2 2 f 1 1 (by omega) (by omega)]

theorem det_2_2_mirroredTri (K : Type) [Field K] :
    det_2_2 (JacSum (tri3 K) (mirroredTri K) 0) = -1 := by
  simp [det_2_2, JacSum_mirroredTri]

theorem det_2_2_skewTri (K : Type) [Field K] :
    det_2_2 (JacSum (tri3 K) (skewTri K) 0) = 6 := by
  obtain ⟨h00, h01, h10, h11⟩ := JacSum_skewTri K
  simp only [det_2_2, h00, h01, h10, h11]
  norm_num

/-! ## The manufactured solution -/

theorem GetExactSolutionValue_eq {K : Type} [Field K] (acos cos : K → K) (x y : K)
    (rest : List K) :
    GetExactSolutionValue acos cos (x :: y :: rest)
      = Except.ok (cos (acos (-1) * x) * cos (acos (-1) * y)) := by
  simp [GetExactSolutionValue, Vec.read, Run.pure_eq, Run.ok_bind]

theorem GetExactSolutionGradient_eq {K : Type} [Field K] (acos cos sin : K → K) (x y : K)
    (rest : List K) (g0 g1 : K) (gs : List K) :
    GetExactSolutionGradient acos cos sin (x :: y :: rest) (g0 :: g1 :: gs)
      = Except.ok (-acos (-1) * sin (acos (-1) * x) * cos (acos (-1) * y)
          :: -acos (-1) * cos (acos (-1) * x) * sin (acos (-1) * y) :: gs) := by
  simp [GetExactSolutionGradient, Vec.read, Vec.write, Run.pure_eq, Run.ok_bind]

theorem GetExactSolutionLaplace_eq {K : Type} [Field K] (acos cos : K → K) (x y : K)
    (rest : List K) :
    GetExactSolutionLaplace acos cos (x :: y :: rest)
      = Except.ok (-2 * acos (-1) * acos (-1) * cos (acos (-1) * x) * cos (acos (-1) * y)) := by
  simp [GetExactSolutionLaplace, Vec.read, Run.pure_eq, Run.ok_bind]

theorem hasDerivAt_cos_pi (t : ℝ) :
    HasDerivAt (fun s : ℝ => Real.cos (Real.pi * s)) (-Real.pi * Real.sin (Real.pi * t)) t := by
  have h := ((hasDerivAt_id t).const_mul Real.pi).cos
  simp only [id, mul_one] at h
  convert h using 1
  ring

theorem hasDerivAt_sin_pi (t : ℝ) :
    HasDerivAt (fun s : ℝ => Real.sin (Real.pi * s)) (Real.pi * Real.cos (Real.pi * t)) t := by
  have h := ((hasDerivAt_id t).const_mul Real.pi).sin
  simp only [id, mul_one] at h
  convert h using 1
  ring

/-! ## Loops with an invariant -/

/-- A loop that keeps an invariant returns, and the invariant holds of the state it returns. -/
theorem forLoop_inv {σ : Type} (n : Nat) (body : Nat → σ → Run σ) (P : Nat → σ → Prop) (s0 : σ)
    (h0 : P 0 s0)
    (hstep : ∀ i < n, ∀ s, P i s → ∃ s', body i s = Except.ok s' ∧ P (i + 1) s') :
    ∃ s', forLoop n body s0 = Except.ok s' ∧ P n s' := by
  induction n with
  | zero => exact ⟨s0, rfl, h0⟩
  | succ k ih =>
    obtain ⟨s1, h1, hP⟩ := ih (fun i hi => hstep i (Nat.lt_succ_of_lt hi))
    obtain ⟨s2, h2, hP2⟩ := hstep k (Nat.lt_succ_self k) s1 hP
    exact ⟨s2, by rw [forLoop_succ, h1, Run.ok_bind, h2], hP2⟩

/-- A loop one of whose rounds ends with a fault does not return. -/
theorem forLoop_fault {σ : Type} (n : Nat) (body : Nat → σ → Run σ) (s0 : σ) (k : Nat)
    (hk : k < n) (hfault : ∀ s, ∃ x, body k s = Except.error x) :
    ∃ x, forLoop n body s0 = Except.error x := by
  induction n with
  | zero => omega
  | succ m ih =>
    rw [forLoop_succ]
    by_cases hkm : k < m
    · obtain ⟨x, hx⟩ := ih hkm
      exact ⟨x, by rw [hx, Run.error_bind]⟩
    · have hkeq : k = m := by omega
      subst hkeq
      cases h : forLoop k body s0 with
      | error x => exact ⟨x, by rw [Run.error_bind]⟩
      | ok s =>
        obtain ⟨x, hx⟩ := hfault s
        exact ⟨x, by rw [Run.ok_bind, hx]⟩

theorem Vec.read_of_lt {α : Type} [Zero α] (v : List α) (i : Nat) (hi : i < v.length) :
    Vec.read v i = Except.ok (Vec.entry v i) := by
  simp [Vec.read, Vec.entry, List.getD_eq_getElem?_getD, List.getElem?_eq_getElem hi]

/-! ## The differentiation tape -/

section tape
variable {K : Type} [Field K]

theorem Stack.gradient_push (s : Stack K) (lhs : Nat) (ops : List (K × Nat)) (seed l : Nat) :
    (s.push lhs ops).gradient seed l
      = if l = lhs then (ops.map (fun op => op.1 * s.gradient seed op.2)).sum
        else s.gradient seed l := by
  simp only [Stack.gradient, Stack.forward, Stack.push, List.foldl_append, List.foldl_cons,
    List.foldl_nil, Statement.forward]

theorem Stack.gradient_new_recording (s : Stack K) (seed l : Nat) :
    s.new_recording.gradient seed l = if l = seed then 1 else 0 := rfl

/-- The derivatives depend on the recorded statements only. -/
theorem Stack.gradient_congr (s s' : Stack K) (h : s'.statements = s.statements)
    (seed l : Nat) : s'.gradient seed l = s.gradient seed l := by
  simp only [Stack.gradient, Stack.forward, h]

theorem adouble.passive_fst (v : K) (s : Stack K) :
    (adouble.passive v s).1 = ⟨v, s.n_gradients_registered⟩ := rfl

theorem adouble.passive_counter (v : K) (s : Stack K) :
    (adouble.passive v s).2.n_gradients_registered = s.n_gradients_registered + 1 := rfl

theorem adouble.passive_independent (v : K) (s : Stack K) :
    (adouble.passive v s).2.independent_index = s.independent_index := rfl

theorem adouble.passive_dependent (v : K) (s : Stack K) :
    (adouble.passive v s).2.dependent_index = s.dependent_index := rfl

theorem adouble.passive_gradient (v : K) (s : Stack K) (seed l : Nat) :
    (adouble.passive v s).2.gradient seed l
      = if l = s.n_gradients_registered then 0 else s.gradient seed l := by
  have h := Stack.gradient_push s s.n_gradients_registered [] seed l
  simpa using h

/-- The statement recorded by `a += c * b` for a plain number `c` and a tracked `b`. -/
theorem adouble.add_assign_gradient (a b : adouble K) (c : K) (s : Stack K) (seed l : Nat) :
    (a.add_assign (Expression.passive_mul c (Expression.active b)) s).2.gradient seed l
      = if l = a.gradient_index then
          s.gradient seed a.gradient_index + c * s.gradient seed b.gradient_index
        else s.gradient seed l := by
  simp only [adouble.add_assign, Expression.passive_mul, Expression.active,
    Stack.gradient_push, List.map_cons, List.map_nil, List.sum_cons, List.sum_nil, one_mul,
    mul_one, add_zero]

theorem adouble.add_assign_fst (a b : adouble K) (c : K) (s : Stack K) :
    (a.add_assign (Expression.passive_mul c (Expression.active b)) s).1
      = ⟨a.value + c * b.value, a.gradient_index⟩ := rfl

/-- The statement recorded by `a += (f - m) * w` for plain numbers `f`, `w` and a tracked
`m`. -/
theorem adouble.add_assign_sub_gradient (a m : adouble K) (f w : K) (s : Stack K)
    (seed l : Nat) :
    (a.add_assign (Expression.mul_passive
        (Expression.passive_sub f (Expression.active m)) w) s).2.gradient seed l
      = if l = a.gradient_index then
          s.gradient seed a.gradient_index + -w * s.gradient seed m.gradient_index
        else s.gradient seed l := by
  simp only [adouble.add_assign, Expression.mul_passive, Expression.passive_sub,
    Expression.active, Stack.gradient_push, List.map_cons, List.map_nil, List.sum_cons,
    List.sum_nil, one_mul, add_zero]
  split_ifs
  · ring
  · rfl

theorem adouble.add_assign_sub_fst (a m : adouble K) (f w : K) (s : Stack K) :
    (a.add_assign (Expression.mul_passive
        (Expression.passive_sub f (Expression.active m)) w) s).1
      = ⟨a.value + (f - m.value) * w, a.gradient_index⟩ := rfl

theorem adouble.add_assign_counter (a : adouble K) (e : Expression K) (s : Stack K) :
    (a.add_assign e s).2.n_gradients_registered = s.n_gradients_registered := rfl

theorem adouble.add_assign_independent (a : adouble K) (e : Expression K) (s : Stack K) :
    (a.add_assign e s).2.independent_index = s.independent_index := rfl

theorem adouble.add_assign_dependent (a : adouble K) (e : Expression K) (s : Stack K) :
    (a.add_assign e s).2.dependent_index = s.dependent_index := rfl

theorem adouble.vector_fst (n : Nat) (x : K) (s : Stack K) :
    (adouble.vector n x s).1 = Vec.ofFn n (fun k => ⟨x, s.n_gradients_registered + k⟩)
    ∧ (adouble.vector n x s).2.n_gradients_registered = s.n_gradients_registered + n
    ∧ (adouble.vector n x s).2.independent_index = s.independent_index
    ∧ (adouble.vector n x s).2.dependent_index = s.dependent_index
    ∧ ∀ seed l, (adouble.vector n x s).2.gradient seed l
        = if s.n_gradients_registered ≤ l ∧ l < s.n_gradients_registered + n then 0
          else s.gradient seed l := by
  induction n with
  | zero =>
    refine ⟨rfl, rfl, rfl, rfl, ?_⟩
    intro seed l
    have : ¬ (s.n_gradients_registered ≤ l ∧ l < s.n_gradients_registered + 0) := by omega
    simp only [this, if_false]
    rfl
  | succ k ih =>
    obtain ⟨h1, h2, h3, h4, h5⟩ := ih
    have hdef : adouble.vector (k + 1) x s
        = ((adouble.vector k x s).1 ++ [(adouble.passive x (adouble.vector k x s).2).1],
            (adouble.passive x (adouble.vector k x s).2).2) := rfl
    rw [hdef]
    refine ⟨?_, ?_, ?_, ?_, ?_⟩
    · simp only [h1, adouble.passive_fst, h2, Vec.ofFn, List.range_succ, List.map_append,
        List.map_cons, List.map_nil]
    · simp only [adouble.passive_counter, h2]
      omega
    · simp only [adouble.passive_independent, h3]
    · simp only [adouble.passive_dependent, h4]
    · intro seed l
      simp only [adouble.passive_gradient, h2, h5]
      by_cases hl : l = s.n_gradients_registered + k
      · have : s.n_gradients_registered ≤ l ∧ l < s.n_gradients_registered + (k + 1) := by
          omega
        simp only [hl, if_true, this]
        simp
      · simp only [hl, if_false]
        by_cases h : s.n_gradients_registered ≤ l ∧ l < s.n_gradients_registered + k
        · have : s.n_gradients_registered ≤ l ∧ l < s.n_gradients_registered + (k + 1) := by
            omega
          simp only [h, this, if_true, and_self]
        · have : ¬ (s.n_gradients_registered ≤ l ∧ l < s.n_gradients_registered + (k + 1)) := by
            omega
          simp only [h, this, if_false]

end tape

/-- A loop that keeps an invariant returns a state with every property that the invariant
implies after the last round. -/
theorem forLoop_inv_imp {σ : Type} (n : Nat) (body : Nat → σ → Run σ) (P : Nat → σ → Prop)
    (s0 : σ) (R : σ → Prop) (h0 : P 0 s0)
    (hstep : ∀ i < n, ∀ s, P i s → ∃ s', body i s = Except.ok s' ∧ P (i + 1) s')
    (hend : ∀ s, P n s → R s) :
    ∃ s', forLoop n body s0 = Except.ok s' ∧ R s' := by
  obtain ⟨s', h, hP⟩ := forLoop_inv n body P s0 h0 hstep
  exact ⟨s', h, hend s' hP⟩

theorem Run.bind_ok_inv {α β : Type} (x : Run α) (f : α → Run β) (b : β)
    (h : x >>= f = Except.ok b) : ∃ a, x = Except.ok a ∧ f a = Except.ok b := by
  cases x with
  | error e => rw [Run.error_bind] at h; cases h
  | ok a => exact ⟨a, rfl, by rw [Run.ok_bind] at h; exact h⟩

/-- Whatever holds when a loop starts and is kept by every round that returns holds when the
loop returns. -/
theorem forLoop_preserves {σ : Type} (n : Nat) (body : Nat → σ → Run σ) (P : σ → Prop)
    (s0 s' : σ) (h0 : P s0)
    (hstep : ∀ i < n, ∀ s t, P s → body i s = Except.ok t → P t)
    (h : forLoop n body s0 = Except.ok s') : P s' := by
  induction n generalizing s' with
  | zero =>
    rw [forLoop_zero] at h
    injection h with h
    rw [← h]
    exact h0
  | succ k ih =>
    rw [forLoop_succ] at h
    obtain ⟨m, hm, hb⟩ := Run.bind_ok_inv _ _ _ h
    exact hstep k (by omega) m s' (ih m (fun i hi => hstep i (by omega)) hm) hb

/-! ## The Gauss point of `AssembleStandardProblem` -/

section gaussPoint
variable {K : Type} [Field K]

/-- The evaluation at a Gauss point returns; `soluGauss_x` and `xGauss` hold the
interpolated derivatives and coordinates, the new tracked variables have the gradient
indices `n + 1 + k`, and the derivatives of the older variables are untouched. -/
theorem AssembleStandardProblem.gauss_point_spec (dim nDofs : Nat) (phi phi_x : List K)
    (x : Mat K) (solu : List (adouble K)) (s : Stack K)
    (φ φx : Nat → K) (X : Nat → Nat → K) (u : Nat → adouble K)
    (hphi : ∀ i < nDofs, Vec.read phi i = Except.ok (φ i))
    (hphix : ∀ i < nDofs, ∀ jdim < dim,
      Vec.read phi_x (i * dim + jdim) = Except.ok (φx (i * dim + jdim)))
    (hx : ∀ jdim < dim, ∀ i < nDofs, Mat.read x jdim i = Except.ok (X jdim i))
    (hsolu : ∀ i < nDofs, Vec.read solu i = Except.ok (u i))
    (hu : ∀ i < nDofs, (u i).gradient_index < s.n_gradients_registered) :
    ∃ g, AssembleStandardProblem.gauss_point dim nDofs phi phi_x x solu s = Except.ok g
      ∧ g.soluGauss_x = Vec.ofFn dim (fun k =>
          ⟨∑ i in Finset.range nDofs, φx (i * dim + k) * (u i).value,
            s.n_gradients_registered + 1 + k⟩)
      ∧ g.xGauss = Vec.ofFn dim (fun k => ∑ i in Finset.range nDofs, X k i * φ i)
      ∧ g.s.n_gradients_registered = s.n_gradients_registered + 1 + dim
      ∧ g.s.independent_index = s.independent_index
      ∧ g.s.dependent_index = s.dependent_index
      ∧ (∀ seed l, l < s.n_gradients_registered → g.s.gradient seed l = s.gradient seed l)
      ∧ (∀ seed, ∀ k < dim, g.s.gradient seed (s.n_gradients_registered + 1 + k)
          = ∑ i in Finset.range nDofs, φx (i * dim + k) * s.gradient seed (u i).gradient_index) := by
  obtain ⟨hv1, hv2, hv3, hv4, hv5⟩ := adouble.vector_fst dim (0 : K) (adouble.passive 0 s).2
  simp only [adouble.passive_counter, adouble.passive_independent, adouble.passive_dependent,
    adouble.passive_gradient] at hv1 hv2 hv3 hv4 hv5
  -- the state after `i` nodes, with the first `jdim` directions of node `i` done
  let Q : Nat → Nat → GaussPoint K → Prop := fun i jdim g =>
    g.soluGauss.gradient_index = s.n_gradients_registered
    ∧ g.soluGauss_x = Vec.ofFn dim (fun k =>
        ⟨∑ i' in Finset.range (if k < jdim then i + 1 else i), φx (i' * dim + k) * (u i').value,
          s.n_gradients_registered + 1 + k⟩)
    ∧ g.xGauss = Vec.ofFn dim (fun k =>
        ∑ i' in Finset.range (if k < jdim then i + 1 else i), X k i' * φ i')
    ∧ g.s.n_gradients_registered = s.n_gradients_registered + 1 + dim
    ∧ g.s.independent_index = s.independent_index
    ∧ g.s.dependent_index = s.dependent_index
    ∧ (∀ seed l, l < s.n_gradients_registered → g.s.gradient seed l = s.gradient seed l)
    ∧ (∀ seed, ∀ k < dim, g.s.gradient seed (s.n_gradients_registered + 1 + k)
        = ∑ i' in Finset.range (if k < jdim then i + 1 else i),
            φx (i' * dim + k) * s.gradient seed (u i').gradient_index)
  unfold AssembleStandardProblem.gauss_point
  refine forLoop_inv_imp nDofs _ (fun i g => Q i 0 g) _ _ ?_ ?_ ?_
  · refine ⟨rfl, ?_, ?_, hv2, hv3, hv4, ?_, ?_⟩
    · rw [hv1]
      apply Vec.ofFn_ext
      intro k _
      simp [Nat.add_assoc]
    · simp [Vec.ofFn]
    · intro seed l hl
      rw [hv5]
      have h1 : ¬ (s.n_gradients_registered + 1 ≤ l
          ∧ l < s.n_gradients_registered + 1 + dim) := by omega
      have h2 : l ≠ s.n_gradients_registered := by omega
      simp only [h1, h2, if_false]
    · intro seed k hk
      rw [hv5]
      have h1 : s.n_gradients_registered + 1 ≤ s.n_gradients_registered + 1 + k
          ∧ s.n_gradients_registered + 1 + k < s.n_gradients_registered + 1 + dim := by
        omega
      simp [h1]
  · intro i hi g hQ
    obtain ⟨q1, q2, q3, q4, q5, q6, q7, q8⟩ := hQ
    simp only [hphi i hi, hsolu i hi, Run.ok_bind]
    refine forLoop_inv_imp dim _ (fun jdim g => Q i jdim g) _ _ ?_ ?_ ?_
    · refine ⟨q1, q2, q3, q4, q5, q6, ?_, ?_⟩
      · intro seed l hl
        simp only [adouble.add_assign_gradient, q1]
        have h2 : l ≠ s.n_gradients_registered := by omega
        simp only [h2, if_false]
        exact q7 seed l hl
      · intro seed k hk
        simp only [adouble.add_assign_gradient, q1]
        have h2 : s.n_gradients_registered + 1 + k ≠ s.n_gradients_registered := by omega
        simp only [h2, if_false]
        exact q8 seed k hk
    · intro jdim hj g hQ
      obtain ⟨r1, r2, r3, r4, r5, r6, r7, r8⟩ := hQ
      simp only [hphix i hi jdim hj, Run.ok_bind, r2, r3, Vec.ofFn_read dim _ jdim hj,
        Vec.ofFn_write dim _ jdim _ hj, hx jdim hj i hi, Run.pure_eq]
      refine ⟨_, rfl, r1, ?_, ?_, ?_, ?_, ?_, ?_, ?_⟩
      · apply Vec.ofFn_ext
        intro k _
        by_cases hk : k = jdim
        · subst hk
          simp [adouble.add_assign_fst, Finset.sum_range_succ]
        · simp only [hk, if_false]
          by_cases hlt : k < jdim
          · have : k < jdim + 1 := by omega
            simp only [hlt, this, if_true]
          · have : ¬ k < jdim + 1 := by omega
            simp only [hlt, this, if_false]
      · apply Vec.ofFn_ext
        intro k _
        by_cases hk : k = jdim
        · subst hk
          simp [Finset.sum_range_succ]
        · simp only [hk, if_false]
          by_cases hlt : k < jdim
          · have : k < jdim + 1 := by omega
            simp only [hlt, this, if_true]
          · have : ¬ k < jdim + 1 := by omega
            simp only [hlt, this, if_false]
      · simp only [adouble.add_assign_counter, r4]
      · simp only [adouble.add_assign_independent, r5]
      · simp only [adouble.add_assign_dependent, r6]
      · intro seed l hl
        simp only [adouble.add_assign_gradient]
        have h2 : l ≠ s.n_gradients_registered + 1 + jdim := by omega
        simp only [h2, if_false]
        exact r7 seed l hl
      · intro seed k hk
        simp only [adouble.add_assign_gradient]
        by_cases hkj : k = jdim
        · subst hkj
          simp only [if_true, lt_irrefl, if_false, Nat.lt_succ_self,
            Finset.sum_range_succ, r8 seed k hk, r7 seed _ (hu i hi)]
        · have h2 : s.n_gradients_registered + 1 + k
              ≠ s.n_gradients_registered + 1 + jdim := by omega
          simp only [h2, if_false, r8 seed k hk]
          by_cases hlt : k < jdim
          · have : k < jdim + 1 := by omega
            simp only [hlt, this, if_true]
          · have : ¬ k < jdim + 1 := by omega
            simp only [hlt, this, if_false]
    · intro g' hQ'
      obtain ⟨r1, r2, r3, r4, r5, r6, r7, r8⟩ := hQ'
      refine ⟨r1, ?_, ?_, r4, r5, r6, r7, ?_⟩
      · rw [r2]
        apply Vec.ofFn_ext
        intro k hk
        simp [hk]
      · rw [r3]
        apply Vec.ofFn_ext
        intro k hk
        simp [hk]
      · intro seed k hk
        rw [r8 seed k hk]
        simp [hk]
  · intro g hQ
    obtain ⟨_, r2, r3, r4, r5, r6, r7, r8⟩ := hQ
    refine ⟨?_, ?_, r4, r5, r6, r7, ?_⟩
    · rw [r2]
      apply Vec.ofFn_ext
      intro k _
      simp
    · rw [r3]
      apply Vec.ofFn_ext
      intro k _
      simp
    · intro seed k hk
      rw [r8 seed k hk]
      simp

end gaussPoint

/-! ## The loop over the test functions of `AssembleStandardProblem` -/

section phiLoop
variable {K : Type} [Field K]

theorem GetExactSolutionGradient_replicate (acos cos sin : K → K) (x y : K) (rest : List K)
    (dim : Nat) (hdim : 2 ≤ dim) :
    ∃ g, GetExactSolutionGradient acos cos sin (x :: y :: rest) (List.replicate dim 0)
      = Except.ok g := by
  obtain ⟨d, rfl⟩ : ∃ d, dim = d + 2 := ⟨dim - 2, by omega⟩
  exact ⟨_, GetExactSolutionGradient_eq acos cos sin x y rest 0 0 (List.replicate d 0)⟩

/-- The loop over the test functions at a Gauss point returns; entry `i` of `aRes` has grown
by `((-lap) · φ i − Σ_jdim φx (i·dim + jdim) · b_jdim) · w`, and its derivatives by
`−w · Σ_jdim φx (i·dim + jdim) · d b_jdim`. -/
theorem AssembleStandardProblem.phi_i_loop_spec (acos cos sin : K → K) (dim nDofs : Nat)
    (phi phi_x : List K) (weight : K) (soluGauss_x : List (adouble K)) (x0 x1 : K)
    (rest : List K) (s : Stack K) (φ φx : Nat → K) (b r : Nat → adouble K)
    (hdim : 2 ≤ dim)
    (hphi : ∀ i < nDofs, Vec.read phi i = Except.ok (φ i))
    (hphix : ∀ i < nDofs, ∀ jdim < dim,
      Vec.read phi_x (i * dim + jdim) = Except.ok (φx (i * dim + jdim)))
    (hb : ∀ jdim < dim, Vec.read soluGauss_x jdim = Except.ok (b jdim))
    (hbn : ∀ jdim < dim, (b jdim).gradient_index < s.n_gradients_registered)
    (hrn : ∀ i < nDofs, (r i).gradient_index < s.n_gradients_registered)
    (hinj : ∀ i < nDofs, ∀ k < nDofs, (r i).gradient_index = (r k).gradient_index → i = k)
    (hbr : ∀ jdim < dim, ∀ i < nDofs, (b jdim).gradient_index ≠ (r i).gradient_index) :
    ∃ p, AssembleStandardProblem.phi_i_loop acos cos sin dim nDofs phi phi_x weight
        soluGauss_x (x0 :: x1 :: rest) s (Vec.ofFn nDofs r) = Except.ok p
      ∧ p.2 = Vec.ofFn nDofs (fun i =>
          ⟨(r i).value + ((-(-2 * acos (-1) * acos (-1) * cos (acos (-1) * x0)
              * cos (acos (-1) * x1))) * φ i
            - ∑ jdim in Finset.range dim, φx (i * dim + jdim) * (b jdim).value) * weight,
            (r i).gradient_index⟩)
      ∧ p.1.n_gradients_registered = s.n_gradients_registered + nDofs
      ∧ p.1.independent_index = s.independent_index
      ∧ p.1.dependent_index = s.dependent_index
      ∧ (∀ seed l, l < s.n_gradients_registered → (∀ i < nDofs, l ≠ (r i).gradient_index) →
          p.1.gradient seed l = s.gradient seed l)
      ∧ (∀ seed, ∀ i < nDofs, p.1.gradient seed (r i).gradient_index
          = s.gradient seed (r i).gradient_index
            + -weight * ∑ jdim in Finset.range dim,
                φx (i * dim + jdim) * s.gradient seed (b jdim).gradient_index) := by
  obtain ⟨grad, hgrad⟩ := GetExactSolutionGradient_replicate acos cos sin x0 x1 rest dim hdim
  let newval : Nat → adouble K := fun i =>
    ⟨(r i).value + ((-(-2 * acos (-1) * acos (-1) * cos (acos (-1) * x0)
        * cos (acos (-1) * x1))) * φ i
      - ∑ jdim in Finset.range dim, φx (i * dim + jdim) * (b jdim).value) * weight,
      (r i).gradient_index⟩
  let P : Nat → Stack K × List (adouble K) → Prop := fun i st =>
    st.2 = Vec.ofFn nDofs (fun k => if k < i then newval k else r k)
    ∧ st.1.n_gradients_registered = s.n_gradients_registered + i
    ∧ st.1.independent_index = s.independent_index
    ∧ st.1.dependent_index = s.dependent_index
    ∧ (∀ seed l, l < s.n_gradients_registered → (∀ i < nDofs, l ≠ (r i).gradient_index) →
        st.1.gradient seed l = s.gradient seed l)
    ∧ (∀ seed, ∀ k < nDofs, st.1.gradient seed (r k).gradient_index
        = if k < i then s.gradient seed (r k).gradient_index
            + -weight * ∑ jdim in Finset.range dim,
                φx (k * dim + jdim) * s.gradient seed (b jdim).gradient_index
          else s.gradient seed (r k).gradient_index)
  unfold AssembleStandardProblem.phi_i_loop
  refine forLoop_inv_imp nDofs _ P _ _ ?_ ?_ ?_
  · refine ⟨?_, rfl, rfl, rfl, fun _ _ _ _ => rfl, ?_⟩
    · apply Vec.ofFn_ext
      intro k _
      simp
    · intro seed k _
      simp
  · intro i hi st hP
    obtain ⟨p1, p2, p3, p4, p5, p6⟩ := hP
    -- the accumulation of `mLaplace`
    have hm : ∃ m, forLoop dim (fun jdim (m : adouble K × Stack K) => do
          let phi_x_i ← Vec.read phi_x (i * dim + jdim)
          let b ← Vec.read soluGauss_x jdim
          pure (m.1.add_assign (Expression.passive_mul phi_x_i (Expression.active b)) m.2))
          (adouble.passive 0 st.1) = Except.ok m
        ∧ m.1 = ⟨∑ jdim in Finset.range dim, φx (i * dim + jdim) * (b jdim).value,
            s.n_gradients_registered + i⟩
        ∧ m.2.n_gradients_registered = s.n_gradients_registered + i + 1
        ∧ m.2.independent_index = s.independent_index
        ∧ m.2.dependent_index = s.dependent_index
        ∧ (∀ seed l, l < s.n_gradients_registered + i →
            m.2.gradient seed l = st.1.gradient seed l)
        ∧ (∀ seed, m.2.gradient seed (s.n_gradients_registered + i)
            = ∑ jdim in Finset.range dim,
                φx (i * dim + jdim) * st.1.gradient seed (b jdim).gradient_index) := by
      refine forLoop_inv_imp dim _ (fun jdim (m : adouble K × Stack K) =>
        m.1 = ⟨∑ j in Finset.range jdim, φx (i * dim + j) * (b j).value,
            s.n_gradients_registered + i⟩
        ∧ m.2.n_gradients_registered = s.n_gradients_registered + i + 1
        ∧ m.2.independent_index = s.independent_index
        ∧ m.2.dependent_index = s.dependent_index
        ∧ (∀ seed l, l < s.n_gradients_registered + i →
            m.2.gradient seed l = st.1.gradient seed l)
        ∧ (∀ seed, m.2.gradient seed (s.n_gradients_registered + i)
            = ∑ j in Finset.range jdim,
                φx (i * dim + j) * st.1.gradient seed (b j).gradient_index)) _ _ ?_ ?_ ?_
      · refine ⟨?_, ?_, ?_, ?_, ?_, ?_⟩
        · simp [adouble.passive_fst, p2]
        · simp [adouble.passive_counter, p2]
        · simp [adouble.passive_independent, p3]
        · simp [adouble.passive_dependent, p4]
        · intro seed l hl
          rw [adouble.passive_gradient, p2]
          have : l ≠ s.n_gradients_registered + i := by omega
          simp only [this, if_false]
        · intro seed
          rw [adouble.passive_gradient, p2]
          simp
      · intro jdim hj m hQ
        obtain ⟨m1, m2, m3, m4, m5, m6⟩ := hQ
        simp only [hphix i hi jdim hj, hb jdim hj, Run.ok_bind, Run.pure_eq]
        refine ⟨_, rfl, ?_, ?_, ?_, ?_, ?_, ?_⟩
        · rw [adouble.add_assign_fst, m1, Finset.sum_range_succ]
        · rw [adouble.add_assign_counter, m2]
        · rw [adouble.add_assign_independent, m3]
        · rw [adouble.add_assign_dependent, m4]
        · intro seed l hl
          rw [adouble.add_assign_gradient, m1]
          have : l ≠ s.n_gradients_registered + i := by omega
          simp only [this, if_false]
          exact m5 seed l hl
        · intro seed
          rw [adouble.add_assign_gradient, m1]
          simp only [if_true, m6 seed, Finset.sum_range_succ]
          rw [m5 seed (b jdim).gradient_index (by have := hbn jdim hj; omega)]
      · intro m hQ
        exact hQ
    obtain ⟨m, hmrun, m1, m2, m3, m4, m5, m6⟩ := hm
    have hri : Vec.read st.2 i = Except.ok (r i) := by
      rw [p1, Vec.ofFn_read nDofs _ i hi]
      simp
    simp only [hmrun, Run.ok_bind, GetExactSolutionValue_eq, hgrad, GetExactSolutionLaplace_eq,
      hphi i hi, hri]
    rw [p1, Vec.ofFn_write nDofs _ i _ hi]
    simp only [Run.ok_bind, Run.pure_eq]
    refine ⟨_, rfl, ?_, ?_, ?_, ?_, ?_, ?_⟩
    · apply Vec.ofFn_ext
      intro k _
      by_cases hk : k = i
      · subst hk
        simp only [if_true, Nat.lt_succ_self, adouble.add_assign_sub_fst, m1, newval]
      · simp only [hk, if_false]
        by_cases hlt : k < i
        · have : k < i + 1 := by omega
          simp only [hlt, this, if_true]
        · have : ¬ k < i + 1 := by omega
          simp only [hlt, this, if_false]
    · simp only [adouble.add_assign_counter, m2]
      omega
    · simp only [adouble.add_assign_independent, m3]
    · simp only [adouble.add_assign_dependent, m4]
    · intro seed l hl hne
      simp only [adouble.add_assign_sub_gradient, hne i hi, if_false]
      rw [m5 seed l (by omega)]
      exact p5 seed l hl hne
    · intro seed k hk
      simp only [adouble.add_assign_sub_gradient]
      by_cases hki : k = i
      · subst hki
        simp only [if_true, Nat.lt_succ_self, m1]
        rw [m5 seed _ (by have := hrn k hk; omega), m6 seed, p6 seed k hk]
        simp only [lt_irrefl, if_false]
        congr 2
        apply Finset.sum_congr rfl
        intro jdim hj
        rw [p5 seed _ (hbn jdim (Finset.mem_range.mp hj))
          (fun i' hi' => hbr jdim (Finset.mem_range.mp hj) i' hi')]
      · have hne : (r k).gradient_index ≠ (r i).gradient_index :=
          fun h => hki (hinj k hk i hi h)
        simp only [hne, if_false]
        rw [m5 seed _ (by have := hrn k hk; omega), p6 seed k hk]
        by_cases hlt : k < i
        · have : k < i + 1 := by omega
          simp only [hlt, this, if_true]
        · have : ¬ k < i + 1 := by omega
          simp only [hlt, this, if_false]
  · intro st hP
    obtain ⟨p1, p2, p3, p4, p5, p6⟩ := hP
    refine ⟨?_, p2, p3, p4, p5, ?_⟩
    · rw [p1]
      apply Vec.ofFn_ext
      intro k hk
      simp [hk, newval]
    · intro seed i hi
      rw [p6 seed i hi]
      simp [hi]

end phiLoop

/-! ## The Gauss point loop of `AssembleStandardProblem` -/

section gaussLoop
variable {K : Type} [Field K]

theorem Vec.ofFn_two_le {α : Type} (n : Nat) (f : Nat → α) (hn : 2 ≤ n) :
    Vec.ofFn n f = f 0 :: f 1 :: Vec.ofFn (n - 2) (fun k => f (k + 2)) := by
  obtain ⟨d, rfl⟩ : ∃ d, n = d + 2 := ⟨n - 2, by omega⟩
  apply List.ext_getElem?
  intro i
  match i with
  | 0 => simp [Vec.ofFn, getElem?_map_range]
  | 1 => simp [Vec.ofFn, getElem?_map_range]
  | k + 2 =>
    simp only [Vec.ofFn, getElem?_map_range, List.getElem?_cons_succ, Nat.add_sub_cancel]
    by_cases hk : k < d
    · have : k + 2 < d + 2 := by omega
      simp [hk, this]
    · have : ¬ k + 2 < d + 2 := by omega
      simp [hk, this]

/-- The Gauss point loop returns; entry `i` of `aRes` has grown by the sum over the Gauss
points of `((-lap) · φ i − Σ_jdim φx_i · Σ_j φx_j · u_j) · W`, and its derivatives by the
sum of `−W · Σ_jdim φx_i · Σ_j φx_j · d u_j`. -/
theorem AssembleStandardProblem.gauss_loop_spec (acos cos sin : K → K) (fe : FiniteElement K)
    (dim nDofs : Nat) (x : Mat K) (s : Stack K) (sh0 : ShapeOut K)
    (sh : Nat → ShapeOut K) (φ φx : Nat → Nat → K) (X : Nat → Nat → K)
    (u r : Nat → adouble K)
    (hdim : 2 ≤ dim)
    (hshape : ∀ ig < fe.GetGaussPointNumber, fe.Jacobian x ig none = Except.ok (sh ig))
    (hphi : ∀ ig < fe.GetGaussPointNumber, ∀ i < nDofs,
      Vec.read (sh ig).phi i = Except.ok (φ ig i))
    (hphix : ∀ ig < fe.GetGaussPointNumber, ∀ i < nDofs, ∀ jdim < dim,
      Vec.read (sh ig).gradphi (i * dim + jdim) = Except.ok (φx ig (i * dim + jdim)))
    (hx : ∀ jdim < dim, ∀ i < nDofs, Mat.read x jdim i = Except.ok (X jdim i))
    (hun : ∀ i < nDofs, (u i).gradient_index < s.n_gradients_registered)
    (hrn : ∀ i < nDofs, (r i).gradient_index < s.n_gradients_registered)
    (hinj : ∀ i < nDofs, ∀ k < nDofs, (r i).gradient_index = (r k).gradient_index → i = k)
    (hur : ∀ j < nDofs, ∀ i < nDofs, (u j).gradient_index ≠ (r i).gradient_index) :
    ∃ out, AssembleStandardProblem.gauss_loop acos cos sin fe dim nDofs x (Vec.ofFn nDofs u)
        (s, Vec.ofFn nDofs r, sh0) = Except.ok out
      ∧ out.2.1 = Vec.ofFn nDofs (fun i =>
          ⟨(r i).value + ∑ ig in Finset.range fe.GetGaussPointNumber,
            ((-(-2 * acos (-1) * acos (-1)
                  * cos (acos (-1) * ∑ k in Finset.range nDofs, X 0 k * φ ig k)
                  * cos (acos (-1) * ∑ k in Finset.range nDofs, X 1 k * φ ig k))) * φ ig i
              - ∑ jdim in Finset.range dim, φx ig (i * dim + jdim)
                  * ∑ j in Finset.range nDofs, φx ig (j * dim + jdim) * (u j).value)
              * (sh ig).Weight,
            (r i).gradient_index⟩)
      ∧ s.n_gradients_registered ≤ out.1.n_gradients_registered
      ∧ out.1.independent_index = s.independent_index
      ∧ out.1.dependent_index = s.dependent_index
      ∧ (∀ seed l, l < s.n_gradients_registered → (∀ i < nDofs, l ≠ (r i).gradient_index) →
          out.1.gradient seed l = s.gradient seed l)
      ∧ (∀ seed, ∀ i < nDofs, out.1.gradient seed (r i).gradient_index
          = s.gradient seed (r i).gradient_index
            + ∑ ig in Finset.range fe.GetGaussPointNumber,
                -(sh ig).Weight * ∑ jdim in Finset.range dim, φx ig (i * dim + jdim)
                  * ∑ j in Finset.range nDofs,
                      φx ig (j * dim + jdim) * s.gradient seed (u j).gradient_index) := by
  let c : Nat → Nat → K := fun ig i =>
    ((-(-2 * acos (-1) * acos (-1)
          * cos (acos (-1) * ∑ k in Finset.range nDofs, X 0 k * φ ig k)
          * cos (acos (-1) * ∑ k in Finset.range nDofs, X 1 k * φ ig k))) * φ ig i
      - ∑ jdim in Finset.range dim, φx ig (i * dim + jdim)
          * ∑ j in Finset.range nDofs, φx ig (j * dim + jdim) * (u j).value)
      * (sh ig).Weight
  let P : Nat → Stack K × List (adouble K) × ShapeOut K → Prop := fun n out =>
    out.2.1 = Vec.ofFn nDofs (fun i =>
        ⟨(r i).value + ∑ ig in Finset.range n, c ig i, (r i).gradient_index⟩)
    ∧ s.n_gradients_registered ≤ out.1.n_gradients_registered
    ∧ out.1.independent_index = s.independent_index
    ∧ out.1.dependent_index = s.dependent_index
    ∧ (∀ seed l, l < s.n_gradients_registered → (∀ i < nDofs, l ≠ (r i).gradient_index) →
        out.1.gradient seed l = s.gradient seed l)
    ∧ (∀ seed, ∀ i < nDofs, out.1.gradient seed (r i).gradient_index
        = s.gradient seed (r i).gradient_index
          + ∑ ig in Finset.range n,
              -(sh ig).Weight * ∑ jdim in Finset.range dim, φx ig (i * dim + jdim)
                * ∑ j in Finset.range nDofs,
                    φx ig (j * dim + jdim) * s.gradient seed (u j).gradient_index)
  unfold AssembleStandardProblem.gauss_loop
  refine forLoop_inv_imp fe.GetGaussPointNumber _ P _ _ ?_ ?_ ?_
  · refine ⟨?_, le_refl _, rfl, rfl, fun _ _ _ _ => rfl, ?_⟩
    · apply Vec.ofFn_ext
      intro i _
      simp
    · intro seed i _
      simp
  · intro ig hig out hP
    obtain ⟨p1, p2, p3, p4, p5, p6⟩ := hP
    obtain ⟨g, hg, g1, g2, g3, g4, g5, g6, g7⟩ := AssembleStandardProblem.gauss_point_spec dim
      nDofs (sh ig).phi (sh ig).gradphi x (Vec.ofFn nDofs u) out.1 (φ ig) (φx ig) X u
      (hphi ig hig) (hphix ig hig) hx (fun i hi => Vec.ofFn_read nDofs u i hi)
      (fun i hi => by have := hun i hi; omega)
    have hxg : g.xGauss = (∑ k in Finset.range nDofs, X 0 k * φ ig k)
        :: (∑ k in Finset.range nDofs, X 1 k * φ ig k)
        :: Vec.ofFn (dim - 2) (fun k => ∑ i in Finset.range nDofs, X (k + 2) i * φ ig i) := by
      rw [g2, Vec.ofFn_two_le dim _ hdim]
    obtain ⟨p, hp, q1, q2, q3, q4, q5, q6⟩ := AssembleStandardProblem.phi_i_loop_spec acos cos
      sin dim nDofs (sh ig).phi (sh ig).gradphi (sh ig).Weight g.soluGauss_x
      (∑ k in Finset.range nDofs, X 0 k * φ ig k) (∑ k in Finset.range nDofs, X 1 k * φ ig k)
      (Vec.ofFn (dim - 2) (fun k => ∑ i in Finset.range nDofs, X (k + 2) i * φ ig i)) g.s
      (φ ig) (φx ig)
      (fun k => ⟨∑ i in Finset.range nDofs, φx ig (i * dim + k) * (u i).value,
        out.1.n_gradients_registered + 1 + k⟩)
      (fun i => ⟨(r i).value + ∑ ig' in Finset.range ig, c ig' i, (r i).gradient_index⟩)
      hdim (hphi ig hig) (hphix ig hig)
      (fun jdim hj => by rw [g1, Vec.ofFn_read dim _ jdim hj])
      (fun jdim hj => by rw [g3]; show _ + 1 + jdim < _; omega)
      (fun i hi => by rw [g3]; show (r i).gradient_index < _; have := hrn i hi; omega)
      hinj
      (fun jdim _ i hi => by
        show out.1.n_gradients_registered + 1 + jdim ≠ (r i).gradient_index
        have := hrn i hi
        omega)
    rw [hshape ig hig, Run.ok_bind, hg, Run.ok_bind, p1, hxg, hp, Run.ok_bind]
    refine ⟨_, rfl, ?_, ?_, ?_, ?_, ?_, ?_⟩
    · show p.2 = _
      rw [q1]
      apply Vec.ofFn_ext
      intro i _
      simp only [Finset.sum_range_succ, c, add_assoc]
    · show _ ≤ p.1.n_gradients_registered
      rw [q2, g3]
      omega
    · show p.1.independent_index = _
      rw [q3, g4, p3]
    · show p.1.dependent_index = _
      rw [q4, g5, p4]
    · intro seed l hl hne
      show p.1.gradient seed l = _
      rw [q5 seed l (by rw [g3]; omega) hne, g6 seed l (by omega), p5 seed l hl hne]
    · intro seed i hi
      show p.1.gradient seed (r i).gradient_index = _
      have h6 := q6 seed i hi
      simp only [] at h6
      rw [h6, g6 seed _ (by have := hrn i hi; omega), p6 seed i hi, Finset.sum_range_succ,
        add_assoc]
      congr 3
      apply Finset.sum_congr rfl
      intro jdim hj
      rw [g7 seed jdim (Finset.mem_range.mp hj)]
      congr 1
      apply Finset.sum_congr rfl
      intro j hj'
      rw [p5 seed _ (hun j (Finset.mem_range.mp hj'))
        (fun i' hi' => hur j (Finset.mem_range.mp hj') i' hi')]
  · intro out hP
    exact hP

end gaussLoop

/-! ## The local arrays of the assemblers -/

section localArrays
variable {K : Type}

theorem Vec.replicate_eq_ofFn {α : Type} (n : Nat) (x : α) :
    List.replicate n x = Vec.ofFn n (fun _ => x) := by
  simp [Vec.ofFn]

theorem Vec.eq_ofFn_getD {α : Type} (n : Nat) (v : List α) (d : α) (h : v.length = n) :
    v = Vec.ofFn n (fun i => v.getD i d) := by
  apply List.ext_getElem?
  intro i
  simp only [Vec.ofFn, getElem?_map_range]
  by_cases hi : i < n
  · have hi' : i < v.length := h ▸ hi
    simp [hi, List.getD_eq_getElem?_getD, List.getElem?_eq_getElem hi']
  · simp only [hi, if_false]
    exact List.getElem?_eq_none (by omega)

theorem Vec.ofFn_getD {α : Type} (n : Nat) (f : Nat → α) (d : α) (i : Nat) (hi : i < n) :
    (Vec.ofFn n f).getD i d = f i := by
  simp [Vec.ofFn, List.getD_eq_getElem?_getD, getElem?_map_range, hi]

/-- The loop `for (i < dim) x[i].resize(n)` on a matrix of `dim` rows. -/
theorem forLoop_resize_rows [Zero K] (dim n : Nat) (x : Mat K) (hx : x.length = dim) :
    ∃ y, forLoop dim (fun i x => do
        let row ← Vec.read x i
        Vec.write x i (resize n row 0)) x = Except.ok y
      ∧ Mat.hasShape dim n y := by
  refine forLoop_inv_imp dim _ (fun i (y : Mat K) =>
    y.length = dim ∧ ∀ k < i, ∀ row, y[k]? = some row → row.length = n) _ _ ?_ ?_ ?_
  · exact ⟨hx, fun k hk => absurd hk (Nat.not_lt_zero k)⟩
  · intro i hi y hP
    obtain ⟨h1, h2⟩ := hP
    have hi' : i < y.length := by omega
    simp only [Vec.read, List.getElem?_eq_getElem hi', Run.pure_eq, Run.ok_bind, Vec.write, hi',
      if_true]
    refine ⟨_, rfl, by simp [h1], ?_⟩
    intro k hk row hrow
    by_cases hki : k = i
    · subst hki
      rw [List.getElem?_set_self hi'] at hrow
      injection hrow with hrow
      rw [← hrow]
      exact length_resize n _ 0
    · rw [List.getElem?_set_ne (fun h => hki h.symm)] at hrow
      exact h2 k (by omega) row hrow
  · intro y hP
    obtain ⟨h1, h2⟩ := hP
    refine ⟨h1, ?_⟩
    intro row hrow
    obtain ⟨k, hk⟩ := List.mem_iff_getElem?.mp hrow
    have hklt : k < y.length := by
      by_contra hcon
      rw [List.getElem?_eq_none (by omega)] at hk
      cases hk
    exact h2 k (by omega) row hk

/-- The loops `for (i < n) for (jdim < dim) x[jdim][i] = T jdim i` on a `dim × n` matrix. -/
theorem forLoop_fill_columns (dim n : Nat) (T G : Nat → Nat → K) :
    forLoop n (fun i x => forLoop dim (fun jdim x => Mat.write x jdim i (T jdim i)) x)
        (Mat.ofFn dim n G)
      = Except.ok (Mat.ofFn dim n T) := by
  have h := forLoop_eq
    (fun i x => forLoop dim (fun jdim x => Mat.write x jdim i (T jdim i)) x)
    (fun i => Mat.ofFn dim n (fun a b => if b < i then T a b else G a b)) n (by
      intro i hi
      beta_reduce
      rw [forLoop_write dim n i hi (fun jdim x => Mat.write x jdim i (T jdim i))
        (fun a => T a i) (fun _ _ _ => rfl)]
      congr 1
      apply Mat.ofFn_congr
      intro a _ b _
      by_cases hb : b = i
      · subst hb
        simp
      · simp only [hb, if_false]
        by_cases hlt : b < i
        · have : b < i + 1 := by omega
          simp only [hlt, this, if_true]
        · have : ¬ b < i + 1 := by omega
          simp only [hlt, this, if_false])
  beta_reduce at h
  have h0 : Mat.ofFn dim n (fun a b => if b < 0 then T a b else G a b) = Mat.ofFn dim n G := by
    apply Mat.ofFn_congr
    intro a _ b _
    simp
  have hn : Mat.ofFn dim n (fun a b => if b < n then T a b else G a b) = Mat.ofFn dim n T := by
    apply Mat.ofFn_congr
    intro a _ b hb
    simp [hb]
  rw [h0, hn] at h
  exact h

/-- The loop `for (i < n) Res[i] = -aRes[i].value()`. -/
theorem forLoop_copy_values [Field K] (n : Nat) (a : Nat → adouble K) :
    forLoop n (fun i Res => do
        Vec.write Res i (-(← Vec.read (Vec.ofFn n a) i).value)) (List.replicate n (0 : K))
      = Except.ok (Vec.ofFn n (fun i => -(a i).value)) := by
  have h := forLoop_eq
    (fun i Res => do
        Vec.write Res i (-(← Vec.read (Vec.ofFn n a) i).value))
    (fun i => Vec.ofFn n (fun k => if k < i then -(a k).value else (0 : K))) n (by
      intro i hi
      beta_reduce
      rw [Vec.ofFn_read n a i hi, Run.ok_bind, Vec.ofFn_write n _ i _ hi]
      congr 1
      apply Vec.ofFn_ext
      intro k _
      by_cases hk : k = i
      · subst hk
        simp
      · simp only [hk, if_false]
        by_cases hlt : k < i
        · have : k < i + 1 := by omega
          simp only [hlt, this, if_true]
        · have : ¬ k < i + 1 := by omega
          simp only [hlt, this, if_false])
  beta_reduce at h
  have h0 : Vec.ofFn n (fun k => if k < 0 then -(a k).value else (0 : K))
      = List.replicate n (0 : K) := by
    rw [Vec.replicate_eq_ofFn]
    apply Vec.ofFn_ext
    intro k _
    simp
  have hn : Vec.ofFn n (fun k => if k < n then -(a k).value else (0 : K))
      = Vec.ofFn n (fun i => -(a i).value) := by
    apply Vec.ofFn_ext
    intro k hk
    simp [hk]
  rw [h0, hn] at h
  exact h

end localArrays

/-- The loops `for (i < m) for (j < n) v[i * n + j] = T i j` on a vector of `m · n`
entries. -/
theorem forLoop_vec_blocks_rows {K : Type} (m n : Nat) (T : Nat → Nat → K) (f0 : Nat → K) :
    forLoop m (fun i out => forLoop n (fun j out => Vec.write out (i * n + j) (T i j)) out)
        (Vec.ofFn (m * n) f0)
      = Except.ok (Vec.ofFn (m * n) (fun k => T (k / n) (k % n))) := by
  have hin : ∀ i < m, ∀ f : Nat → K,
      forLoop n (fun j out => Vec.write out (i * n + j) (T i j)) (Vec.ofFn (m * n) f)
        = Except.ok (Vec.ofFn (m * n) (fun k => if k / n = i then T (k / n) (k % n) else f k)) := by
    intro i hi f
    have hlt : ∀ j < n, i * n + j < m * n := by
      intro j hj
      have : (i + 1) * n ≤ m * n := Nat.mul_le_mul_right n (by omega)
      rw [Nat.add_mul, Nat.one_mul] at this
      omega
    have h := forLoop_eq (fun j out => Vec.write out (i * n + j) (T i j))
      (fun j' => Vec.ofFn (m * n)
        (fun k => if k / n = i ∧ k % n < j' then T (k / n) (k % n) else f k)) n (by
        intro j hj
        beta_reduce
        rw [Vec.ofFn_write (m * n) _ (i * n + j) _ (hlt j hj)]
        congr 1
        apply Vec.ofFn_ext
        intro k _
        have hn : 0 < n := by omega
        by_cases hk : k = i * n + j
        · subst hk
          have h1 : (i * n + j) / n = i := by
            rw [Nat.add_comm, Nat.add_mul_div_right _ _ hn, Nat.div_eq_of_lt hj, Nat.zero_add]
          have h2 : (i * n + j) % n = j := by
            rw [Nat.add_comm, Nat.add_mul_mod_self_right, Nat.mod_eq_of_lt hj]
          simp [h1, h2]
        · simp only [hk, if_false]
          by_cases hki : k / n = i
          · have hne : k % n ≠ j := by
              intro hmod
              apply hk
              have := Nat.div_add_mod k n
              rw [hki, hmod] at this
              rw [← this, Nat.mul_comm]
            by_cases hlt' : k % n < j
            · have : k % n < j + 1 := by omega
              simp only [hki, hlt', this, and_self, if_true]
            · have : ¬ k % n < j + 1 := by omega
              simp only [hki, hlt', this, and_false, if_false]
          · simp only [hki, false_and, if_false])
    beta_reduce at h
    have h0 : Vec.ofFn (m * n)
        (fun k => if k / n = i ∧ k % n < 0 then T (k / n) (k % n) else f k)
        = Vec.ofFn (m * n) f := by
      apply Vec.ofFn_ext
      intro k _
      simp
    have hn' : Vec.ofFn (m * n)
        (fun k => if k / n = i ∧ k % n < n then T (k / n) (k % n) else f k)
        = Vec.ofFn (m * n) (fun k => if k / n = i then T (k / n) (k % n) else f k) := by
      apply Vec.ofFn_ext
      intro k hk
      have hn : 0 < n := by
        rcases Nat.eq_zero_or_pos n with h0' | h0'
        · subst h0'
          rw [Nat.mul_zero] at hk
          exact absurd hk (Nat.not_lt_zero k)
        · exact h0'
      simp [Nat.mod_lt k hn]
    rw [h0, hn'] at h
    exact h
  exact forLoop_vec_blocks m n
    (fun i out => forLoop n (fun j out => Vec.write out (i * n + j) (T i j)) out)
    (fun k => T (k / n) (k % n)) (fun i hi f => hin i hi f) f0

/-! ## Vectors of tracked variables and the registrations of the tape -/

section tracked
variable {K : Type} [Field K]

theorem adouble.resize_length (n : Nat) (v : List (adouble K)) (s : Stack K) :
    (adouble.resize n v s).1.length = n := by
  simp only [adouble.resize, List.length_append, List.length_take, List.length_map,
    List.length_range]
  omega

/-- The gradient indices after `v.resize(n)`: the old ones, then new ones from the counter. -/
theorem adouble.resize_index (n : Nat) (v : List (adouble K)) (s : Stack K) (d : adouble K)
    (i : Nat) (hi : i < n) :
    ((adouble.resize n v s).1.getD i d).gradient_index
      = if i < v.length then (v.getD i d).gradient_index
        else s.n_gradients_registered + (i - v.length) := by
  simp only [adouble.resize, List.getD_eq_getElem?_getD]
  by_cases hlt : i < v.length
  · have h1 : i < (v.take n).length := by simp [List.length_take]; omega
    rw [List.getElem?_append_left h1, List.getElem?_take_of_lt hi]
    simp [hlt]
  · have h1 : (v.take n).length ≤ i := by simp [List.length_take]; omega
    have h2 : (v.take n).length = v.length := by simp [List.length_take]; omega
    rw [List.getElem?_append_right h1, h2, getElem?_map_range]
    have h3 : i - v.length < n - v.length := by omega
    simp [hlt, h3]

theorem adouble.resize_counter (n : Nat) (v : List (adouble K)) (s : Stack K) :
    (adouble.resize n v s).2.n_gradients_registered
      = s.n_gradients_registered + (n - v.length) := rfl

/-- The vector after `v.assign(n, x)`: entry `i` has the value `x` and the gradient index
that `v.resize(n)` gives it. -/
theorem adouble.assign_vector_fst (n : Nat) (x : K) (v : List (adouble K)) (s : Stack K)
    (d : adouble K) :
    (adouble.assign_vector n x v s).1
      = Vec.ofFn n (fun i => ⟨x, if i < v.length then (v.getD i d).gradient_index
          else s.n_gradients_registered + (i - v.length)⟩) := by
  have hlen := adouble.resize_length n v s
  show (adouble.resize n v s).1.map (fun a => (⟨x, a.gradient_index⟩ : adouble K)) = _
  rw [Vec.eq_ofFn_getD n (adouble.resize n v s).1 d hlen]
  simp only [Vec.ofFn, List.map_map]
  apply List.map_congr_left
  intro i hi
  have hi' : i < n := List.mem_range.mp hi
  simp only [Function.comp]
  rw [adouble.resize_index n v s d i hi']

theorem adouble.assign_vector_counter (n : Nat) (x : K) (v : List (adouble K)) (s : Stack K) :
    (adouble.assign_vector n x v s).2.n_gradients_registered
      = s.n_gradients_registered + (n - v.length) := rfl

theorem adouble.assign_vector_independent (n : Nat) (x : K) (v : List (adouble K))
    (s : Stack K) :
    (adouble.assign_vector n x v s).2.independent_index = s.independent_index := rfl

theorem adouble.assign_vector_dependent (n : Nat) (x : K) (v : List (adouble K))
    (s : Stack K) :
    (adouble.assign_vector n x v s).2.dependent_index = s.dependent_index := rfl

/-- The call `s.dependent(&v[0], n)` appends the gradient indices of the first `n` entries
and declares the dependent variables. -/
theorem Stack.dependent_eq (s : Stack K) (n : Nat) (a : Nat → adouble K) :
    s.dependent (Vec.ofFn n a) n
      = Except.ok ⟨s.n_gradients_registered, s.statements, s.independent_index,
          s.dependent_index ++ Vec.ofFn n (fun i => (a i).gradient_index), s.recording,
          s.independents_declared, true⟩ := by
  have h := forLoop_eq
    (fun i (s : Stack K) => do
      let b ← Vec.read (Vec.ofFn n a) i
      pure (⟨s.n_gradients_registered, s.statements, s.independent_index,
        s.dependent_index ++ [b.gradient_index], s.recording, s.independents_declared,
        s.dependents_declared⟩ : Stack K))
    (fun i => ⟨s.n_gradients_registered, s.statements, s.independent_index,
      s.dependent_index ++ Vec.ofFn i (fun k => (a k).gradient_index), s.recording,
      s.independents_declared, true⟩) n (by
      intro i hi
      beta_reduce
      rw [Vec.ofFn_read n a i hi, Run.ok_bind]
      simp only [Run.pure_eq, Vec.ofFn, List.range_succ, List.map_append, List.map_cons,
        List.map_nil, List.append_assoc])
  beta_reduce at h
  simp only [Vec.ofFn, List.range_zero, List.map_nil, List.append_nil] at h
  exact h

/-- The call `s.independent(&v[0], n)` appends the gradient indices of the first `n`
entries and declares the independent variables. -/
theorem Stack.independent_eq (s : Stack K) (n : Nat) (a : Nat → adouble K) :
    s.independent (Vec.ofFn n a) n
      = Except.ok ⟨s.n_gradients_registered, s.statements,
          s.independent_index ++ Vec.ofFn n (fun i => (a i).gradient_index),
          s.dependent_index, s.recording, true, s.dependents_declared⟩ := by
  have h := forLoop_eq
    (fun i (s : Stack K) => do
      let b ← Vec.read (Vec.ofFn n a) i
      pure (⟨s.n_gradients_registered, s.statements,
        s.independent_index ++ [b.gradient_index], s.dependent_index, s.recording,
        s.independents_declared, s.dependents_declared⟩ : Stack K))
    (fun i => ⟨s.n_gradients_registered, s.statements,
      s.independent_index ++ Vec.ofFn i (fun k => (a k).gradient_index),
      s.dependent_index, s.recording, true, s.dependents_declared⟩) n (by
      intro i hi
      beta_reduce
      rw [Vec.ofFn_read n a i hi, Run.ok_bind]
      simp only [Run.pure_eq, Vec.ofFn, List.range_succ, List.map_append, List.map_cons,
        List.map_nil, List.append_assoc])
  beta_reduce at h
  simp only [Vec.ofFn, List.range_zero, List.map_nil, List.append_nil] at h
  exact h

/-- The extraction of the Jacobian of `m` dependent with respect to `n` independent
variables into a buffer of `m · n` entries, after a recording has been started and the
dependent and the independent variables have been declared: the Jacobian is ordered by
column, entry `j · m + i` is the derivative of the `i`-th dependent with respect to the
`j`-th independent variable. -/
theorem Stack.jacobian_eq (s : Stack K) (m n : Nat) (U R : Nat → Nat) (out : List K)
    (hrec : s.recording = true) (hid : s.independents_declared = true)
    (hdd : s.dependents_declared = true)
    (hind : s.independent_index = Vec.ofFn n U) (hdep : s.dependent_index = Vec.ofFn m R)
    (hout : out.length = m * n) :
    s.jacobian out
      = Except.ok (Vec.ofFn (m * n) (fun k => s.gradient (U (k / m)) (R (k % m)))) := by
  have hi1 : s.independent_index.length = n := by rw [hind, Vec.ofFn_length]
  have hd1 : s.dependent_index.length = m := by rw [hdep, Vec.ofFn_length]
  unfold Stack.jacobian
  rw [hrec, hid, hdd]
  simp only [Bool.and_self, if_true, hi1, hd1]
  rw [Nat.mul_comm m n] at hout ⊢
  rw [Vec.eq_ofFn_getD (n * m) out 0 hout]
  have h := forLoop_vec_blocks_rows n m
    (fun j i => s.gradient (s.independent_index.getD j 0) (s.dependent_index.getD i 0))
    (fun k => out.getD k 0)
  rw [h]
  congr 1
  apply Vec.ofFn_ext
  intro k hk
  have hm : 0 < m := by
    rcases Nat.eq_zero_or_pos m with h0 | h0
    · rw [h0, Nat.mul_zero] at hk
      exact absurd hk (Nat.not_lt_zero k)
    · exact h0
  have hkm : k % m < m := Nat.mod_lt k hm
  have hkn : k / m < n := by
    rw [Nat.div_lt_iff_lt_mul hm]
    exact hk
  rw [hind, hdep, Vec.ofFn_getD n U 0 _ hkn, Vec.ofFn_getD m R 0 _ hkm]

end tracked

/-! ## The gathering of the local arrays -/

section gather
variable {K V M : Type}

theorem resize_rows_spec [Zero K] (dim n : Nat) (x : Mat K) (hx : x.length = dim) :
    ∃ y, resize_rows dim n x = Except.ok y ∧ Mat.hasShape dim n y :=
  forLoop_resize_rows dim n x hx

theorem gather_coordinates_eq (msh : Mesh K) (dim n iel : Nat) (G : Nat → Nat → K) :
    gather_coordinates msh dim n iel (Mat.ofFn dim n G)
      = Except.ok (Mat.ofFn dim n
          (fun jdim i => msh.topology_Sol jdim (msh.GetSolutionDof i iel 2))) :=
  forLoop_fill_columns dim n
    (fun jdim i => msh.topology_Sol jdim (msh.GetSolutionDof i iel 2)) G

/-- The gathering of the solution returns: `solu[i]` holds the value of the solution at the
node and keeps its gradient index, `sysDof[i]` holds the global index, and the counter and
the registrations of the tape are as before. -/
theorem gather_solution_spec (msh : Mesh K) (sol : Solution K)
    (pdeSys : LinearEquationSolver V M) (soluIndex soluType soluPdeIndex iel nDofs : Nat)
    (s : Stack K) (a : Nat → adouble K) (d0 : Nat → Int) :
    ∃ g, gather_solution msh sol pdeSys soluIndex soluType soluPdeIndex iel nDofs
        (s, Vec.ofFn nDofs a, Vec.ofFn nDofs d0) = Except.ok g
      ∧ g.2.1 = Vec.ofFn nDofs (fun i =>
          ⟨sol.Sol soluIndex (msh.GetSolutionDof i iel soluType), (a i).gradient_index⟩)
      ∧ g.2.2 = Vec.ofFn nDofs (fun i => pdeSys.GetSystemDof soluIndex soluPdeIndex i iel)
      ∧ g.1.n_gradients_registered = s.n_gradients_registered
      ∧ g.1.independent_index = s.independent_index
      ∧ g.1.dependent_index = s.dependent_index := by
  unfold gather_solution
  refine forLoop_inv_imp nDofs _ (fun i (g : Stack K × List (adouble K) × List Int) =>
    g.2.1 = Vec.ofFn nDofs (fun k => if k < i then
        ⟨sol.Sol soluIndex (msh.GetSolutionDof k iel soluType), (a k).gradient_index⟩ else a k)
    ∧ g.2.2 = Vec.ofFn nDofs (fun k => if k < i then
        pdeSys.GetSystemDof soluIndex soluPdeIndex k iel else d0 k)
    ∧ g.1.n_gradients_registered = s.n_gradients_registered
    ∧ g.1.independent_index = s.independent_index
    ∧ g.1.dependent_index = s.dependent_index) _ _ ?_ ?_ ?_
  · refine ⟨?_, ?_, rfl, rfl, rfl⟩
    · apply Vec.ofFn_ext
      intro k _
      simp
    · apply Vec.ofFn_ext
      intro k _
      simp
  · intro i hi g hP
    obtain ⟨p1, p2, p3, p4, p5⟩ := hP
    have hread : Vec.read g.2.1 i = Except.ok (a i) := by
      rw [p1, Vec.ofFn_read nDofs _ i hi]
      simp
    simp only [hread, Run.ok_bind]
    rw [p1, p2, Vec.ofFn_write nDofs _ i _ hi, Run.ok_bind, Vec.ofFn_write nDofs _ i _ hi,
      Run.ok_bind]
    refine ⟨_, rfl, ?_, ?_, p3, p4, p5⟩
    · apply Vec.ofFn_ext
      intro k _
      by_cases hk : k = i
      · subst hk
        simp [adouble.assign]
      · simp only [hk, if_false]
        by_cases hlt : k < i
        · have : k < i + 1 := by omega
          simp only [hlt, this, if_true]
        · have : ¬ k < i + 1 := by omega
          simp only [hlt, this, if_false]
    · apply Vec.ofFn_ext
      intro k _
      by_cases hk : k = i
      · subst hk
        simp
      · simp only [hk, if_false]
        by_cases hlt : k < i
        · have : k < i + 1 := by omega
          simp only [hlt, this, if_true]
        · have : ¬ k < i + 1 := by omega
          simp only [hlt, this, if_false]
  · intro g hP
    obtain ⟨p1, p2, p3, p4, p5⟩ := hP
    refine ⟨?_, ?_, p3, p4, p5⟩
    · rw [p1]
      apply Vec.ofFn_ext
      intro k hk
      simp [hk]
    · rw [p2]
      apply Vec.ofFn_ext
      intro k hk
      simp [hk]

end gather

/-! ## The gradient indices of the local unknowns and of the local residual -/

section indices
variable {K : Type} [Field K]

/-- After `solu.resize(n)` and `aRes.assign(n, 0.)` the gradient indices of the two vectors
have been handed out by the tape and are pairwise different. -/
theorem Stack.tracks_resize (s : Stack K) (solu aRes : List (adouble K)) (n : Nat)
    (htr : s.tracks solu aRes) (U R : Nat → Nat)
    (hU : ∀ i, U i = if i < solu.length then adouble.index solu i
      else s.n_gradients_registered + (i - solu.length))
    (hR : ∀ i, R i = if i < aRes.length then adouble.index aRes i
      else s.n_gradients_registered + (n - solu.length) + (i - aRes.length)) :
    (∀ i < n, U i < s.n_gradients_registered + (n - solu.length) + (n - aRes.length))
    ∧ (∀ i < n, R i < s.n_gradients_registered + (n - solu.length) + (n - aRes.length))
    ∧ (∀ i < n, ∀ k < n, U i = U k → i = k)
    ∧ (∀ i < n, ∀ k < n, R i = R k → i = k)
    ∧ (∀ j < n, ∀ i < n, U j ≠ R i) := by
  obtain ⟨t1, t2, t3, t4, t5⟩ := htr
  refine ⟨?_, ?_, ?_, ?_, ?_⟩
  · intro i hi
    rw [hU i]
    by_cases h : i < solu.length
    · have := t1 i h
      simp only [h, if_true]
      omega
    · simp only [h, if_false]
      omega
  · intro i hi
    rw [hR i]
    by_cases h : i < aRes.length
    · have := t2 i h
      simp only [h, if_true]
      omega
    · simp only [h, if_false]
      omega
  · intro i hi k hk
    rw [hU i, hU k]
    by_cases h : i < solu.length <;> by_cases h' : k < solu.length <;>
      simp only [h, h', if_true, if_false]
    · exact t3 i h k h'
    · have := t1 i h
      omega
    · have := t1 k h'
      omega
    · omega
  · intro i hi k hk
    rw [hR i, hR k]
    by_cases h : i < aRes.length <;> by_cases h' : k < aRes.length <;>
      simp only [h, h', if_true, if_false]
    · exact t4 i h k h'
    · have := t2 i h
      omega
    · have := t2 k h'
      omega
    · omega
  · intro j hj i hi
    rw [hU j, hR i]
    by_cases h : j < solu.length <;> by_cases h' : i < aRes.length <;>
      simp only [h, h', if_true, if_false]
    · exact t5 j h i h'
    · have := t1 j h
      omega
    · have := t2 i h'
      omega
    · omega

theorem adouble.index_ofFn (n : Nat) (a : Nat → adouble K) (i : Nat) (hi : i < n) :
    adouble.index (Vec.ofFn n a) i = (a i).gradient_index := by
  rw [adouble.index, Vec.ofFn_getD n a _ i hi]

/-- Two vectors of `n` tracked variables whose gradient indices are pairwise different and
below the counter of the tape are tracked by it. -/
theorem Stack.tracks_ofFn (s : Stack K) (n : Nat) (u r : Nat → adouble K)
    (hun : ∀ i < n, (u i).gradient_index < s.n_gradients_registered)
    (hrn : ∀ i < n, (r i).gradient_index < s.n_gradients_registered)
    (huinj : ∀ i < n, ∀ k < n, (u i).gradient_index = (u k).gradient_index → i = k)
    (hrinj : ∀ i < n, ∀ k < n, (r i).gradient_index = (r k).gradient_index → i = k)
    (hur : ∀ j < n, ∀ i < n, (u j).gradient_index ≠ (r i).gradient_index) :
    s.tracks (Vec.ofFn n u) (Vec.ofFn n r) := by
  simp only [Stack.tracks, Vec.ofFn_length]
  refine ⟨?_, ?_, ?_, ?_, ?_⟩
  · intro i hi
    rw [adouble.index_ofFn n u i hi]
    exact hun i hi
  · intro i hi
    rw [adouble.index_ofFn n r i hi]
    exact hrn i hi
  · intro i hi k hk
    rw [adouble.index_ofFn n u i hi, adouble.index_ofFn n u k hk]
    exact huinj i hi k hk
  · intro i hi k hk
    rw [adouble.index_ofFn n r i hi, adouble.index_ofFn n r k hk]
    exact hrinj i hi k hk
  · intro j hj i hi
    rw [adouble.index_ofFn n u j hj, adouble.index_ofFn n r i hi]
    exact hur j hj i hi

end indices

/-! ## The recording and the declarations of the tape

The statements recorded between `new_recording` and the extraction of the Jacobian leave the
three parts of the sequence of the tape as they are. -/

section recording
variable {K : Type} [Field K]

theorem adouble.vector_recording (n : Nat) (x : K) (s : Stack K) :
    (adouble.vector n x s).2.recording = s.recording := by
  induction n with
  | zero => rfl
  | succ k ih =>
    have hdef : adouble.vector (k + 1) x s
        = ((adouble.vector k x s).1 ++ [(adouble.passive x (adouble.vector k x s).2).1],
            (adouble.passive x (adouble.vector k x s).2).2) := rfl
    rw [hdef]
    exact ih

/-- A declaration of dependent variables that returns declares them and keeps the recording
and the declaration of the independent variables. -/
theorem Stack.dependent_sequence (s t : Stack K) (v : List (adouble K)) (n : Nat)
    (h : s.dependent v n = Except.ok t) :
    t.recording = s.recording ∧ t.independents_declared = s.independents_declared
      ∧ t.dependents_declared = true := by
  unfold Stack.dependent at h
  refine forLoop_preserves n _ (fun t : Stack K => t.recording = s.recording
    ∧ t.independents_declared = s.independents_declared ∧ t.dependents_declared = true) _ t
    ?_ ?_ h
  · exact ⟨rfl, rfl, rfl⟩
  intro i _ s1 t1 hP hb
  obtain ⟨_, -, hb⟩ := Run.bind_ok_inv _ _ _ hb
  rw [Run.pure_eq] at hb
  injection hb with hb
  rw [← hb]
  exact hP

/-- A declaration of independent variables that returns declares them and keeps the
recording and the declaration of the dependent variables. -/
theorem Stack.independent_sequence (s t : Stack K) (v : List (adouble K)) (n : Nat)
    (h : s.independent v n = Except.ok t) :
    t.recording = s.recording ∧ t.independents_declared = true
      ∧ t.dependents_declared = s.dependents_declared := by
  unfold Stack.independent at h
  refine forLoop_preserves n _ (fun t : Stack K => t.recording = s.recording
    ∧ t.independents_declared = true ∧ t.dependents_declared = s.dependents_declared) _ t
    ?_ ?_ h
  · exact ⟨rfl, rfl, rfl⟩
  intro i _ s1 t1 hP hb
  obtain ⟨_, -, hb⟩ := Run.bind_ok_inv _ _ _ hb
  rw [Run.pure_eq] at hb
  injection hb with hb
  rw [← hb]
  exact hP

/-- The evaluation at a Gauss point of `AssembleStandardProblem` keeps the recording. -/
theorem AssembleStandardProblem.gauss_point_recording (dim nDofs : Nat)
    (phi phi_x : List K) (x : Mat K) (solu : List (adouble K)) (s : Stack K) (g : GaussPoint K)
    (h : AssembleStandardProblem.gauss_point dim nDofs phi phi_x x solu s = Except.ok g) :
    g.s.recording = s.recording := by
  unfold AssembleStandardProblem.gauss_point at h
  refine forLoop_preserves nDofs _ (fun g => g.s.recording = s.recording) _ g ?_ ?_ h
  · show (adouble.vector dim 0 (adouble.passive 0 s).2).2.recording = _
    rw [adouble.vector_recording]
    rfl
  · intro i _ s1 t hP hb
    obtain ⟨_, -, hb⟩ := Run.bind_ok_inv _ _ _ hb
    obtain ⟨_, -, hb⟩ := Run.bind_ok_inv _ _ _ hb
    refine forLoop_preserves dim _ (fun g => g.s.recording = s.recording) _ t hP ?_ hb
    intro jdim _ s2 t2 hP2 hb2
    obtain ⟨_, -, hb2⟩ := Run.bind_ok_inv _ _ _ hb2
    obtain ⟨_, -, hb2⟩ := Run.bind_ok_inv _ _ _ hb2
    obtain ⟨_, -, hb2⟩ := Run.bind_ok_inv _ _ _ hb2
    obtain ⟨_, -, hb2⟩ := Run.bind_ok_inv _ _ _ hb2
    obtain ⟨_, -, hb2⟩ := Run.bind_ok_inv _ _ _ hb2
    obtain ⟨_, -, hb2⟩ := Run.bind_ok_inv _ _ _ hb2
    rw [Run.pure_eq] at hb2
    injection hb2 with hb2
    rw [← hb2]
    exact hP2

/-- The loop over the test functions of `AssembleStandardProblem` keeps the recording. -/
theorem AssembleStandardProblem.phi_i_loop_recording (acos cos sin : K → K)
    (dim nDofs : Nat) (phi phi_x : List K) (weight : K) (soluGauss_x : List (adouble K))
    (xGauss : List K) (s : Stack K) (aRes : List (adouble K))
    (p : Stack K × List (adouble K))
    (h : AssembleStandardProblem.phi_i_loop acos cos sin dim nDofs phi phi_x weight soluGauss_x
      xGauss s aRes = Except.ok p) :
    p.1.recording = s.recording := by
  unfold AssembleStandardProblem.phi_i_loop at h
  refine forLoop_preserves nDofs _
    (fun (p : Stack K × List (adouble K)) => p.1.recording = s.recording) _ p rfl ?_ h
  intro i _ s1 t hP hb
  obtain ⟨m, hm, hb⟩ := Run.bind_ok_inv _ _ _ hb
  have hmr : m.2.recording = s.recording := by
    refine forLoop_preserves dim _
      (fun (m : adouble K × Stack K) => m.2.recording = s.recording) _ m hP ?_ hm
    intro jdim _ m1 m2 hP1 hb1
    obtain ⟨_, -, hb1⟩ := Run.bind_ok_inv _ _ _ hb1
    obtain ⟨_, -, hb1⟩ := Run.bind_ok_inv _ _ _ hb1
    rw [Run.pure_eq] at hb1
    injection hb1 with hb1
    rw [← hb1]
    exact hP1
  obtain ⟨_, -, hb⟩ := Run.bind_ok_inv _ _ _ hb
  obtain ⟨_, -, hb⟩ := Run.bind_ok_inv _ _ _ hb
  obtain ⟨_, -, hb⟩ := Run.bind_ok_inv _ _ _ hb
  obtain ⟨_, -, hb⟩ := Run.bind_ok_inv _ _ _ hb
  obtain ⟨_, -, hb⟩ := Run.bind_ok_inv _ _ _ hb
  obtain ⟨_, -, hb⟩ := Run.bind_ok_inv _ _ _ hb
  rw [Run.pure_eq] at hb
  injection hb with hb
  rw [← hb]
  exact hmr

/-- The Gauss point loop of `AssembleStandardProblem` keeps the recording. -/
theorem AssembleStandardProblem.gauss_loop_recording (acos cos sin : K → K)
    (fe : FiniteElement K) (dim nDofs : Nat) (x : Mat K) (solu : List (adouble K))
    (r out : Stack K × List (adouble K) × ShapeOut K)
    (h : AssembleStandardProblem.gauss_loop acos cos sin fe dim nDofs x solu r = Except.ok out) :
    out.1.recording = r.1.recording := by
  unfold AssembleStandardProblem.gauss_loop at h
  refine forLoop_preserves fe.GetGaussPointNumber _
    (fun (t : Stack K × List (adouble K) × ShapeOut K) => t.1.recording = r.1.recording) _ out
    rfl ?_ h
  intro ig _ s1 t hP hb
  obtain ⟨shape, -, hb⟩ := Run.bind_ok_inv _ _ _ hb
  obtain ⟨g, hg, hb⟩ := Run.bind_ok_inv _ _ _ hb
  obtain ⟨p, hp, hb⟩ := Run.bind_ok_inv _ _ _ hb
  rw [Run.pure_eq] at hb
  injection hb with hb
  rw [← hb]
  show p.1.recording = _
  rw [AssembleStandardProblem.phi_i_loop_recording acos cos sin dim nDofs _ _ _ _ _ _ _ p hp,
    AssembleStandardProblem.gauss_point_recording dim nDofs _ _ x solu s1.1 g hg]
  exact hP

/-- The evaluation of the derivatives at a Gauss point of `BuidProjection` keeps the
recording. -/
theorem BuidProjection.solux_g_recording (dim nDofs : Nat) (phi_x : List K)
    (solu : List (adouble K)) (s : Stack K) (g : Stack K × List (adouble K))
    (h : BuidProjection.solux_g dim nDofs phi_x solu s = Except.ok g) :
    g.1.recording = s.recording := by
  unfold BuidProjection.solux_g at h
  refine forLoop_preserves nDofs _
    (fun (g : Stack K × List (adouble K)) => g.1.recording = s.recording) _ g ?_ ?_ h
  · show (adouble.vector dim 0 s).2.recording = _
    exact adouble.vector_recording dim 0 s
  · intro i _ s1 t hP hb
    refine forLoop_preserves dim _
      (fun (g : Stack K × List (adouble K)) => g.1.recording = s.recording) _ t hP ?_ hb
    intro k _ s2 t2 hP2 hb2
    obtain ⟨_, -, hb2⟩ := Run.bind_ok_inv _ _ _ hb2
    obtain ⟨_, -, hb2⟩ := Run.bind_ok_inv _ _ _ hb2
    obtain ⟨_, -, hb2⟩ := Run.bind_ok_inv _ _ _ hb2
    obtain ⟨_, -, hb2⟩ := Run.bind_ok_inv _ _ _ hb2
    rw [Run.pure_eq] at hb2
    injection hb2 with hb2
    rw [← hb2]
    exact hP2

/-- The loop over the test functions of `BuidProjection` keeps the recording. -/
theorem BuidProjection.phi_i_loop_keeps_recording (dim nDofs : Nat) (phi : List K) (weight : K)
    (solux_g : List (adouble K)) (r p : Stack K × Mat (adouble K))
    (h : BuidProjection.phi_i_loop dim nDofs phi weight solux_g r = Except.ok p) :
    p.1.recording = r.1.recording := by
  unfold BuidProjection.phi_i_loop at h
  refine forLoop_preserves nDofs _
    (fun (p : Stack K × Mat (adouble K)) => p.1.recording = r.1.recording) _ p rfl ?_ h
  intro i _ s1 t hP hb
  refine forLoop_preserves dim _
    (fun (p : Stack K × Mat (adouble K)) => p.1.recording = r.1.recording) _ t hP ?_ hb
  intro k _ s2 t2 hP2 hb2
  obtain ⟨_, -, hb2⟩ := Run.bind_ok_inv _ _ _ hb2
  obtain ⟨_, -, hb2⟩ := Run.bind_ok_inv _ _ _ hb2
  obtain ⟨_, -, hb2⟩ := Run.bind_ok_inv _ _ _ hb2
  obtain ⟨_, -, hb2⟩ := Run.bind_ok_inv _ _ _ hb2
  rw [Run.pure_eq] at hb2
  injection hb2 with hb2
  rw [← hb2]
  exact hP2

/-- The Gauss point loop of `BuidProjection` keeps the recording. -/
theorem BuidProjection.gauss_loop_keeps_recording (fe : FiniteElement K) (dim nDofs : Nat)
    (x : Mat K) (solu : List (adouble K)) (r out : Stack K × Mat (adouble K) × ShapeOut K)
    (h : BuidProjection.gauss_loop fe dim nDofs x solu r = Except.ok out) :
    out.1.recording = r.1.recording := by
  unfold BuidProjection.gauss_loop at h
  refine forLoop_preserves fe.GetGaussPointNumber _
    (fun (t : Stack K × Mat (adouble K) × ShapeOut K) => t.1.recording = r.1.recording) _ out
    rfl ?_ h
  intro ig _ s1 t hP hb
  obtain ⟨shape, -, hb⟩ := Run.bind_ok_inv _ _ _ hb
  obtain ⟨g, hg, hb⟩ := Run.bind_ok_inv _ _ _ hb
  obtain ⟨p, hp, hb⟩ := Run.bind_ok_inv _ _ _ hb
  rw [Run.pure_eq] at hb
  injection hb with hb
  rw [← hb]
  show p.1.recording = _
  rw [BuidProjection.phi_i_loop_keeps_recording dim nDofs _ _ _ _ p hp,
    BuidProjection.solux_g_recording dim nDofs _ solu s1.1 g hg]
  exact hP

end recording

section recordSequence
variable {K V M : Type} [Field K]

/-- When the recording of an element of `AssembleStandardProblem` returns, a recording has
been started and the dependent and the independent variables have been declared. -/
theorem AssembleStandardProblem.record_sequence (acos cos sin : K → K)
    (RESops : NumericVector K V) (msh : Mesh K) (sol : Solution K)
    (pdeSys : LinearEquationSolver V M) (soluIndex soluType soluPdeIndex iel : Nat)
    (st st1 : AssembleState K V M)
    (h : AssembleStandardProblem.record acos cos sin RESops msh sol pdeSys soluIndex soluType
      soluPdeIndex iel st = Except.ok st1) :
    st1.s.recording = true ∧ st1.s.independents_declared = true
      ∧ st1.s.dependents_declared = true := by
  unfold AssembleStandardProblem.record at h
  simp only [] at h
  obtain ⟨_, -, h⟩ := Run.bind_ok_inv _ _ _ h
  obtain ⟨g, -, h⟩ := Run.bind_ok_inv _ _ _ h
  obtain ⟨_, -, h⟩ := Run.bind_ok_inv _ _ _ h
  obtain ⟨rec, hrec, h⟩ := Run.bind_ok_inv _ _ _ h
  obtain ⟨_, -, h⟩ := Run.bind_ok_inv _ _ _ h
  obtain ⟨s1, hs1, h⟩ := Run.bind_ok_inv _ _ _ h
  obtain ⟨s2, hs2, h⟩ := Run.bind_ok_inv _ _ _ h
  rw [Run.pure_eq] at h
  injection h with h
  rw [← h]
  show s2.recording = true ∧ s2.independents_declared = true ∧ s2.dependents_declared = true
  obtain ⟨a1, a2, a3⟩ := Stack.independent_sequence s1 s2 _ _ hs2
  obtain ⟨b1, _, b3⟩ := Stack.dependent_sequence rec.1 s1 _ _ hs1
  have hr := AssembleStandardProblem.gauss_loop_recording acos cos sin _ _ _ _ _ _ rec hrec
  refine ⟨?_, a2, ?_⟩
  · rw [a1, b1, hr]
    rfl
  · rw [a3, b3]

/-- When the recording of an element of `BuidProjection` returns, a recording has been
started and the independent variables have been declared. -/
theorem BuidProjection.record_declares (msh : Mesh K) (sol : Solution K)
    (sysP0 : LinearEquationSolver V M) (soluIndex soluType soluPdeIndex iel : Nat)
    (st st1 : ProjectionState K M)
    (h : BuidProjection.record msh sol sysP0 soluIndex soluType soluPdeIndex iel st
      = Except.ok st1) :
    st1.s.recording = true ∧ st1.s.independents_declared = true := by
  unfold BuidProjection.record at h
  simp only [] at h
  obtain ⟨_, -, h⟩ := Run.bind_ok_inv _ _ _ h
  obtain ⟨g, -, h⟩ := Run.bind_ok_inv _ _ _ h
  obtain ⟨_, -, h⟩ := Run.bind_ok_inv _ _ _ h
  obtain ⟨rec, hrec, h⟩ := Run.bind_ok_inv _ _ _ h
  obtain ⟨s1, hs1, h⟩ := Run.bind_ok_inv _ _ _ h
  rw [Run.pure_eq] at h
  injection h with h
  rw [← h]
  show s1.recording = true ∧ s1.independents_declared = true
  obtain ⟨a1, a2, _⟩ := Stack.independent_sequence rec.1 s1 _ _ hs1
  have hr := BuidProjection.gauss_loop_keeps_recording _ _ _ _ _ _ rec hrec
  refine ⟨?_, a2⟩
  rw [a1, hr]
  rfl

end recordSequence

/-! ## The element of `AssembleStandardProblem` up to the extraction of the Jacobian -/

section record
variable {K V M : Type} [Field K]

/-- The recording of an element returns.  The local residual added to `RES` and the
derivatives on the tape are the sums over the Gauss points computed from the outputs
`sh ig` of the shape evaluator; the registered variables are the local unknowns and the local
residual. -/
theorem AssembleStandardProblem.record_spec (acos cos sin : K → K) (RESops : NumericVector K V)
    (msh : Mesh K) (sol : Solution K) (pdeSys : LinearEquationSolver V M)
    (soluIndex soluType soluPdeIndex iel : Nat) (st : AssembleState K V M)
    (sh : Nat → ShapeOut K) (φ φx : Nat → Nat → K)
    (hdim : 2 ≤ msh.GetDimension)
    (hx : st.x.length = msh.GetDimension)
    (htr : st.s.tracks st.solu st.aRes)
    (hshape : ∀ ig < (msh.finiteElement (msh.GetElementType iel) soluType).GetGaussPointNumber,
      (msh.finiteElement (msh.GetElementType iel) soluType).Jacobian
        (Mat.ofFn msh.GetDimension (msh.GetElementDofNumber iel soluType)
          (fun jdim i => msh.topology_Sol jdim (msh.GetSolutionDof i iel 2))) ig none
        = Except.ok (sh ig))
    (hphi : ∀ ig < (msh.finiteElement (msh.GetElementType iel) soluType).GetGaussPointNumber,
      ∀ i < msh.GetElementDofNumber iel soluType, Vec.read (sh ig).phi i = Except.ok (φ ig i))
    (hphix : ∀ ig < (msh.finiteElement (msh.GetElementType iel) soluType).GetGaussPointNumber,
      ∀ i < msh.GetElementDofNumber iel soluType, ∀ jdim < msh.GetDimension,
        Vec.read (sh ig).gradphi (i * msh.GetDimension + jdim)
          = Except.ok (φx ig (i * msh.GetDimension + jdim))) :
    ∃ st', AssembleStandardProblem.record acos cos sin RESops msh sol pdeSys soluIndex soluType
        soluPdeIndex iel st = Except.ok st'
      ∧ st'.KK = st.KK
      ∧ st'.RES = RESops.add_vector_blocked st.RES
          (Vec.ofFn (msh.GetElementDofNumber iel soluType) (fun i =>
            -(0 + ∑ ig in Finset.range
                (msh.finiteElement (msh.GetElementType iel) soluType).GetGaussPointNumber,
              ((-(-2 * acos (-1) * acos (-1)
                  * cos (acos (-1) * ∑ k in Finset.range (msh.GetElementDofNumber iel soluType),
                      msh.topology_Sol 0 (msh.GetSolutionDof k iel 2) * φ ig k)
                  * cos (acos (-1) * ∑ k in Finset.range (msh.GetElementDofNumber iel soluType),
                      msh.topology_Sol 1 (msh.GetSolutionDof k iel 2) * φ ig k))) * φ ig i
                - ∑ jdim in Finset.range msh.GetDimension,
                    φx ig (i * msh.GetDimension + jdim)
                    * ∑ j in Finset.range (msh.GetElementDofNumber iel soluType),
                        φx ig (j * msh.GetDimension + jdim)
                          * sol.Sol soluIndex (msh.GetSolutionDof j iel soluType))
                * (sh ig).Weight)))
          (Vec.ofFn (msh.GetElementDofNumber iel soluType)
            (fun i => pdeSys.GetSystemDof soluIndex soluPdeIndex i iel))
      ∧ st'.sysDof = Vec.ofFn (msh.GetElementDofNumber iel soluType)
          (fun i => pdeSys.GetSystemDof soluIndex soluPdeIndex i iel)
      ∧ st'.Jac.length = msh.GetElementDofNumber iel soluType * msh.GetElementDofNumber iel soluType
      ∧ st'.x.length = msh.GetDimension
      ∧ st'.solu.length = msh.GetElementDofNumber iel soluType
      ∧ st'.aRes.length = msh.GetElementDofNumber iel soluType
      ∧ st'.s.tracks st'.solu st'.aRes
      ∧ st'.s.independent_index = st.s.independent_index
          ++ Vec.ofFn (msh.GetElementDofNumber iel soluType) (adouble.index st'.solu)
      ∧ st'.s.dependent_index = st.s.dependent_index
          ++ Vec.ofFn (msh.GetElementDofNumber iel soluType) (adouble.index st'.aRes)
      ∧ (∀ i < msh.GetElementDofNumber iel soluType,
          ∀ j < msh.GetElementDofNumber iel soluType,
          st'.s.gradient (adouble.index st'.solu j) (adouble.index st'.aRes i)
            = ∑ ig in Finset.range
                (msh.finiteElement (msh.GetElementType iel) soluType).GetGaussPointNumber,
              -(sh ig).Weight * ∑ jdim in Finset.range msh.GetDimension,
                φx ig (i * msh.GetDimension + jdim) * φx ig (j * msh.GetDimension + jdim)) := by
  -- the gradient indices of the local unknowns and of the local residual
  have hU := fun i hi => adouble.resize_index (msh.GetElementDofNumber iel soluType) st.solu st.s
    ⟨0, 0⟩ i hi
  obtain ⟨i1, i2, i3, i4, i5⟩ := Stack.tracks_resize st.s st.solu st.aRes
    (msh.GetElementDofNumber iel soluType) htr
    (fun i => if i < st.solu.length then adouble.index st.solu i
      else st.s.n_gradients_registered + (i - st.solu.length))
    (fun i => if i < st.aRes.length then adouble.index st.aRes i
      else st.s.n_gradients_registered + (msh.GetElementDofNumber iel soluType - st.solu.length)
        + (i - st.aRes.length))
    (fun _ => rfl) (fun _ => rfl)
  -- the local arrays
  obtain ⟨y, hy, hyshape⟩ := resize_rows_spec msh.GetDimension
    (msh.GetElementDofNumber iel soluType) st.x hx
  have hgc : gather_coordinates msh msh.GetDimension (msh.GetElementDofNumber iel soluType) iel y
      = Except.ok (Mat.ofFn msh.GetDimension (msh.GetElementDofNumber iel soluType)
          (fun jdim i => msh.topology_Sol jdim (msh.GetSolutionDof i iel 2))) := by
    rw [Mat.eq_ofFn_of_hasShape _ _ y hyshape]
    exact gather_coordinates_eq msh _ _ iel _
  have hsolu1 := Vec.eq_ofFn_getD (msh.GetElementDofNumber iel soluType)
    (adouble.resize (msh.GetElementDofNumber iel soluType) st.solu st.s).1 ⟨0, 0⟩
    (adouble.resize_length _ _ _)
  have haRes1 := adouble.assign_vector_fst (msh.GetElementDofNumber iel soluType) (0 : K)
    st.aRes (adouble.resize (msh.GetElementDofNumber iel soluType) st.solu st.s).2 ⟨0, 0⟩
  have hsys := Vec.eq_ofFn_getD (msh.GetElementDofNumber iel soluType)
    (resize (msh.GetElementDofNumber iel soluType) st.sysDof 0) 0 (length_resize _ _ _)
  obtain ⟨g, hg, g1, g2, g3, g4, g5⟩ := gather_solution_spec msh sol pdeSys soluIndex soluType
    soluPdeIndex iel (msh.GetElementDofNumber iel soluType)
    (adouble.assign_vector (msh.GetElementDofNumber iel soluType) 0 st.aRes
      (adouble.resize (msh.GetElementDofNumber iel soluType) st.solu st.s).2).2
    (fun i => (adouble.resize (msh.GetElementDofNumber iel soluType) st.solu st.s).1.getD i
      ⟨0, 0⟩)
    (fun i => (resize (msh.GetElementDofNumber iel soluType) st.sysDof 0).getD i 0)
  rw [← hsolu1, ← hsys] at hg
  simp only [adouble.assign_vector_counter, adouble.assign_vector_independent,
    adouble.assign_vector_dependent, adouble.resize_counter] at g3 g4 g5
  have g4' : g.1.independent_index = st.s.independent_index := g4
  have g5' : g.1.dependent_index = st.s.dependent_index := g5
  -- the Gauss point loop
  obtain ⟨out, hout, o1, o2, o3, o4, o5, o6⟩ := AssembleStandardProblem.gauss_loop_spec acos cos
    sin (msh.finiteElement (msh.GetElementType iel) soluType) msh.GetDimension
    (msh.GetElementDofNumber iel soluType)
    (Mat.ofFn msh.GetDimension (msh.GetElementDofNumber iel soluType)
      (fun jdim i => msh.topology_Sol jdim (msh.GetSolutionDof i iel 2)))
    g.1.new_recording ⟨st.weight, st.phi, st.phi_x, none⟩ sh φ φx
    (fun jdim i => msh.topology_Sol jdim (msh.GetSolutionDof i iel 2))
    (fun i => ⟨sol.Sol soluIndex (msh.GetSolutionDof i iel soluType),
      ((adouble.resize (msh.GetElementDofNumber iel soluType) st.solu st.s).1.getD i
        ⟨0, 0⟩).gradient_index⟩)
    (fun i => ⟨0, if i < st.aRes.length then (st.aRes.getD i ⟨0, 0⟩).gradient_index
      else (adouble.resize (msh.GetElementDofNumber iel soluType) st.solu
        st.s).2.n_gradients_registered + (i - st.aRes.length)⟩)
    hdim hshape hphi hphix
    (fun jdim hj i hi => Mat.read_ofFn _ _ _ jdim i hj hi)
    (fun i hi => by
      show _ < g.1.n_gradients_registered
      rw [g3, hU i hi]
      exact i1 i hi)
    (fun i hi => by
      show _ < g.1.n_gradients_registered
      rw [g3]
      exact i2 i hi)
    (fun i hi k hk h => i4 i hi k hk h)
    (fun j hj i hi => by
      show _ ≠ _
      simp only []
      rw [hU j hj]
      exact i5 j hj i hi)
  rw [← g1, ← haRes1] at hout
  have hcopy := forLoop_copy_values (msh.GetElementDofNumber iel soluType)
    (fun i => (⟨(0 : K) + ∑ ig in Finset.range
        (msh.finiteElement (msh.GetElementType iel) soluType).GetGaussPointNumber,
      ((-(-2 * acos (-1) * acos (-1)
          * cos (acos (-1) * ∑ k in Finset.range (msh.GetElementDofNumber iel soluType),
              msh.topology_Sol 0 (msh.GetSolutionDof k iel 2) * φ ig k)
          * cos (acos (-1) * ∑ k in Finset.range (msh.GetElementDofNumber iel soluType),
              msh.topology_Sol 1 (msh.GetSolutionDof k iel 2) * φ ig k))) * φ ig i
        - ∑ jdim in Finset.range msh.GetDimension,
            φx ig (i * msh.GetDimension + jdim)
            * ∑ j in Finset.range (msh.GetElementDofNumber iel soluType),
                φx ig (j * msh.GetDimension + jdim)
                  * sol.Sol soluIndex (msh.GetSolutionDof j iel soluType))
        * (sh ig).Weight,
      if i < st.aRes.length then (st.aRes.getD i ⟨0, 0⟩).gradient_index
      else (adouble.resize (msh.GetElementDofNumber iel soluType) st.solu
        st.s).2.n_gradients_registered + (i - st.aRes.length)⟩ : adouble K))
  rw [← o1] at hcopy
  have hdep := Stack.dependent_eq out.1 (msh.GetElementDofNumber iel soluType) (fun i =>
    ((out.2.1).getD i ⟨0, 0⟩))
  rw [← Vec.eq_ofFn_getD _ out.2.1 ⟨0, 0⟩ (by rw [o1, Vec.ofFn_length])] at hdep
  unfold AssembleStandardProblem.record
  simp only []
  rw [hy, Run.ok_bind, hg, Run.ok_bind, hgc, Run.ok_bind, hout, Run.ok_bind, hcopy, Run.ok_bind,
    hdep, Run.ok_bind]
  have hind := Stack.independent_eq
    (⟨out.1.n_gradients_registered, out.1.statements, out.1.independent_index,
      out.1.dependent_index ++ Vec.ofFn (msh.GetElementDofNumber iel soluType)
        (fun i => ((out.2.1).getD i ⟨0, 0⟩).gradient_index), out.1.recording,
      out.1.independents_declared, true⟩ : Stack K)
    (msh.GetElementDofNumber iel soluType) (fun i => (g.2.1).getD i ⟨0, 0⟩)
  rw [← Vec.eq_ofFn_getD _ g.2.1 ⟨0, 0⟩ (by rw [g1, Vec.ofFn_length])] at hind
  rw [hind, Run.ok_bind]
  refine ⟨_, rfl, rfl, ?_, g2, length_resize _ _ _, ?_, ?_, ?_, ?_, ?_, ?_, ?_⟩
  · show RESops.add_vector_blocked st.RES _ g.2.2 = _
    rw [g2]
  · show (Mat.ofFn _ _ _).length = _
    exact Mat.length_ofFn _ _ _
  · show g.2.1.length = _
    rw [g1, Vec.ofFn_length]
  · show out.2.1.length = _
    rw [o1, Vec.ofFn_length]
  · show Stack.tracks _ g.2.1 out.2.1
    rw [g1, o1]
    apply Stack.tracks_ofFn
    · intro i hi
      show _ < out.1.n_gradients_registered
      have h2 : g.1.new_recording.n_gradients_registered = g.1.n_gradients_registered := rfl
      rw [h2, g3] at o2
      refine lt_of_lt_of_le ?_ o2
      simp only []
      rw [hU i hi]
      exact i1 i hi
    · intro i hi
      show _ < out.1.n_gradients_registered
      have h1 := i2 i hi
      have h2 : g.1.new_recording.n_gradients_registered = g.1.n_gradients_registered := rfl
      rw [h2, g3] at o2
      exact lt_of_lt_of_le h1 o2
    · intro i hi k hk h
      simp only [] at h
      rw [hU i hi, hU k hk] at h
      exact i3 i hi k hk h
    · intro i hi k hk h
      exact i4 i hi k hk h
    · intro j hj i hi
      simp only []
      rw [hU j hj]
      exact i5 j hj i hi
  · show out.1.independent_index ++ _ = _
    rw [o3]
    show g.1.independent_index ++ _ = _
    rw [g4']
    rfl
  · show out.1.dependent_index ++ _ = _
    rw [o4]
    show g.1.dependent_index ++ _ = _
    rw [g5']
    rfl
  · intro i hi j hj
    show out.1.gradient (adouble.index g.2.1 j) (adouble.index out.2.1 i) = _
    rw [g1, o1, adouble.index_ofFn _ _ j hj, adouble.index_ofFn _ _ i hi]
    have h6 := o6 (((adouble.resize (msh.GetElementDofNumber iel soluType) st.solu
      st.s).1.getD j ⟨0, 0⟩).gradient_index) i hi
    simp only [] at h6 ⊢
    rw [h6, Stack.gradient_new_recording]
    have hne : ¬ ((if i < st.aRes.length then (st.aRes.getD i ⟨0, 0⟩).gradient_index
        else (adouble.resize (msh.GetElementDofNumber iel soluType) st.solu
          st.s).2.n_gradients_registered + (i - st.aRes.length))
        = ((adouble.resize (msh.GetElementDofNumber iel soluType) st.solu st.s).1.getD j
          ⟨0, 0⟩).gradient_index) := by
      rw [hU j hj]
      exact fun h => i5 j hj i hi h.symm
    rw [if_neg hne, zero_add]
    apply Finset.sum_congr rfl
    intro ig _
    congr 1
    apply Finset.sum_congr rfl
    intro jdim _
    congr 1
    rw [Finset.sum_eq_single j]
    · rw [Stack.gradient_new_recording, if_pos rfl, mul_one]
    · intro k hk hkj
      rw [Stack.gradient_new_recording]
      have : ¬ (((adouble.resize (msh.GetElementDofNumber iel soluType) st.solu
          st.s).1.getD k ⟨0, 0⟩).gradient_index
          = ((adouble.resize (msh.GetElementDofNumber iel soluType) st.solu st.s).1.getD j
            ⟨0, 0⟩).gradient_index) := by
        rw [hU k (Finset.mem_range.mp hk), hU j hj]
        exact fun h => hkj (i3 k (Finset.mem_range.mp hk) j hj h)
      rw [if_neg this, mul_zero]
    · intro hnot
      exact absurd (Finset.mem_range.mpr hj) hnot

end record

/-! ## The element loop of `AssembleStandardProblem` -/

section element
variable {K V M : Type} [Field K]

/-- The body of the element loop returns for an element with `nDofs > 0`, when no variable
is registered at its start: the local residual is added to `RES`, the Jacobian extracted
from the tape is added to `KK`, and no variable is registered at its end. -/
theorem AssembleStandardProblem.element_spec (acos cos sin : K → K)
    (RESops : NumericVector K V) (KKops : SparseMatrix K M)
    (msh : Mesh K) (sol : Solution K) (pdeSys : LinearEquationSolver V M)
    (soluIndex soluType soluPdeIndex iel : Nat) (st : AssembleState K V M)
    (sh : Nat → ShapeOut K) (φ φx : Nat → Nat → K)
    (hdim : 2 ≤ msh.GetDimension)
    (hn : 0 < msh.GetElementDofNumber iel soluType)
    (hx : st.x.length = msh.GetDimension)
    (htr : st.s.tracks st.solu st.aRes)
    (hind : st.s.independent_index = []) (hdep : st.s.dependent_index = [])
    (hshape : ∀ ig < (msh.finiteElement (msh.GetElementType iel) soluType).GetGaussPointNumber,
      (msh.finiteElement (msh.GetElementType iel) soluType).Jacobian
        (Mat.ofFn msh.GetDimension (msh.GetElementDofNumber iel soluType)
          (fun jdim i => msh.topology_Sol jdim (msh.GetSolutionDof i iel 2))) ig none
        = Except.ok (sh ig))
    (hphi : ∀ ig < (msh.finiteElement (msh.GetElementType iel) soluType).GetGaussPointNumber,
      ∀ i < msh.GetElementDofNumber iel soluType, Vec.read (sh ig).phi i = Except.ok (φ ig i))
    (hphix : ∀ ig < (msh.finiteElement (msh.GetElementType iel) soluType).GetGaussPointNumber,
      ∀ i < msh.GetElementDofNumber iel soluType, ∀ jdim < msh.GetDimension,
        Vec.read (sh ig).gradphi (i * msh.GetDimension + jdim)
          = Except.ok (φx ig (i * msh.GetDimension + jdim))) :
    ∃ st', AssembleStandardProblem.element acos cos sin RESops KKops msh sol pdeSys soluIndex
        soluType soluPdeIndex iel st = Except.ok st'
      ∧ st'.RES = RESops.add_vector_blocked st.RES
          (Vec.ofFn (msh.GetElementDofNumber iel soluType) (fun i =>
            -(0 + ∑ ig in Finset.range
                (msh.finiteElement (msh.GetElementType iel) soluType).GetGaussPointNumber,
              ((-(-2 * acos (-1) * acos (-1)
                  * cos (acos (-1) * ∑ k in Finset.range (msh.GetElementDofNumber iel soluType),
                      msh.topology_Sol 0 (msh.GetSolutionDof k iel 2) * φ ig k)
                  * cos (acos (-1) * ∑ k in Finset.range (msh.GetElementDofNumber iel soluType),
                      msh.topology_Sol 1 (msh.GetSolutionDof k iel 2) * φ ig k))) * φ ig i
                - ∑ jdim in Finset.range msh.GetDimension,
                    φx ig (i * msh.GetDimension + jdim)
                    * ∑ j in Finset.range (msh.GetElementDofNumber iel soluType),
                        φx ig (j * msh.GetDimension + jdim)
                          * sol.Sol soluIndex (msh.GetSolutionDof j iel soluType))
                * (sh ig).Weight)))
          (Vec.ofFn (msh.GetElementDofNumber iel soluType)
            (fun i => pdeSys.GetSystemDof soluIndex soluPdeIndex i iel))
      ∧ st'.KK = KKops.add_matrix_blocked st.KK
          (Vec.ofFn (msh.GetElementDofNumber iel soluType * msh.GetElementDofNumber iel soluType)
            (fun k => ∑ ig in Finset.range
                (msh.finiteElement (msh.GetElementType iel) soluType).GetGaussPointNumber,
              -(sh ig).Weight * ∑ jdim in Finset.range msh.GetDimension,
                φx ig (k / msh.GetElementDofNumber iel soluType * msh.GetDimension + jdim)
                  * φx ig (k % msh.GetElementDofNumber iel soluType * msh.GetDimension + jdim)))
          (Vec.ofFn (msh.GetElementDofNumber iel soluType)
            (fun i => pdeSys.GetSystemDof soluIndex soluPdeIndex i iel))
          (Vec.ofFn (msh.GetElementDofNumber iel soluType)
            (fun i => pdeSys.GetSystemDof soluIndex soluPdeIndex i iel))
      ∧ st'.x.length = msh.GetDimension
      ∧ st'.s.tracks st'.solu st'.aRes
      ∧ st'.s.independent_index = [] ∧ st'.s.dependent_index = [] := by
  obtain ⟨st1, h1, r1, r2, r3, r4, r5, r6, r7, r8, r9, r10, r11⟩ :=
    AssembleStandardProblem.record_spec acos cos sin RESops msh sol pdeSys soluIndex soluType
      soluPdeIndex iel st sh φ φx hdim hx htr hshape hphi hphix
  rw [hind, List.nil_append] at r9
  rw [hdep, List.nil_append] at r10
  obtain ⟨f1, f2, f3⟩ := AssembleStandardProblem.record_sequence acos cos sin RESops msh sol
    pdeSys soluIndex soluType soluPdeIndex iel st st1 h1
  have hjac := Stack.jacobian_eq st1.s (msh.GetElementDofNumber iel soluType)
    (msh.GetElementDofNumber iel soluType) (adouble.index st1.solu) (adouble.index st1.aRes)
    st1.Jac f1 f2 f3 r9 r10 r4
  unfold AssembleStandardProblem.element
  rw [h1, Run.ok_bind, hjac, Run.ok_bind]
  refine ⟨_, rfl, r2, ?_, r5, r8, rfl, rfl⟩
  show KKops.add_matrix_blocked st1.KK _ st1.sysDof st1.sysDof = _
  rw [r1, r3]
  congr 1
  apply Vec.ofFn_ext
  intro k hk
  have hkn : k % msh.GetElementDofNumber iel soluType < msh.GetElementDofNumber iel soluType :=
    Nat.mod_lt k hn
  have hkm : k / msh.GetElementDofNumber iel soluType < msh.GetElementDofNumber iel soluType := by
    rw [Nat.div_lt_iff_lt_mul hn]
    exact hk
  rw [r11 _ hkn _ hkm]
  apply Finset.sum_congr rfl
  intro ig _
  congr 1
  apply Finset.sum_congr rfl
  intro jdim _
  exact mul_comm _ _

end element

/-! ## `AssembleStandardProblem` as a whole -/

section assemble
variable {K V M : Type} [Field K]

/-- Where the shape evaluator returns, `Mesh.shape` is what it returns. -/
theorem Mesh.shape_eq (msh : Mesh K) (soluType iel : Nat) (hev : msh.evaluates soluType iel)
    (ig : Nat)
    (hig : ig < (msh.finiteElement (msh.GetElementType iel) soluType).GetGaussPointNumber) :
    (msh.finiteElement (msh.GetElementType iel) soluType).Jacobian
        (msh.local_x (msh.GetElementDofNumber iel soluType) iel) ig none
      = Except.ok (msh.shape soluType iel ig)
    ∧ msh.GetElementDofNumber iel soluType ≤ (msh.shape soluType iel ig).phi.length
    ∧ msh.GetElementDofNumber iel soluType * msh.GetDimension
        ≤ (msh.shape soluType iel ig).gradphi.length := by
  obtain ⟨out, hout, h1, h2⟩ := hev ig hig
  have hs : msh.shape soluType iel ig = out := by
    simp only [Mesh.shape, hout]
  rw [hs]
  exact ⟨hout, h1, h2⟩

theorem Mesh.read_phi (msh : Mesh K) (soluType iel : Nat) (hev : msh.evaluates soluType iel)
    (ig : Nat)
    (hig : ig < (msh.finiteElement (msh.GetElementType iel) soluType).GetGaussPointNumber)
    (i : Nat) (hi : i < msh.GetElementDofNumber iel soluType) :
    Vec.read (msh.shape soluType iel ig).phi i = Except.ok (msh.phi soluType iel ig i) :=
  Vec.read_of_lt _ i (lt_of_lt_of_le hi (msh.shape_eq soluType iel hev ig hig).2.1)

theorem Mesh.read_phi_x (msh : Mesh K) (soluType iel : Nat) (hev : msh.evaluates soluType iel)
    (ig : Nat)
    (hig : ig < (msh.finiteElement (msh.GetElementType iel) soluType).GetGaussPointNumber)
    (i : Nat) (hi : i < msh.GetElementDofNumber iel soluType)
    (jdim : Nat) (hj : jdim < msh.GetDimension) :
    Vec.read (msh.shape soluType iel ig).gradphi (i * msh.GetDimension + jdim)
      = Except.ok (msh.phi_x soluType iel ig i jdim) := by
  apply Vec.read_of_lt
  refine lt_of_lt_of_le ?_ (msh.shape_eq soluType iel hev ig hig).2.2
  have : (i + 1) * msh.GetDimension ≤ msh.GetElementDofNumber iel soluType * msh.GetDimension :=
    Nat.mul_le_mul_right _ (by omega)
  rw [Nat.add_mul, Nat.one_mul] at this
  omega

/-- The body of the element loop in terms of `local_aRes`, `local_Jac` and `local_sysDof`. -/
theorem AssembleStandardProblem.element_eq (acos cos sin : K → K)
    (RESops : NumericVector K V) (KKops : SparseMatrix K M)
    (msh : Mesh K) (sol : Solution K) (pdeSys : LinearEquationSolver V M)
    (soluIndex soluType soluPdeIndex iel : Nat) (st : AssembleState K V M)
    (hdim : 2 ≤ msh.GetDimension)
    (hn : 0 < msh.GetElementDofNumber iel soluType)
    (hx : st.x.length = msh.GetDimension)
    (htr : st.s.tracks st.solu st.aRes)
    (hind : st.s.independent_index = []) (hdep : st.s.dependent_index = [])
    (hev : msh.evaluates soluType iel) :
    ∃ st', AssembleStandardProblem.element acos cos sin RESops KKops msh sol pdeSys soluIndex
        soluType soluPdeIndex iel st = Except.ok st'
      ∧ st'.RES = RESops.add_vector_blocked st.RES
          (Vec.ofFn (msh.GetElementDofNumber iel soluType)
            (fun i => -local_aRes acos cos msh sol soluIndex soluType iel i))
          (local_sysDof pdeSys soluIndex soluPdeIndex (msh.GetElementDofNumber iel soluType) iel)
      ∧ st'.KK = KKops.add_matrix_blocked st.KK
          (Vec.ofFn (msh.GetElementDofNumber iel soluType * msh.GetElementDofNumber iel soluType)
            (fun e => local_Jac msh soluType iel (e / msh.GetElementDofNumber iel soluType)
              (e % msh.GetElementDofNumber iel soluType)))
          (local_sysDof pdeSys soluIndex soluPdeIndex (msh.GetElementDofNumber iel soluType) iel)
          (local_sysDof pdeSys soluIndex soluPdeIndex (msh.GetElementDofNumber iel soluType) iel)
      ∧ st'.x.length = msh.GetDimension
      ∧ st'.s.tracks st'.solu st'.aRes
      ∧ st'.s.independent_index = [] ∧ st'.s.dependent_index = [] := by
  obtain ⟨st', h, e1, e2, e3, e4, e5, e6⟩ := AssembleStandardProblem.element_spec acos cos sin
    RESops KKops msh sol pdeSys soluIndex soluType soluPdeIndex iel st
    (msh.shape soluType iel)
    (fun ig i => msh.phi soluType iel ig i)
    (fun ig k => Vec.entry (msh.shape soluType iel ig).gradphi k)
    hdim hn hx htr hind hdep
    (fun ig hig => (msh.shape_eq soluType iel hev ig hig).1)
    (fun ig hig i hi => msh.read_phi soluType iel hev ig hig i hi)
    (fun ig hig i hi jdim hj => msh.read_phi_x soluType iel hev ig hig i hi jdim hj)
  refine ⟨st', h, ?_, ?_, e3, e4, e5, e6⟩
  · rw [e1]
    congr 1
    apply Vec.ofFn_ext
    intro i _
    rw [zero_add]
    congr 1
    unfold local_aRes
    apply Finset.sum_congr rfl
    intro ig _
    rw [mul_comm]
    rfl
  · rw [e2]
    congr 1
    apply Vec.ofFn_ext
    intro e _
    unfold local_Jac
    rw [← Finset.sum_neg_distrib]
    apply Finset.sum_congr rfl
    intro ig _
    rw [neg_mul]
    rfl

/-- The element loop over `cnt` elements from element `a` on. -/
theorem AssembleStandardProblem.loop_count (acos cos sin : K → K)
    (RESops : NumericVector K V) (KKops : SparseMatrix K M)
    (msh : Mesh K) (sol : Solution K) (pdeSys : LinearEquationSolver V M)
    (soluIndex soluType soluPdeIndex a cnt : Nat) (st0 : AssembleState K V M)
    (hdim : 2 ≤ msh.GetDimension)
    (hx : st0.x.length = msh.GetDimension)
    (htr : st0.s.tracks st0.solu st0.aRes)
    (hind : st0.s.independent_index = []) (hdep : st0.s.dependent_index = [])
    (hel : ∀ k < cnt, 0 < msh.GetElementDofNumber (a + k) soluType
      ∧ msh.evaluates soluType (a + k)) :
    ∃ st, forLoop cnt (fun k => AssembleStandardProblem.element acos cos sin RESops KKops msh
          sol pdeSys soluIndex soluType soluPdeIndex (a + k)) st0 = Except.ok st
      ∧ st.KK = (List.range cnt).foldl (fun KK k =>
          KKops.add_matrix_blocked KK
            (Vec.ofFn (msh.GetElementDofNumber (a + k) soluType
                * msh.GetElementDofNumber (a + k) soluType)
              (fun e => local_Jac msh soluType (a + k)
                (e / msh.GetElementDofNumber (a + k) soluType)
                (e % msh.GetElementDofNumber (a + k) soluType)))
            (local_sysDof pdeSys soluIndex soluPdeIndex
              (msh.GetElementDofNumber (a + k) soluType) (a + k))
            (local_sysDof pdeSys soluIndex soluPdeIndex
              (msh.GetElementDofNumber (a + k) soluType) (a + k))) st0.KK
      ∧ st.RES = (List.range cnt).foldl (fun R k =>
          RESops.add_vector_blocked R
            (Vec.ofFn (msh.GetElementDofNumber (a + k) soluType)
              (fun i => -local_aRes acos cos msh sol soluIndex soluType (a + k) i))
            (local_sysDof pdeSys soluIndex soluPdeIndex
              (msh.GetElementDofNumber (a + k) soluType) (a + k))) st0.RES
      ∧ st.s.independent_index = [] ∧ st.s.dependent_index = []
      ∧ st.x.length = msh.GetDimension ∧ st.s.tracks st.solu st.aRes := by
  induction cnt with
  | zero => exact ⟨st0, rfl, rfl, rfl, hind, hdep, hx, htr⟩
  | succ n ih =>
    obtain ⟨st1, h1, k1, k2, k3, k4, k5, k6⟩ := ih (fun k hk => hel k (Nat.lt_succ_of_lt hk))
    obtain ⟨st2, h2, e1, e2, e3, e4, e5, e6⟩ := AssembleStandardProblem.element_eq acos cos
      sin RESops KKops msh sol pdeSys soluIndex soluType soluPdeIndex (a + n) st1 hdim
      (hel n (by omega)).1 k5 k6 k3 k4 (hel n (by omega)).2
    refine ⟨st2, ?_, ?_, ?_, e5, e6, e3, e4⟩
    · rw [forLoop_succ, h1, Run.ok_bind, h2]
    · rw [e2, k1, List.range_succ, List.foldl_append]
      rfl
    · rw [e1, k2, List.range_succ, List.foldl_append]
      rfl

/-- `AssembleStandardProblem` returns when the system and the unknown are found, the
dimension is at least `2`, every owned element has a positive number of DOFs and a shape
evaluator that returns, and no variable is registered on the tape at the start: the global
residual and the global matrix are the zeroed ones with the local residuals and the local
matrices of the owned elements added, then closed; no variable is registered at the end. -/
theorem AssembleStandardProblem_eq (acos cos sin : K → K)
    (RESops : NumericVector K V) (KKops : SparseMatrix K M) (ml_prob : MultiLevelProblem K V M)
    (s : Stack K) (mlPdeSys : ImplicitSystem V M) (soluIndex soluPdeIndex : Nat)
    (hsys : ml_prob.get_system "Poisson" = Except.ok mlPdeSys)
    (hidx : ml_prob.ml_sol.GetIndex "u" = Except.ok soluIndex)
    (hpde : mlPdeSys.GetSolPdeIndex "u" = Except.ok soluPdeIndex)
    (hdim : 2 ≤ (ml_prob.ml_msh.GetLevel mlPdeSys.GetLevelToAssemble).GetDimension)
    (hel : ∀ iel,
      (ml_prob.ml_msh.GetLevel mlPdeSys.GetLevelToAssemble).elementOffset
          (ml_prob.ml_msh.GetLevel mlPdeSys.GetLevelToAssemble).processor_id ≤ iel →
      iel < (ml_prob.ml_msh.GetLevel mlPdeSys.GetLevelToAssemble).elementOffset
          ((ml_prob.ml_msh.GetLevel mlPdeSys.GetLevelToAssemble).processor_id + 1) →
      0 < (ml_prob.ml_msh.GetLevel mlPdeSys.GetLevelToAssemble).GetElementDofNumber iel
          (ml_prob.ml_sol.GetSolutionType soluIndex)
      ∧ (ml_prob.ml_msh.GetLevel mlPdeSys.GetLevelToAssemble).evaluates
          (ml_prob.ml_sol.GetSolutionType soluIndex) iel)
    (hind : s.independent_index = []) (hdep : s.dependent_index = []) :
    ∃ s', AssembleStandardProblem acos cos sin RESops KKops ml_prob s
        = Except.ok (s',
          KKops.close (assembled_KK KKops (ml_prob.ml_msh.GetLevel mlPdeSys.GetLevelToAssemble)
            (mlPdeSys.LinSolver mlPdeSys.GetLevelToAssemble) soluIndex
            (ml_prob.ml_sol.GetSolutionType soluIndex) soluPdeIndex
            ((ml_prob.ml_msh.GetLevel mlPdeSys.GetLevelToAssemble).elementOffset
              (ml_prob.ml_msh.GetLevel mlPdeSys.GetLevelToAssemble).processor_id)
            ((ml_prob.ml_msh.GetLevel mlPdeSys.GetLevelToAssemble).elementOffset
              ((ml_prob.ml_msh.GetLevel mlPdeSys.GetLevelToAssemble).processor_id + 1))
            (KKops.zero (mlPdeSys.LinSolver mlPdeSys.GetLevelToAssemble).KK)),
          RESops.close (assembled_RES acos cos RESops
            (ml_prob.ml_msh.GetLevel mlPdeSys.GetLevelToAssemble)
            (ml_prob.ml_sol.GetSolutionLevel mlPdeSys.GetLevelToAssemble)
            (mlPdeSys.LinSolver mlPdeSys.GetLevelToAssemble) soluIndex
            (ml_prob.ml_sol.GetSolutionType soluIndex) soluPdeIndex
            ((ml_prob.ml_msh.GetLevel mlPdeSys.GetLevelToAssemble).elementOffset
              (ml_prob.ml_msh.GetLevel mlPdeSys.GetLevelToAssemble).processor_id)
            ((ml_prob.ml_msh.GetLevel mlPdeSys.GetLevelToAssemble).elementOffset
              ((ml_prob.ml_msh.GetLevel mlPdeSys.GetLevelToAssemble).processor_id + 1))
            (RESops.zero (mlPdeSys.LinSolver mlPdeSys.GetLevelToAssemble).RES)))
      ∧ s'.independent_index = [] ∧ s'.dependent_index = [] := by
  obtain ⟨st, h, k1, k2, k3, k4, _, _⟩ := AssembleStandardProblem.loop_count acos cos sin RESops
    KKops
    (ml_prob.ml_msh.GetLevel mlPdeSys.GetLevelToAssemble)
    (ml_prob.ml_sol.GetSolutionLevel mlPdeSys.GetLevelToAssemble)
    (mlPdeSys.LinSolver mlPdeSys.GetLevelToAssemble) soluIndex
    (ml_prob.ml_sol.GetSolutionType soluIndex) soluPdeIndex
    ((ml_prob.ml_msh.GetLevel mlPdeSys.GetLevelToAssemble).elementOffset
      (ml_prob.ml_msh.GetLevel mlPdeSys.GetLevelToAssemble).processor_id)
    ((ml_prob.ml_msh.GetLevel mlPdeSys.GetLevelToAssemble).elementOffset
        ((ml_prob.ml_msh.GetLevel mlPdeSys.GetLevelToAssemble).processor_id + 1)
      - (ml_prob.ml_msh.GetLevel mlPdeSys.GetLevelToAssemble).elementOffset
        (ml_prob.ml_msh.GetLevel mlPdeSys.GetLevelToAssemble).processor_id)
    (⟨s, KKops.zero (mlPdeSys.LinSolver mlPdeSys.GetLevelToAssemble).KK,
      RESops.zero (mlPdeSys.LinSolver mlPdeSys.GetLevelToAssemble).RES, [],
      List.replicate (ml_prob.ml_msh.GetLevel mlPdeSys.GetLevelToAssemble).GetDimension [],
      [], [], [], 0, [], [], []⟩ : AssembleState K V M)
    hdim (List.length_replicate _ _)
    (by
      refine ⟨?_, ?_, ?_, ?_, ?_⟩ <;> intro i hi <;> exact absurd hi (Nat.not_lt_zero i))
    hind hdep
    (fun k hk => hel _ (Nat.le_add_right _ _) (by omega))
  refine ⟨st.s, ?_, k3, k4⟩
  unfold AssembleStandardProblem
  rw [hsys, Run.ok_bind]
  simp only []
  rw [hidx, Run.ok_bind, hpde, Run.ok_bind]
  unfold forRange
  rw [h, Run.ok_bind, k1, k2]
  rfl

end assemble

/-- `AssembleStandardProblem_eq` with names for the mesh, the solution, the solver and the
type of the unknown that the function extracts from `ml_prob`. -/
theorem AssembleStandardProblem_run {K V M : Type} [Field K] (acos cos sin : K → K)
    (RESops : NumericVector K V) (KKops : SparseMatrix K M) (ml_prob : MultiLevelProblem K V M)
    (s : Stack K) (mlPdeSys : ImplicitSystem V M) (soluIndex soluPdeIndex : Nat)
    (msh : Mesh K) (sol : Solution K) (pdeSys : LinearEquationSolver V M) (soluType : Nat)
    (hsys : ml_prob.get_system "Poisson" = Except.ok mlPdeSys)
    (hidx : ml_prob.ml_sol.GetIndex "u" = Except.ok soluIndex)
    (hpde : mlPdeSys.GetSolPdeIndex "u" = Except.ok soluPdeIndex)
    (hmsh : msh = ml_prob.ml_msh.GetLevel mlPdeSys.GetLevelToAssemble)
    (hsol : sol = ml_prob.ml_sol.GetSolutionLevel mlPdeSys.GetLevelToAssemble)
    (hlin : pdeSys = mlPdeSys.LinSolver mlPdeSys.GetLevelToAssemble)
    (htype : soluType = ml_prob.ml_sol.GetSolutionType soluIndex)
    (hdim : 2 ≤ msh.GetDimension)
    (hel : ∀ iel, msh.elementOffset msh.processor_id ≤ iel →
      iel < msh.elementOffset (msh.processor_id + 1) →
      0 < msh.GetElementDofNumber iel soluType ∧ msh.evaluates soluType iel)
    (hind : s.independent_index = []) (hdep : s.dependent_index = []) :
    ∃ s', AssembleStandardProblem acos cos sin RESops KKops ml_prob s
        = Except.ok (s',
          KKops.close (assembled_KK KKops msh pdeSys soluIndex soluType soluPdeIndex
            (msh.elementOffset msh.processor_id) (msh.elementOffset (msh.processor_id + 1))
            (KKops.zero pdeSys.KK)),
          RESops.close (assembled_RES acos cos RESops msh sol pdeSys soluIndex soluType
            soluPdeIndex (msh.elementOffset msh.processor_id)
            (msh.elementOffset (msh.processor_id + 1)) (RESops.zero pdeSys.RES)))
      ∧ s'.independent_index = [] ∧ s'.dependent_index = [] := by
  subst hmsh hsol hlin htype
  exact AssembleStandardProblem_eq acos cos sin RESops KKops ml_prob s mlPdeSys soluIndex
    soluPdeIndex hsys hidx hpde hdim hel hind hdep

/-- The local matrix is symmetric. -/
theorem local_Jac_symm {K : Type} [Field K] (msh : Mesh K) (soluType iel i j : Nat) :
    local_Jac msh soluType iel i j = local_Jac msh soluType iel j i := by
  unfold local_Jac
  congr 1
  apply Finset.sum_congr rfl
  intro ig _
  congr 1
  apply Finset.sum_congr rfl
  intro jdim _
  exact mul_comm _ _

/-- The local residual accumulator is affine in the local unknowns, with the local matrix as
its linear part. -/
theorem local_aRes_sub {K : Type} [Field K] (acos cos : K → K) (msh : Mesh K)
    (sol sol' : Solution K) (soluIndex soluType iel i : Nat) :
    local_aRes acos cos msh sol soluIndex soluType iel i
        - local_aRes acos cos msh sol' soluIndex soluType iel i
      = ∑ j in Finset.range (msh.GetElementDofNumber iel soluType),
          local_Jac msh soluType iel i j
            * (sol.Sol soluIndex (msh.GetSolutionDof j iel soluType)
              - sol'.Sol soluIndex (msh.GetSolutionDof j iel soluType)) := by
  unfold local_aRes local_Jac
  rw [← Finset.sum_sub_distrib]
  simp only [neg_mul, Finset.sum_neg_distrib, Finset.sum_mul]
  rw [Finset.sum_comm, ← Finset.sum_neg_distrib]
  apply Finset.sum_congr rfl
  intro ig _
  rw [← mul_sub, sub_sub_sub_cancel_left]
  simp only [← Finset.sum_neg_distrib, ← Finset.sum_sub_distrib, Finset.mul_sum, Finset.sum_mul]
  conv_rhs => rw [Finset.sum_comm]
  apply Finset.sum_congr rfl
  intro jdim _
  apply Finset.sum_congr rfl
  intro j _
  ring

theorem oneTriangle_evaluates (K : Type) [Field K] (iel : Nat) :
    0 < (oneTriangle K).GetElementDofNumber iel 0 ∧ (oneTriangle K).evaluates 0 iel := by
  refine ⟨Nat.zero_lt_succ 2, ?_⟩
  intro ig _
  exact ⟨_, rfl, Nat.le_refl 3, Nat.le_refl 6⟩

/-! ## Elements without DOFs -/

section zeroDofs
variable {K V M : Type} [Field K]

/-- The buffer `Jac` after the recording of an element has been resized to `nDofs · nDofs`
entries. -/
theorem AssembleStandardProblem.record_Jac (acos cos sin : K → K) (RESops : NumericVector K V)
    (msh : Mesh K) (sol : Solution K) (pdeSys : LinearEquationSolver V M)
    (soluIndex soluType soluPdeIndex iel : Nat) (st st1 : AssembleState K V M)
    (h : AssembleStandardProblem.record acos cos sin RESops msh sol pdeSys soluIndex soluType
      soluPdeIndex iel st = Except.ok st1) :
    st1.Jac = resize (msh.GetElementDofNumber iel soluType * msh.GetElementDofNumber iel soluType)
      st.Jac 0 := by
  unfold AssembleStandardProblem.record at h
  simp only [] at h
  obtain ⟨_, -, h⟩ := Run.bind_ok_inv _ _ _ h
  obtain ⟨_, -, h⟩ := Run.bind_ok_inv _ _ _ h
  obtain ⟨_, -, h⟩ := Run.bind_ok_inv _ _ _ h
  obtain ⟨_, -, h⟩ := Run.bind_ok_inv _ _ _ h
  obtain ⟨_, -, h⟩ := Run.bind_ok_inv _ _ _ h
  obtain ⟨_, -, h⟩ := Run.bind_ok_inv _ _ _ h
  obtain ⟨_, -, h⟩ := Run.bind_ok_inv _ _ _ h
  rw [Run.pure_eq] at h
  injection h with h
  rw [← h]

end zeroDofs

/-! ## The Gram determinant of the `(2,3)` specialisation -/

/-- The Gram determinant of two rows of `K³` is the squared modulus of their cross product,
in the order of the locals `nx`, `ny`, `nz` of `compute_normal`. -/
theorem gram_det_eq_normal_sq {K : Type} [Field K] (J : Mat K) :
    (Mat.toMatrix 2 3 J * (Mat.toMatrix 2 3 J).transpose).det
      = nx_2_3 J * nx_2_3 J + ny_2_3 J * ny_2_3 J + nz_2_3 J * nz_2_3 J := by
  rw [Matrix.det_fin_two]
  simp only [Matrix.mul_apply, Matrix.transpose_apply, Fin.sum_univ_three, Mat.toMatrix,
    Matrix.of_apply, nx_2_3, ny_2_3, nz_2_3, Fin.val_zero, Fin.val_one, Fin.val_two]
  ring

section translation
variable {K : Type}

/-- The Jacobian sum of row `r` does not see a shift of coordinate `d` by a constant when
the reference derivatives of row `r` sum to zero. -/
theorem JacSum_translate [Field K] (e : elem_type K) (vt vt' : Mat K) (ig r d : Nat) (c : K)
    (hsum : ∑ inode in Finset.range e._nc, e.dphi r ig inode = 0)
    (hshift : ∀ i < e._nc, Mat.entry vt' d i = Mat.entry vt d i + c) :
    JacSum e vt' ig r d = JacSum e vt ig r d := by
  unfold JacSum
  rw [Finset.sum_congr rfl (fun i hi => by rw [hshift i (Finset.mem_range.mp hi), mul_add]),
    Finset.sum_add_distrib, ← Finset.sum_mul, hsum, zero_mul, add_zero]

/-- The Jacobian sum is homogeneous in the coordinates. -/
theorem JacSum_scale [Field K] (e : elem_type K) (vt vt' : Mat K) (ig r d : Nat) (s : K)
    (hscale : ∀ i < e._nc, Mat.entry vt' d i = s * Mat.entry vt d i) :
    JacSum e vt' ig r d = s * JacSum e vt ig r d := by
  unfold JacSum
  rw [Finset.mul_sum]
  apply Finset.sum_congr rfl
  intro i hi
  rw [hscale i (Finset.mem_range.mp hi)]
  ring

/-- The `(1,3)` specialisation returns the same for two sets of nodes with the same
Jacobian sums. -/
theorem Jacobian_geometry_templ_1_3_congr [Field K] (sqrt : K → K) (e : elem_type K)
    (vt vt' : Mat K) (ig : Nat) (Jac JacI : Mat K)
    (hvt : Mat.covers 3 e._nc vt) (hvt' : Mat.covers 3 e._nc vt')
    (h : ∀ d < 3, JacSum e vt' ig 0 d = JacSum e vt ig 0 d) :
    Jacobian_geometry_templ_1_3 sqrt e vt' ig Jac JacI 1 3
      = Jacobian_geometry_templ_1_3 sqrt e vt ig Jac JacI 1 3 := by
  rw [Jacobian_geometry_templ_1_3_eq sqrt e vt' ig Jac JacI 3 hvt',
    Jacobian_geometry_templ_1_3_eq sqrt e vt ig Jac JacI 3 hvt]
  have hJJ : JacJacT_1_3 e vt' ig 3 = JacJacT_1_3 e vt ig 3 :=
    Finset.sum_congr rfl (fun d hd => by rw [h d (Finset.mem_range.mp hd)])
  have h1 : Mat.ofFn 1 3 (JacSum e vt' ig) = Mat.ofFn 1 3 (JacSum e vt ig) := by
    apply Mat.ofFn_congr
    intro a ha b hb
    have ha0 : a = 0 := by omega
    subst ha0
    exact h b hb
  have h2 : Mat.ofFn 3 1 (fun d _ => JacSum e vt' ig 0 d * 1 / JacJacT_1_3 e vt' ig 3)
      = Mat.ofFn 3 1 (fun d _ => JacSum e vt ig 0 d * 1 / JacJacT_1_3 e vt ig 3) := by
    apply Mat.ofFn_congr
    intro a ha b _
    beta_reduce
    rw [h a ha, hJJ]
  rw [h1, h2, hJJ]

theorem JacJacT_2_3_congr [Field K] (e : elem_type K) (vt vt' : Mat K) (ig : Nat)
    (h : ∀ r < 2, ∀ d < 3, JacSum e vt' ig r d = JacSum e vt ig r d) (i j : Nat) (hi : i < 2)
    (hj : j < 2) : JacJacT_2_3 e vt' ig 3 i j = JacJacT_2_3 e vt ig 3 i j :=
  Finset.sum_congr rfl (fun d hd => by
    rw [h i hi d (Finset.mem_range.mp hd), h j hj d (Finset.mem_range.mp hd)])

/-- The `(2,3)` specialisation returns the same for two sets of nodes with the same
Jacobian sums. -/
theorem Jacobian_geometry_templ_2_3_congr [LinearOrderedField K] (sqrt : K → K)
    (e : elem_type K) (vt vt' : Mat K) (ig : Nat) (Jac JacI : Mat K)
    (hvt : Mat.covers 3 e._nc vt) (hvt' : Mat.covers 3 e._nc vt')
    (h : ∀ r < 2, ∀ d < 3, JacSum e vt' ig r d = JacSum e vt ig r d) :
    Jacobian_geometry_templ_2_3 sqrt e vt' ig Jac JacI 2 3
      = Jacobian_geometry_templ_2_3 sqrt e vt ig Jac JacI 2 3 := by
  rw [Jacobian_geometry_templ_2_3_eq sqrt e vt' ig Jac JacI 3 hvt',
    Jacobian_geometry_templ_2_3_eq sqrt e vt ig Jac JacI 3 hvt]
  have g00 := JacJacT_2_3_congr e vt vt' ig h 0 0 (by omega) (by omega)
  have g01 := JacJacT_2_3_congr e vt vt' ig h 0 1 (by omega) (by omega)
  have g10 := JacJacT_2_3_congr e vt vt' ig h 1 0 (by omega) (by omega)
  have g11 := JacJacT_2_3_congr e vt vt' ig h 1 1 (by omega) (by omega)
  have hdet : detJacJacT_2_3 e vt' ig 3 = detJacJacT_2_3 e vt ig 3 := by
    simp only [detJacJacT_2_3, g00, g01, g10, g11]
  have hinv : ∀ k j, JacJacT_inv_2_3 e vt' ig 3 k j = JacJacT_inv_2_3 e vt ig 3 k j := by
    intro k j
    simp only [JacJacT_inv_2_3, hdet, g00, g01, g10, g11]
  have h1 : Mat.ofFn 2 3 (JacSum e vt' ig) = Mat.ofFn 2 3 (JacSum e vt ig) :=
    Mat.ofFn_congr 2 3 _ _ h
  have h2 : Mat.ofFn 3 2 (JacI_2_3 e vt' ig 3) = Mat.ofFn 3 2 (JacI_2_3 e vt ig 3) := by
    apply Mat.ofFn_congr
    intro a ha b _
    simp only [JacI_2_3, Finset.sum_range_succ, Finset.sum_range_zero, hinv,
      h 0 (by omega) a ha, h 1 (by omega) a ha]
  rw [h1, h2, hdet]

theorem detJac_3_3_congr [Field K] (J J' : Nat → Nat → K)
    (h : ∀ r < 3, ∀ d < 3, J' r d = J r d) : detJac_3_3 J' = detJac_3_3 J := by
  simp only [detJac_3_3, h 0 (by omega) 0 (by omega), h 0 (by omega) 1 (by omega),
    h 0 (by omega) 2 (by omega), h 1 (by omega) 0 (by omega), h 1 (by omega) 1 (by omega),
    h 1 (by omega) 2 (by omega), h 2 (by omega) 0 (by omega), h 2 (by omega) 1 (by omega),
    h 2 (by omega) 2 (by omega)]

/-- The `(3,3)` specialisation returns the same for two sets of nodes with the same
Jacobian sums. -/
theorem Jacobian_geometry_templ_3_3_congr [Field K] (e : elem_type K) (vt vt' : Mat K)
    (ig : Nat) (Jac JacI : Mat K)
    (hvt : Mat.covers 3 e._nc vt) (hvt' : Mat.covers 3 e._nc vt')
    (h : ∀ r < 3, ∀ d < 3, JacSum e vt' ig r d = JacSum e vt ig r d) :
    Jacobian_geometry_templ_3_3 e vt' ig Jac JacI 3 3
      = Jacobian_geometry_templ_3_3 e vt ig Jac JacI 3 3 := by
  rw [Jacobian_geometry_templ_3_3_eq e vt' ig Jac JacI hvt',
    Jacobian_geometry_templ_3_3_eq e vt ig Jac JacI hvt]
  have hdet := detJac_3_3_congr (JacSum e vt ig) (JacSum e vt' ig) h
  have h1 : Mat.ofFn 3 3 (JacSum e vt' ig) = Mat.ofFn 3 3 (JacSum e vt ig) :=
    Mat.ofFn_congr 3 3 _ _ h
  have h2 : Mat.ofFn 3 3 (JacI_3_3 (JacSum e vt' ig)) = Mat.ofFn 3 3 (JacI_3_3 (JacSum e vt ig)) := by
    apply Mat.ofFn_congr
    intro a _ b _
    simp only [JacI_3_3, hdet, h 0 (by omega) 0 (by omega), h 0 (by omega) 1 (by omega),
      h 0 (by omega) 2 (by omega), h 1 (by omega) 0 (by omega), h 1 (by omega) 1 (by omega),
      h 1 (by omega) 2 (by omega), h 2 (by omega) 0 (by omega), h 2 (by omega) 1 (by omega),
      h 2 (by omega) 2 (by omega)]
  rw [h1, h2, hdet]

end translation

theorem hasShape_shiftedTet (K : Type) [Field K] :
    Mat.hasShape 3 (tet4 K)._nc (shiftedTet K) := by
  refine ⟨rfl, ?_⟩
  intro row hrow
  simp only [shiftedTet, List.mem_cons, List.mem_singleton, List.not_mem_nil, or_false] at hrow
  rcases hrow with rfl | rfl | rfl <;> rfl

theorem hasShape_scaledTet (K : Type) [Field K] :
    Mat.hasShape 3 (tet4 K)._nc (scaledTet K) := by
  refine ⟨rfl, ?_⟩
  intro row hrow
  simp only [scaledTet, List.mem_cons, List.mem_singleton, List.not_mem_nil, or_false] at hrow
  rcases hrow with rfl | rfl | rfl <;> rfl

/-- The nodes of `shiftedTet` are those of `refTet` moved by `(1, 2, 3)`. -/
theorem shiftedTet_entries (K : Type) [Field K] (d : Nat) (hd : d < 3) (i : Nat)
    (hi : i < (tet4 K)._nc) :
    Mat.entry (shiftedTet K) d i = Mat.entry (refTet K) d i + ((d : K) + 1) := by
  have hi4 : i < 4 := hi
  interval_cases d <;> interval_cases i <;>
    simp [Mat.entry, shiftedTet, refTet] <;> norm_num

/-- The nodes of `scaledTet` are those of `refTet` times `2`. -/
theorem scaledTet_entries (K : Type) [Field K] (d : Nat) (hd : d < 3) (i : Nat)
    (hi : i < (tet4 K)._nc) :
    Mat.entry (scaledTet K) d i = 2 * Mat.entry (refTet K) d i := by
  have hi4 : i < 4 := hi
  interval_cases d <;> interval_cases i <;> simp [Mat.entry, scaledTet, refTet]

/-! ## The closed forms under a scaling of the nodes -/

section scaling
variable {K : Type}

theorem JacJacT_1_3_scale [Field K] (e : elem_type K) (vt vt' : Mat K) (ig : Nat) (s : K)
    (h : ∀ d < 3, JacSum e vt' ig 0 d = s * JacSum e vt ig 0 d) :
    JacJacT_1_3 e vt' ig 3 = s * s * JacJacT_1_3 e vt ig 3 := by
  unfold JacJacT_1_3
  rw [Finset.mul_sum]
  apply Finset.sum_congr rfl
  intro d hd
  rw [h d (Finset.mem_range.mp hd)]
  ring

theorem JacJacT_2_3_scale [Field K] (e : elem_type K) (vt vt' : Mat K) (ig : Nat) (s : K)
    (h : ∀ r < 2, ∀ d < 3, JacSum e vt' ig r d = s * JacSum e vt ig r d) (i j : Nat)
    (hi : i < 2) (hj : j < 2) :
    JacJacT_2_3 e vt' ig 3 i j = s * s * JacJacT_2_3 e vt ig 3 i j := by
  unfold JacJacT_2_3
  rw [Finset.mul_sum]
  apply Finset.sum_congr rfl
  intro d hd
  rw [h i hi d (Finset.mem_range.mp hd), h j hj d (Finset.mem_range.mp hd)]
  ring

theorem detJacJacT_2_3_scale [Field K] (e : elem_type K) (vt vt' : Mat K) (ig : Nat) (s : K)
    (h : ∀ r < 2, ∀ d < 3, JacSum e vt' ig r d = s * JacSum e vt ig r d) :
    detJacJacT_2_3 e vt' ig 3 = s ^ 4 * detJacJacT_2_3 e vt ig 3 := by
  simp only [detJacJacT_2_3, JacJacT_2_3_scale e vt vt' ig s h 0 0 (by omega) (by omega),
    JacJacT_2_3_scale e vt vt' ig s h 0 1 (by omega) (by omega),
    JacJacT_2_3_scale e vt vt' ig s h 1 0 (by omega) (by omega),
    JacJacT_2_3_scale e vt vt' ig s h 1 1 (by omega) (by omega)]
  ring

theorem JacI_2_3_scale [Field K] (e : elem_type K) (vt vt' : Mat K) (ig : Nat) (s : K)
    (hs : s ≠ 0) (hdet : detJacJacT_2_3 e vt ig 3 ≠ 0)
    (h : ∀ r < 2, ∀ d < 3, JacSum e vt' ig r d = s * JacSum e vt ig r d) (d r : Nat)
    (hd : d < 3) (hr : r < 2) :
    JacI_2_3 e vt' ig 3 d r = 1 / s * JacI_2_3 e vt ig 3 d r := by
  have g00 := JacJacT_2_3_scale e vt vt' ig s h 0 0 (by omega) (by omega)
  have g01 := JacJacT_2_3_scale e vt vt' ig s h 0 1 (by omega) (by omega)
  have g10 := JacJacT_2_3_scale e vt vt' ig s h 1 0 (by omega) (by omega)
  have g11 := JacJacT_2_3_scale e vt vt' ig s h 1 1 (by omega) (by omega)
  have hdet' := detJacJacT_2_3_scale e vt vt' ig s h
  interval_cases r <;>
    simp only [JacI_2_3, JacJacT_inv_2_3, Finset.sum_range_succ, Finset.sum_range_zero, zero_add,
      hdet', g00, g01, g10, g11, h 0 (by omega) d hd, h 1 (by omega) d hd] <;>
    field_simp <;>
    ring

theorem detJac_3_3_scale [Field K] (J J' : Nat → Nat → K) (s : K)
    (h : ∀ r < 3, ∀ d < 3, J' r d = s * J r d) : detJac_3_3 J' = s ^ 3 * detJac_3_3 J := by
  simp only [detJac_3_3, h 0 (by omega) 0 (by omega), h 0 (by omega) 1 (by omega),
    h 0 (by omega) 2 (by omega), h 1 (by omega) 0 (by omega), h 1 (by omega) 1 (by omega),
    h 1 (by omega) 2 (by omega), h 2 (by omega) 0 (by omega), h 2 (by omega) 1 (by omega),
    h 2 (by omega) 2 (by omega)]
  ring

theorem JacI_3_3_scale [Field K] (J J' : Nat → Nat → K) (s : K) (hs : s ≠ 0)
    (hdet : detJac_3_3 J ≠ 0) (h : ∀ r < 3, ∀ d < 3, J' r d = s * J r d) (a b : Nat)
    (ha : a < 3) (hb : b < 3) : JacI_3_3 J' a b = 1 / s * JacI_3_3 J a b := by
  have hdet' := detJac_3_3_scale J J' s h
  interval_cases a <;> interval_cases b <;>
    simp only [JacI_3_3, hdet', h 0 (by omega) 0 (by omega), h 0 (by omega) 1 (by omega),
      h 0 (by omega) 2 (by omega), h 1 (by omega) 0 (by omega), h 1 (by omega) 1 (by omega),
      h 1 (by omega) 2 (by omega), h 2 (by omega) 0 (by omega), h 2 (by omega) 1 (by omega),
      h 2 (by omega) 2 (by omega)] <;>
    field_simp <;>
    ring

end scaling

theorem sqrt_scale_sq (s q : ℝ) (hs : 0 < s) : Real.sqrt (s * s * q) = s * Real.sqrt q := by
  rw [Real.sqrt_mul (mul_self_nonneg s), Real.sqrt_mul_self hs.le]

theorem sqrt_abs_scale_four (s q : ℝ) :
    Real.sqrt |s ^ 4 * q| = s ^ 2 * Real.sqrt |q| := by
  have h4 : s ^ 4 = s ^ 2 * s ^ 2 := by ring
  rw [abs_mul, abs_of_nonneg (by positivity : (0 : ℝ) ≤ s ^ 4), h4,
    Real.sqrt_mul (mul_self_nonneg (s ^ 2)), Real.sqrt_mul_self (sq_nonneg s)]

/-! ## The orientation of the normal -/

section orientation
variable {K : Type}

/-- The rows of a matrix of two rows, swapped. -/
theorem entry_reverse_two [Zero K] (J : Mat K) (hJ : J.length = 2) (d : Nat) :
    Mat.entry J.reverse 0 d = Mat.entry J 1 d ∧ Mat.entry J.reverse 1 d = Mat.entry J 0 d := by
  obtain ⟨a, b, rfl⟩ := List.length_eq_two.mp hJ
  exact ⟨rfl, rfl⟩

theorem hasShape_reverse (r c : Nat) (J : Mat K) (hJ : Mat.hasShape r c J) :
    Mat.hasShape r c J.reverse :=
  ⟨by rw [List.length_reverse]; exact hJ.1, fun row hrow => hJ.2 row (List.mem_reverse.mp hrow)⟩

/-- The entries of the matrix whose entries are negated. -/
theorem entry_map_neg [Field K] (J : Mat K) (r d : Nat) :
    Mat.entry (J.map (fun row => row.map (fun x => -x))) r d = -Mat.entry J r d := by
  unfold Mat.entry
  simp only [List.getD_eq_getElem?_getD, List.getElem?_map]
  cases h : J[r]? with
  | none => simp
  | some row =>
    simp only [Option.map_some', Option.getD_some, List.getElem?_map]
    cases h2 : row[d]? with
    | none => simp
    | some x => simp

theorem hasShape_map_neg [Field K] (r c : Nat) (J : Mat K) (hJ : Mat.hasShape r c J) :
    Mat.hasShape r c (J.map (fun row => row.map (fun x => -x))) := by
  refine ⟨by rw [List.length_map]; exact hJ.1, ?_⟩
  intro row hrow
  obtain ⟨row0, h0, rfl⟩ := List.mem_map.mp hrow
  rw [List.length_map]
  exact hJ.2 row0 h0

end orientation

/-! ## Surface gradients and the tangential projector -/

section tangential
variable {K : Type}

/-- Each row of `Jac` has zero dot product with `(nx, ny, nz)`. -/
theorem Jac_mulVec_normal [Field K] (J : Nat → Nat → K) (m : K) :
    (Mat.toMatrix 2 3 (Mat.ofFn 2 3 J)).mulVec
      ![nx_2_3 (Mat.ofFn 2 3 J) * m, ny_2_3 (Mat.ofFn 2 3 J) * m, nz_2_3 (Mat.ofFn 2 3 J) * m]
      = 0 := by
  funext r
  fin_cases r <;>
    simp [Matrix.mulVec, Matrix.dotProduct, Fin.sum_univ_three, Mat.toMatrix_ofFn, nx_2_3,
      ny_2_3, nz_2_3, Mat.entry_ofFn 2 3 J 0 0 (by omega) (by omega),
      Mat.entry_ofFn 2 3 J 0 1 (by omega) (by omega),
      Mat.entry_ofFn 2 3 J 0 2 (by omega) (by omega),
      Mat.entry_ofFn 2 3 J 1 0 (by omega) (by omega),
      Mat.entry_ofFn 2 3 J 1 1 (by omega) (by omega),
      Mat.entry_ofFn 2 3 J 1 2 (by omega) (by omega)] <;>
    ring

/-- The gradient of every node, as the `(2,3)` evaluator computes it from the `JacI` of the
`(2,3)` geometry, has zero dot product with `(nx, ny, nz) · m`. -/
theorem gradphiSum_dot_normal [Field K] (e eg : elem_type K) (vt : Mat K) (ig i : Nat) (m : K) :
    gradphiSum 2 e ig (Mat.ofFn 3 2 (JacI_2_3 eg vt ig 3)) i 0
        * (nx_2_3 (Mat.ofFn 2 3 (JacSum eg vt ig)) * m)
      + gradphiSum 2 e ig (Mat.ofFn 3 2 (JacI_2_3 eg vt ig 3)) i 1
        * (ny_2_3 (Mat.ofFn 2 3 (JacSum eg vt ig)) * m)
      + gradphiSum 2 e ig (Mat.ofFn 3 2 (JacI_2_3 eg vt ig 3)) i 2
        * (nz_2_3 (Mat.ofFn 2 3 (JacSum eg vt ig)) * m) = 0 := by
  simp only [gradphiSum, JacI_2_3, Finset.sum_range_succ, Finset.sum_range_zero, zero_add,
    nx_2_3, ny_2_3, nz_2_3,
    Mat.entry_ofFn 3 2 _ 0 0 (by omega) (by omega), Mat.entry_ofFn 3 2 _ 0 1 (by omega) (by omega),
    Mat.entry_ofFn 3 2 _ 1 0 (by omega) (by omega), Mat.entry_ofFn 3 2 _ 1 1 (by omega) (by omega),
    Mat.entry_ofFn 3 2 _ 2 0 (by omega) (by omega), Mat.entry_ofFn 3 2 _ 2 1 (by omega) (by omega),
    Mat.entry_ofFn 2 3 _ 0 0 (by omega) (by omega), Mat.entry_ofFn 2 3 _ 0 1 (by omega) (by omega),
    Mat.entry_ofFn 2 3 _ 0 2 (by omega) (by omega), Mat.entry_ofFn 2 3 _ 1 0 (by omega) (by omega),
    Mat.entry_ofFn 2 3 _ 1 1 (by omega) (by omega), Mat.entry_ofFn 2 3 _ 1 2 (by omega) (by omega)]
  ring

/-- The matrix `JacI · Jac` of the `(2,3)` geometry is the symmetric idempotent projector
that keeps the tangent rows and annihilates the normal direction. -/
theorem projector_2_3 [Field K] (e : elem_type K) (vt : Mat K) (ig : Nat)
    (hd : detJacJacT_2_3 e vt ig 3 ≠ 0) (m : K) :
    (Mat.toMatrix 3 2 (Mat.ofFn 3 2 (JacI_2_3 e vt ig 3))
        * Mat.toMatrix 2 3 (Mat.ofFn 2 3 (JacSum e vt ig))).transpose
      = Mat.toMatrix 3 2 (Mat.ofFn 3 2 (JacI_2_3 e vt ig 3))
        * Mat.toMatrix 2 3 (Mat.ofFn 2 3 (JacSum e vt ig))
    ∧ (Mat.toMatrix 3 2 (Mat.ofFn 3 2 (JacI_2_3 e vt ig 3))
        * Mat.toMatrix 2 3 (Mat.ofFn 2 3 (JacSum e vt ig)))
        * (Mat.toMatrix 3 2 (Mat.ofFn 3 2 (JacI_2_3 e vt ig 3))
          * Mat.toMatrix 2 3 (Mat.ofFn 2 3 (JacSum e vt ig)))
      = Mat.toMatrix 3 2 (Mat.ofFn 3 2 (JacI_2_3 e vt ig 3))
        * Mat.toMatrix 2 3 (Mat.ofFn 2 3 (JacSum e vt ig))
    ∧ Mat.toMatrix 2 3 (Mat.ofFn 2 3 (JacSum e vt ig))
        * (Mat.toMatrix 3 2 (Mat.ofFn 3 2 (JacI_2_3 e vt ig 3))
          * Mat.toMatrix 2 3 (Mat.ofFn 2 3 (JacSum e vt ig)))
      = Mat.toMatrix 2 3 (Mat.ofFn 2 3 (JacSum e vt ig))
    ∧ (Mat.toMatrix 3 2 (Mat.ofFn 3 2 (JacI_2_3 e vt ig 3))
        * Mat.toMatrix 2 3 (Mat.ofFn 2 3 (JacSum e vt ig))).mulVec
        ![nx_2_3 (Mat.ofFn 2 3 (JacSum e vt ig)) * m, ny_2_3 (Mat.ofFn 2 3 (JacSum e vt ig)) * m,
          nz_2_3 (Mat.ofFn 2 3 (JacSum e vt ig)) * m] = 0 := by
  obtain ⟨hI, hJI⟩ := pseudo_inverse_2_3 e vt ig 3 hd
  generalize hA : Mat.toMatrix 2 3 (Mat.ofFn 2 3 (JacSum e vt ig)) = A at hI hJI ⊢
  generalize hB : Mat.toMatrix 3 2 (Mat.ofFn 3 2 (JacI_2_3 e vt ig 3)) = B at hI hJI ⊢
  refine ⟨?_, ?_, ?_, ?_⟩
  · rw [hI, Matrix.transpose_mul, Matrix.transpose_mul, Matrix.transpose_transpose,
      Matrix.transpose_nonsing_inv, Matrix.transpose_mul, Matrix.transpose_transpose,
      Matrix.mul_assoc]
  · rw [Matrix.mul_assoc, ← Matrix.mul_assoc A B A, hJI, Matrix.one_mul]
  · rw [← Matrix.mul_assoc, hJI, Matrix.one_mul]
  · rw [← Matrix.mulVec_mulVec, ← hA, Jac_mulVec_normal, Matrix.mulVec_zero]

end tangential

/-- The two tangents of the reference triangle are linearly independent. -/
theorem rowsIndependent_refTri (K : Type) [Field K] :
    Mat.rowsIndependent 2 (Mat.ofFn 2 3 (JacSum (tri3 K) (refTri K) 0)) := by
  rw [rowsIndependent_ofFn_two]
  simp [JacSum_refTri]

/-! ## Two runs of the assembler -/

section twoRuns
variable {K V M : Type} [Field K]

/-- The run of `AssembleStandardProblem` does not depend on what the global matrix and
residual hold when it starts, if `zero` clears whatever they hold. -/
theorem AssembleStandardProblem_run_store (acos cos sin : K → K)
    (RESops : NumericVector K V) (KKops : SparseMatrix K M) (ml_prob : MultiLevelProblem K V M)
    (s : Stack K) (mlPdeSys : ImplicitSystem V M) (soluIndex soluPdeIndex : Nat)
    (msh : Mesh K) (sol : Solution K) (pdeSys : LinearEquationSolver V M) (soluType : Nat)
    (hsys : ml_prob.get_system "Poisson" = Except.ok mlPdeSys)
    (hidx : ml_prob.ml_sol.GetIndex "u" = Except.ok soluIndex)
    (hpde : mlPdeSys.GetSolPdeIndex "u" = Except.ok soluPdeIndex)
    (hmsh : msh = ml_prob.ml_msh.GetLevel mlPdeSys.GetLevelToAssemble)
    (hsol : sol = ml_prob.ml_sol.GetSolutionLevel mlPdeSys.GetLevelToAssemble)
    (hlin : pdeSys = mlPdeSys.LinSolver mlPdeSys.GetLevelToAssemble)
    (htype : soluType = ml_prob.ml_sol.GetSolutionType soluIndex)
    (hdim : 2 ≤ msh.GetDimension)
    (hel : ∀ iel, msh.elementOffset msh.processor_id ≤ iel →
      iel < msh.elementOffset (msh.processor_id + 1) →
      0 < msh.GetElementDofNumber iel soluType ∧ msh.evaluates soluType iel)
    (hzeroV : ∀ v v' : V, RESops.zero v = RESops.zero v')
    (hzeroM : ∀ m m' : M, KKops.zero m = KKops.zero m')
    (KK0 : M) (RES0 : V)
    (hind : s.independent_index = []) (hdep : s.dependent_index = []) :
    ∃ s', AssembleStandardProblem acos cos sin RESops KKops (ml_prob.store KK0 RES0) s
        = Except.ok (s',
          KKops.close (assembled_KK KKops msh pdeSys soluIndex soluType soluPdeIndex
            (msh.elementOffset msh.processor_id) (msh.elementOffset (msh.processor_id + 1))
            (KKops.zero pdeSys.KK)),
          RESops.close (assembled_RES acos cos RESops msh sol pdeSys soluIndex soluType
            soluPdeIndex (msh.elementOffset msh.processor_id)
            (msh.elementOffset (msh.processor_id + 1)) (RESops.zero pdeSys.RES)))
      ∧ s'.independent_index = [] ∧ s'.dependent_index = [] := by
  have hsys' : (ml_prob.store KK0 RES0).get_system "Poisson"
      = Except.ok (mlPdeSys.store KK0 RES0) := by
    show (ml_prob.get_system "Poisson").map _ = _
    rw [hsys]
    rfl
  have hlin' : pdeSys.store KK0 RES0
      = (mlPdeSys.store KK0 RES0).LinSolver (mlPdeSys.store KK0 RES0).GetLevelToAssemble := by
    show _ = if mlPdeSys.GetLevelToAssemble = mlPdeSys.GetLevelToAssemble then _ else _
    rw [if_pos rfl, hlin]
    rfl
  obtain ⟨s', h, h1, h2⟩ := AssembleStandardProblem_run acos cos sin RESops KKops
    (ml_prob.store KK0 RES0) s (mlPdeSys.store KK0 RES0) soluIndex soluPdeIndex msh sol
    (pdeSys.store KK0 RES0) soluType hsys' hidx hpde hmsh hsol hlin' htype hdim hel hind hdep
  refine ⟨s', ?_, h1, h2⟩
  rw [h]
  have hK : KKops.zero (pdeSys.store KK0 RES0).KK = KKops.zero pdeSys.KK := hzeroM _ _
  have hR : RESops.zero (pdeSys.store KK0 RES0).RES = RESops.zero pdeSys.RES := hzeroV _ _
  rw [hK, hR]
  rfl

end twoRuns

/-! ## The error norms -/

section errorNorm
variable {K : Type} [Field K]

/-- A loop that adds to an accumulator a function of two values read in each round. -/
theorem forLoop_sum_two (n : Nat) (rd1 rd2 : Nat → Run K) (a b : Nat → K) (g : K → K → K)
    (s : K) (h1 : ∀ d < n, rd1 d = Except.ok (a d)) (h2 : ∀ d < n, rd2 d = Except.ok (b d)) :
    forLoop n (fun d acc => do
        let x ← rd1 d
        let y ← rd2 d
        pure (acc + g x y)) s
      = Except.ok (s + ∑ d in Finset.range n, g (a d) (b d)) := by
  induction n with
  | zero => simp
  | succ k ih =>
    rw [forLoop_succ, ih (fun d hd => h1 d (by omega)) (fun d hd => h2 d (by omega)),
      Run.ok_bind, h1 k (by omega), Run.ok_bind, h2 k (by omega), Run.ok_bind, Run.pure_eq,
      Finset.sum_range_succ, add_assoc]

theorem GetExactSolutionValue_ofFn (acos cos : K → K) (dim : Nat) (hdim : 2 ≤ dim)
    (xg : Nat → K) :
    GetExactSolutionValue acos cos (Vec.ofFn dim xg)
      = Except.ok (exactSolValue acos cos (xg 0) (xg 1)) := by
  rw [Vec.ofFn_two_le dim xg hdim, GetExactSolutionValue_eq]
  rfl

theorem GetExactSolutionLaplace_ofFn (acos cos : K → K) (dim : Nat) (hdim : 2 ≤ dim)
    (xg : Nat → K) :
    GetExactSolutionLaplace acos cos (Vec.ofFn dim xg)
      = Except.ok (exactSolLaplace acos cos (xg 0) (xg 1)) := by
  rw [Vec.ofFn_two_le dim xg hdim, GetExactSolutionLaplace_eq]
  rfl

theorem GetExactSolutionGradient_ofFn (acos cos sin : K → K) (dim : Nat) (hdim : 2 ≤ dim)
    (xg : Nat → K) :
    GetExactSolutionGradient acos cos sin (Vec.ofFn dim xg) (List.replicate dim 0)
      = Except.ok (Vec.ofFn dim (exactSolGrad acos cos sin (xg 0) (xg 1))) := by
  have hrep : List.replicate dim (0 : K) = 0 :: 0 :: List.replicate (dim - 2) 0 := by
    obtain ⟨m, rfl⟩ : ∃ m, dim = m + 2 := ⟨dim - 2, by omega⟩
    rfl
  rw [Vec.ofFn_two_le dim xg hdim, hrep, GetExactSolutionGradient_eq,
    Vec.ofFn_two_le dim (exactSolGrad acos cos sin (xg 0) (xg 1)) hdim,
    Vec.replicate_eq_ofFn]
  rfl

/-- The values at a Gauss point of `GetErrorNorm`. -/
theorem GetErrorNorm.gauss_point_values (dim nDofs : Nat) (phi phi_x : List K) (x : Mat K)
    (solu : List K) (φ φx : Nat → K) (X : Nat → Nat → K) (u : Nat → K)
    (hphi : ∀ i < nDofs, Vec.read phi i = Except.ok (φ i))
    (hphix : ∀ i < nDofs, ∀ jdim < dim,
      Vec.read phi_x (i * dim + jdim) = Except.ok (φx (i * dim + jdim)))
    (hx : ∀ jdim < dim, ∀ i < nDofs, Mat.read x jdim i = Except.ok (X jdim i))
    (hsolu : ∀ i < nDofs, Vec.read solu i = Except.ok (u i)) :
    GetErrorNorm.gauss_point dim nDofs phi phi_x x solu
      = Except.ok ⟨∑ i in Finset.range nDofs, φ i * u i,
          Vec.ofFn dim (fun k => ∑ i in Finset.range nDofs, φx (i * dim + k) * u i),
          Vec.ofFn dim (fun k => ∑ i in Finset.range nDofs, X k i * φ i)⟩ := by
  -- the state after `i` nodes, with the first `jdim` directions of node `i` done
  let Q : Nat → Nat → ErrorGaussPoint K → Prop := fun i jdim g =>
    g.soluGauss_x = Vec.ofFn dim (fun k =>
        ∑ i' in Finset.range (if k < jdim then i + 1 else i), φx (i' * dim + k) * u i')
    ∧ g.xGauss = Vec.ofFn dim (fun k =>
        ∑ i' in Finset.range (if k < jdim then i + 1 else i), X k i' * φ i')
  have key : ∃ g, GetErrorNorm.gauss_point dim nDofs phi phi_x x solu = Except.ok g
      ∧ g = ⟨∑ i in Finset.range nDofs, φ i * u i,
          Vec.ofFn dim (fun k => ∑ i in Finset.range nDofs, φx (i * dim + k) * u i),
          Vec.ofFn dim (fun k => ∑ i in Finset.range nDofs, X k i * φ i)⟩ := by
    unfold GetErrorNorm.gauss_point
    refine forLoop_inv_imp nDofs _
      (fun i g => g.soluGauss = ∑ i' in Finset.range i, φ i' * u i' ∧ Q i 0 g) _ _ ?_ ?_ ?_
    · refine ⟨by simp, ?_, ?_⟩ <;> simp [Vec.ofFn]
    · intro i hi g hQ
      obtain ⟨q1, q2, q3⟩ := hQ
      simp only [hphi i hi, hsolu i hi, Run.ok_bind]
      refine forLoop_inv_imp dim _
        (fun jdim g => g.soluGauss = ∑ i' in Finset.range (i + 1), φ i' * u i' ∧ Q i jdim g)
        _ _ ?_ ?_ ?_
      · exact ⟨by simp only [q1, Finset.sum_range_succ], q2, q3⟩
      · intro jdim hj g hQ
        obtain ⟨r1, r2, r3⟩ := hQ
        simp only [hphix i hi jdim hj, Run.ok_bind, r2, r3, Vec.ofFn_read dim _ jdim hj,
          Vec.ofFn_write dim _ jdim _ hj, hx jdim hj i hi, Run.pure_eq]
        refine ⟨_, rfl, r1, ?_, ?_⟩
        · apply Vec.ofFn_ext
          intro k _
          by_cases hk : k = jdim
          · subst hk
            simp [Finset.sum_range_succ]
          · simp only [hk, if_false]
            by_cases hlt : k < jdim
            · have : k < jdim + 1 := by omega
              simp only [hlt, this, if_true]
            · have : ¬ k < jdim + 1 := by omega
              simp only [hlt, this, if_false]
        · apply Vec.ofFn_ext
          intro k _
          by_cases hk : k = jdim
          · subst hk
            simp [Finset.sum_range_succ]
          · simp only [hk, if_false]
            by_cases hlt : k < jdim
            · have : k < jdim + 1 := by omega
              simp only [hlt, this, if_true]
            · have : ¬ k < jdim + 1 := by omega
              simp only [hlt, this, if_false]
      · intro g' hQ'
        obtain ⟨r1, r2, r3⟩ := hQ'
        refine ⟨r1, ?_, ?_⟩
        · rw [r2]
          apply Vec.ofFn_ext
          intro k hk
          simp [hk]
        · rw [r3]
          apply Vec.ofFn_ext
          intro k hk
          simp [hk]
    · intro g hQ
      obtain ⟨r1, r2, r3⟩ := hQ
      cases g with
      | mk a b c =>
        simp only [] at r1 r2 r3
        rw [r1, r2, r3]
        congr 1
  obtain ⟨g, h, hg⟩ := key
  rw [h, hg]

end errorNorm

section errorNormLoop
variable {K : Type} [Field K]

/-- One round of the Gauss point loop of `GetErrorNorm` adds the contributions of the Gauss
point to `seminorm` and `l2norm` and keeps `solu` and `x`. -/
theorem GetErrorNorm.gauss_loop_body_spec (acos cos sin : K → K) (msh : Mesh K)
    (sol : Solution K) (soluIndex soluType iel ig : Nat) (hdim : 2 ≤ msh.GetDimension)
    (hn : msh.GetElementDofNumber iel soluType ≤ msh.GetElementDofNumber iel 2)
    (hev : msh.evaluates_xx soluType iel)
    (hig : ig < (msh.finiteElement (msh.GetElementType iel) soluType).GetGaussPointNumber)
    (st : ErrorNormState K)
    (hsolu : st.solu = Vec.ofFn (msh.GetElementDofNumber iel soluType)
      (fun i => sol.Sol soluIndex (msh.GetSolutionDof i iel soluType)))
    (hx : st.x = msh.local_x (msh.GetElementDofNumber iel 2) iel) :
    ∃ st', GetErrorNorm.gauss_loop_body acos cos sin
        (msh.finiteElement (msh.GetElementType iel) soluType) msh.GetDimension
        (msh.GetElementDofNumber iel soluType) ig st = Except.ok st'
      ∧ st'.solu = st.solu ∧ st'.x = st.x
      ∧ st'.seminorm = st.seminorm + ∑ j in Finset.range msh.GetDimension,
          ((msh.solu_x_at sol soluIndex soluType iel ig j
              - exactSolGrad acos cos sin (msh.x_at soluType iel ig 0)
                  (msh.x_at soluType iel ig 1) j)
            * (msh.solu_x_at sol soluIndex soluType iel ig j
              - exactSolGrad acos cos sin (msh.x_at soluType iel ig 0)
                  (msh.x_at soluType iel ig 1) j))
          * (msh.shape_xx soluType iel ig).Weight
      ∧ st'.l2norm = st.l2norm
          + (exactSolValue acos cos (msh.x_at soluType iel ig 0) (msh.x_at soluType iel ig 1)
              - msh.solu_at sol soluIndex soluType iel ig)
            * (exactSolValue acos cos (msh.x_at soluType iel ig 0) (msh.x_at soluType iel ig 1)
              - msh.solu_at sol soluIndex soluType iel ig)
            * (msh.shape_xx soluType iel ig).Weight := by
  obtain ⟨out, hout, hW, hphi, hgrad, hl1, hl2⟩ := hev ig hig st.phi_xx
  have hgp := GetErrorNorm.gauss_point_values msh.GetDimension
    (msh.GetElementDofNumber iel soluType) out.phi out.gradphi st.x st.solu
    (Vec.entry out.phi) (Vec.entry out.gradphi)
    (fun jdim i => msh.topology_Sol jdim (msh.GetSolutionDof i iel 2))
    (fun i => sol.Sol soluIndex (msh.GetSolutionDof i iel soluType))
    (fun i hi => Vec.read_of_lt _ i (by omega))
    (fun i hi jdim hj => Vec.read_of_lt _ _ (by
      have h1 : i * msh.GetDimension + jdim
          < msh.GetElementDofNumber iel soluType * msh.GetDimension := by
        calc i * msh.GetDimension + jdim < i * msh.GetDimension + msh.GetDimension := by omega
          _ = (i + 1) * msh.GetDimension := by ring
          _ ≤ msh.GetElementDofNumber iel soluType * msh.GetDimension :=
            Nat.mul_le_mul_right _ hi
      omega))
    (fun jdim hj i hi => by
      rw [hx]
      exact Mat.read_ofFn _ _ _ jdim i hj (by omega))
    (fun i hi => by
      rw [hsolu]
      exact Vec.ofFn_read _ _ i hi)
  unfold GetErrorNorm.gauss_loop_body
  rw [hx] at hgp ⊢
  rw [hout, Run.ok_bind, hgp, Run.ok_bind]
  simp only []
  rw [GetExactSolutionGradient_ofFn acos cos sin _ hdim, Run.ok_bind,
    forLoop_sum_two msh.GetDimension _ _ _ _ (fun a b => ((a - b) * (a - b)) * out.Weight)
      st.seminorm (fun d hd => Vec.ofFn_read _ _ d hd) (fun d hd => Vec.ofFn_read _ _ d hd),
    Run.ok_bind, GetExactSolutionValue_ofFn acos cos _ hdim, Run.ok_bind, Run.pure_eq]
  refine ⟨_, rfl, rfl, rfl, ?_, ?_⟩
  · simp only [hW, hphi, hgrad]
    rfl
  · simp only [hW, hphi, hgrad]
    rfl

end errorNormLoop

section errorNormElement
variable {K : Type} [Field K]

/-- The body of the element loop of `GetErrorNorm` adds the contributions of the element to
`seminorm` and `l2norm`. -/
theorem GetErrorNorm.element_sums (acos cos sin : K → K) (msh : Mesh K)
    (sol : Solution K) (soluIndex soluType iel : Nat) (hdim : 2 ≤ msh.GetDimension)
    (hn : msh.GetElementDofNumber iel soluType ≤ msh.GetElementDofNumber iel 2)
    (hev : msh.evaluates_xx soluType iel) (st : ErrorNormState K)
    (hx : st.x.length = msh.GetDimension) :
    ∃ st', GetErrorNorm.element acos cos sin msh sol soluIndex soluType iel st = Except.ok st'
      ∧ st'.x.length = msh.GetDimension
      ∧ st'.seminorm = st.seminorm + element_seminorm acos cos sin msh sol soluIndex soluType iel
      ∧ st'.l2norm = st.l2norm + element_l2norm acos cos msh sol soluIndex soluType iel := by
  obtain ⟨y, hy, hshape⟩ := resize_rows_spec msh.GetDimension (msh.GetElementDofNumber iel 2)
    st.x hx
  have e0 := Vec.eq_ofFn_getD (msh.GetElementDofNumber iel soluType)
    (resize (msh.GetElementDofNumber iel soluType) st.solu 0) 0 (length_resize _ _ _)
  have hs := forLoop_vec_prefix (msh.GetElementDofNumber iel soluType)
    (msh.GetElementDofNumber iel soluType) (le_refl _)
    (fun i solu => Vec.write solu i (sol.Sol soluIndex (msh.GetSolutionDof i iel soluType)))
    (fun i => sol.Sol soluIndex (msh.GetSolutionDof i iel soluType)) (fun i _ v => rfl)
    (fun i => (resize (msh.GetElementDofNumber iel soluType) st.solu 0).getD i 0)
  rw [← e0] at hs
  have hs' : Vec.ofFn (msh.GetElementDofNumber iel soluType) (fun k =>
        if k < msh.GetElementDofNumber iel soluType
          then sol.Sol soluIndex (msh.GetSolutionDof k iel soluType)
          else (resize (msh.GetElementDofNumber iel soluType) st.solu 0).getD k 0)
      = Vec.ofFn (msh.GetElementDofNumber iel soluType)
          (fun i => sol.Sol soluIndex (msh.GetSolutionDof i iel soluType)) := by
    apply Vec.ofFn_ext
    intro k hk
    simp only [hk, if_true]
  rw [hs'] at hs
  have hg := gather_coordinates_eq msh msh.GetDimension (msh.GetElementDofNumber iel 2) iel
    (Mat.entry y)
  rw [← Mat.eq_ofFn_of_hasShape _ _ y hshape] at hg
  unfold GetErrorNorm.element
  simp only []
  rw [hy, Run.ok_bind, hs, Run.ok_bind, hg, Run.ok_bind]
  refine forLoop_inv_imp _ _ (fun ig st' =>
    st'.solu = Vec.ofFn (msh.GetElementDofNumber iel soluType)
      (fun i => sol.Sol soluIndex (msh.GetSolutionDof i iel soluType))
    ∧ st'.x = msh.local_x (msh.GetElementDofNumber iel 2) iel
    ∧ st'.seminorm = st.seminorm + ∑ ig' in Finset.range ig,
        ∑ j in Finset.range msh.GetDimension,
          ((msh.solu_x_at sol soluIndex soluType iel ig' j
              - exactSolGrad acos cos sin (msh.x_at soluType iel ig' 0)
                  (msh.x_at soluType iel ig' 1) j)
            * (msh.solu_x_at sol soluIndex soluType iel ig' j
              - exactSolGrad acos cos sin (msh.x_at soluType iel ig' 0)
                  (msh.x_at soluType iel ig' 1) j))
          * (msh.shape_xx soluType iel ig').Weight
    ∧ st'.l2norm = st.l2norm + ∑ ig' in Finset.range ig,
        (exactSolValue acos cos (msh.x_at soluType iel ig' 0) (msh.x_at soluType iel ig' 1)
            - msh.solu_at sol soluIndex soluType iel ig')
          * (exactSolValue acos cos (msh.x_at soluType iel ig' 0) (msh.x_at soluType iel ig' 1)
            - msh.solu_at sol soluIndex soluType iel ig')
          * (msh.shape_xx soluType iel ig').Weight) _ _ ?_ ?_ ?_
  · exact ⟨rfl, rfl, by simp, by simp⟩
  · intro ig hig st' hP
    obtain ⟨p1, p2, p3, p4⟩ := hP
    obtain ⟨st'', h, q1, q2, q3, q4⟩ := GetErrorNorm.gauss_loop_body_spec acos cos sin msh sol
      soluIndex soluType iel ig hdim hn hev hig st' p1 p2
    refine ⟨st'', h, by rw [q1, p1], by rw [q2, p2], ?_, ?_⟩
    · rw [q3, p3, Finset.sum_range_succ, add_assoc]
    · rw [q4, p4, Finset.sum_range_succ, add_assoc]
  · intro st' hP
    obtain ⟨_, p2, p3, p4⟩ := hP
    refine ⟨?_, p3, p4⟩
    rw [p2]
    exact Mat.length_ofFn _ _ _

/-- The element loop of `GetErrorNorm` over `cnt` elements from `a` on. -/
theorem GetErrorNorm.element_loop (acos cos sin : K → K) (msh : Mesh K)
    (sol : Solution K) (soluIndex soluType a cnt : Nat) (hdim : 2 ≤ msh.GetDimension)
    (st0 : ErrorNormState K) (hx : st0.x.length = msh.GetDimension)
    (hel : ∀ k < cnt, msh.GetElementDofNumber (a + k) soluType
        ≤ msh.GetElementDofNumber (a + k) 2 ∧ msh.evaluates_xx soluType (a + k)) :
    ∃ st, forLoop cnt (fun k => GetErrorNorm.element acos cos sin msh sol soluIndex soluType
          (a + k)) st0 = Except.ok st
      ∧ st.seminorm = st0.seminorm + ∑ k in Finset.range cnt,
          element_seminorm acos cos sin msh sol soluIndex soluType (a + k)
      ∧ st.l2norm = st0.l2norm + ∑ k in Finset.range cnt,
          element_l2norm acos cos msh sol soluIndex soluType (a + k) := by
  refine forLoop_inv_imp cnt _ (fun n st =>
    st.x.length = msh.GetDimension
    ∧ st.seminorm = st0.seminorm + ∑ k in Finset.range n,
        element_seminorm acos cos sin msh sol soluIndex soluType (a + k)
    ∧ st.l2norm = st0.l2norm + ∑ k in Finset.range n,
        element_l2norm acos cos msh sol soluIndex soluType (a + k)) _ _ ?_ ?_ ?_
  · exact ⟨hx, by simp, by simp⟩
  · intro k hk st hP
    obtain ⟨p1, p2, p3⟩ := hP
    obtain ⟨st', h, q1, q2, q3⟩ := GetErrorNorm.element_sums acos cos sin msh sol soluIndex
      soluType (a + k) hdim (hel k hk).1 (hel k hk).2 st p1
    refine ⟨st', h, q1, ?_, ?_⟩
    · rw [q2, p2, Finset.sum_range_succ, add_assoc]
    · rw [q3, p3, Finset.sum_range_succ, add_assoc]
  · intro st hP
    exact ⟨hP.2.1, hP.2.2⟩

/-- The sums of one process. -/
theorem GetErrorNorm.local_sums_eq (acos cos sin : K → K) (mlSol : MultiLevelSolution K)
    (soluIndex : Nat) (hidx : mlSol.GetIndex "u" = Except.ok soluIndex)
    (hdim : 2 ≤ (mlSol.mlMesh.GetLevel
      ((mlSol.mlMesh.GetNumberOfLevels + 4294967295) % 4294967296)).GetDimension)
    (hel : ∀ iel,
      (mlSol.mlMesh.GetLevel
          ((mlSol.mlMesh.GetNumberOfLevels + 4294967295) % 4294967296)).elementOffset
        (mlSol.mlMesh.GetLevel
          ((mlSol.mlMesh.GetNumberOfLevels + 4294967295) % 4294967296)).processor_id ≤ iel →
      iel < (mlSol.mlMesh.GetLevel
          ((mlSol.mlMesh.GetNumberOfLevels + 4294967295) % 4294967296)).elementOffset
        ((mlSol.mlMesh.GetLevel
          ((mlSol.mlMesh.GetNumberOfLevels + 4294967295) % 4294967296)).processor_id + 1) →
      (mlSol.mlMesh.GetLevel
          ((mlSol.mlMesh.GetNumberOfLevels + 4294967295) % 4294967296)).GetElementDofNumber iel
          (mlSol.GetSolutionType soluIndex)
        ≤ (mlSol.mlMesh.GetLevel
          ((mlSol.mlMesh.GetNumberOfLevels + 4294967295) % 4294967296)).GetElementDofNumber iel 2
      ∧ (mlSol.mlMesh.GetLevel
          ((mlSol.mlMesh.GetNumberOfLevels + 4294967295) % 4294967296)).evaluates_xx
          (mlSol.GetSolutionType soluIndex) iel) :
    GetErrorNorm.local_sums acos cos sin mlSol
      = Except.ok
        (rank_l2norm acos cos
          (mlSol.mlMesh.GetLevel ((mlSol.mlMesh.GetNumberOfLevels + 4294967295) % 4294967296))
          (mlSol.GetSolutionLevel ((mlSol.mlMesh.GetNumberOfLevels + 4294967295) % 4294967296))
          soluIndex (mlSol.GetSolutionType soluIndex)
          (mlSol.mlMesh.GetLevel
            ((mlSol.mlMesh.GetNumberOfLevels + 4294967295) % 4294967296)).processor_id,
        rank_seminorm acos cos sin
          (mlSol.mlMesh.GetLevel ((mlSol.mlMesh.GetNumberOfLevels + 4294967295) % 4294967296))
          (mlSol.GetSolutionLevel ((mlSol.mlMesh.GetNumberOfLevels + 4294967295) % 4294967296))
          soluIndex (mlSol.GetSolutionType soluIndex)
          (mlSol.mlMesh.GetLevel
            ((mlSol.mlMesh.GetNumberOfLevels + 4294967295) % 4294967296)).processor_id) := by
  generalize hm : mlSol.mlMesh.GetLevel
    ((mlSol.mlMesh.GetNumberOfLevels + 4294967295) % 4294967296) = msh at hdim hel ⊢
  obtain ⟨st, h, k1, k2⟩ := GetErrorNorm.element_loop acos cos sin msh
    (mlSol.GetSolutionLevel ((mlSol.mlMesh.GetNumberOfLevels + 4294967295) % 4294967296))
    soluIndex (mlSol.GetSolutionType soluIndex) (msh.elementOffset msh.processor_id)
    (msh.elementOffset (msh.processor_id + 1) - msh.elementOffset msh.processor_id) hdim
    (⟨[], List.replicate msh.GetDimension [], [], [], [], 0, 0, 0⟩ : ErrorNormState K)
    (List.length_replicate _ _)
    (fun k hk => hel _ (Nat.le_add_right _ _) (by omega))
  unfold GetErrorNorm.local_sums
  simp only []
  rw [hidx, Run.ok_bind, hm]
  unfold forRange
  rw [h, Run.ok_bind, k1, k2, Run.pure_eq]
  simp only [rank_l2norm, rank_seminorm, Finset.sum_Ico_eq_sum_range, zero_add]

end errorNormElement

/-- A loop that appends one computed value per round collects the values in order. -/
theorem forLoop_collect {α : Type} (n : Nat) (f : Nat → Run α) (g : Nat → α)
    (h : ∀ r < n, f r = Except.ok (g r)) :
    forLoop n (fun r acc => do
        let p ← f r
        pure (acc ++ [p])) [] = Except.ok ((List.range n).map g) := by
  induction n with
  | zero => rfl
  | succ k ih =>
    rw [forLoop_succ, ih (fun r hr => h r (by omega)), Run.ok_bind, h k (by omega), Run.ok_bind,
      Run.pure_eq, List.range_succ, List.map_append]
    rfl

/-- The 1-norm of the entries `g r`, `r < n`. -/
theorem l1_norm_range {K : Type} [LinearOrderedField K] (n : Nat) (g : Nat → K) :
    l1_norm ((List.range n).map g) = ∑ r in Finset.range n, |g r| := by
  unfold l1_norm
  induction n with
  | zero => rfl
  | succ k ih =>
    rw [List.range_succ, List.map_append, List.map_append, List.sum_append, ih,
      Finset.sum_range_succ]
    simp

/-- The pair that `GetErrorNorm` returns. -/
theorem GetErrorNorm_eq {K : Type} [LinearOrderedField K] (sqrt acos cos sin : K → K)
    (mlSol : MultiLevelSolution K) (soluIndex : Nat) (msh : Mesh K) (sol : Solution K)
    (soluType : Nat)
    (hmsh : msh = mlSol.mlMesh.GetLevel
      ((mlSol.mlMesh.GetNumberOfLevels + 4294967295) % 4294967296))
    (hsol : sol = mlSol.GetSolutionLevel
      ((mlSol.mlMesh.GetNumberOfLevels + 4294967295) % 4294967296))
    (htype : soluType = mlSol.GetSolutionType soluIndex)
    (hidx : mlSol.GetIndex "u" = Except.ok soluIndex)
    (hdim : 2 ≤ msh.GetDimension)
    (hel : ∀ r < msh.n_processors, ∀ iel, msh.elementOffset r ≤ iel →
      iel < msh.elementOffset (r + 1) →
      msh.GetElementDofNumber iel soluType ≤ msh.GetElementDofNumber iel 2
      ∧ msh.evaluates_xx soluType iel) :
    GetErrorNorm sqrt acos cos sin mlSol
      = Except.ok
        (sqrt (∑ r in Finset.range msh.n_processors,
          |rank_l2norm acos cos msh sol soluIndex soluType r|),
        sqrt (∑ r in Finset.range msh.n_processors,
          |rank_seminorm acos cos sin msh sol soluIndex soluType r|)) := by
  subst hmsh hsol htype
  have hloc : ∀ r < (mlSol.mlMesh.GetLevel
      ((mlSol.mlMesh.GetNumberOfLevels + 4294967295) % 4294967296)).n_processors,
      GetErrorNorm.local_sums acos cos sin (mlSol.onRank r)
        = Except.ok
          (rank_l2norm acos cos (mlSol.mlMesh.GetLevel
              ((mlSol.mlMesh.GetNumberOfLevels + 4294967295) % 4294967296))
            (mlSol.GetSolutionLevel
              ((mlSol.mlMesh.GetNumberOfLevels + 4294967295) % 4294967296))
            soluIndex (mlSol.GetSolutionType soluIndex) r,
          rank_seminorm acos cos sin (mlSol.mlMesh.GetLevel
              ((mlSol.mlMesh.GetNumberOfLevels + 4294967295) % 4294967296))
            (mlSol.GetSolutionLevel
              ((mlSol.mlMesh.GetNumberOfLevels + 4294967295) % 4294967296))
            soluIndex (mlSol.GetSolutionType soluIndex) r) := by
    intro r hr
    rw [GetErrorNorm.local_sums_eq acos cos sin (mlSol.onRank r) soluIndex hidx hdim
      (fun iel h1 h2 => hel r hr iel h1 h2)]
    rfl
  unfold GetErrorNorm
  simp only []
  rw [forLoop_collect _ _ _ hloc, Run.ok_bind, Run.pure_eq]
  simp only [List.map_map]
  rw [l1_norm_range, l1_norm_range]
  rfl

/-- The evaluator of the mesh `oneTriangle`, called as `GetErrorNorm` calls it, returns three
values and six derivatives at its Gauss point, whatever the buffer holds. -/
theorem oneTriangle_evaluates_xx (K : Type) [Field K] (iel : Nat) :
    (oneTriangle K).GetElementDofNumber iel 0 ≤ (oneTriangle K).GetElementDofNumber iel 2
    ∧ (oneTriangle K).evaluates_xx 0 iel :=
  ⟨Nat.le_refl 3, fun _ _ _ => ⟨_, rfl, rfl, rfl, rfl, Nat.le_refl 3, Nat.le_refl 6⟩⟩

/-- The contribution of an element to `l2norm` is not negative when the weights are not. -/
theorem element_l2norm_nonneg {K : Type} [LinearOrderedField K] (acos cos : K → K)
    (msh : Mesh K) (sol : Solution K) (soluIndex soluType iel : Nat)
    (hw : ∀ ig, 0 ≤ (msh.shape_xx soluType iel ig).Weight) :
    0 ≤ element_l2norm acos cos msh sol soluIndex soluType iel :=
  Finset.sum_nonneg (fun ig _ => mul_nonneg (mul_self_nonneg _) (hw ig))

/-- The contribution of an element to `seminorm` is not negative when the weights are not. -/
theorem element_seminorm_nonneg {K : Type} [LinearOrderedField K] (acos cos sin : K → K)
    (msh : Mesh K) (sol : Solution K) (soluIndex soluType iel : Nat)
    (hw : ∀ ig, 0 ≤ (msh.shape_xx soluType iel ig).Weight) :
    0 ≤ element_seminorm acos cos sin msh sol soluIndex soluType iel :=
  Finset.sum_nonneg (fun ig _ =>
    Finset.sum_nonneg (fun _ _ => mul_nonneg (mul_self_nonneg _) (hw ig)))

/-! ## The lengths of `xGauss` and of the gradient buffer -/

/-- An assignment `v[i] = x` that returns keeps the length of `v`. -/
theorem Vec.write_length {α : Type} (v w : List α) (i : Nat) (x : α)
    (h : Vec.write v i x = Except.ok w) : w.length = v.length := by
  unfold Vec.write at h
  split_ifs at h
  injection h with h
  rw [← h, List.length_set]

/-- The vector `xGauss` of `AssembleStandardProblem` has length `dim` at every Gauss point. -/
theorem AssembleStandardProblem.gauss_point_xGauss {K : Type} [Field K] (dim nDofs : Nat)
    (phi phi_x : List K) (x : Mat K) (solu : List (adouble K)) (s : Stack K) (g : GaussPoint K)
    (h : AssembleStandardProblem.gauss_point dim nDofs phi phi_x x solu s = Except.ok g) :
    g.xGauss.length = dim := by
  unfold AssembleStandardProblem.gauss_point at h
  refine forLoop_preserves nDofs _ (fun g => g.xGauss.length = dim) _ g
    (List.length_replicate _ _) ?_ h
  intro i _ s1 t hP hb
  obtain ⟨_, -, hb⟩ := Run.bind_ok_inv _ _ _ hb
  obtain ⟨_, -, hb⟩ := Run.bind_ok_inv _ _ _ hb
  refine forLoop_preserves dim _ (fun g => g.xGauss.length = dim) _ t hP ?_ hb
  intro jdim _ s2 t2 hP2 hb2
  obtain ⟨_, -, hb2⟩ := Run.bind_ok_inv _ _ _ hb2
  obtain ⟨_, -, hb2⟩ := Run.bind_ok_inv _ _ _ hb2
  obtain ⟨_, -, hb2⟩ := Run.bind_ok_inv _ _ _ hb2
  obtain ⟨_, -, hb2⟩ := Run.bind_ok_inv _ _ _ hb2
  obtain ⟨_, -, hb2⟩ := Run.bind_ok_inv _ _ _ hb2
  obtain ⟨w, hw, hb2⟩ := Run.bind_ok_inv _ _ _ hb2
  rw [Run.pure_eq] at hb2
  injection hb2 with hb2
  rw [← hb2]
  simp only []
  rw [Vec.write_length _ _ _ _ hw]
  exact hP2

/-- The vector `xGauss` of `GetErrorNorm` has length `dim` at every Gauss point. -/
theorem GetErrorNorm.xGauss_length {K : Type} [Field K] (dim nDofs : Nat)
    (phi phi_x : List K) (x : Mat K) (solu : List K) (g : ErrorGaussPoint K)
    (h : GetErrorNorm.gauss_point dim nDofs phi phi_x x solu = Except.ok g) :
    g.xGauss.length = dim := by
  unfold GetErrorNorm.gauss_point at h
  refine forLoop_preserves nDofs _ (fun g => g.xGauss.length = dim) _ g
    (List.length_replicate _ _) ?_ h
  intro i _ s1 t hP hb
  obtain ⟨_, -, hb⟩ := Run.bind_ok_inv _ _ _ hb
  obtain ⟨_, -, hb⟩ := Run.bind_ok_inv _ _ _ hb
  refine forLoop_preserves dim _ (fun g => g.xGauss.length = dim) _ t hP ?_ hb
  intro jdim _ s2 t2 hP2 hb2
  obtain ⟨_, -, hb2⟩ := Run.bind_ok_inv _ _ _ hb2
  obtain ⟨_, -, hb2⟩ := Run.bind_ok_inv _ _ _ hb2
  obtain ⟨_, -, hb2⟩ := Run.bind_ok_inv _ _ _ hb2
  obtain ⟨_, -, hb2⟩ := Run.bind_ok_inv _ _ _ hb2
  obtain ⟨_, -, hb2⟩ := Run.bind_ok_inv _ _ _ hb2
  obtain ⟨w, hw, hb2⟩ := Run.bind_ok_inv _ _ _ hb2
  rw [Run.pure_eq] at hb2
  injection hb2 with hb2
  rw [← hb2]
  simp only []
  rw [Vec.write_length _ _ _ _ hw]
  exact hP2

/-- A vector of length `1` has the shape `[a]`; the three helpers read `x[1]` outside it. -/
theorem GetExactSolution_fault_one {K : Type} [Field K] (acos cos sin : K → K)
    (x solGrad : List K) (hx : x.length = 1) :
    GetExactSolutionValue acos cos x = Except.error Fault.out_of_range
    ∧ GetExactSolutionGradient acos cos sin x solGrad = Except.error Fault.out_of_range
    ∧ GetExactSolutionLaplace acos cos x = Except.error Fault.out_of_range := by
  obtain ⟨a, rfl⟩ := List.length_eq_one.mp hx
  refine ⟨rfl, rfl, rfl⟩

/-- For vectors of length at least `2` the three helpers return, and the gradient buffer
keeps its length and its entries from the third on. -/
theorem GetExactSolution_returns {K : Type} [Field K] (acos cos sin : K → K)
    (x solGrad : List K) (hx : 2 ≤ x.length) (hg : 2 ≤ solGrad.length) :
    (∃ v, GetExactSolutionValue acos cos x = Except.ok v)
    ∧ (∃ g, GetExactSolutionGradient acos cos sin x solGrad = Except.ok g
      ∧ g.length = solGrad.length ∧ ∀ j, 2 ≤ j → g[j]? = solGrad[j]?)
    ∧ (∃ l, GetExactSolutionLaplace acos cos x = Except.ok l) := by
  obtain ⟨x0, x1, rest, rfl⟩ : ∃ x0 x1 rest, x = x0 :: x1 :: rest := by
    match x, hx with
    | x0 :: x1 :: rest, _ => exact ⟨x0, x1, rest, rfl⟩
  obtain ⟨g0, g1, gs, rfl⟩ : ∃ g0 g1 gs, solGrad = g0 :: g1 :: gs := by
    match solGrad, hg with
    | g0 :: g1 :: gs, _ => exact ⟨g0, g1, gs, rfl⟩
  refine ⟨⟨_, GetExactSolutionValue_eq acos cos x0 x1 rest⟩,
    ⟨_, GetExactSolutionGradient_eq acos cos sin x0 x1 rest g0 g1 gs, rfl, ?_⟩,
    ⟨_, GetExactSolutionLaplace_eq acos cos x0 x1 rest⟩⟩
  intro j hj
  obtain ⟨m, rfl⟩ : ∃ m, j = m + 2 := ⟨j - 2, by omega⟩
  rfl

/-! ## The local arrays of `BuidProjection` and their gradient indices -/

section projectionTracks
variable {K : Type} [Field K]

theorem List.getD_set_ite {α : Type} (l : List α) (k k' : Nat) (v d : α) (hk : k < l.length) :
    (l.set k v).getD k' d = if k' = k then v else l.getD k' d := by
  simp only [List.getD_eq_getElem?_getD, List.getElem?_set]
  by_cases h : k = k'
  · subst h
    simp [hk]
  · have h' : ¬ k' = k := fun e => h e.symm
    simp [h, h']

/-- The tape that hands out new gradient indices keeps tracking, when `solu` is resized. -/
theorem Stack.tracks_rows_resize (s : Stack K) (solu : List (adouble K))
    (aRes : Mat (adouble K)) (n : Nat) (htr : s.tracks_rows solu aRes) :
    (adouble.resize n solu s).2.tracks_rows (adouble.resize n solu s).1 aRes := by
  obtain ⟨t1, t2, t3, t4, t5⟩ := htr
  have hlen := adouble.resize_length n solu s
  have hidx : ∀ i < n, adouble.index (adouble.resize n solu s).1 i
      = if i < solu.length then adouble.index solu i
        else s.n_gradients_registered + (i - solu.length) :=
    fun i hi => adouble.resize_index n solu s ⟨0, 0⟩ i hi
  have hc := adouble.resize_counter n solu s
  refine ⟨?_, ?_, ?_, t4, ?_⟩
  · intro i hi
    rw [hlen] at hi
    rw [hidx i hi, hc]
    by_cases h : i < solu.length
    · rw [if_pos h]
      have := t1 i h
      omega
    · rw [if_neg h]
      omega
  · intro k hk i hi
    rw [hc]
    have := t2 k hk i hi
    omega
  · intro i hi j hj h
    rw [hlen] at hi hj
    rw [hidx i hi, hidx j hj] at h
    by_cases h1 : i < solu.length <;> by_cases h2 : j < solu.length
    · rw [if_pos h1, if_pos h2] at h
      exact t3 i h1 j h2 h
    · rw [if_pos h1, if_neg h2] at h
      have := t1 i h1
      omega
    · rw [if_neg h1, if_pos h2] at h
      have := t1 j h2
      omega
    · rw [if_neg h1, if_neg h2] at h
      omega
  · intro j hj k hk i hi
    rw [hlen] at hj
    rw [hidx j hj]
    by_cases h1 : j < solu.length
    · rw [if_pos h1]
      exact t5 j h1 k hk i hi
    · rw [if_neg h1]
      have := t2 k hk i hi
      omega

/-- The tape keeps tracking when the row `k` of `aRes` is assigned `n` zeros. -/
theorem Stack.tracks_rows_assign_row (s : Stack K) (solu : List (adouble K))
    (aRes : Mat (adouble K)) (n k : Nat) (hk : k < aRes.length)
    (htr : s.tracks_rows solu aRes) :
    (adouble.assign_vector n 0 (aRes.getD k []) s).2.tracks_rows solu
      (aRes.set k (adouble.assign_vector n 0 (aRes.getD k []) s).1) := by
  obtain ⟨t1, t2, t3, t4, t5⟩ := htr
  have hrow := adouble.assign_vector_fst n (0 : K) (aRes.getD k []) s ⟨0, 0⟩
  have hc := adouble.assign_vector_counter n (0 : K) (aRes.getD k []) s
  have hget : ∀ k', (aRes.set k (adouble.assign_vector n 0 (aRes.getD k []) s).1).getD k' []
      = if k' = k then (adouble.assign_vector n 0 (aRes.getD k []) s).1
        else aRes.getD k' [] :=
    fun k' => List.getD_set_ite aRes k k' _ [] hk
  have hlen : ((adouble.assign_vector n 0 (aRes.getD k []) s).1).length = n := by
    rw [hrow, Vec.ofFn_length]
  have hnew : ∀ i < n, adouble.index (adouble.assign_vector n 0 (aRes.getD k []) s).1 i
      = if i < (aRes.getD k []).length then adouble.index2 aRes k i
        else s.n_gradients_registered + (i - (aRes.getD k []).length) := by
    intro i hi
    rw [hrow, adouble.index_ofFn _ _ i hi]
    rfl
  -- the index and the length of an entry of the new matrix
  have hJ : ∀ k' i, adouble.index2
      (aRes.set k (adouble.assign_vector n 0 (aRes.getD k []) s).1) k' i
      = if k' = k then adouble.index (adouble.assign_vector n 0 (aRes.getD k []) s).1 i
        else adouble.index2 aRes k' i := by
    intro k' i
    unfold adouble.index2
    rw [hget k']
    split_ifs <;> rfl
  have hL : ∀ k', ((aRes.set k (adouble.assign_vector n 0 (aRes.getD k []) s).1).getD k'
      []).length = if k' = k then n else (aRes.getD k' []).length := by
    intro k'
    rw [hget k']
    split_ifs
    · exact hlen
    · rfl
  -- an entry of the new row is an old entry of the row or a new gradient index
  have hcase : ∀ i < n, (i < (aRes.getD k []).length
        ∧ adouble.index (adouble.assign_vector n 0 (aRes.getD k []) s).1 i
          = adouble.index2 aRes k i)
      ∨ ((aRes.getD k []).length ≤ i
        ∧ adouble.index (adouble.assign_vector n 0 (aRes.getD k []) s).1 i
          = s.n_gradients_registered + (i - (aRes.getD k []).length)) := by
    intro i hi
    by_cases h : i < (aRes.getD k []).length
    · exact Or.inl ⟨h, by rw [hnew i hi, if_pos h]⟩
    · exact Or.inr ⟨by omega, by rw [hnew i hi, if_neg h]⟩
  refine ⟨?_, ?_, t3, ?_, ?_⟩
  · intro i hi
    rw [hc]
    have := t1 i hi
    omega
  · intro k' hk' i hi
    rw [List.length_set] at hk'
    rw [hL k'] at hi
    rw [hJ k' i, hc]
    by_cases hkk : k' = k
    · rw [if_pos hkk] at hi ⊢
      rcases hcase i hi with ⟨h1, h2⟩ | ⟨h1, h2⟩
      · rw [h2]
        have := t2 k hk i h1
        omega
      · rw [h2]
        omega
    · rw [if_neg hkk] at hi ⊢
      have := t2 k' hk' i hi
      omega
  · intro k1 hk1 i1 hi1 k2 hk2 i2 hi2 h
    rw [List.length_set] at hk1 hk2
    rw [hL k1] at hi1
    rw [hL k2] at hi2
    rw [hJ k1 i1, hJ k2 i2] at h
    by_cases hkk1 : k1 = k <;> by_cases hkk2 : k2 = k
    · rw [if_pos hkk1] at hi1 h
      rw [if_pos hkk2] at hi2 h
      refine ⟨by rw [hkk1, hkk2], ?_⟩
      rcases hcase i1 hi1 with ⟨a1, a2⟩ | ⟨a1, a2⟩ <;>
        rcases hcase i2 hi2 with ⟨b1, b2⟩ | ⟨b1, b2⟩
      · rw [a2, b2] at h
        exact (t4 k hk i1 a1 k hk i2 b1 h).2
      · rw [a2, b2] at h
        have := t2 k hk i1 a1
        omega
      · rw [a2, b2] at h
        have := t2 k hk i2 b1
        omega
      · rw [a2, b2] at h
        omega
    · rw [if_pos hkk1] at hi1 h
      rw [if_neg hkk2] at hi2 h
      rcases hcase i1 hi1 with ⟨a1, a2⟩ | ⟨a1, a2⟩
      · rw [a2] at h
        have := (t4 k hk i1 a1 k2 hk2 i2 hi2 h).1
        exact absurd this.symm hkk2
      · rw [a2] at h
        have := t2 k2 hk2 i2 hi2
        omega
    · rw [if_neg hkk1] at hi1 h
      rw [if_pos hkk2] at hi2 h
      rcases hcase i2 hi2 with ⟨b1, b2⟩ | ⟨b1, b2⟩
      · rw [b2] at h
        have := (t4 k1 hk1 i1 hi1 k hk i2 b1 h).1
        exact absurd this hkk1
      · rw [b2] at h
        have := t2 k1 hk1 i1 hi1
        omega
    · rw [if_neg hkk1] at hi1 h
      rw [if_neg hkk2] at hi2 h
      exact t4 k1 hk1 i1 hi1 k2 hk2 i2 hi2 h
  · intro j hj k' hk' i hi
    rw [List.length_set] at hk'
    rw [hL k'] at hi
    rw [hJ k' i]
    by_cases hkk : k' = k
    · rw [if_pos hkk] at hi ⊢
      rcases hcase i hi with ⟨a1, a2⟩ | ⟨a1, a2⟩
      · rw [a2]
        exact t5 j hj k hk i a1
      · rw [a2]
        have := t1 j hj
        omega
    · rw [if_neg hkk] at hi ⊢
      exact t5 j hj k' hk' i hi

end projectionTracks

section projectionResize
variable {K : Type} [Field K]

theorem Vec.read_getD {α : Type} (v : List α) (i : Nat) (d : α) (hi : i < v.length) :
    Vec.read v i = Except.ok (v.getD i d) := by
  unfold Vec.read
  rw [List.getD_eq_getElem?_getD, List.getElem?_eq_getElem hi]
  rfl

theorem Vec.write_set {α : Type} (v : List α) (i : Nat) (x : α) (hi : i < v.length) :
    Vec.write v i x = Except.ok (v.set i x) := by
  unfold Vec.write
  rw [if_pos hi]
  rfl

theorem Mat.hasShape_of_getD {α : Type} (r c : Nat) (M : List (List α)) (hr : M.length = r)
    (hc : ∀ k < r, (M.getD k []).length = c) : Mat.hasShape r c M := by
  refine ⟨hr, ?_⟩
  intro row hrow
  obtain ⟨k, hk, rfl⟩ := List.getElem_of_mem hrow
  have := hc k (by omega)
  rw [List.getD_eq_getElem?_getD, List.getElem?_eq_getElem hk] at this
  exact this

/-- A matrix with `r` rows that are each a vector of `c` entries `f k i`. -/
theorem Mat.eq_ofFn_of_rows {α : Type} (r c : Nat) (M : List (List α)) (f : Nat → Nat → α)
    (hr : M.length = r) (hrow : ∀ k < r, M.getD k [] = Vec.ofFn c (f k)) :
    M = Mat.ofFn r c f := by
  apply List.ext_getElem?
  intro k
  by_cases hk : k < r
  · have h1 := hrow k hk
    rw [List.getD_eq_getElem?_getD, List.getElem?_eq_getElem (by omega)] at h1
    rw [List.getElem?_eq_getElem (by omega)]
    simp only [Option.getD_some] at h1
    rw [h1]
    simp [Mat.ofFn, Vec.ofFn, List.getElem?_map, List.getElem?_range, hk]
  · rw [List.getElem?_eq_none (by omega),
      List.getElem?_eq_none (by rw [Mat.length_ofFn]; omega)]

/-- The loop that resizes the rows of `x` and assigns zeros to the rows of `aRes`. -/
theorem BuidProjection.resize_loop_spec (dim n : Nat) (s : Stack K)
    (solu : List (adouble K)) (x : Mat K) (aRes : Mat (adouble K))
    (hx : x.length = dim) (ha : aRes.length = dim) (htr : s.tracks_rows solu aRes) :
    ∃ out, BuidProjection.resize_loop dim n (s, x, aRes) = Except.ok out
      ∧ Mat.hasShape dim n out.2.1
      ∧ out.2.2.length = dim
      ∧ (∀ k < dim, out.2.2.getD k []
          = Vec.ofFn n (fun i => ⟨0, adouble.index2 out.2.2 k i⟩))
      ∧ out.1.tracks_rows solu out.2.2
      ∧ s.n_gradients_registered ≤ out.1.n_gradients_registered
      ∧ out.1.independent_index = s.independent_index
      ∧ out.1.dependent_index = s.dependent_index := by
  unfold BuidProjection.resize_loop
  refine forLoop_inv_imp dim _ (fun k (r : Stack K × Mat K × Mat (adouble K)) =>
    r.2.1.length = dim ∧ (∀ k' < k, (r.2.1.getD k' []).length = n)
    ∧ r.2.2.length = dim
    ∧ (∀ k' < k, r.2.2.getD k' [] = Vec.ofFn n (fun i => ⟨0, adouble.index2 r.2.2 k' i⟩))
    ∧ r.1.tracks_rows solu r.2.2
    ∧ s.n_gradients_registered ≤ r.1.n_gradients_registered
    ∧ r.1.independent_index = s.independent_index
    ∧ r.1.dependent_index = s.dependent_index) _ _ ?_ ?_ ?_
  · exact ⟨hx, fun k' hk' => absurd hk' (Nat.not_lt_zero _), ha,
      fun k' hk' => absurd hk' (Nat.not_lt_zero _), htr, le_refl _, rfl, rfl⟩
  · intro k hk r hP
    obtain ⟨p1, p2, p3, p4, p5, p6, p7, p8⟩ := hP
    rw [Vec.read_getD r.2.1 k [] (by omega), Run.ok_bind,
      Vec.write_set r.2.1 k _ (by omega), Run.ok_bind,
      Vec.read_getD r.2.2 k [] (by omega), Run.ok_bind,
      Vec.write_set r.2.2 k _ (by omega), Run.ok_bind, Run.pure_eq]
    have hrow := adouble.assign_vector_fst n (0 : K) (r.2.2.getD k []) r.1 ⟨0, 0⟩
    have hget : ∀ k', (r.2.2.set k (adouble.assign_vector n 0 (r.2.2.getD k []) r.1).1).getD k'
        [] = if k' = k then (adouble.assign_vector n 0 (r.2.2.getD k []) r.1).1
          else r.2.2.getD k' [] :=
      fun k' => List.getD_set_ite r.2.2 k k' _ [] (by omega)
    refine ⟨_, rfl, ?_, ?_, ?_, ?_, ?_, ?_, ?_, ?_⟩
    · show (r.2.1.set k _).length = dim
      rw [List.length_set]
      exact p1
    · intro k' hk'
      show ((r.2.1.set k _).getD k' []).length = n
      rw [List.getD_set_ite r.2.1 k k' _ [] (by omega)]
      by_cases hkk : k' = k
      · rw [if_pos hkk]
        exact length_resize _ _ _
      · rw [if_neg hkk]
        exact p2 k' (by omega)
    · show (r.2.2.set k _).length = dim
      rw [List.length_set]
      exact p3
    · intro k' hk'
      dsimp only
      unfold adouble.index2
      rw [hget k']
      by_cases hkk : k' = k
      · rw [if_pos hkk]
        apply List.ext_getElem?
        intro i
        rw [hrow]
        simp only [Vec.ofFn, getElem?_map_range]
        by_cases hi : i < n
        · simp only [hi, if_true]
          congr 2
          rw [← Vec.ofFn, adouble.index_ofFn _ _ i hi]
        · simp only [hi, if_false]
      · rw [if_neg hkk]
        have := p4 k' (by omega)
        unfold adouble.index2 at this
        exact this
    · exact Stack.tracks_rows_assign_row r.1 solu r.2.2 n k (by omega) p5
    · show _ ≤ (adouble.assign_vector n 0 (r.2.2.getD k []) r.1).2.n_gradients_registered
      rw [adouble.assign_vector_counter]
      omega
    · show (adouble.assign_vector n 0 (r.2.2.getD k []) r.1).2.independent_index = _
      rw [adouble.assign_vector_independent, p7]
    · show (adouble.assign_vector n 0 (r.2.2.getD k []) r.1).2.dependent_index = _
      rw [adouble.assign_vector_dependent, p8]
  · intro r hP
    obtain ⟨p1, p2, p3, p4, p5, p6, p7, p8⟩ := hP
    exact ⟨Mat.hasShape_of_getD dim n _ p1 p2, p3, p4, p5, p6, p7, p8⟩

end projectionResize

/-! ## The Gauss point of `BuidProjection` -/

section projectionGauss
variable {K : Type} [Field K]

/-- The statement recorded by `a += g * c * w` for plain numbers `c`, `w` and a tracked
`g`. -/
theorem adouble.add_assign_mul_gradient (a g : adouble K) (c w : K) (s : Stack K)
    (seed l : Nat) :
    (a.add_assign (Expression.mul_passive
        (Expression.mul_passive (Expression.active g) c) w) s).2.gradient seed l
      = if l = a.gradient_index then
          s.gradient seed a.gradient_index + c * w * s.gradient seed g.gradient_index
        else s.gradient seed l := by
  simp only [adouble.add_assign, Expression.mul_passive, Expression.active,
    Stack.gradient_push, List.map_cons, List.map_nil, List.sum_cons, List.sum_nil, one_mul,
    add_zero]

theorem adouble.add_assign_mul_fst (a g : adouble K) (c w : K) (s : Stack K) :
    (a.add_assign (Expression.mul_passive
        (Expression.mul_passive (Expression.active g) c) w) s).1
      = ⟨a.value + g.value * c * w, a.gradient_index⟩ := rfl

/-- The derivatives `solux_g` of the solution at a Gauss point of `BuidProjection` and the
tape after their evaluation. -/
theorem BuidProjection.solux_g_spec (dim nDofs : Nat) (phi_x : List K)
    (solu : List (adouble K)) (s : Stack K) (φx : Nat → K) (u : Nat → adouble K)
    (hphix : ∀ i < nDofs, ∀ k < dim,
      Vec.read phi_x (i * dim + k) = Except.ok (φx (i * dim + k)))
    (hsolu : ∀ i < nDofs, Vec.read solu i = Except.ok (u i))
    (hu : ∀ i < nDofs, (u i).gradient_index < s.n_gradients_registered) :
    ∃ g, BuidProjection.solux_g dim nDofs phi_x solu s = Except.ok g
      ∧ g.2 = Vec.ofFn dim (fun k =>
          ⟨∑ i in Finset.range nDofs, φx (i * dim + k) * (u i).value,
            s.n_gradients_registered + k⟩)
      ∧ g.1.n_gradients_registered = s.n_gradients_registered + dim
      ∧ g.1.independent_index = s.independent_index
      ∧ g.1.dependent_index = s.dependent_index
      ∧ (∀ seed l, l < s.n_gradients_registered → g.1.gradient seed l = s.gradient seed l)
      ∧ (∀ seed, ∀ k < dim, g.1.gradient seed (s.n_gradients_registered + k)
          = ∑ i in Finset.range nDofs, φx (i * dim + k) * s.gradient seed (u i).gradient_index) := by
  obtain ⟨hv1, hv2, hv3, hv4, hv5⟩ := adouble.vector_fst dim (0 : K) s
  -- the state after `i` nodes, with the first `k` directions of node `i` done
  let Q : Nat → Nat → Stack K × List (adouble K) → Prop := fun i k g =>
    g.2 = Vec.ofFn dim (fun k' =>
        ⟨∑ i' in Finset.range (if k' < k then i + 1 else i), φx (i' * dim + k') * (u i').value,
          s.n_gradients_registered + k'⟩)
    ∧ g.1.n_gradients_registered = s.n_gradients_registered + dim
    ∧ g.1.independent_index = s.independent_index
    ∧ g.1.dependent_index = s.dependent_index
    ∧ (∀ seed l, l < s.n_gradients_registered → g.1.gradient seed l = s.gradient seed l)
    ∧ (∀ seed, ∀ k' < dim, g.1.gradient seed (s.n_gradients_registered + k')
        = ∑ i' in Finset.range (if k' < k then i + 1 else i),
            φx (i' * dim + k') * s.gradient seed (u i').gradient_index)
  unfold BuidProjection.solux_g
  refine forLoop_inv_imp nDofs _ (fun i g => Q i 0 g) _ _ ?_ ?_ ?_
  · refine ⟨?_, hv2, hv3, hv4, ?_, ?_⟩
    · rw [hv1]
      apply Vec.ofFn_ext
      intro k _
      simp
    · intro seed l hl
      rw [hv5]
      have h1 : ¬ (s.n_gradients_registered ≤ l ∧ l < s.n_gradients_registered + dim) := by
        omega
      simp only [h1, if_false]
    · intro seed k hk
      rw [hv5]
      have h1 : s.n_gradients_registered ≤ s.n_gradients_registered + k
          ∧ s.n_gradients_registered + k < s.n_gradients_registered + dim := by
        omega
      simp [h1]
  · intro i hi g hQ
    refine forLoop_inv_imp dim _ (fun k g => Q i k g) _ _ hQ ?_ ?_
    · intro k hk g hQ
      obtain ⟨r2, r4, r5, r6, r7, r8⟩ := hQ
      simp only [hphix i hi k hk, hsolu i hi, Run.ok_bind, r2, Vec.ofFn_read dim _ k hk,
        Vec.ofFn_write dim _ k _ hk, Run.pure_eq]
      refine ⟨_, rfl, ?_, ?_, ?_, ?_, ?_, ?_⟩
      · apply Vec.ofFn_ext
        intro k' _
        by_cases hk' : k' = k
        · subst hk'
          simp [adouble.add_assign_fst, Finset.sum_range_succ]
        · simp only [hk', if_false]
          by_cases hlt : k' < k
          · have : k' < k + 1 := by omega
            simp only [hlt, this, if_true]
          · have : ¬ k' < k + 1 := by omega
            simp only [hlt, this, if_false]
      · simp only [adouble.add_assign_counter, r4]
      · simp only [adouble.add_assign_independent, r5]
      · simp only [adouble.add_assign_dependent, r6]
      · intro seed l hl
        simp only [adouble.add_assign_gradient]
        have h2 : l ≠ s.n_gradients_registered + k := by omega
        simp only [h2, if_false]
        exact r7 seed l hl
      · intro seed k' hk'
        simp only [adouble.add_assign_gradient]
        by_cases hkj : k' = k
        · subst hkj
          simp only [if_true, lt_irrefl, if_false, Nat.lt_succ_self,
            Finset.sum_range_succ, r8 seed k' hk', r7 seed _ (hu i hi)]
        · have h2 : s.n_gradients_registered + k' ≠ s.n_gradients_registered + k := by omega
          simp only [h2, if_false, r8 seed k' hk']
          by_cases hlt : k' < k
          · have : k' < k + 1 := by omega
            simp only [hlt, this, if_true]
          · have : ¬ k' < k + 1 := by omega
            simp only [hlt, this, if_false]
    · intro g' hQ'
      obtain ⟨r2, r4, r5, r6, r7, r8⟩ := hQ'
      refine ⟨?_, r4, r5, r6, r7, ?_⟩
      · rw [r2]
        apply Vec.ofFn_ext
        intro k hk
        simp [hk]
      · intro seed k hk
        rw [r8 seed k hk]
        simp [hk]
  · intro g hQ
    obtain ⟨r2, r4, r5, r6, r7, r8⟩ := hQ
    refine ⟨?_, r4, r5, r6, r7, ?_⟩
    · rw [r2]
      apply Vec.ofFn_ext
      intro k _
      simp
    · intro seed k hk
      rw [r8 seed k hk]
      simp

/-- The loop over the test functions of `BuidProjection` at a Gauss point: every residual
`aRes[k][i]` gets `solux_g[k] * phi[i] * weight` added, on the tape too. -/
theorem BuidProjection.phi_i_loop_tape (dim nDofs : Nat) (phi : List K) (weight : K)
    (solux_g : List (adouble K)) (s : Stack K) (φ : Nat → K) (b : Nat → adouble K)
    (R : Nat → Nat → adouble K)
    (hphi : ∀ i < nDofs, Vec.read phi i = Except.ok (φ i))
    (hb : ∀ k < dim, Vec.read solux_g k = Except.ok (b k))
    (hinj : ∀ k < dim, ∀ i < nDofs, ∀ k' < dim, ∀ i' < nDofs,
      (R k i).gradient_index = (R k' i').gradient_index → k = k' ∧ i = i')
    (hbr : ∀ k < dim, ∀ k' < dim, ∀ i < nDofs,
      (b k).gradient_index ≠ (R k' i).gradient_index) :
    ∃ p, BuidProjection.phi_i_loop dim nDofs phi weight solux_g (s, Mat.ofFn dim nDofs R)
        = Except.ok p
      ∧ p.2 = Mat.ofFn dim nDofs (fun k i =>
          ⟨(R k i).value + (b k).value * φ i * weight, (R k i).gradient_index⟩)
      ∧ p.1.n_gradients_registered = s.n_gradients_registered
      ∧ p.1.independent_index = s.independent_index
      ∧ p.1.dependent_index = s.dependent_index
      ∧ (∀ seed l, (∀ k < dim, ∀ i < nDofs, l ≠ (R k i).gradient_index) →
          p.1.gradient seed l = s.gradient seed l)
      ∧ (∀ seed, ∀ k < dim, ∀ i < nDofs, p.1.gradient seed (R k i).gradient_index
          = s.gradient seed (R k i).gradient_index
            + φ i * weight * s.gradient seed (b k).gradient_index) := by
  -- the state after `i` nodes, with the first `k` directions of node `i` done
  let Q : Nat → Nat → Stack K × Mat (adouble K) → Prop := fun i k p =>
    p.2 = Mat.ofFn dim nDofs (fun k' i' =>
        if i' < i ∨ (i' = i ∧ k' < k) then
          ⟨(R k' i').value + (b k').value * φ i' * weight, (R k' i').gradient_index⟩
        else R k' i')
    ∧ p.1.n_gradients_registered = s.n_gradients_registered
    ∧ p.1.independent_index = s.independent_index
    ∧ p.1.dependent_index = s.dependent_index
    ∧ (∀ seed l, (∀ k < dim, ∀ i < nDofs, l ≠ (R k i).gradient_index) →
        p.1.gradient seed l = s.gradient seed l)
    ∧ (∀ seed, ∀ k' < dim, ∀ i' < nDofs, p.1.gradient seed (R k' i').gradient_index
        = if i' < i ∨ (i' = i ∧ k' < k) then
            s.gradient seed (R k' i').gradient_index
              + φ i' * weight * s.gradient seed (b k').gradient_index
          else s.gradient seed (R k' i').gradient_index)
  unfold BuidProjection.phi_i_loop
  refine forLoop_inv_imp nDofs _ (fun i p => Q i 0 p) _ _ ?_ ?_ ?_
  · refine ⟨?_, rfl, rfl, rfl, fun _ _ _ => rfl, ?_⟩
    · apply Mat.ofFn_congr
      intro k' _ i' _
      simp
    · intro seed k' _ i' _
      simp
  · intro i hi p hQ
    refine forLoop_inv_imp dim _ (fun k p => Q i k p) _ _ hQ ?_ ?_
    · intro k hk p hQ
      obtain ⟨p1, p2, p3, p4, p5, p6⟩ := hQ
      simp only [hb k hk, hphi i hi, Run.ok_bind, p1, Mat.read_ofFn dim nDofs _ k i hk hi,
        Mat.write_ofFn dim nDofs _ k i _ hk hi, Run.pure_eq]
      have hnot : ¬ (i < i ∨ (i = i ∧ k < k)) := by omega
      have hnot' : ¬ (i < i ∨ (True ∧ k < k)) := by simp
      simp only [hnot', if_false]
      refine ⟨_, rfl, ?_, ?_, ?_, ?_, ?_, ?_⟩
      · apply Mat.ofFn_congr
        intro k' _ i' _
        by_cases hki : k' = k ∧ i' = i
        · obtain ⟨rfl, rfl⟩ := hki
          have h1 : i' < i' ∨ (i' = i' ∧ k' < k' + 1) := by omega
          have h2 : i' < i' ∨ (True ∧ k' < k' + 1) := Or.inr ⟨trivial, Nat.lt_succ_self _⟩
          simp only [and_self, if_true, h1, h2, adouble.add_assign_mul_fst]
        · simp only [hki, if_false]
          by_cases hd : i' < i ∨ (i' = i ∧ k' < k)
          · have : i' < i ∨ (i' = i ∧ k' < k + 1) := by omega
            simp only [hd, this, if_true]
          · have : ¬ (i' < i ∨ (i' = i ∧ k' < k + 1)) := by
              intro h
              rcases h with h | ⟨h1, h2⟩
              · exact hd (Or.inl h)
              · by_cases hk' : k' = k
                · exact hki ⟨hk', h1⟩
                · exact hd (Or.inr ⟨h1, by omega⟩)
            simp only [hd, this, if_false]
      · simp only [adouble.add_assign_counter, p2]
      · simp only [adouble.add_assign_independent, p3]
      · simp only [adouble.add_assign_dependent, p4]
      · intro seed l hne
        simp only [adouble.add_assign_mul_gradient, hne k hk i hi, if_false]
        exact p5 seed l hne
      · intro seed k' hk' i' hi'
        simp only [adouble.add_assign_mul_gradient]
        by_cases hki : k' = k ∧ i' = i
        · obtain ⟨rfl, rfl⟩ := hki
          have h1 : i' < i' ∨ (i' = i' ∧ k' < k' + 1) := by omega
          have h2 : i' < i' ∨ (True ∧ k' < k' + 1) := Or.inr ⟨trivial, Nat.lt_succ_self _⟩
          simp only [if_true, h1, h2]
          rw [p6 seed k' hk' i' hi', if_neg hnot,
            p5 seed _ (fun k2 hk2 i2 hi2 => hbr k' hk' k2 hk2 i2 hi2)]
        · have hne : (R k' i').gradient_index ≠ (R k i).gradient_index :=
            fun h => hki (hinj k' hk' i' hi' k hk i hi h)
          simp only [hne, if_false]
          rw [p6 seed k' hk' i' hi']
          by_cases hd : i' < i ∨ (i' = i ∧ k' < k)
          · have : i' < i ∨ (i' = i ∧ k' < k + 1) := by omega
            simp only [hd, this, if_true]
          · have : ¬ (i' < i ∨ (i' = i ∧ k' < k + 1)) := by
              intro h
              rcases h with h | ⟨h1, h2⟩
              · exact hd (Or.inl h)
              · by_cases hk'' : k' = k
                · exact hki ⟨hk'', h1⟩
                · exact hd (Or.inr ⟨h1, by omega⟩)
            simp only [hd, this, if_false]
    · intro p' hQ'
      obtain ⟨p1, p2, p3, p4, p5, p6⟩ := hQ'
      refine ⟨?_, p2, p3, p4, p5, ?_⟩
      · rw [p1]
        apply Mat.ofFn_congr
        intro k' hk' i' _
        have : (i' < i ∨ (i' = i ∧ k' < dim)) ↔ (i' < i + 1 ∨ (i' = i + 1 ∧ k' < 0)) := by
          omega
        simp only [this]
      · intro seed k' hk' i' hi'
        rw [p6 seed k' hk' i' hi']
        have : (i' < i ∨ (i' = i ∧ k' < dim)) ↔ (i' < i + 1 ∨ (i' = i + 1 ∧ k' < 0)) := by
          omega
        simp only [this]
  · intro p hQ
    obtain ⟨p1, p2, p3, p4, p5, p6⟩ := hQ
    refine ⟨?_, p2, p3, p4, p5, ?_⟩
    · rw [p1]
      apply Mat.ofFn_congr
      intro k' _ i' hi'
      have : i' < nDofs ∨ (i' = nDofs ∧ k' < 0) := Or.inl hi'
      simp only [this, if_true]
    · intro seed k' hk' i' hi'
      rw [p6 seed k' hk' i' hi']
      have : i' < nDofs ∨ (i' = nDofs ∧ k' < 0) := Or.inl hi'
      simp only [this, if_true]

end projectionGauss

/-! ## The Gauss point loop of `BuidProjection` -/

section projectionGaussLoop
variable {K : Type} [Field K]

/-- The residuals and the tape after the Gauss point loop of `BuidProjection`. -/
theorem BuidProjection.gauss_loop_tape (fe : FiniteElement K) (dim nDofs : Nat) (x : Mat K)
    (s : Stack K) (sh0 : ShapeOut K) (sh : Nat → ShapeOut K) (φ φx : Nat → Nat → K)
    (u : Nat → adouble K) (R : Nat → Nat → adouble K)
    (hshape : ∀ ig < fe.GetGaussPointNumber, fe.Jacobian x ig none = Except.ok (sh ig))
    (hphi : ∀ ig < fe.GetGaussPointNumber, ∀ i < nDofs,
      Vec.read (sh ig).phi i = Except.ok (φ ig i))
    (hphix : ∀ ig < fe.GetGaussPointNumber, ∀ i < nDofs, ∀ k < dim,
      Vec.read (sh ig).gradphi (i * dim + k) = Except.ok (φx ig (i * dim + k)))
    (hun : ∀ i < nDofs, (u i).gradient_index < s.n_gradients_registered)
    (hrn : ∀ k < dim, ∀ i < nDofs, (R k i).gradient_index < s.n_gradients_registered)
    (hinj : ∀ k < dim, ∀ i < nDofs, ∀ k' < dim, ∀ i' < nDofs,
      (R k i).gradient_index = (R k' i').gradient_index → k = k' ∧ i = i')
    (hur : ∀ j < nDofs, ∀ k < dim, ∀ i < nDofs,
      (u j).gradient_index ≠ (R k i).gradient_index) :
    ∃ out, BuidProjection.gauss_loop fe dim nDofs x (Vec.ofFn nDofs u)
        (s, Mat.ofFn dim nDofs R, sh0) = Except.ok out
      ∧ out.2.1 = Mat.ofFn dim nDofs (fun k i =>
          ⟨(R k i).value + ∑ ig in Finset.range fe.GetGaussPointNumber,
            (∑ j in Finset.range nDofs, φx ig (j * dim + k) * (u j).value) * φ ig i
              * (sh ig).Weight,
            (R k i).gradient_index⟩)
      ∧ s.n_gradients_registered ≤ out.1.n_gradients_registered
      ∧ out.1.independent_index = s.independent_index
      ∧ out.1.dependent_index = s.dependent_index
      ∧ (∀ seed l, l < s.n_gradients_registered →
          (∀ k < dim, ∀ i < nDofs, l ≠ (R k i).gradient_index) →
          out.1.gradient seed l = s.gradient seed l)
      ∧ (∀ seed, ∀ k < dim, ∀ i < nDofs, out.1.gradient seed (R k i).gradient_index
          = s.gradient seed (R k i).gradient_index
            + ∑ ig in Finset.range fe.GetGaussPointNumber,
                φ ig i * (sh ig).Weight * ∑ j in Finset.range nDofs,
                  φx ig (j * dim + k) * s.gradient seed (u j).gradient_index) := by
  let P : Nat → Stack K × Mat (adouble K) × ShapeOut K → Prop := fun n out =>
    out.2.1 = Mat.ofFn dim nDofs (fun k i =>
        ⟨(R k i).value + ∑ ig in Finset.range n,
          (∑ j in Finset.range nDofs, φx ig (j * dim + k) * (u j).value) * φ ig i
            * (sh ig).Weight,
          (R k i).gradient_index⟩)
    ∧ s.n_gradients_registered ≤ out.1.n_gradients_registered
    ∧ out.1.independent_index = s.independent_index
    ∧ out.1.dependent_index = s.dependent_index
    ∧ (∀ seed l, l < s.n_gradients_registered →
        (∀ k < dim, ∀ i < nDofs, l ≠ (R k i).gradient_index) →
        out.1.gradient seed l = s.gradient seed l)
    ∧ (∀ seed, ∀ k < dim, ∀ i < nDofs, out.1.gradient seed (R k i).gradient_index
        = s.gradient seed (R k i).gradient_index
          + ∑ ig in Finset.range n,
              φ ig i * (sh ig).Weight * ∑ j in Finset.range nDofs,
                φx ig (j * dim + k) * s.gradient seed (u j).gradient_index)
  unfold BuidProjection.gauss_loop
  refine forLoop_inv_imp fe.GetGaussPointNumber _ P _ _ ?_ ?_ ?_
  · refine ⟨?_, le_refl _, rfl, rfl, fun _ _ _ _ => rfl, ?_⟩
    · apply Mat.ofFn_congr
      intro k _ i _
      simp
    · intro seed k _ i _
      simp
  · intro ig hig out hP
    obtain ⟨p1, p2, p3, p4, p5, p6⟩ := hP
    obtain ⟨g, hg, g1, g3, g4, g5, g6, g7⟩ := BuidProjection.solux_g_spec dim nDofs
      (sh ig).gradphi (Vec.ofFn nDofs u) out.1 (φx ig) u (hphix ig hig)
      (fun i hi => Vec.ofFn_read nDofs u i hi) (fun i hi => by have := hun i hi; omega)
    obtain ⟨p, hp, q1, q2, q3, q4, q5, q6⟩ := BuidProjection.phi_i_loop_tape dim nDofs
      (sh ig).phi (sh ig).Weight g.2 g.1 (φ ig)
      (fun k => ⟨∑ i in Finset.range nDofs, φx ig (i * dim + k) * (u i).value,
        out.1.n_gradients_registered + k⟩)
      (fun k i => ⟨(R k i).value + ∑ ig' in Finset.range ig,
          (∑ j in Finset.range nDofs, φx ig' (j * dim + k) * (u j).value) * φ ig' i
            * (sh ig').Weight,
        (R k i).gradient_index⟩)
      (hphi ig hig)
      (fun k hk => by rw [g1, Vec.ofFn_read dim _ k hk])
      hinj
      (fun k _ k' hk' i hi => by
        show out.1.n_gradients_registered + k ≠ (R k' i).gradient_index
        have := hrn k' hk' i hi
        omega)
    rw [hshape ig hig, Run.ok_bind, hg, Run.ok_bind, p1, hp, Run.ok_bind]
    refine ⟨_, rfl, ?_, ?_, ?_, ?_, ?_, ?_⟩
    · show p.2 = _
      rw [q1]
      apply Mat.ofFn_congr
      intro k _ i _
      simp only [Finset.sum_range_succ, add_assoc]
    · show _ ≤ p.1.n_gradients_registered
      rw [q2, g3]
      omega
    · show p.1.independent_index = _
      rw [q3, g4, p3]
    · show p.1.dependent_index = _
      rw [q4, g5, p4]
    · intro seed l hl hne
      show p.1.gradient seed l = _
      rw [q5 seed l hne, g6 seed l (by omega), p5 seed l hl hne]
    · intro seed k hk i hi
      show p.1.gradient seed (R k i).gradient_index = _
      have h6 := q6 seed k hk i hi
      simp only [] at h6
      rw [h6, g6 seed _ (by have := hrn k hk i hi; omega), p6 seed k hk i hi,
        Finset.sum_range_succ, add_assoc, g7 seed k hk]
      congr 3
      apply Finset.sum_congr rfl
      intro j hj'
      rw [p5 seed _ (hun j (Finset.mem_range.mp hj'))
        (fun k' hk' i' hi' => hur j (Finset.mem_range.mp hj') k' hk' i' hi')]
  · intro out hP
    exact hP

end projectionGaussLoop

section projectionRecord
variable {K V M : Type} [Field K]

theorem Mat.getD_ofFn {α : Type} (r c : Nat) (f : Nat → Nat → α) (k : Nat) (hk : k < r) :
    (Mat.ofFn r c f).getD k [] = Vec.ofFn c (f k) := by
  show ((List.range r).map (fun i => (List.range c).map (fun j => f i j))).getD k [] = _
  rw [List.getD_eq_getElem?_getD, getElem?_map_range, if_pos hk]
  rfl

theorem adouble.index2_ofFn (r c : Nat) (R : Nat → Nat → adouble K) (k i : Nat) (hk : k < r)
    (hi : i < c) : adouble.index2 (Mat.ofFn r c R) k i = (R k i).gradient_index := by
  unfold adouble.index2
  rw [Mat.getD_ofFn r c R k hk, adouble.index_ofFn c (R k) i hi]

theorem Stack.tracks_rows_ofFn (s : Stack K) (dim n : Nat) (u : Nat → adouble K)
    (R : Nat → Nat → adouble K)
    (hun : ∀ i < n, (u i).gradient_index < s.n_gradients_registered)
    (hrn : ∀ k < dim, ∀ i < n, (R k i).gradient_index < s.n_gradients_registered)
    (huinj : ∀ i < n, ∀ j < n, (u i).gradient_index = (u j).gradient_index → i = j)
    (hrinj : ∀ k < dim, ∀ i < n, ∀ k' < dim, ∀ i' < n,
      (R k i).gradient_index = (R k' i').gradient_index → k = k' ∧ i = i')
    (hur : ∀ j < n, ∀ k < dim, ∀ i < n, (u j).gradient_index ≠ (R k i).gradient_index) :
    s.tracks_rows (Vec.ofFn n u) (Mat.ofFn dim n R) := by
  have hlen : ∀ k < dim, ((Mat.ofFn dim n R).getD k []).length = n := by
    intro k hk
    rw [Mat.getD_ofFn dim n R k hk, Vec.ofFn_length]
  simp only [Stack.tracks_rows, Vec.ofFn_length, Mat.length_ofFn]
  refine ⟨?_, ?_, ?_, ?_, ?_⟩
  · intro i hi
    rw [adouble.index_ofFn n u i hi]
    exact hun i hi
  · intro k hk i hi
    rw [hlen k hk] at hi
    rw [adouble.index2_ofFn dim n R k i hk hi]
    exact hrn k hk i hi
  · intro i hi j hj
    rw [adouble.index_ofFn n u i hi, adouble.index_ofFn n u j hj]
    exact huinj i hi j hj
  · intro k hk i hi k' hk' i' hi'
    rw [hlen k hk] at hi
    rw [hlen k' hk'] at hi'
    rw [adouble.index2_ofFn dim n R k i hk hi, adouble.index2_ofFn dim n R k' i' hk' hi']
    exact hrinj k hk i hi k' hk' i' hi'
  · intro j hj k hk i hi
    rw [hlen k hk] at hi
    rw [adouble.index_ofFn n u j hj, adouble.index2_ofFn dim n R k i hk hi]
    exact hur j hj k hk i hi

/-- The recording of an element of `BuidProjection` returns.  The residuals and the
derivatives on the tape are the sums over the Gauss points computed from the outputs `sh ig`
of the shape evaluator; the local unknowns are registered as independent variables. -/
theorem BuidProjection.record_tape (msh : Mesh K) (sol : Solution K)
    (sysP0 : LinearEquationSolver V M) (soluIndex soluType soluPdeIndex iel : Nat)
    (st : ProjectionState K M) (sh : Nat → ShapeOut K) (φ φx : Nat → Nat → K)
    (hx : st.x.length = msh.GetDimension) (ha : st.aRes.length = msh.GetDimension)
    (htr : st.s.tracks_rows st.solu st.aRes)
    (hshape : ∀ ig < (msh.finiteElement (msh.GetElementType iel) soluType).GetGaussPointNumber,
      (msh.finiteElement (msh.GetElementType iel) soluType).Jacobian
        (Mat.ofFn msh.GetDimension (msh.GetElementDofNumber iel soluType)
          (fun jdim i => msh.topology_Sol jdim (msh.GetSolutionDof i iel 2))) ig none
        = Except.ok (sh ig))
    (hphi : ∀ ig < (msh.finiteElement (msh.GetElementType iel) soluType).GetGaussPointNumber,
      ∀ i < msh.GetElementDofNumber iel soluType, Vec.read (sh ig).phi i = Except.ok (φ ig i))
    (hphix : ∀ ig < (msh.finiteElement (msh.GetElementType iel) soluType).GetGaussPointNumber,
      ∀ i < msh.GetElementDofNumber iel soluType, ∀ k < msh.GetDimension,
        Vec.read (sh ig).gradphi (i * msh.GetDimension + k)
          = Except.ok (φx ig (i * msh.GetDimension + k))) :
    ∃ st', BuidProjection.record msh sol sysP0 soluIndex soluType soluPdeIndex iel st
        = Except.ok st'
      ∧ st'.P = st.P
      ∧ st'.sysDof = Vec.ofFn (msh.GetElementDofNumber iel soluType)
          (fun i => sysP0.GetSystemDof soluIndex soluPdeIndex i iel)
      ∧ st'.Jac.length
          = msh.GetElementDofNumber iel soluType * msh.GetElementDofNumber iel soluType
      ∧ st'.x.length = msh.GetDimension
      ∧ st'.solu.length = msh.GetElementDofNumber iel soluType
      ∧ st'.aRes.length = msh.GetDimension
      ∧ (∀ k < msh.GetDimension,
          (st'.aRes.getD k []).length = msh.GetElementDofNumber iel soluType)
      ∧ st'.s.tracks_rows st'.solu st'.aRes
      ∧ st'.s.independent_index = st.s.independent_index
          ++ Vec.ofFn (msh.GetElementDofNumber iel soluType) (adouble.index st'.solu)
      ∧ st'.s.dependent_index = st.s.dependent_index
      ∧ (∀ k < msh.GetDimension, ∀ i < msh.GetElementDofNumber iel soluType,
          ∀ j < msh.GetElementDofNumber iel soluType,
          st'.s.gradient (adouble.index st'.solu j) (adouble.index2 st'.aRes k i)
            = ∑ ig in Finset.range
                (msh.finiteElement (msh.GetElementType iel) soluType).GetGaussPointNumber,
              φ ig i * (sh ig).Weight * φx ig (j * msh.GetDimension + k))
      ∧ (∀ k < msh.GetDimension, ∀ i < msh.GetElementDofNumber iel soluType,
          ((st'.aRes.getD k []).getD i ⟨0, 0⟩).value
            = ∑ ig in Finset.range
                (msh.finiteElement (msh.GetElementType iel) soluType).GetGaussPointNumber,
              (∑ j in Finset.range (msh.GetElementDofNumber iel soluType),
                  φx ig (j * msh.GetDimension + k)
                    * sol.Sol soluIndex (msh.GetSolutionDof j iel soluType))
                * φ ig i * (sh ig).Weight) := by
  generalize hn : msh.GetElementDofNumber iel soluType = n at *
  generalize hdim : msh.GetDimension = dim at *
  -- the local arrays
  have tr1 := Stack.tracks_rows_resize st.s st.solu st.aRes n htr
  have hl1 := adouble.resize_length n st.solu st.s
  obtain ⟨rz, hrz, r1, r2, r3, r4, r5, r6, r7⟩ := BuidProjection.resize_loop_spec dim n
    (adouble.resize n st.solu st.s).2 (adouble.resize n st.solu st.s).1 st.x st.aRes hx ha tr1
  obtain ⟨t1, t2, t3, t4, t5⟩ := r4
  rw [hl1] at t1 t3 t5
  rw [r2] at t2 t4 t5
  have hrowlen : ∀ k < dim, (rz.2.2.getD k []).length = n := by
    intro k hk
    rw [r3 k hk, Vec.ofFn_length]
  have haR : rz.2.2 = Mat.ofFn dim n (fun k i => ⟨0, adouble.index2 rz.2.2 k i⟩) :=
    Mat.eq_ofFn_of_rows dim n rz.2.2 _ r2 r3
  have hsolu1 := Vec.eq_ofFn_getD n (adouble.resize n st.solu st.s).1 ⟨0, 0⟩ hl1
  have hsys := Vec.eq_ofFn_getD n (resize n st.sysDof 0) 0 (length_resize _ _ _)
  obtain ⟨g, hg, g1, g2, g3, g4, g5⟩ := gather_solution_spec msh sol sysP0 soluIndex soluType
    soluPdeIndex iel n rz.1 (fun i => (adouble.resize n st.solu st.s).1.getD i ⟨0, 0⟩)
    (fun i => (resize n st.sysDof 0).getD i 0)
  rw [← hsolu1, ← hsys] at hg
  have hgc : gather_coordinates msh dim n iel rz.2.1
      = Except.ok (Mat.ofFn dim n
          (fun jdim i => msh.topology_Sol jdim (msh.GetSolutionDof i iel 2))) := by
    rw [Mat.eq_ofFn_of_hasShape _ _ rz.2.1 r1]
    exact gather_coordinates_eq msh _ _ iel _
  -- the Gauss point loop
  obtain ⟨out, hout, o1, o2, o3, o4, o5, o6⟩ := BuidProjection.gauss_loop_tape
    (msh.finiteElement (msh.GetElementType iel) soluType) dim n
    (Mat.ofFn dim n (fun jdim i => msh.topology_Sol jdim (msh.GetSolutionDof i iel 2)))
    g.1.new_recording ⟨st.weight, st.phi, st.phi_x, none⟩ sh φ φx
    (fun i => ⟨sol.Sol soluIndex (msh.GetSolutionDof i iel soluType),
      ((adouble.resize n st.solu st.s).1.getD i ⟨0, 0⟩).gradient_index⟩)
    (fun k i => ⟨0, adouble.index2 rz.2.2 k i⟩)
    hshape hphi hphix
    (fun i hi => by
      show _ < g.1.n_gradients_registered
      rw [g3]
      exact t1 i hi)
    (fun k hk i hi => by
      show _ < g.1.n_gradients_registered
      rw [g3]
      exact t2 k hk i (by rw [hrowlen k hk]; exact hi))
    (fun k hk i hi k' hk' i' hi' h =>
      t4 k hk i (by rw [hrowlen k hk]; exact hi) k' hk' i' (by rw [hrowlen k' hk']; exact hi') h)
    (fun j hj k hk i hi => t5 j hj k hk i (by rw [hrowlen k hk]; exact hi))
  rw [← g1, ← haR] at hout
  have hind := Stack.independent_eq out.1 n (fun i => (g.2.1).getD i ⟨0, 0⟩)
  rw [← Vec.eq_ofFn_getD _ g.2.1 ⟨0, 0⟩ (by rw [g1, Vec.ofFn_length])] at hind
  unfold BuidProjection.record
  simp only []
  rw [hn, hdim, hrz, Run.ok_bind, hg, Run.ok_bind, hgc, Run.ok_bind, hout, Run.ok_bind, hind,
    Run.ok_bind, Run.pure_eq]
  have hcount : rz.1.n_gradients_registered ≤ out.1.n_gradients_registered := by
    have h2 : g.1.new_recording.n_gradients_registered = g.1.n_gradients_registered := rfl
    rw [h2, g3] at o2
    exact o2
  refine ⟨_, rfl, rfl, g2, length_resize _ _ _, ?_, ?_, ?_, ?_, ?_, ?_, ?_, ?_, ?_⟩
  · show (Mat.ofFn _ _ _).length = _
    exact Mat.length_ofFn _ _ _
  · show g.2.1.length = _
    rw [g1, Vec.ofFn_length]
  · show out.2.1.length = _
    rw [o1, Mat.length_ofFn]
  · intro k hk
    show (out.2.1.getD k []).length = _
    rw [o1, Mat.getD_ofFn dim n _ k hk, Vec.ofFn_length]
  · show Stack.tracks_rows _ g.2.1 out.2.1
    rw [g1, o1]
    apply Stack.tracks_rows_ofFn
    · intro i hi
      exact lt_of_lt_of_le (t1 i hi) hcount
    · intro k hk i hi
      exact lt_of_lt_of_le (t2 k hk i (by rw [hrowlen k hk]; exact hi)) hcount
    · intro i hi j hj h
      exact t3 i hi j hj h
    · intro k hk i hi k' hk' i' hi' h
      exact t4 k hk i (by rw [hrowlen k hk]; exact hi) k' hk' i'
        (by rw [hrowlen k' hk']; exact hi') h
    · intro j hj k hk i hi
      exact t5 j hj k hk i (by rw [hrowlen k hk]; exact hi)
  · show out.1.independent_index ++ _ = _
    rw [o3]
    show g.1.independent_index ++ _ = _
    rw [g4, r6]
    rfl
  · show out.1.dependent_index = _
    rw [o4]
    show g.1.dependent_index = _
    rw [g5, r7]
    rfl
  · intro k hk i hi j hj
    show Stack.gradient _ (adouble.index g.2.1 j) (adouble.index2 out.2.1 k i) = _
    rw [g1, o1, adouble.index_ofFn _ _ j hj, adouble.index2_ofFn _ _ _ k i hk hi]
    refine Eq.trans (Stack.gradient_congr out.1 _ rfl _ _) ?_
    have h6 := o6 (((adouble.resize n st.solu st.s).1.getD j ⟨0, 0⟩).gradient_index) k hk i hi
    simp only [] at h6 ⊢
    rw [h6, Stack.gradient_new_recording]
    have hne : ¬ (adouble.index2 rz.2.2 k i
        = ((adouble.resize n st.solu st.s).1.getD j ⟨0, 0⟩).gradient_index) :=
      fun h => t5 j hj k hk i (by rw [hrowlen k hk]; exact hi) h.symm
    rw [if_neg hne, zero_add]
    apply Finset.sum_congr rfl
    intro ig _
    congr 1
    rw [Finset.sum_eq_single j]
    · rw [Stack.gradient_new_recording, if_pos rfl, mul_one]
    · intro j' hj' hjj
      rw [Stack.gradient_new_recording]
      have : ¬ (((adouble.resize n st.solu st.s).1.getD j' ⟨0, 0⟩).gradient_index
          = ((adouble.resize n st.solu st.s).1.getD j ⟨0, 0⟩).gradient_index) :=
        fun h => hjj (t3 j' (Finset.mem_range.mp hj') j hj h)
      rw [if_neg this, mul_zero]
    · intro hnot
      exact absurd (Finset.mem_range.mpr hj) hnot
  · intro k hk i hi
    show ((out.2.1.getD k []).getD i ⟨0, 0⟩).value = _
    rw [o1, Mat.getD_ofFn dim n _ k hk, Vec.ofFn_getD n _ _ i hi]
    simp only [zero_add]

end projectionRecord

section projectionExtract
variable {K V M : Type} [Field K]

/-- The registration of the residuals of direction `k` returns: the gradient indices of the
row `k` of `aRes` are appended to the dependent variables, which are declared. -/
theorem BuidProjection.register_eq (n : Nat) (aRes : Mat (adouble K)) (k : Nat) (s : Stack K)
    (hk : k < aRes.length) (hrow : (aRes.getD k []).length = n) :
    BuidProjection.register n aRes k s
      = Except.ok ⟨s.n_gradients_registered, s.statements, s.independent_index,
          s.dependent_index ++ Vec.ofFn n (adouble.index2 aRes k), s.recording,
          s.independents_declared, true⟩ := by
  unfold BuidProjection.register
  rw [Vec.read_getD aRes k [] hk, Run.ok_bind]
  have h := Stack.dependent_eq s n (fun i => (aRes.getD k []).getD i ⟨0, 0⟩)
  rw [← Vec.eq_ofFn_getD n (aRes.getD k []) ⟨0, 0⟩ hrow] at h
  rw [h]
  rfl

/-- The first `k` rounds of the loop over the directions return, for a tape with a recording
whose declared independent variables are the `n` local unknowns and that has no dependent
variable: after every round the tape has the same statements and independent variables and
no dependent variable, and the matrix of each direction `j < k` has received the block of
the derivatives of the residuals of direction `j`, ordered by column. -/
theorem BuidProjection.extract_blocks (Pops : SparseMatrix K M) (dim n : Nat)
    (aRes : Mat (adouble K)) (sysDof : List Int) (s : Stack K) (P0 : Nat → M) (Jac : List K)
    (U : Nat → Nat)
    (ha : aRes.length = dim) (hrow : ∀ k < dim, (aRes.getD k []).length = n)
    (hrec : s.recording = true) (hid : s.independents_declared = true)
    (hind : s.independent_index = Vec.ofFn n U) (hdep : s.dependent_index = [])
    (hJ : Jac.length = n * n) (k : Nat) (hk : k ≤ dim) :
    ∃ r, BuidProjection.extract Pops k n aRes sysDof (s, Vec.ofFn dim P0, Jac) = Except.ok r
      ∧ r.1.n_gradients_registered = s.n_gradients_registered
      ∧ r.1.statements = s.statements
      ∧ r.1.independent_index = s.independent_index
      ∧ r.1.dependent_index = []
      ∧ r.1.recording = true
      ∧ r.1.independents_declared = true
      ∧ r.2.1 = Vec.ofFn dim (fun j => if j < k
          then Pops.add_matrix_blocked (P0 j)
            (Vec.ofFn (n * n) (fun e => s.gradient (U (e / n)) (adouble.index2 aRes j (e % n))))
            sysDof sysDof
          else P0 j)
      ∧ r.2.2.length = n * n
      ∧ (∀ j, k = j + 1 → r.2.2
          = Vec.ofFn (n * n)
              (fun e => s.gradient (U (e / n)) (adouble.index2 aRes j (e % n)))) := by
  induction k with
  | zero =>
    refine ⟨_, rfl, rfl, rfl, rfl, hdep, hrec, hid, ?_, hJ,
      fun j hj => absurd hj (Nat.succ_ne_zero j).symm⟩
    apply Vec.ofFn_ext
    intro j _
    rw [if_neg (Nat.not_lt_zero j)]
  | succ k ih =>
    obtain ⟨r, hr, q1, q2, q3, q4, q5, q6, r2, r3, _⟩ := ih (by omega)
    have hkd : k < dim := by omega
    have hreg := BuidProjection.register_eq n aRes k r.1 (by omega) (hrow k hkd)
    rw [q4, List.nil_append] at hreg
    have hjac := Stack.jacobian_eq
      (⟨r.1.n_gradients_registered, r.1.statements, r.1.independent_index,
        Vec.ofFn n (adouble.index2 aRes k), r.1.recording, r.1.independents_declared,
        true⟩ : Stack K) n n U (adouble.index2 aRes k) r.2.2
      q5 q6 rfl (q3.trans hind) rfl r3
    have hgrad : ∀ seed l,
        (⟨r.1.n_gradients_registered, r.1.statements, r.1.independent_index,
          Vec.ofFn n (adouble.index2 aRes k), r.1.recording, r.1.independents_declared,
          true⟩ : Stack K).gradient seed l = s.gradient seed l :=
      fun seed l => Stack.gradient_congr s _ q2 seed l
    simp only [hgrad] at hjac
    unfold BuidProjection.extract at hr ⊢
    rw [forLoop_succ, hr, Run.ok_bind]
    rw [hreg, Run.ok_bind, hjac, Run.ok_bind, r2, Vec.ofFn_read dim _ k hkd, Run.ok_bind,
      Vec.ofFn_write dim _ k _ hkd, Run.ok_bind, Run.pure_eq]
    refine ⟨_, rfl, q1, q2, q3, rfl, q5, q6, ?_, ?_, ?_⟩
    · apply Vec.ofFn_ext
      intro j _
      beta_reduce
      by_cases hj : j = k
      · subst hj
        rw [if_pos rfl, if_neg (Nat.lt_irrefl j), if_pos (Nat.lt_succ_self j)]
      · rw [if_neg hj]
        by_cases hlt : j < k
        · rw [if_pos hlt, if_pos (Nat.lt_succ_of_lt hlt)]
        · rw [if_neg hlt, if_neg (by omega)]
    · exact Vec.ofFn_length _ _
    · intro j hj
      have hjk : j = k := by omega
      subst hjk
      rfl

end projectionExtract

section projectionElement
variable {K V M : Type} [Field K]

/-- The recording of an element of `BuidProjection` in terms of `local_aResP` and `local_P`,
for an element whose shape evaluator returns and a tape without registered variables: the
local unknowns are the independent variables, no dependent variable is registered, the
residuals hold `local_aResP`, and their derivatives on the tape are `local_P`. -/
theorem BuidProjection.record_local (msh : Mesh K) (sol : Solution K)
    (sysP0 : LinearEquationSolver V M) (soluIndex soluType soluPdeIndex iel : Nat)
    (st : ProjectionState K M)
    (hx : st.x.length = msh.GetDimension) (ha : st.aRes.length = msh.GetDimension)
    (htr : st.s.tracks_rows st.solu st.aRes)
    (hind : st.s.independent_index = []) (hdep : st.s.dependent_index = [])
    (hev : msh.evaluates soluType iel) :
    ∃ st', BuidProjection.record msh sol sysP0 soluIndex soluType soluPdeIndex iel st
        = Except.ok st'
      ∧ st'.P = st.P
      ∧ st'.sysDof = local_sysDof sysP0 soluIndex soluPdeIndex
          (msh.GetElementDofNumber iel soluType) iel
      ∧ st'.Jac.length
          = msh.GetElementDofNumber iel soluType * msh.GetElementDofNumber iel soluType
      ∧ st'.x.length = msh.GetDimension
      ∧ st'.solu.length = msh.GetElementDofNumber iel soluType
      ∧ st'.aRes.length = msh.GetDimension
      ∧ (∀ k < msh.GetDimension,
          (st'.aRes.getD k []).length = msh.GetElementDofNumber iel soluType)
      ∧ st'.s.tracks_rows st'.solu st'.aRes
      ∧ st'.s.independent_index
          = Vec.ofFn (msh.GetElementDofNumber iel soluType) (adouble.index st'.solu)
      ∧ st'.s.dependent_index = []
      ∧ (∀ k < msh.GetDimension, ∀ i < msh.GetElementDofNumber iel soluType,
          ∀ j < msh.GetElementDofNumber iel soluType,
          st'.s.gradient (adouble.index st'.solu j) (adouble.index2 st'.aRes k i)
            = local_P msh soluType iel k i j)
      ∧ (∀ k < msh.GetDimension, ∀ i < msh.GetElementDofNumber iel soluType,
          ((st'.aRes.getD k []).getD i ⟨0, 0⟩).value
            = local_aResP msh sol soluIndex soluType iel k i) := by
  obtain ⟨st1, h1, r1, r2, r3, r4, r5, r6, r7, r8, r9, r10, r11, r12⟩ :=
    BuidProjection.record_tape msh sol sysP0 soluIndex soluType soluPdeIndex iel st
      (msh.shape soluType iel)
      (fun ig i => msh.phi soluType iel ig i)
      (fun ig k => Vec.entry (msh.shape soluType iel ig).gradphi k)
      hx ha htr
      (fun ig hig => (msh.shape_eq soluType iel hev ig hig).1)
      (fun ig hig i hi => msh.read_phi soluType iel hev ig hig i hi)
      (fun ig hig i hi jdim hj => msh.read_phi_x soluType iel hev ig hig i hi jdim hj)
  rw [hind, List.nil_append] at r9
  rw [hdep] at r10
  refine ⟨st1, h1, r1, r2, r3, r4, r5, r6, r7, r8, r9, r10, ?_, ?_⟩
  · intro k hk i hi j hj
    rw [r11 k hk i hi j hj]
    unfold local_P
    apply Finset.sum_congr rfl
    intro ig _
    rw [mul_comm (msh.phi soluType iel ig i) _]
    rfl
  · intro k hk i hi
    rw [r12 k hk i hi]
    rfl

/-- The body of the element loop of `BuidProjection` returns for an element with `nDofs > 0`
whose shape evaluator returns, when no variable is registered at its start: the matrix of
every direction `k` receives the block `local_P` of direction `k`, ordered by column, and no
variable is registered at its end. -/
theorem BuidProjection.element_blocks (Pops : SparseMatrix K M) (msh : Mesh K)
    (sol : Solution K) (sysP0 : LinearEquationSolver V M)
    (soluIndex soluType soluPdeIndex iel : Nat) (st : ProjectionState K M) (P0 : Nat → M)
    (hn : 0 < msh.GetElementDofNumber iel soluType)
    (hx : st.x.length = msh.GetDimension) (ha : st.aRes.length = msh.GetDimension)
    (htr : st.s.tracks_rows st.solu st.aRes)
    (hind : st.s.independent_index = []) (hdep : st.s.dependent_index = [])
    (hP : st.P = Vec.ofFn msh.GetDimension P0)
    (hev : msh.evaluates soluType iel) :
    ∃ st', BuidProjection.element Pops msh sol sysP0 soluIndex soluType soluPdeIndex iel st
        = Except.ok st'
      ∧ st'.P = Vec.ofFn msh.GetDimension (fun k =>
          Pops.add_matrix_blocked (P0 k)
            (Vec.ofFn
              (msh.GetElementDofNumber iel soluType * msh.GetElementDofNumber iel soluType)
              (fun e => local_P msh soluType iel k (e % msh.GetElementDofNumber iel soluType)
                (e / msh.GetElementDofNumber iel soluType)))
            (local_sysDof sysP0 soluIndex soluPdeIndex (msh.GetElementDofNumber iel soluType)
              iel)
            (local_sysDof sysP0 soluIndex soluPdeIndex (msh.GetElementDofNumber iel soluType)
              iel))
      ∧ st'.x.length = msh.GetDimension
      ∧ st'.aRes.length = msh.GetDimension
      ∧ st'.s.tracks_rows st'.solu st'.aRes
      ∧ st'.s.independent_index = [] ∧ st'.s.dependent_index = [] := by
  obtain ⟨st1, h1, r1, r2, r3, r4, r5, r6, r7, r8, r9, r10, r11, _⟩ :=
    BuidProjection.record_local msh sol sysP0 soluIndex soluType soluPdeIndex iel st hx ha htr
      hind hdep hev
  obtain ⟨f1, f2⟩ := BuidProjection.record_declares msh sol sysP0 soluIndex soluType
    soluPdeIndex iel st st1 h1
  obtain ⟨e, he, e1, _, _, e4, _, _, e7, _⟩ := BuidProjection.extract_blocks Pops
    msh.GetDimension (msh.GetElementDofNumber iel soluType) st1.aRes st1.sysDof st1.s P0 st1.Jac
    (adouble.index st1.solu) r6 r7 f1 f2 r9 r10 r3 msh.GetDimension (Nat.le_refl _)
  rw [← hP, ← r1] at he
  unfold BuidProjection.element
  rw [h1, Run.ok_bind, he, Run.ok_bind]
  refine ⟨_, rfl, ?_, r4, r6, ?_, rfl, e4⟩
  · show e.2.1 = _
    rw [e7, r2]
    apply Vec.ofFn_ext
    intro k hk
    rw [if_pos hk]
    congr 1
    apply Vec.ofFn_ext
    intro q hq
    have hqn : q % msh.GetElementDofNumber iel soluType < msh.GetElementDofNumber iel soluType :=
      Nat.mod_lt q hn
    have hqm : q / msh.GetElementDofNumber iel soluType
        < msh.GetElementDofNumber iel soluType := by
      rw [Nat.div_lt_iff_lt_mul hn]
      exact hq
    exact r11 k hk _ hqn _ hqm
  · obtain ⟨t1, t2, t3, t4, t5⟩ := r8
    refine ⟨?_, ?_, t3, t4, t5⟩
    · intro i hi
      show _ < e.1.n_gradients_registered
      rw [e1]
      exact t1 i hi
    · intro k hk i hi
      show _ < e.1.n_gradients_registered
      rw [e1]
      exact t2 k hk i hi

/-- The element loop of `BuidProjection` over `cnt` elements from element `a` on. -/
theorem BuidProjection.element_loop_blocks (Pops : SparseMatrix K M) (msh : Mesh K)
    (sol : Solution K) (sysP0 : LinearEquationSolver V M)
    (soluIndex soluType soluPdeIndex a cnt : Nat) (st0 : ProjectionState K M) (P0 : Nat → M)
    (hx : st0.x.length = msh.GetDimension) (ha : st0.aRes.length = msh.GetDimension)
    (htr : st0.s.tracks_rows st0.solu st0.aRes)
    (hind : st0.s.independent_index = []) (hdep : st0.s.dependent_index = [])
    (hP : st0.P = Vec.ofFn msh.GetDimension P0)
    (hel : ∀ e < cnt, 0 < msh.GetElementDofNumber (a + e) soluType
      ∧ msh.evaluates soluType (a + e)) :
    ∃ st, forLoop cnt (fun e => BuidProjection.element Pops msh sol sysP0 soluIndex soluType
          soluPdeIndex (a + e)) st0 = Except.ok st
      ∧ st.P = Vec.ofFn msh.GetDimension (fun k =>
          assembled_P Pops msh sysP0 soluIndex soluType soluPdeIndex k a (a + cnt) (P0 k))
      ∧ st.s.independent_index = [] ∧ st.s.dependent_index = []
      ∧ st.x.length = msh.GetDimension ∧ st.aRes.length = msh.GetDimension
      ∧ st.s.tracks_rows st.solu st.aRes := by
  induction cnt with
  | zero =>
    refine ⟨st0, rfl, ?_, hind, hdep, hx, ha, htr⟩
    rw [hP]
    apply Vec.ofFn_ext
    intro k _
    simp only [assembled_P, Nat.add_zero, Nat.sub_self, List.range_zero, List.foldl_nil]
  | succ n ih =>
    obtain ⟨st1, h1, k1, k2, k3, k4, k5, k6⟩ := ih (fun e he => hel e (Nat.lt_succ_of_lt he))
    obtain ⟨st2, h2, e1, e2, e3, e4, e5, e6⟩ := BuidProjection.element_blocks Pops msh sol
      sysP0 soluIndex soluType soluPdeIndex (a + n) st1 _ (hel n (by omega)).1 k4 k5 k6 k2 k3 k1
      (hel n (by omega)).2
    refine ⟨st2, ?_, ?_, e5, e6, e2, e3, e4⟩
    · rw [forLoop_succ, h1, Run.ok_bind, h2]
    · rw [e1]
      apply Vec.ofFn_ext
      intro k _
      simp only [assembled_P, Nat.add_sub_cancel_left, List.range_succ, List.foldl_append,
        List.foldl_cons, List.foldl_nil]

end projectionElement

section projectionRun
variable {K V M : Type} [Field K]

theorem Vec.ofFn_snoc {α : Type} (n : Nat) (f : Nat → α) :
    Vec.ofFn n f ++ [f n] = Vec.ofFn (n + 1) f := by
  simp only [Vec.ofFn, List.range_succ, List.map_append, List.map_cons, List.map_nil]

/-- The first loop of `BuidProjection` returns when the systems `Pname[k]`, `k < dim ≤ 3`,
are found: it collects the systems, their solvers at `level` and their zeroed matrices. -/
theorem BuidProjection.systems_eq (Pops : SparseMatrix K M) (ml_prob : MultiLevelProblem K V M)
    (dim level : Nat) (mlSysP : Nat → ImplicitSystem V M) (hdim : dim ≤ 3)
    (hsys : ∀ k < dim, ml_prob.get_system (Pname.getD k "") = Except.ok (mlSysP k)) :
    BuidProjection.systems Pops ml_prob dim level
      = Except.ok (Vec.ofFn dim mlSysP, Vec.ofFn dim (fun k => (mlSysP k).LinSolver level),
          Vec.ofFn dim (fun k => Pops.zero ((mlSysP k).LinSolver level).KK)) := by
  unfold BuidProjection.systems
  refine forLoop_eq _ (fun i => (Vec.ofFn i mlSysP,
    Vec.ofFn i (fun k => (mlSysP k).LinSolver level),
    Vec.ofFn i (fun k => Pops.zero ((mlSysP k).LinSolver level).KK))) dim ?_
  intro i hi
  beta_reduce
  rw [Vec.read_getD Pname i "" (lt_of_lt_of_le hi hdim), Run.ok_bind, hsys i hi, Run.ok_bind,
    Run.pure_eq]
  simp only []
  rw [Vec.ofFn_snoc, Vec.ofFn_snoc, Vec.ofFn_snoc]

/-- The last loop of `BuidProjection` closes the matrix of every direction. -/
theorem BuidProjection.close_loop (Pops : SparseMatrix K M) (dim : Nat) (Q : Nat → M) :
    forLoop dim (fun k P => do
        Vec.write P k (Pops.close (← Vec.read P k))) (Vec.ofFn dim Q)
      = Except.ok (Vec.ofFn dim (fun k => Pops.close (Q k))) := by
  have h := forLoop_eq
    (fun k (P : List M) => do
      Vec.write P k (Pops.close (← Vec.read P k)))
    (fun i => Vec.ofFn dim (fun k => if k < i then Pops.close (Q k) else Q k)) dim (by
      intro i hi
      beta_reduce
      rw [Vec.ofFn_read dim _ i hi, Run.ok_bind, Vec.ofFn_write dim _ i _ hi]
      congr 1
      apply Vec.ofFn_ext
      intro k _
      beta_reduce
      by_cases hk : k = i
      · subst hk
        rw [if_pos rfl, if_neg (Nat.lt_irrefl k), if_pos (Nat.lt_succ_self k)]
      · rw [if_neg hk]
        by_cases hlt : k < i
        · rw [if_pos hlt, if_pos (Nat.lt_succ_of_lt hlt)]
        · rw [if_neg hlt, if_neg (by omega)])
  have h0 : Vec.ofFn dim (fun k => if k < 0 then Pops.close (Q k) else Q k) = Vec.ofFn dim Q :=
    Vec.ofFn_ext dim _ _ (fun k _ => if_neg (Nat.not_lt_zero k))
  have h1 : Vec.ofFn dim (fun k => if k < dim then Pops.close (Q k) else Q k)
      = Vec.ofFn dim (fun k => Pops.close (Q k)) :=
    Vec.ofFn_ext dim _ _ (fun k hk => if_pos hk)
  beta_reduce at h
  rw [h0, h1] at h
  exact h

/-- `BuidProjection` returns when the systems `Pname[k]`, `k < dim`, and the unknowns `"u"`
and `"ux"` are found, `1 ≤ dim ≤ 3`, every owned element has a positive number of DOFs and a
shape evaluator that returns, and no variable is registered on the tape at the start: the
matrix of every direction is the zeroed one with the local matrices of this direction of the
owned elements added, then closed; no variable is registered at the end. -/
theorem BuidProjection_eq (Pops : SparseMatrix K M) (ml_prob : MultiLevelProblem K V M)
    (s : Stack K) (mlSysP : Nat → ImplicitSystem V M) (soluIndex soluPdeIndex : Nat)
    (hdim1 : 1 ≤ (ml_prob.ml_msh.GetLevel
      ((ml_prob.ml_sol.mlMesh.GetNumberOfLevels + 4294967295) % 4294967296)).GetDimension)
    (hdim3 : (ml_prob.ml_msh.GetLevel
      ((ml_prob.ml_sol.mlMesh.GetNumberOfLevels + 4294967295) % 4294967296)).GetDimension ≤ 3)
    (hsys : ∀ k < (ml_prob.ml_msh.GetLevel
        ((ml_prob.ml_sol.mlMesh.GetNumberOfLevels + 4294967295) % 4294967296)).GetDimension,
      ml_prob.get_system (Pname.getD k "") = Except.ok (mlSysP k))
    (hidx : ml_prob.ml_sol.GetIndex "u" = Except.ok soluIndex)
    (hpde : (mlSysP 0).GetSolPdeIndex "ux" = Except.ok soluPdeIndex)
    (hel : ∀ iel,
      (ml_prob.ml_msh.GetLevel
          ((ml_prob.ml_sol.mlMesh.GetNumberOfLevels + 4294967295) % 4294967296)).elementOffset
        (ml_prob.ml_msh.GetLevel
          ((ml_prob.ml_sol.mlMesh.GetNumberOfLevels + 4294967295) % 4294967296)).processor_id
        ≤ iel →
      iel < (ml_prob.ml_msh.GetLevel
          ((ml_prob.ml_sol.mlMesh.GetNumberOfLevels + 4294967295) % 4294967296)).elementOffset
        ((ml_prob.ml_msh.GetLevel
          ((ml_prob.ml_sol.mlMesh.GetNumberOfLevels + 4294967295) % 4294967296)).processor_id
          + 1) →
      0 < (ml_prob.ml_msh.GetLevel
          ((ml_prob.ml_sol.mlMesh.GetNumberOfLevels + 4294967295) % 4294967296)).GetElementDofNumber
        iel (ml_prob.ml_sol.GetSolutionType soluIndex)
      ∧ (ml_prob.ml_msh.GetLevel
          ((ml_prob.ml_sol.mlMesh.GetNumberOfLevels + 4294967295) % 4294967296)).evaluates
        (ml_prob.ml_sol.GetSolutionType soluIndex) iel)
    (hind : s.independent_index = []) (hdep : s.dependent_index = []) :
    ∃ s', BuidProjection Pops ml_prob s
        = Except.ok (s',
          Vec.ofFn (ml_prob.ml_msh.GetLevel
              ((ml_prob.ml_sol.mlMesh.GetNumberOfLevels + 4294967295) % 4294967296)).GetDimension
            (fun k => Pops.close (assembled_P Pops
              (ml_prob.ml_msh.GetLevel
                ((ml_prob.ml_sol.mlMesh.GetNumberOfLevels + 4294967295) % 4294967296))
              ((mlSysP 0).LinSolver
                ((ml_prob.ml_sol.mlMesh.GetNumberOfLevels + 4294967295) % 4294967296))
              soluIndex (ml_prob.ml_sol.GetSolutionType soluIndex) soluPdeIndex k
              ((ml_prob.ml_msh.GetLevel
                  ((ml_prob.ml_sol.mlMesh.GetNumberOfLevels + 4294967295)
                    % 4294967296)).elementOffset
                (ml_prob.ml_msh.GetLevel
                  ((ml_prob.ml_sol.mlMesh.GetNumberOfLevels + 4294967295)
                    % 4294967296)).processor_id)
              ((ml_prob.ml_msh.GetLevel
                  ((ml_prob.ml_sol.mlMesh.GetNumberOfLevels + 4294967295)
                    % 4294967296)).elementOffset
                ((ml_prob.ml_msh.GetLevel
                  ((ml_prob.ml_sol.mlMesh.GetNumberOfLevels + 4294967295)
                    % 4294967296)).processor_id + 1))
              (Pops.zero ((mlSysP k).LinSolver
                ((ml_prob.ml_sol.mlMesh.GetNumberOfLevels + 4294967295) % 4294967296)).KK))))
      ∧ s'.independent_index = [] ∧ s'.dependent_index = [] := by
  generalize hlevel : (ml_prob.ml_sol.mlMesh.GetNumberOfLevels + 4294967295) % 4294967296
    = level at *
  generalize hmsh : ml_prob.ml_msh.GetLevel level = msh at *
  obtain ⟨st, h, k1, k2, k3, _, _, _⟩ := BuidProjection.element_loop_blocks Pops msh
    (ml_prob.ml_sol.GetSolutionLevel level) ((mlSysP 0).LinSolver level) soluIndex
    (ml_prob.ml_sol.GetSolutionType soluIndex) soluPdeIndex
    (msh.elementOffset msh.processor_id)
    (msh.elementOffset (msh.processor_id + 1) - msh.elementOffset msh.processor_id)
    (⟨s, Vec.ofFn msh.GetDimension (fun k => Pops.zero ((mlSysP k).LinSolver level).KK), [],
      List.replicate msh.GetDimension [], [], [], [], 0, [],
      List.replicate msh.GetDimension []⟩ : ProjectionState K M)
    (fun k => Pops.zero ((mlSysP k).LinSolver level).KK)
    (List.length_replicate _ _) (List.length_replicate _ _)
    (by
      refine ⟨?_, ?_, ?_, ?_, ?_⟩
      · intro i hi
        exact absurd hi (Nat.not_lt_zero i)
      · intro k hk i hi
        rw [List.length_replicate] at hk
        rw [List.getD_eq_getElem?_getD, List.getElem?_replicate, if_pos hk] at hi
        exact absurd hi (Nat.not_lt_zero i)
      · intro i hi
        exact absurd hi (Nat.not_lt_zero i)
      · intro k hk i hi
        rw [List.length_replicate] at hk
        rw [List.getD_eq_getElem?_getD, List.getElem?_replicate, if_pos hk] at hi
        exact absurd hi (Nat.not_lt_zero i)
      · intro i hi
        exact absurd hi (Nat.not_lt_zero i))
    hind hdep rfl
    (fun k hk => hel _ (Nat.le_add_right _ _) (by omega))
  have hb : ∀ (k : Nat) (X : M),
      assembled_P Pops msh ((mlSysP 0).LinSolver level) soluIndex
          (ml_prob.ml_sol.GetSolutionType soluIndex) soluPdeIndex k
          (msh.elementOffset msh.processor_id)
          (msh.elementOffset msh.processor_id
            + (msh.elementOffset (msh.processor_id + 1) - msh.elementOffset msh.processor_id)) X
        = assembled_P Pops msh ((mlSysP 0).LinSolver level) soluIndex
          (ml_prob.ml_sol.GetSolutionType soluIndex) soluPdeIndex k
          (msh.elementOffset msh.processor_id) (msh.elementOffset (msh.processor_id + 1)) X := by
    intro k X
    unfold assembled_P
    rw [Nat.add_sub_cancel_left]
  simp only [hb] at k1
  refine ⟨st.s, ?_, k2, k3⟩
  unfold BuidProjection
  simp only []
  rw [hlevel, hmsh, BuidProjection.systems_eq Pops ml_prob msh.GetDimension level mlSysP hdim3
    hsys, Run.ok_bind, hidx, Run.ok_bind]
  simp only []
  rw [Vec.ofFn_read _ _ 0 hdim1, Run.ok_bind, hpde, Run.ok_bind, Vec.ofFn_read _ _ 0 hdim1,
    Run.ok_bind]
  unfold forRange
  rw [h, Run.ok_bind, k1, BuidProjection.close_loop, Run.ok_bind, Run.pure_eq]

end projectionRun

section tapeAtExtraction
variable {K V M : Type} [Field K]

/-- The tape of `AssembleStandardProblem` at the extraction of the Jacobian of an element
with `nDofs > 0` whose shape evaluator returns, when no variable is registered at the start
of the iteration: the `nDofs` local unknowns are the independent variables, the `nDofs`
entries of the local residual are the dependent variables, both declared on a tape with a
recording, the extraction returns the local matrix `local_Jac`, ordered by column, and no
variable is registered at the end of the iteration. -/
theorem AssembleStandardProblem.extraction_tape (acos cos sin : K → K)
    (RESops : NumericVector K V) (KKops : SparseMatrix K M)
    (msh : Mesh K) (sol : Solution K) (pdeSys : LinearEquationSolver V M)
    (soluIndex soluType soluPdeIndex iel : Nat) (st : AssembleState K V M)
    (hdim : 2 ≤ msh.GetDimension)
    (hn : 0 < msh.GetElementDofNumber iel soluType)
    (hx : st.x.length = msh.GetDimension)
    (htr : st.s.tracks st.solu st.aRes)
    (hind : st.s.independent_index = []) (hdep : st.s.dependent_index = [])
    (hev : msh.evaluates soluType iel) :
    ∃ st1 st', AssembleStandardProblem.record acos cos sin RESops msh sol pdeSys soluIndex
        soluType soluPdeIndex iel st = Except.ok st1
      ∧ st1.solu.length = msh.GetElementDofNumber iel soluType
      ∧ st1.aRes.length = msh.GetElementDofNumber iel soluType
      ∧ st1.s.tracks st1.solu st1.aRes
      ∧ st1.s.independent_index
          = Vec.ofFn (msh.GetElementDofNumber iel soluType) (adouble.index st1.solu)
      ∧ st1.s.dependent_index
          = Vec.ofFn (msh.GetElementDofNumber iel soluType) (adouble.index st1.aRes)
      ∧ st1.s.recording = true ∧ st1.s.independents_declared = true
      ∧ st1.s.dependents_declared = true
      ∧ st1.s.jacobian st1.Jac = Except.ok
          (Vec.ofFn (msh.GetElementDofNumber iel soluType * msh.GetElementDofNumber iel soluType)
            (fun e => local_Jac msh soluType iel (e % msh.GetElementDofNumber iel soluType)
              (e / msh.GetElementDofNumber iel soluType)))
      ∧ AssembleStandardProblem.element acos cos sin RESops KKops msh sol pdeSys soluIndex
          soluType soluPdeIndex iel st = Except.ok st'
      ∧ st'.s.independent_index = [] ∧ st'.s.dependent_index = [] := by
  obtain ⟨st1, h1, r1, r2, r3, r4, r5, r6, r7, r8, r9, r10, r11⟩ :=
    AssembleStandardProblem.record_spec acos cos sin RESops msh sol pdeSys soluIndex soluType
      soluPdeIndex iel st (msh.shape soluType iel)
      (fun ig i => msh.phi soluType iel ig i)
      (fun ig k => Vec.entry (msh.shape soluType iel ig).gradphi k)
      hdim hx htr
      (fun ig hig => (msh.shape_eq soluType iel hev ig hig).1)
      (fun ig hig i hi => msh.read_phi soluType iel hev ig hig i hi)
      (fun ig hig i hi jdim hj => msh.read_phi_x soluType iel hev ig hig i hi jdim hj)
  rw [hind, List.nil_append] at r9
  rw [hdep, List.nil_append] at r10
  obtain ⟨f1, f2, f3⟩ := AssembleStandardProblem.record_sequence acos cos sin RESops msh sol
    pdeSys soluIndex soluType soluPdeIndex iel st st1 h1
  have hjac := Stack.jacobian_eq st1.s (msh.GetElementDofNumber iel soluType)
    (msh.GetElementDofNumber iel soluType) (adouble.index st1.solu) (adouble.index st1.aRes)
    st1.Jac f1 f2 f3 r9 r10 r4
  have helem : ∃ st', AssembleStandardProblem.element acos cos sin RESops KKops msh sol pdeSys
      soluIndex soluType soluPdeIndex iel st = Except.ok st'
      ∧ st'.s.independent_index = [] ∧ st'.s.dependent_index = [] := by
    unfold AssembleStandardProblem.element
    rw [h1, Run.ok_bind, hjac, Run.ok_bind]
    exact ⟨_, rfl, rfl, rfl⟩
  obtain ⟨st', h', e1, e2⟩ := helem
  refine ⟨st1, st', h1, r6, r7, r8, r9, r10, f1, f2, f3, ?_, h', e1, e2⟩
  · rw [hjac]
    congr 1
    apply Vec.ofFn_ext
    intro e he
    have hen : e % msh.GetElementDofNumber iel soluType < msh.GetElementDofNumber iel soluType :=
      Nat.mod_lt e hn
    have hem : e / msh.GetElementDofNumber iel soluType
        < msh.GetElementDofNumber iel soluType := by
      rw [Nat.div_lt_iff_lt_mul hn]
      exact he
    rw [r11 _ hen _ hem]
    unfold local_Jac
    rw [← Finset.sum_neg_distrib]
    apply Finset.sum_congr rfl
    intro ig _
    rw [neg_mul]
    rfl

/-- The tape of `BuidProjection` at the extractions of the Jacobians of an element with
`nDofs > 0` whose shape evaluator returns, when no variable is registered at the start of the
iteration: after the recording the `nDofs` local unknowns are the independent variables and
no dependent variable is registered; at the extraction of direction `k` the dependent
variables are the `nDofs` residuals of direction `k`, which are different from the residuals
of every earlier direction, both declared on a tape with a recording, and the extraction
returns the local matrix `local_P` of direction `k`, ordered by column; no variable is
registered at the end of the iteration. -/
theorem BuidProjection.extractions_tape (Pops : SparseMatrix K M) (msh : Mesh K)
    (sol : Solution K) (sysP0 : LinearEquationSolver V M)
    (soluIndex soluType soluPdeIndex iel : Nat) (st : ProjectionState K M) (P0 : Nat → M)
    (hn : 0 < msh.GetElementDofNumber iel soluType)
    (hx : st.x.length = msh.GetDimension) (ha : st.aRes.length = msh.GetDimension)
    (htr : st.s.tracks_rows st.solu st.aRes)
    (hind : st.s.independent_index = []) (hdep : st.s.dependent_index = [])
    (hP : st.P = Vec.ofFn msh.GetDimension P0)
    (hev : msh.evaluates soluType iel) :
    ∃ st1 st', BuidProjection.record msh sol sysP0 soluIndex soluType soluPdeIndex iel st
        = Except.ok st1
      ∧ st1.solu.length = msh.GetElementDofNumber iel soluType
      ∧ st1.aRes.length = msh.GetDimension
      ∧ st1.s.tracks_rows st1.solu st1.aRes
      ∧ st1.s.independent_index
          = Vec.ofFn (msh.GetElementDofNumber iel soluType) (adouble.index st1.solu)
      ∧ st1.s.dependent_index = []
      ∧ (∀ k < msh.GetDimension,
          (st1.aRes.getD k []).length = msh.GetElementDofNumber iel soluType
          ∧ ∃ r sk, BuidProjection.extract Pops k (msh.GetElementDofNumber iel soluType)
                st1.aRes st1.sysDof (st1.s, st1.P, st1.Jac) = Except.ok r
            ∧ BuidProjection.register (msh.GetElementDofNumber iel soluType) st1.aRes k r.1
                = Except.ok sk
            ∧ sk.independent_index
                = Vec.ofFn (msh.GetElementDofNumber iel soluType) (adouble.index st1.solu)
            ∧ sk.dependent_index
                = Vec.ofFn (msh.GetElementDofNumber iel soluType) (adouble.index2 st1.aRes k)
            ∧ (∀ k' < k, ∀ i < msh.GetElementDofNumber iel soluType,
                ∀ i' < msh.GetElementDofNumber iel soluType,
                adouble.index2 st1.aRes k i ≠ adouble.index2 st1.aRes k' i')
            ∧ sk.recording = true ∧ sk.independents_declared = true
            ∧ sk.dependents_declared = true
            ∧ sk.jacobian r.2.2 = Except.ok
                (Vec.ofFn
                  (msh.GetElementDofNumber iel soluType * msh.GetElementDofNumber iel soluType)
                  (fun e => local_P msh soluType iel k
                    (e % msh.GetElementDofNumber iel soluType)
                    (e / msh.GetElementDofNumber iel soluType))))
      ∧ BuidProjection.element Pops msh sol sysP0 soluIndex soluType soluPdeIndex iel st
          = Except.ok st'
      ∧ st'.s.independent_index = [] ∧ st'.s.dependent_index = [] := by
  obtain ⟨st1, h1, r1, r2, r3, r4, r5, r6, r7, r8, r9, r10, r11, _⟩ :=
    BuidProjection.record_local msh sol sysP0 soluIndex soluType soluPdeIndex iel st hx ha htr
      hind hdep hev
  obtain ⟨st', h', _, _, _, _, e5, e6⟩ := BuidProjection.element_blocks Pops msh sol sysP0
    soluIndex soluType soluPdeIndex iel st P0 hn hx ha htr hind hdep hP hev
  refine ⟨st1, st', h1, r5, r6, r8, r9, r10, ?_, h', e5, e6⟩
  intro k hk
  refine ⟨r7 k hk, ?_⟩
  obtain ⟨f1, f2⟩ := BuidProjection.record_declares msh sol sysP0 soluIndex soluType
    soluPdeIndex iel st st1 h1
  obtain ⟨r, hr, _, q2, q3, q4, q5, q6, _, q8, _⟩ := BuidProjection.extract_blocks Pops
    msh.GetDimension (msh.GetElementDofNumber iel soluType) st1.aRes st1.sysDof st1.s P0 st1.Jac
    (adouble.index st1.solu) r6 r7 f1 f2 r9 r10 r3 k (Nat.le_of_lt hk)
  rw [← hP, ← r1] at hr
  have hreg := BuidProjection.register_eq (msh.GetElementDofNumber iel soluType) st1.aRes k
    r.1 (by rw [r6]; exact hk) (r7 k hk)
  rw [q4, List.nil_append] at hreg
  have hjac := Stack.jacobian_eq
    (⟨r.1.n_gradients_registered, r.1.statements, r.1.independent_index,
      Vec.ofFn (msh.GetElementDofNumber iel soluType) (adouble.index2 st1.aRes k),
      r.1.recording, r.1.independents_declared, true⟩ : Stack K)
    (msh.GetElementDofNumber iel soluType) (msh.GetElementDofNumber iel soluType)
    (adouble.index st1.solu) (adouble.index2 st1.aRes k) r.2.2 q5 q6 rfl (q3.trans r9) rfl q8
  have hgrad : ∀ seed l,
      (⟨r.1.n_gradients_registered, r.1.statements, r.1.independent_index,
        Vec.ofFn (msh.GetElementDofNumber iel soluType) (adouble.index2 st1.aRes k),
        r.1.recording, r.1.independents_declared, true⟩ : Stack K).gradient seed l
        = st1.s.gradient seed l :=
    fun seed l => Stack.gradient_congr st1.s _ q2 seed l
  simp only [hgrad] at hjac
  refine ⟨r, ⟨r.1.n_gradients_registered, r.1.statements, r.1.independent_index,
    Vec.ofFn (msh.GetElementDofNumber iel soluType) (adouble.index2 st1.aRes k),
    r.1.recording, r.1.independents_declared, true⟩, hr, hreg, q3.trans r9,
    rfl, ?_, q5, q6, rfl, ?_⟩
  · intro k' hk' i hi i' hi' h
    obtain ⟨_, _, _, t4, _⟩ := r8
    have := (t4 k (by rw [r6]; exact hk) i (by rw [r7 k hk]; exact hi) k'
      (by rw [r6]; omega) i' (by rw [r7 k' (by omega)]; exact hi') h).1
    omega
  · rw [hjac]
    congr 1
    apply Vec.ofFn_ext
    intro e he
    have hen : e % msh.GetElementDofNumber iel soluType < msh.GetElementDofNumber iel soluType :=
      Nat.mod_lt e hn
    have hem : e / msh.GetElementDofNumber iel soluType
        < msh.GetElementDofNumber iel soluType := by
      rw [Nat.div_lt_iff_lt_mul hn]
      exact he
    exact r11 k hk _ hen _ hem

/-- When the derivatives of the shape functions sum to zero over the nodes at every Gauss
point, every row of the local matrix of `AssembleStandardProblem` sums to zero. -/
theorem local_Jac_row_sum (msh : Mesh K) (soluType iel i : Nat)
    (hsum : ∀ ig < (msh.finiteElement (msh.GetElementType iel) soluType).GetGaussPointNumber,
      ∀ jdim < msh.GetDimension,
        ∑ j in Finset.range (msh.GetElementDofNumber iel soluType),
          msh.phi_x soluType iel ig j jdim = 0) :
    ∑ j in Finset.range (msh.GetElementDofNumber iel soluType),
      local_Jac msh soluType iel i j = 0 := by
  unfold local_Jac
  rw [Finset.sum_neg_distrib, neg_eq_zero, Finset.sum_comm]
  apply Finset.sum_eq_zero
  intro ig hig
  rw [← Finset.mul_sum, Finset.sum_comm]
  have h0 : ∑ jdim in Finset.range msh.GetDimension,
      ∑ j in Finset.range (msh.GetElementDofNumber iel soluType),
        msh.phi_x soluType iel ig i jdim * msh.phi_x soluType iel ig j jdim = 0 := by
    apply Finset.sum_eq_zero
    intro jdim hjdim
    rw [← Finset.mul_sum, hsum ig (Finset.mem_range.mp hig) jdim (Finset.mem_range.mp hjdim),
      mul_zero]
  rw [h0, mul_zero]

/-- When the derivatives of the shape functions sum to zero over the nodes at every Gauss
point, every row of the local matrix of every direction of `BuidProjection` sums to zero. -/
theorem local_P_row_sum (msh : Mesh K) (soluType iel k i : Nat) (hk : k < msh.GetDimension)
    (hsum : ∀ ig < (msh.finiteElement (msh.GetElementType iel) soluType).GetGaussPointNumber,
      ∀ jdim < msh.GetDimension,
        ∑ j in Finset.range (msh.GetElementDofNumber iel soluType),
          msh.phi_x soluType iel ig j jdim = 0) :
    ∑ j in Finset.range (msh.GetElementDofNumber iel soluType),
      local_P msh soluType iel k i j = 0 := by
  unfold local_P
  rw [Finset.sum_comm]
  apply Finset.sum_eq_zero
  intro ig hig
  rw [← Finset.mul_sum, hsum ig (Finset.mem_range.mp hig) k hk, mul_zero]

/-- The entry `(i, j)` of a square matrix of order `n` ordered by column. -/
theorem Vec.entry_col_major (n : Nat) (f : Nat → Nat → K) (i j : Nat) (hi : i < n)
    (hj : j < n) :
    Vec.entry (Vec.ofFn (n * n) (fun e => f (e % n) (e / n))) (j * n + i) = f i j := by
  have hlt : j * n + i < n * n := by
    have h1 : (j + 1) * n ≤ n * n := Nat.mul_le_mul_right n hj
    rw [Nat.add_mul, Nat.one_mul] at h1
    omega
  rw [Vec.ofFn_entry _ _ _ hlt]
  have hn : 0 < n := by omega
  have hd : (j * n + i) / n = j := by
    rw [Nat.mul_comm, Nat.mul_add_div hn, Nat.div_eq_of_lt hi, Nat.add_zero]
  have hm : (j * n + i) % n = i := by
    rw [Nat.mul_comm, Nat.mul_add_mod, Nat.mod_eq_of_lt hi]
  rw [hd, hm]

/-- The read of the entry `(i, j)` of a square matrix of order `n` ordered by column. -/
theorem Vec.read_col_major (n : Nat) (f : Nat → Nat → K) (i j : Nat) (hi : i < n)
    (hj : j < n) :
    Vec.read (Vec.ofFn (n * n) (fun e => f (e % n) (e / n))) (j * n + i)
      = Except.ok (f i j) := by
  have hlt : j * n + i < n * n := by
    have h1 : (j + 1) * n ≤ n * n := Nat.mul_le_mul_right n hj
    rw [Nat.add_mul, Nat.one_mul] at h1
    omega
  rw [Vec.ofFn_read _ _ _ hlt]
  have hn : 0 < n := by omega
  have hd : (j * n + i) / n = j := by
    rw [Nat.mul_comm, Nat.mul_add_div hn, Nat.div_eq_of_lt hi, Nat.add_zero]
  have hm : (j * n + i) % n = i := by
    rw [Nat.mul_comm, Nat.mul_add_mod, Nat.mod_eq_of_lt hi]
  rw [hd, hm]

end tapeAtExtraction

section iterations
variable {K V M : Type} [Field K]

/-- The state of `AssembleStandardProblem` at the start of the iteration of element `iel`:
the element loop from the first owned element `a` up to `iel` returns, and no variable is
registered on the tape. -/
theorem AssembleStandardProblem.iteration_state (acos cos sin : K → K)
    (RESops : NumericVector K V) (KKops : SparseMatrix K M)
    (msh : Mesh K) (sol : Solution K) (pdeSys : LinearEquationSolver V M)
    (soluIndex soluType soluPdeIndex a iel : Nat) (s : Stack K) (KK0 : M) (RES0 : V)
    (hdim : 2 ≤ msh.GetDimension)
    (hind : s.independent_index = []) (hdep : s.dependent_index = [])
    (hel : ∀ e, a ≤ e → e < iel → 0 < msh.GetElementDofNumber e soluType
      ∧ msh.evaluates soluType e) :
    ∃ st, forRange a iel (AssembleStandardProblem.element acos cos sin RESops KKops msh sol
          pdeSys soluIndex soluType soluPdeIndex)
          ⟨s, KK0, RES0, [], List.replicate msh.GetDimension [], [], [], [], 0, [], [], []⟩
        = Except.ok st
      ∧ st.x.length = msh.GetDimension ∧ st.s.tracks st.solu st.aRes
      ∧ st.s.independent_index = [] ∧ st.s.dependent_index = [] := by
  obtain ⟨st, h, _, _, k3, k4, k5, k6⟩ := AssembleStandardProblem.loop_count acos cos sin RESops
    KKops msh sol pdeSys soluIndex soluType soluPdeIndex a (iel - a)
    (⟨s, KK0, RES0, [], List.replicate msh.GetDimension [], [], [], [], 0, [], [], []⟩ :
      AssembleState K V M)
    hdim (List.length_replicate _ _)
    (by
      refine ⟨?_, ?_, ?_, ?_, ?_⟩ <;> intro i hi <;> exact absurd hi (Nat.not_lt_zero i))
    hind hdep
    (fun k hk => hel _ (Nat.le_add_right _ _) (by omega))
  exact ⟨st, h, k5, k6, k3, k4⟩

/-- The state of `BuidProjection` at the start of the iteration of element `iel`: the
element loop from the first owned element `a` up to `iel` returns, the matrices of the `dim`
directions are `dim` matrices, and no variable is registered on the tape. -/
theorem BuidProjection.iteration_start (Pops : SparseMatrix K M) (msh : Mesh K)
    (sol : Solution K) (sysP0 : LinearEquationSolver V M)
    (soluIndex soluType soluPdeIndex a iel : Nat) (s : Stack K) (P0 : Nat → M)
    (hind : s.independent_index = []) (hdep : s.dependent_index = [])
    (hel : ∀ e, a ≤ e → e < iel → 0 < msh.GetElementDofNumber e soluType
      ∧ msh.evaluates soluType e) :
    ∃ st, forRange a iel (BuidProjection.element Pops msh sol sysP0 soluIndex soluType
          soluPdeIndex)
          ⟨s, Vec.ofFn msh.GetDimension P0, [], List.replicate msh.GetDimension [], [], [], [],
            0, [], List.replicate msh.GetDimension []⟩
        = Except.ok st
      ∧ st.x.length = msh.GetDimension ∧ st.aRes.length = msh.GetDimension
      ∧ st.s.tracks_rows st.solu st.aRes
      ∧ st.s.independent_index = [] ∧ st.s.dependent_index = []
      ∧ ∃ Q : Nat → M, st.P = Vec.ofFn msh.GetDimension Q := by
  obtain ⟨st, h, k1, k2, k3, k4, k5, k6⟩ := BuidProjection.element_loop_blocks Pops msh sol
    sysP0 soluIndex soluType soluPdeIndex a (iel - a)
    (⟨s, Vec.ofFn msh.GetDimension P0, [], List.replicate msh.GetDimension [], [], [], [], 0,
      [], List.replicate msh.GetDimension []⟩ : ProjectionState K M) P0
    (List.length_replicate _ _) (List.length_replicate _ _)
    (by
      refine ⟨?_, ?_, ?_, ?_, ?_⟩
      · intro i hi
        exact absurd hi (Nat.not_lt_zero i)
      · intro k hk i hi
        rw [List.length_replicate] at hk
        rw [List.getD_eq_getElem?_getD, List.getElem?_replicate, if_pos hk] at hi
        exact absurd hi (Nat.not_lt_zero i)
      · intro i hi
        exact absurd hi (Nat.not_lt_zero i)
      · intro k hk i hi
        rw [List.length_replicate] at hk
        rw [List.getD_eq_getElem?_getD, List.getElem?_replicate, if_pos hk] at hi
        exact absurd hi (Nat.not_lt_zero i)
      · intro i hi
        exact absurd hi (Nat.not_lt_zero i))
    hind hdep rfl
    (fun k hk => hel _ (Nat.le_add_right _ _) (by omega))
  exact ⟨st, h, k4, k5, k6, k2, k3, _, k1⟩

/-- `BuidProjection_eq` with names for the level, the mesh, the solver of the first system
and the type of the unknown that the function extracts from `ml_prob`. -/
theorem BuidProjection_run (Pops : SparseMatrix K M) (ml_prob : MultiLevelProblem K V M)
    (s : Stack K) (mlSysP : Nat → ImplicitSystem V M) (soluIndex soluPdeIndex : Nat)
    (msh : Mesh K) (sysP0 : LinearEquationSolver V M) (soluType level : Nat)
    (hlevel : level = (ml_prob.ml_sol.mlMesh.GetNumberOfLevels + 4294967295) % 4294967296)
    (hmsh : msh = ml_prob.ml_msh.GetLevel level)
    (hlin : sysP0 = (mlSysP 0).LinSolver level)
    (htype : soluType = ml_prob.ml_sol.GetSolutionType soluIndex)
    (hdim1 : 1 ≤ msh.GetDimension) (hdim3 : msh.GetDimension ≤ 3)
    (hsys : ∀ k < msh.GetDimension,
      ml_prob.get_system (Pname.getD k "") = Except.ok (mlSysP k))
    (hidx : ml_prob.ml_sol.GetIndex "u" = Except.ok soluIndex)
    (hpde : (mlSysP 0).GetSolPdeIndex "ux" = Except.ok soluPdeIndex)
    (hel : ∀ iel, msh.elementOffset msh.processor_id ≤ iel →
      iel < msh.elementOffset (msh.processor_id + 1) →
      0 < msh.GetElementDofNumber iel soluType ∧ msh.evaluates soluType iel)
    (hind : s.independent_index = []) (hdep : s.dependent_index = []) :
    ∃ s', BuidProjection Pops ml_prob s
        = Except.ok (s', Vec.ofFn msh.GetDimension (fun k =>
            Pops.close (assembled_P Pops msh sysP0 soluIndex soluType soluPdeIndex k
              (msh.elementOffset msh.processor_id) (msh.elementOffset (msh.processor_id + 1))
              (Pops.zero ((mlSysP k).LinSolver level).KK))))
      ∧ s'.independent_index = [] ∧ s'.dependent_index = [] := by
  subst hmsh hlin htype
  rw [hlevel] at hdim1 hdim3 hsys hel ⊢
  exact BuidProjection_eq Pops ml_prob s mlSysP soluIndex soluPdeIndex hdim1 hdim3 hsys hidx
    hpde hel hind hdep

/-- The residuals of `BuidProjection` are linear in the local unknowns, with the local
matrix of the direction as the matrix of the linear map. -/
theorem local_aResP_sub (msh : Mesh K) (sol sol' : Solution K)
    (soluIndex soluType iel k i : Nat) :
    local_aResP msh sol soluIndex soluType iel k i
        - local_aResP msh sol' soluIndex soluType iel k i
      = ∑ j in Finset.range (msh.GetElementDofNumber iel soluType),
          local_P msh soluType iel k i j
            * (sol.Sol soluIndex (msh.GetSolutionDof j iel soluType)
              - sol'.Sol soluIndex (msh.GetSolutionDof j iel soluType)) := by
  unfold local_aResP local_P
  rw [← Finset.sum_sub_distrib]
  simp only [Finset.sum_mul]
  conv_rhs => rw [Finset.sum_comm]
  apply Finset.sum_congr rfl
  intro ig _
  rw [← Finset.sum_sub_distrib]
  apply Finset.sum_congr rfl
  intro j _
  ring

/-- The derivatives of the three shape functions of the mesh `oneTriangle` sum to zero. -/
theorem oneTriangle_gradients_sum (iel ig jdim : Nat) (hj : jdim < 2) :
    ∑ j in Finset.range ((oneTriangle ℚ).GetElementDofNumber iel 0),
      (oneTriangle ℚ).phi_x 0 iel ig j jdim = 0 := by
  have h3 : (oneTriangle ℚ).GetElementDofNumber iel 0 = 3 := rfl
  rw [h3]
  interval_cases jdim <;>
    simp [Finset.sum_range_succ, Mesh.phi_x, Mesh.shape, oneTriangle, refTriEvaluator,
      Vec.entry]

/-- Entries of the local matrices of the mesh `oneTriangle`: the entries `(0, 1)` and `(1, 0)`
of the local projection matrix of direction `0` are `1/6` and `−1/6`, and the entry `(0, 1)`
of the local matrix of the assembler is `1/2`. -/
theorem oneTriangle_local_entries :
    local_P (oneTriangle ℚ) 0 0 0 0 1 = 1 / 6
    ∧ local_P (oneTriangle ℚ) 0 0 0 1 0 = -1 / 6
    ∧ local_Jac (oneTriangle ℚ) 0 0 0 1 = 1 / 2 := by
  have h1 : ((oneTriangle ℚ).finiteElement ((oneTriangle ℚ).GetElementType 0) 0).GetGaussPointNumber
      = 1 := rfl
  have h2 : (oneTriangle ℚ).GetDimension = 2 := rfl
  refine ⟨?_, ?_, ?_⟩
  · unfold local_P
    rw [h1]
    simp [Finset.sum_range_succ, Mesh.phi_x, Mesh.phi, Mesh.weight, Mesh.shape, oneTriangle,
      refTriEvaluator, Vec.entry]
    norm_num
  · unfold local_P
    rw [h1]
    simp [Finset.sum_range_succ, Mesh.phi_x, Mesh.phi, Mesh.weight, Mesh.shape, oneTriangle,
      refTriEvaluator, Vec.entry]
    norm_num
  · unfold local_Jac
    rw [h1, h2]
    simp [Finset.sum_range_succ, Mesh.phi_x, Mesh.phi, Mesh.weight, Mesh.shape, oneTriangle,
      refTriEvaluator, Vec.entry]

end iterations

/-! ## The claims -/

section claims
variable {K : Type}

/-- C1: for each specialisation `(D,3)`, called with `dim = D`, `space_dim = 3` and nodal
coordinates `vt` of three rows of `_nc` entries, the run returns; the returned `Jac` has
`D` rows of `3` entries with `Jac[r][d] = Σ_{inode < _nc} (∂φ_inode/∂ξ_r at ig) · vt[d][inode]`,
and the returned `JacI` has `3` rows of `D` entries. -/
theorem Jacobian_geometry_templ_Jac_entries [LinearOrderedField K] (sqrt : K → K)
    (e : elem_type K) (vt : Mat K) (ig : Nat) (Jac JacI : Mat K)
    (hvt : Mat.hasShape 3 e._nc vt) :
    (∃ out, Jacobian_geometry_templ_1_3 sqrt e vt ig Jac JacI 1 3 = Except.ok out
      ∧ Mat.hasShape 1 3 out.Jac ∧ Mat.hasShape 3 1 out.JacI
      ∧ ∀ r < 1, ∀ d < 3, Mat.read out.Jac r d
          = Except.ok (∑ inode in Finset.range e._nc, e.dphi r ig inode * Mat.entry vt d inode))
    ∧ (∃ out, Jacobian_geometry_templ_2_3 sqrt e vt ig Jac JacI 2 3 = Except.ok out
      ∧ Mat.hasShape 2 3 out.Jac ∧ Mat.hasShape 3 2 out.JacI
      ∧ ∀ r < 2, ∀ d < 3, Mat.read out.Jac r d
          = Except.ok (∑ inode in Finset.range e._nc, e.dphi r ig inode * Mat.entry vt d inode))
    ∧ (∃ out, Jacobian_geometry_templ_3_3 e vt ig Jac JacI 3 3 = Except.ok out
      ∧ Mat.hasShape 3 3 out.Jac ∧ Mat.hasShape 3 3 out.JacI
      ∧ ∀ r < 3, ∀ d < 3, Mat.read out.Jac r d
          = Except.ok (∑ inode in Finset.range e._nc, e.dphi r ig inode * Mat.entry vt d inode)) := by
  have hc := Mat.covers_of_hasShape 3 e._nc vt hvt
  refine ⟨⟨_, Jacobian_geometry_templ_1_3_eq sqrt e vt ig Jac JacI 3 hc, ?_, ?_, ?_⟩,
    ⟨_, Jacobian_geometry_templ_2_3_eq sqrt e vt ig Jac JacI 3 hc, ?_, ?_, ?_⟩,
    ⟨_, Jacobian_geometry_templ_3_3_eq e vt ig Jac JacI hc, ?_, ?_, ?_⟩⟩
  · exact Mat.hasShape_ofFn 1 3 _
  · exact Mat.hasShape_ofFn 3 1 _
  · intro r hr d hd
    exact Mat.read_ofFn 1 3 _ r d hr hd
  · exact Mat.hasShape_ofFn 2 3 _
  · exact Mat.hasShape_ofFn 3 2 _
  · intro r hr d hd
    exact Mat.read_ofFn 2 3 _ r d hr hd
  · exact Mat.hasShape_ofFn 3 3 _
  · exact Mat.hasShape_ofFn 3 3 _
  · intro r hr d hd
    exact Mat.read_ofFn 3 3 _ r d hr hd

/-- C1 at the reference tetrahedron. -/
theorem Jacobian_geometry_templ_Jac_entries_witness :
    Mat.hasShape 3 (tet4 ℝ)._nc (refTet ℝ)
    ∧ ((∃ out, Jacobian_geometry_templ_1_3 Real.sqrt (tet4 ℝ) (refTet ℝ) 0 [] [] 1 3
          = Except.ok out
        ∧ Mat.hasShape 1 3 out.Jac ∧ Mat.hasShape 3 1 out.JacI
        ∧ ∀ r < 1, ∀ d < 3, Mat.read out.Jac r d
            = Except.ok (∑ inode in Finset.range (tet4 ℝ)._nc,
                (tet4 ℝ).dphi r 0 inode * Mat.entry (refTet ℝ) d inode))
      ∧ (∃ out, Jacobian_geometry_templ_2_3 Real.sqrt (tet4 ℝ) (refTet ℝ) 0 [] [] 2 3
          = Except.ok out
        ∧ Mat.hasShape 2 3 out.Jac ∧ Mat.hasShape 3 2 out.JacI
        ∧ ∀ r < 2, ∀ d < 3, Mat.read out.Jac r d
            = Except.ok (∑ inode in Finset.range (tet4 ℝ)._nc,
                (tet4 ℝ).dphi r 0 inode * Mat.entry (refTet ℝ) d inode))
      ∧ (∃ out, Jacobian_geometry_templ_3_3 (tet4 ℝ) (refTet ℝ) 0 [] [] 3 3 = Except.ok out
        ∧ Mat.hasShape 3 3 out.Jac ∧ Mat.hasShape 3 3 out.JacI
        ∧ ∀ r < 3, ∀ d < 3, Mat.read out.Jac r d
            = Except.ok (∑ inode in Finset.range (tet4 ℝ)._nc,
                (tet4 ℝ).dphi r 0 inode * Mat.entry (refTet ℝ) d inode))) :=
  ⟨hasShape_refTet ℝ,
    Jacobian_geometry_templ_Jac_entries Real.sqrt (tet4 ℝ) (refTet ℝ) 0 [] []
      (hasShape_refTet ℝ)⟩

/-- C2: the `(3,3)` specialisation returns, and whenever the returned `detJac` is
non-zero, `Jac · JacI = 1` and `JacI · Jac = 1`, `JacI` being the adjugate (the transposed
cofactor matrix) of `Jac` divided by `detJac`. -/
theorem Jacobian_geometry_templ_3_3_inverse [Field K] (e : elem_type K) (vt : Mat K)
    (ig : Nat) (Jac JacI : Mat K) (hvt : Mat.hasShape 3 e._nc vt) :
    ∃ out, Jacobian_geometry_templ_3_3 e vt ig Jac JacI 3 3 = Except.ok out
      ∧ (out.detJac ≠ 0 →
        Mat.toMatrix 3 3 out.Jac * Mat.toMatrix 3 3 out.JacI = 1
        ∧ Mat.toMatrix 3 3 out.JacI * Mat.toMatrix 3 3 out.Jac = 1
        ∧ Mat.toMatrix 3 3 out.JacI
            = out.detJac⁻¹ • (Mat.toMatrix 3 3 out.Jac).adjugate) := by
  have hc := Mat.covers_of_hasShape 3 e._nc vt hvt
  refine ⟨_, Jacobian_geometry_templ_3_3_eq e vt ig Jac JacI hc, ?_⟩
  intro hdet
  exact inverse_3_3 (JacSum e vt ig) hdet

/-- C2 at the reference tetrahedron, whose `detJac` is `1`. -/
theorem Jacobian_geometry_templ_3_3_inverse_witness :
    Mat.hasShape 3 (tet4 ℚ)._nc (refTet ℚ)
    ∧ ∃ out, Jacobian_geometry_templ_3_3 (tet4 ℚ) (refTet ℚ) 0 [] [] 3 3 = Except.ok out
      ∧ out.detJac ≠ 0
      ∧ Mat.toMatrix 3 3 out.Jac * Mat.toMatrix 3 3 out.JacI = 1
      ∧ Mat.toMatrix 3 3 out.JacI * Mat.toMatrix 3 3 out.Jac = 1
      ∧ Mat.toMatrix 3 3 out.JacI = out.detJac⁻¹ • (Mat.toMatrix 3 3 out.Jac).adjugate := by
  obtain ⟨out, hout, h⟩ :=
    Jacobian_geometry_templ_3_3_inverse (tet4 ℚ) (refTet ℚ) 0 [] [] (hasShape_refTet ℚ)
  have hdet : out.detJac ≠ 0 := by
    have h2 := Jacobian_geometry_templ_3_3_eq (tet4 ℚ) (refTet ℚ) 0 [] []
      (Mat.covers_of_hasShape 3 _ _ (hasShape_refTet ℚ))
    rw [hout] at h2
    injection h2 with h2
    rw [h2]
    simp [detJac_refTet]
  exact ⟨hasShape_refTet ℚ, out, hout, hdet, h hdet⟩

/-- C3: the `(2,3)` specialisation with `dim = 2`, `space_dim = 3` returns a `2 × 3` matrix
`Jac` and a `3 × 2` matrix `JacI`, and whenever `det (Jac · Jacᵗ) ≠ 0` the returned `JacI`
is `Jacᵗ · (Jac · Jacᵗ)⁻¹` and `Jac · JacI` is the `2 × 2` identity. -/
theorem Jacobian_geometry_templ_2_3_pseudo_inverse [LinearOrderedField K] (sqrt : K → K)
    (e : elem_type K) (vt : Mat K) (ig : Nat) (Jac JacI : Mat K)
    (hvt : Mat.hasShape 3 e._nc vt) :
    ∃ out, Jacobian_geometry_templ_2_3 sqrt e vt ig Jac JacI 2 3 = Except.ok out
      ∧ Mat.hasShape 2 3 out.Jac ∧ Mat.hasShape 3 2 out.JacI
      ∧ ((Mat.toMatrix 2 3 out.Jac * (Mat.toMatrix 2 3 out.Jac).transpose).det ≠ 0 →
        Mat.toMatrix 3 2 out.JacI
          = (Mat.toMatrix 2 3 out.Jac).transpose
            * (Mat.toMatrix 2 3 out.Jac * (Mat.toMatrix 2 3 out.Jac).transpose)⁻¹
        ∧ Mat.toMatrix 2 3 out.Jac * Mat.toMatrix 3 2 out.JacI = 1) := by
  have hc := Mat.covers_of_hasShape 3 e._nc vt hvt
  refine ⟨_, Jacobian_geometry_templ_2_3_eq sqrt e vt ig Jac JacI 3 hc,
    Mat.hasShape_ofFn 2 3 _, Mat.hasShape_ofFn 3 2 _, ?_⟩
  intro hdet
  rw [det_JacJacT_2_3] at hdet
  exact pseudo_inverse_2_3 e vt ig 3 hdet

/-- C3 at the reference triangle, where `det (Jac · Jacᵗ) = 1`. -/
theorem Jacobian_geometry_templ_2_3_pseudo_inverse_witness :
    Mat.hasShape 3 (tri3 ℝ)._nc (refTri ℝ)
    ∧ ∃ out, Jacobian_geometry_templ_2_3 Real.sqrt (tri3 ℝ) (refTri ℝ) 0 [] [] 2 3
        = Except.ok out
      ∧ Mat.hasShape 2 3 out.Jac ∧ Mat.hasShape 3 2 out.JacI
      ∧ (Mat.toMatrix 2 3 out.Jac * (Mat.toMatrix 2 3 out.Jac).transpose).det ≠ 0
      ∧ Mat.toMatrix 3 2 out.JacI
          = (Mat.toMatrix 2 3 out.Jac).transpose
            * (Mat.toMatrix 2 3 out.Jac * (Mat.toMatrix 2 3 out.Jac).transpose)⁻¹
      ∧ Mat.toMatrix 2 3 out.Jac * Mat.toMatrix 3 2 out.JacI = 1 := by
  obtain ⟨out, hout, hs1, hs2, h⟩ := Jacobian_geometry_templ_2_3_pseudo_inverse Real.sqrt
    (tri3 ℝ) (refTri ℝ) 0 [] [] (hasShape_refTri ℝ)
  have hdet : (Mat.toMatrix 2 3 out.Jac * (Mat.toMatrix 2 3 out.Jac).transpose).det ≠ 0 := by
    have h2 := Jacobian_geometry_templ_2_3_eq Real.sqrt (tri3 ℝ) (refTri ℝ) 0 [] [] 3
      (Mat.covers_of_hasShape 3 _ _ (hasShape_refTri ℝ))
    rw [hout] at h2
    injection h2 with h2
    rw [h2]
    simp only []
    rw [det_JacJacT_2_3, detJacJacT_refTri]
    exact one_ne_zero
  exact ⟨hasShape_refTri ℝ, out, hout, hs1, hs2, hdet, h hdet⟩

/-- C4: the `(1,3)` specialisation with `dim = 1`, `space_dim = 3` returns, and whenever the
tangent `Jac[0]` is not the zero vector, `JacI[d][0] = Jac[0][d] / (Jac · Jacᵗ)` for
`d = 0, 1, 2` and `Σ_d Jac[0][d] · JacI[d][0] = 1`. -/
theorem Jacobian_geometry_templ_1_3_inverse [LinearOrderedField K] (sqrt : K → K)
    (e : elem_type K) (vt : Mat K) (ig : Nat) (Jac JacI : Mat K)
    (hvt : Mat.hasShape 3 e._nc vt) :
    ∃ out, Jacobian_geometry_templ_1_3 sqrt e vt ig Jac JacI 1 3 = Except.ok out
      ∧ ((∃ d < 3, Mat.entry out.Jac 0 d ≠ 0) →
        (∀ d < 3, Mat.read out.JacI d 0 = Except.ok (Mat.entry out.Jac 0 d
            / ∑ k in Finset.range 3, Mat.entry out.Jac 0 k * Mat.entry out.Jac 0 k))
        ∧ ∑ d in Finset.range 3, Mat.entry out.Jac 0 d * Mat.entry out.JacI d 0 = 1) := by
  have hc := Mat.covers_of_hasShape 3 e._nc vt hvt
  refine ⟨_, Jacobian_geometry_templ_1_3_eq sqrt e vt ig Jac JacI 3 hc, ?_⟩
  have hJ : ∀ d < 3, Mat.entry (Mat.ofFn 1 3 (JacSum e vt ig)) 0 d = JacSum e vt ig 0 d :=
    fun d hd => Mat.entry_ofFn 1 3 _ 0 d (by omega) hd
  have hI : ∀ d < 3, Mat.entry (Mat.ofFn 3 1
      (fun d _ => JacSum e vt ig 0 d * 1 / JacJacT_1_3 e vt ig 3)) d 0
        = JacSum e vt ig 0 d * 1 / JacJacT_1_3 e vt ig 3 :=
    fun d hd => Mat.entry_ofFn 3 1 _ d 0 hd (by omega)
  rintro ⟨d0, hd0, hne⟩
  simp only [Finset.sum_range_succ, Finset.sum_range_zero, zero_add,
    hJ 0 (by omega), hJ 1 (by omega), hJ 2 (by omega),
    hI 0 (by omega), hI 1 (by omega), hI 2 (by omega)] at hne ⊢
  simp only [JacJacT_1_3, Finset.sum_range_succ, Finset.sum_range_zero, zero_add]
  rw [hJ d0 hd0] at hne
  have hpos : 0 < JacSum e vt ig 0 0 * JacSum e vt ig 0 0
      + JacSum e vt ig 0 1 * JacSum e vt ig 0 1 + JacSum e vt ig 0 2 * JacSum e vt ig 0 2 := by
    have h0 := mul_self_nonneg (JacSum e vt ig 0 0)
    have h1 := mul_self_nonneg (JacSum e vt ig 0 1)
    have h2 := mul_self_nonneg (JacSum e vt ig 0 2)
    have hp := mul_self_pos.mpr hne
    interval_cases d0 <;> linarith
  refine ⟨?_, ?_⟩
  · intro d hd
    rw [Mat.read_ofFn 3 1 _ d 0 hd (by omega), hJ d hd, mul_one]
  · field_simp

/-- C4 at the segment from the origin to `(2, 0, 0)`, whose tangent is `(1, 0, 0)`. -/
theorem Jacobian_geometry_templ_1_3_inverse_witness :
    Mat.hasShape 3 (line2 ℝ)._nc (refLine ℝ)
    ∧ ∃ out, Jacobian_geometry_templ_1_3 Real.sqrt (line2 ℝ) (refLine ℝ) 0 [] [] 1 3
        = Except.ok out
      ∧ (∃ d < 3, Mat.entry out.Jac 0 d ≠ 0)
      ∧ (∀ d < 3, Mat.read out.JacI d 0 = Except.ok (Mat.entry out.Jac 0 d
            / ∑ k in Finset.range 3, Mat.entry out.Jac 0 k * Mat.entry out.Jac 0 k))
      ∧ ∑ d in Finset.range 3, Mat.entry out.Jac 0 d * Mat.entry out.JacI d 0 = 1 := by
  obtain ⟨out, hout, h⟩ := Jacobian_geometry_templ_1_3_inverse Real.sqrt (line2 ℝ)
    (refLine ℝ) 0 [] [] (hasShape_refLine ℝ)
  have hne : ∃ d < 3, Mat.entry out.Jac 0 d ≠ 0 := by
    have h2 := Jacobian_geometry_templ_1_3_eq Real.sqrt (line2 ℝ) (refLine ℝ) 0 [] [] 3
      (Mat.covers_of_hasShape 3 _ _ (hasShape_refLine ℝ))
    rw [hout] at h2
    injection h2 with h2
    refine ⟨0, by omega, ?_⟩
    rw [h2]
    simp only []
    rw [Mat.entry_ofFn 1 3 _ 0 0 (by omega) (by omega), JacSum_refLine ℝ 0 (by omega)]
    simp
  exact ⟨hasShape_refLine ℝ, out, hout, hne, h hne⟩

/-- C5: the `(3,3)` specialisation returns; the returned `Jac` has three rows of three
entries, `Jac[r][d] = Σ_{inode < _nc} (∂φ_inode/∂ξ_r at ig) · vt[d][inode]`; the returned
`detJac` is the first-row cofactor expansion of the source over these entries, and it is the
determinant of the `3 × 3` matrix `Jac`. -/
theorem Jacobian_geometry_templ_3_3_detJac [Field K] (e : elem_type K) (vt : Mat K)
    (ig : Nat) (Jac JacI : Mat K) (hvt : Mat.hasShape 3 e._nc vt) :
    ∃ out, Jacobian_geometry_templ_3_3 e vt ig Jac JacI 3 3 = Except.ok out
      ∧ Mat.hasShape 3 3 out.Jac
      ∧ (∀ r < 3, ∀ d < 3, Mat.read out.Jac r d
          = Except.ok (∑ inode in Finset.range e._nc, e.dphi r ig inode * Mat.entry vt d inode))
      ∧ out.detJac
          = Mat.entry out.Jac 0 0
              * (Mat.entry out.Jac 1 1 * Mat.entry out.Jac 2 2
                - Mat.entry out.Jac 1 2 * Mat.entry out.Jac 2 1)
            + Mat.entry out.Jac 0 1
              * (Mat.entry out.Jac 1 2 * Mat.entry out.Jac 2 0
                - Mat.entry out.Jac 1 0 * Mat.entry out.Jac 2 2)
            + Mat.entry out.Jac 0 2
              * (Mat.entry out.Jac 1 0 * Mat.entry out.Jac 2 1
                - Mat.entry out.Jac 1 1 * Mat.entry out.Jac 2 0)
      ∧ out.detJac = (Mat.toMatrix 3 3 out.Jac).det := by
  have hc := Mat.covers_of_hasShape 3 e._nc vt hvt
  refine ⟨_, Jacobian_geometry_templ_3_3_eq e vt ig Jac JacI hc, Mat.hasShape_ofFn 3 3 _,
    fun r hr d hd => Mat.read_ofFn 3 3 _ r d hr hd, ?_,
    (det_toMatrix_3_3 (JacSum e vt ig)).symm⟩
  simp only [Mat.entry_ofFn 3 3 _ 0 0 (by omega) (by omega),
    Mat.entry_ofFn 3 3 _ 0 1 (by omega) (by omega), Mat.entry_ofFn 3 3 _ 0 2 (by omega) (by omega),
    Mat.entry_ofFn 3 3 _ 1 0 (by omega) (by omega), Mat.entry_ofFn 3 3 _ 1 1 (by omega) (by omega),
    Mat.entry_ofFn 3 3 _ 1 2 (by omega) (by omega), Mat.entry_ofFn 3 3 _ 2 0 (by omega) (by omega),
    Mat.entry_ofFn 3 3 _ 2 1 (by omega) (by omega), Mat.entry_ofFn 3 3 _ 2 2 (by omega) (by omega)]
  rfl

/-- C5 at the reference tetrahedron: the returned `Jac` is the identity and the returned
`detJac` is `1`. -/
theorem Jacobian_geometry_templ_3_3_detJac_witness :
    Mat.hasShape 3 (tet4 ℚ)._nc (refTet ℚ)
    ∧ ∃ out, Jacobian_geometry_templ_3_3 (tet4 ℚ) (refTet ℚ) 0 [] [] 3 3 = Except.ok out
      ∧ Mat.hasShape 3 3 out.Jac
      ∧ out.Jac = [[1, 0, 0], [0, 1, 0], [0, 0, 1]]
      ∧ out.detJac = 1
      ∧ out.detJac = (Mat.toMatrix 3 3 out.Jac).det :=
  ⟨hasShape_refTet ℚ,
    match Jacobian_geometry_templ_3_3_detJac (tet4 ℚ) (refTet ℚ) 0 [] [] (hasShape_refTet ℚ) with
    | ⟨out, h, hs, _, _, hd⟩ =>
      ⟨out, h, hs,
        congrArg JacOut.Jac (Except.ok.inj (h.symm.trans (geometry_refTet ℚ (fun x => x)))),
        congrArg JacOut.detJac (Except.ok.inj (h.symm.trans (geometry_refTet ℚ (fun x => x)))),
        hd⟩⟩

/-- C6: over the reals, the `(1,3)` specialisation returns a `Jac` of one row of three
entries and `detJac = sqrt (Σ_d Jac[0][d]²)`, and the `(2,3)` specialisation returns a `Jac`
of two rows of three entries and `detJac = sqrt |det (Jac · Jacᵗ)|`, with
`Jac[r][d] = Σ_{inode < _nc} (∂φ_inode/∂ξ_r at ig) · vt[d][inode]`; in both cases
`detJac ≥ 0`. -/
theorem Jacobian_geometry_templ_embedded_detJac (e : elem_type ℝ) (vt : Mat ℝ) (ig : Nat)
    (Jac JacI : Mat ℝ) (hvt : Mat.hasShape 3 e._nc vt) :
    (∃ out, Jacobian_geometry_templ_1_3 Real.sqrt e vt ig Jac JacI 1 3 = Except.ok out
      ∧ Mat.hasShape 1 3 out.Jac
      ∧ (∀ d < 3, Mat.read out.Jac 0 d
          = Except.ok (∑ inode in Finset.range e._nc, e.dphi 0 ig inode * Mat.entry vt d inode))
      ∧ out.detJac = Real.sqrt (∑ d in Finset.range 3, Mat.entry out.Jac 0 d ^ 2)
      ∧ 0 ≤ out.detJac)
    ∧ (∃ out, Jacobian_geometry_templ_2_3 Real.sqrt e vt ig Jac JacI 2 3 = Except.ok out
      ∧ Mat.hasShape 2 3 out.Jac
      ∧ (∀ r < 2, ∀ d < 3, Mat.read out.Jac r d
          = Except.ok (∑ inode in Finset.range e._nc, e.dphi r ig inode * Mat.entry vt d inode))
      ∧ out.detJac
          = Real.sqrt |(Mat.toMatrix 2 3 out.Jac * (Mat.toMatrix 2 3 out.Jac).transpose).det|
      ∧ 0 ≤ out.detJac) := by
  have hc := Mat.covers_of_hasShape 3 e._nc vt hvt
  refine ⟨⟨_, Jacobian_geometry_templ_1_3_eq Real.sqrt e vt ig Jac JacI 3 hc,
      Mat.hasShape_ofFn 1 3 _, fun d hd => Mat.read_ofFn 1 3 _ 0 d (by omega) hd, ?_,
      Real.sqrt_nonneg _⟩,
    ⟨_, Jacobian_geometry_templ_2_3_eq Real.sqrt e vt ig Jac JacI 3 hc,
      Mat.hasShape_ofFn 2 3 _, fun r hr d hd => Mat.read_ofFn 2 3 _ r d hr hd, ?_,
      Real.sqrt_nonneg _⟩⟩
  · simp only [JacJacT_1_3, Finset.sum_range_succ, Finset.sum_range_zero, zero_add,
      Mat.entry_ofFn 1 3 _ 0 0 (by omega) (by omega),
      Mat.entry_ofFn 1 3 _ 0 1 (by omega) (by omega),
      Mat.entry_ofFn 1 3 _ 0 2 (by omega) (by omega), sq]
  · simp only []
    rw [det_JacJacT_2_3]

/-- C6 at the segment from the origin to `(2, 0, 0)` for the `(1,3)` specialisation and at
the reference triangle for the `(2,3)` specialisation. -/
theorem Jacobian_geometry_templ_embedded_detJac_witness :
    (Mat.hasShape 3 (line2 ℝ)._nc (refLine ℝ) ∧ Mat.hasShape 3 (tri3 ℝ)._nc (refTri ℝ))
    ∧ (∃ out, Jacobian_geometry_templ_1_3 Real.sqrt (line2 ℝ) (refLine ℝ) 0 [] [] 1 3
          = Except.ok out
      ∧ Mat.hasShape 1 3 out.Jac
      ∧ (∀ d < 3, Mat.read out.Jac 0 d
          = Except.ok (∑ inode in Finset.range (line2 ℝ)._nc,
              (line2 ℝ).dphi 0 0 inode * Mat.entry (refLine ℝ) d inode))
      ∧ out.detJac = Real.sqrt (∑ d in Finset.range 3, Mat.entry out.Jac 0 d ^ 2)
      ∧ 0 ≤ out.detJac)
    ∧ (∃ out, Jacobian_geometry_templ_2_3 Real.sqrt (tri3 ℝ) (refTri ℝ) 0 [] [] 2 3
          = Except.ok out
      ∧ Mat.hasShape 2 3 out.Jac
      ∧ (∀ r < 2, ∀ d < 3, Mat.read out.Jac r d
          = Except.ok (∑ inode in Finset.range (tri3 ℝ)._nc,
              (tri3 ℝ).dphi r 0 inode * Mat.entry (refTri ℝ) d inode))
      ∧ out.detJac
          = Real.sqrt |(Mat.toMatrix 2 3 out.Jac * (Mat.toMatrix 2 3 out.Jac).transpose).det|
      ∧ 0 ≤ out.detJac) :=
  ⟨⟨hasShape_refLine ℝ, hasShape_refTri ℝ⟩,
    (Jacobian_geometry_templ_embedded_detJac (line2 ℝ) (refLine ℝ) 0 [] []
      (hasShape_refLine ℝ)).1,
    (Jacobian_geometry_templ_embedded_detJac (tri3 ℝ) (refTri ℝ) 0 [] []
      (hasShape_refTri ℝ)).2⟩

/-- C7 fails as stated: for the tetrahedron with its last node mirrored, the rows of the
returned `Jac` are linearly independent and the returned `detJac` is `-1`, not positive. -/
theorem detJac_positive_counterexample :
    ∃ out, Jacobian_geometry_templ_3_3 (tet4 ℚ) (mirroredTet ℚ) 0 [] [] 3 3 = Except.ok out
      ∧ Mat.rowsIndependent 3 out.Jac ∧ out.detJac = -1 ∧ ¬ 0 < out.detJac := by
  refine ⟨_, Jacobian_geometry_templ_3_3_eq (tet4 ℚ) (mirroredTet ℚ) 0 [] []
    (Mat.covers_of_hasShape 3 _ _ (hasShape_mirroredTet ℚ)), ?_, ?_, ?_⟩
  · simp only []
    rw [rowsIndependent_ofFn_three, detJac_mirroredTet]
    norm_num
  · exact detJac_mirroredTet ℚ
  · simp only []
    rw [detJac_mirroredTet]
    norm_num

/-- C7 as amended: over the reals, whenever the rows of the returned `Jac` are linearly
independent, the `(1,3)` and `(2,3)` specialisations return `detJac > 0`, and the `(3,3)`
specialisation returns `detJac ≠ 0`, the signed determinant of `Jac`. -/
theorem detJac_nondegenerate (e : elem_type ℝ) (vt : Mat ℝ) (ig : Nat)
    (Jac JacI : Mat ℝ) (hvt : Mat.hasShape 3 e._nc vt) :
    (∃ out, Jacobian_geometry_templ_1_3 Real.sqrt e vt ig Jac JacI 1 3 = Except.ok out
      ∧ (Mat.rowsIndependent 1 out.Jac → 0 < out.detJac))
    ∧ (∃ out, Jacobian_geometry_templ_2_3 Real.sqrt e vt ig Jac JacI 2 3 = Except.ok out
      ∧ (Mat.rowsIndependent 2 out.Jac → 0 < out.detJac))
    ∧ (∃ out, Jacobian_geometry_templ_3_3 e vt ig Jac JacI 3 3 = Except.ok out
      ∧ out.detJac = (Mat.toMatrix 3 3 out.Jac).det
      ∧ (Mat.rowsIndependent 3 out.Jac → out.detJac ≠ 0)) := by
  have hc := Mat.covers_of_hasShape 3 e._nc vt hvt
  refine ⟨⟨_, Jacobian_geometry_templ_1_3_eq Real.sqrt e vt ig Jac JacI 3 hc, ?_⟩,
    ⟨_, Jacobian_geometry_templ_2_3_eq Real.sqrt e vt ig Jac JacI 3 hc, ?_⟩,
    ⟨_, Jacobian_geometry_templ_3_3_eq e vt ig Jac JacI hc,
      (det_toMatrix_3_3 (JacSum e vt ig)).symm, ?_⟩⟩
  · intro h
    exact Real.sqrt_pos.mpr
      ((JacJacT_1_3_pos_iff e vt ig).mpr ((rowsIndependent_ofFn_one _).mp h))
  · intro h
    exact Real.sqrt_pos.mpr (abs_pos.mpr (ne_of_gt ((detJacJacT_2_3_pos_iff e vt ig).mpr h)))
  · intro h
    exact (rowsIndependent_ofFn_three _).mp h

/-- The amended C7 at the reference tetrahedron, whose tangent rows are unit vectors. -/
theorem detJac_nondegenerate_witness :
    Mat.hasShape 3 (tet4 ℝ)._nc (refTet ℝ)
    ∧ (∃ out, Jacobian_geometry_templ_1_3 Real.sqrt (tet4 ℝ) (refTet ℝ) 0 [] [] 1 3
          = Except.ok out
      ∧ Mat.rowsIndependent 1 out.Jac ∧ 0 < out.detJac)
    ∧ (∃ out, Jacobian_geometry_templ_2_3 Real.sqrt (tet4 ℝ) (refTet ℝ) 0 [] [] 2 3
          = Except.ok out
      ∧ Mat.rowsIndependent 2 out.Jac ∧ 0 < out.detJac)
    ∧ (∃ out, Jacobian_geometry_templ_3_3 (tet4 ℝ) (refTet ℝ) 0 [] [] 3 3 = Except.ok out
      ∧ Mat.rowsIndependent 3 out.Jac ∧ out.detJac ≠ 0) := by
  obtain ⟨⟨o1, h1, p1⟩, ⟨o2, h2, p2⟩, ⟨o3, h3, _, p3⟩⟩ :=
    detJac_nondegenerate (tet4 ℝ) (refTet ℝ) 0 [] [] (hasShape_refTet ℝ)
  have i1 : Mat.rowsIndependent 1 o1.Jac := by
    rw [Jac_of_run_1_3 Real.sqrt _ _ 0 [] [] (hasShape_refTet ℝ) o1 h1]
    exact rowsIndependent_refTet_one ℝ
  have i2 : Mat.rowsIndependent 2 o2.Jac := by
    rw [Jac_of_run_2_3 Real.sqrt _ _ 0 [] [] (hasShape_refTet ℝ) o2 h2]
    exact rowsIndependent_refTet_two ℝ
  have i3 : Mat.rowsIndependent 3 o3.Jac := by
    rw [Jac_of_run_3_3 _ _ 0 [] [] (hasShape_refTet ℝ) o3 h3]
    exact rowsIndependent_refTet_three ℝ
  exact ⟨hasShape_refTet ℝ, ⟨o1, h1, i1, p1 i1⟩, ⟨o2, h2, i2, p2 i2⟩, ⟨o3, h3, i3, p3 i3⟩⟩

/-- C8 fails as stated: for a two-node line whose nodes coincide, the `(1,3)` specialisation
returns a result, with `detJac = 0`, and signals nothing. -/
theorem degenerate_geometry_counterexample :
    ∃ out, Jacobian_geometry_templ_1_3 Real.sqrt (line2 ℝ) (collapsedLine ℝ) 0 [] [] 1 3
        = Except.ok out
      ∧ out.detJac = 0 := by
  refine ⟨_, Jacobian_geometry_templ_1_3_eq Real.sqrt (line2 ℝ) (collapsedLine ℝ) 0 [] [] 3
    (Mat.covers_of_hasShape 3 _ _ (hasShape_collapsedLine ℝ)), ?_⟩
  simp [JacJacT_1_3, Finset.sum_range_succ, JacSum_collapsedLine_all]

/-- C8 as amended: over the reals, every specialisation returns a result for every input
with three rows of `_nc` nodal coordinates and never ends with a fault; when the rows of the
returned `Jac` are not linearly independent, the returned `detJac` is `0`. -/
theorem degenerate_geometry_returns (e : elem_type ℝ) (vt : Mat ℝ) (ig : Nat)
    (Jac JacI : Mat ℝ) (hvt : Mat.hasShape 3 e._nc vt) :
    (∃ out, Jacobian_geometry_templ_1_3 Real.sqrt e vt ig Jac JacI 1 3 = Except.ok out
      ∧ (¬ Mat.rowsIndependent 1 out.Jac → out.detJac = 0))
    ∧ (∃ out, Jacobian_geometry_templ_2_3 Real.sqrt e vt ig Jac JacI 2 3 = Except.ok out
      ∧ (¬ Mat.rowsIndependent 2 out.Jac → out.detJac = 0))
    ∧ (∃ out, Jacobian_geometry_templ_3_3 e vt ig Jac JacI 3 3 = Except.ok out
      ∧ (¬ Mat.rowsIndependent 3 out.Jac → out.detJac = 0)) := by
  have hc := Mat.covers_of_hasShape 3 e._nc vt hvt
  refine ⟨⟨_, Jacobian_geometry_templ_1_3_eq Real.sqrt e vt ig Jac JacI 3 hc, ?_⟩,
    ⟨_, Jacobian_geometry_templ_2_3_eq Real.sqrt e vt ig Jac JacI 3 hc, ?_⟩,
    ⟨_, Jacobian_geometry_templ_3_3_eq e vt ig Jac JacI hc, ?_⟩⟩
  · intro h
    have h0 : JacJacT_1_3 e vt ig 3 = 0 := by
      have hn := JacJacT_1_3_nonneg e vt ig
      by_contra hne
      exact h ((rowsIndependent_ofFn_one _).mpr
        ((JacJacT_1_3_pos_iff e vt ig).mp (lt_of_le_of_ne hn (Ne.symm hne))))
    simp only [h0, Real.sqrt_zero]
  · intro h
    have h0 : detJacJacT_2_3 e vt ig 3 = 0 := by
      have hn := detJacJacT_2_3_nonneg e vt ig
      by_contra hne
      exact h ((detJacJacT_2_3_pos_iff e vt ig).mp (lt_of_le_of_ne hn (Ne.symm hne)))
    simp only [h0, abs_zero, Real.sqrt_zero]
  · intro h
    by_contra hne
    exact h ((rowsIndependent_ofFn_three _).mpr hne)

/-- The amended C8 at the collapsed line, whose Jacobian is the zero matrix. -/
theorem degenerate_geometry_returns_witness :
    Mat.hasShape 3 (line2 ℝ)._nc (collapsedLine ℝ)
    ∧ (∃ out, Jacobian_geometry_templ_1_3 Real.sqrt (line2 ℝ) (collapsedLine ℝ) 0 [] [] 1 3
          = Except.ok out
      ∧ ¬ Mat.rowsIndependent 1 out.Jac ∧ out.detJac = 0)
    ∧ (∃ out, Jacobian_geometry_templ_2_3 Real.sqrt (line2 ℝ) (collapsedLine ℝ) 0 [] [] 2 3
          = Except.ok out
      ∧ ¬ Mat.rowsIndependent 2 out.Jac ∧ out.detJac = 0)
    ∧ (∃ out, Jacobian_geometry_templ_3_3 (line2 ℝ) (collapsedLine ℝ) 0 [] [] 3 3
          = Except.ok out
      ∧ ¬ Mat.rowsIndependent 3 out.Jac ∧ out.detJac = 0) := by
  obtain ⟨⟨o1, h1, p1⟩, ⟨o2, h2, p2⟩, ⟨o3, h3, p3⟩⟩ :=
    degenerate_geometry_returns (line2 ℝ) (collapsedLine ℝ) 0 [] []
      (hasShape_collapsedLine ℝ)
  have i1 : ¬ Mat.rowsIndependent 1 o1.Jac := by
    rw [Jac_of_run_1_3 Real.sqrt _ _ 0 [] [] (hasShape_collapsedLine ℝ) o1 h1]
    exact not_rowsIndependent_collapsedLine_one ℝ
  have i2 : ¬ Mat.rowsIndependent 2 o2.Jac := by
    rw [Jac_of_run_2_3 Real.sqrt _ _ 0 [] [] (hasShape_collapsedLine ℝ) o2 h2]
    exact not_rowsIndependent_collapsedLine_two ℝ
  have i3 : ¬ Mat.rowsIndependent 3 o3.Jac := by
    rw [Jac_of_run_3_3 _ _ 0 [] [] (hasShape_collapsedLine ℝ) o3 h3]
    exact not_rowsIndependent_collapsedLine_three ℝ
  exact ⟨hasShape_collapsedLine ℝ, ⟨o1, h1, i1, p1 i1⟩, ⟨o2, h2, i2, p2 i2⟩,
    ⟨o3, h3, i3, p3 i3⟩⟩

/-- C9: `compute_normal` of the `(3,3)` specialisation aborts for every input: the run ends
with `abort` and returns no vector. -/
theorem compute_normal_3_3_aborts (Jac : Mat K) (normal : List K) :
    compute_normal_3_3 Jac normal = Except.error (Fault.abort "Normal non-defined for 3D objects")
    ∧ ∀ n : List K, compute_normal_3_3 Jac normal ≠ Except.ok n := by
  refine ⟨rfl, ?_⟩
  intro n h
  cases h

/-- C10: over the reals, for every `2 × 3` matrix `Jac` with linearly independent rows, the
`(2,3)` `compute_normal` returns the vector `(Jac[0] × Jac[1]) / ‖Jac[0] × Jac[1]‖`; it has
Euclidean norm `1` and zero dot product with each of the two rows. -/
theorem compute_normal_2_3_unit_normal (Jac : Mat ℝ) (normal : List ℝ)
    (hJ : Mat.hasShape 2 3 Jac) (hind : Mat.rowsIndependent 2 Jac) :
    ∃ n0 n1 n2 : ℝ, compute_normal_2_3 Real.sqrt Jac normal = Except.ok [n0, n1, n2]
      ∧ ![n0, n1, n2]
          = (Real.sqrt (Matrix.dotProduct
                (crossProduct (Mat.toMatrix 2 3 Jac 0) (Mat.toMatrix 2 3 Jac 1))
                (crossProduct (Mat.toMatrix 2 3 Jac 0) (Mat.toMatrix 2 3 Jac 1))))⁻¹
            • crossProduct (Mat.toMatrix 2 3 Jac 0) (Mat.toMatrix 2 3 Jac 1)
      ∧ Real.sqrt (n0 ^ 2 + n1 ^ 2 + n2 ^ 2) = 1
      ∧ Matrix.dotProduct ![n0, n1, n2] (Mat.toMatrix 2 3 Jac 0) = 0
      ∧ Matrix.dotProduct ![n0, n1, n2] (Mat.toMatrix 2 3 Jac 1) = 0 := by
  refine ⟨_, _, _, compute_normal_2_3_eq Real.sqrt Jac normal hJ, ?_, ?_, ?_, ?_⟩
  all_goals
    have hne := (rowsIndependent_two_iff Jac).mp hind
    simp only [invModn_2_3, nx_2_3, ny_2_3, nz_2_3, cross_apply, Matrix.dotProduct,
      Fin.sum_univ_three, Mat.toMatrix, Matrix.of_apply, Matrix.cons_val_zero,
      Matrix.cons_val_one, Matrix.cons_val_two, Matrix.head_cons, Matrix.tail_cons,
      Fin.val_zero, Fin.val_one, Fin.val_two]
    generalize Mat.entry Jac 0 0 = a0 at hne ⊢
    generalize Mat.entry Jac 0 1 = a1 at hne ⊢
    generalize Mat.entry Jac 0 2 = a2 at hne ⊢
    generalize Mat.entry Jac 1 0 = b0 at hne ⊢
    generalize Mat.entry Jac 1 1 = b1 at hne ⊢
    generalize Mat.entry Jac 1 2 = b2 at hne ⊢
    have hS : 0 < (a1 * b2 - b1 * a2) * (a1 * b2 - b1 * a2)
        + (b0 * a2 - b2 * a0) * (b0 * a2 - b2 * a0)
        + (a0 * b1 - b0 * a1) * (a0 * b1 - b0 * a1) := by
      have h0 := mul_self_nonneg (a1 * b2 - b1 * a2)
      have h1 := mul_self_nonneg (b0 * a2 - b2 * a0)
      have h2 := mul_self_nonneg (a0 * b1 - b0 * a1)
      by_contra hcon
      apply hne
      have e0 : (a1 * b2 - b1 * a2) * (a1 * b2 - b1 * a2) = 0 := by linarith
      have e1 : (b0 * a2 - b2 * a0) * (b0 * a2 - b2 * a0) = 0 := by linarith
      have e2 : (a0 * b1 - b0 * a1) * (a0 * b1 - b0 * a1) = 0 := by linarith
      exact ⟨mul_self_eq_zero.mp e0, mul_self_eq_zero.mp e1, mul_self_eq_zero.mp e2⟩
    have hsq := Real.sqrt_pos.mpr hS
    have hsqne := ne_of_gt hsq
  · have hS' : (a1 * b2 - a2 * b1) * (a1 * b2 - a2 * b1)
        + (a2 * b0 - a0 * b2) * (a2 * b0 - a0 * b2)
        + (a0 * b1 - a1 * b0) * (a0 * b1 - a1 * b0)
        = (a1 * b2 - b1 * a2) * (a1 * b2 - b1 * a2)
        + (b0 * a2 - b2 * a0) * (b0 * a2 - b2 * a0)
        + (a0 * b1 - b0 * a1) * (a0 * b1 - b0 * a1) := by ring
    rw [hS']
    funext i
    fin_cases i <;> simp <;> field_simp <;> ring
  · have hq : ((a1 * b2 - b1 * a2) * (1 / Real.sqrt ((a1 * b2 - b1 * a2) * (a1 * b2 - b1 * a2)
          + (b0 * a2 - b2 * a0) * (b0 * a2 - b2 * a0)
          + (a0 * b1 - b0 * a1) * (a0 * b1 - b0 * a1)))) ^ 2
        + ((b0 * a2 - b2 * a0) * (1 / Real.sqrt ((a1 * b2 - b1 * a2) * (a1 * b2 - b1 * a2)
          + (b0 * a2 - b2 * a0) * (b0 * a2 - b2 * a0)
          + (a0 * b1 - b0 * a1) * (a0 * b1 - b0 * a1)))) ^ 2
        + ((a0 * b1 - b0 * a1) * (1 / Real.sqrt ((a1 * b2 - b1 * a2) * (a1 * b2 - b1 * a2)
          + (b0 * a2 - b2 * a0) * (b0 * a2 - b2 * a0)
          + (a0 * b1 - b0 * a1) * (a0 * b1 - b0 * a1)))) ^ 2 = 1 := by
      have hmul := Real.mul_self_sqrt (le_of_lt hS)
      field_simp
      nlinarith [hmul]
    rw [hq, Real.sqrt_one]
  · field_simp
    ring
  · field_simp
    ring

/-- C10 at the Jacobian whose rows are the first two unit vectors. -/
theorem compute_normal_2_3_unit_normal_witness :
    (Mat.hasShape 2 3 (unitTangents ℝ) ∧ Mat.rowsIndependent 2 (unitTangents ℝ))
    ∧ ∃ n0 n1 n2 : ℝ, compute_normal_2_3 Real.sqrt (unitTangents ℝ) [] = Except.ok [n0, n1, n2]
      ∧ ![n0, n1, n2]
          = (Real.sqrt (Matrix.dotProduct
                (crossProduct (Mat.toMatrix 2 3 (unitTangents ℝ) 0)
                  (Mat.toMatrix 2 3 (unitTangents ℝ) 1))
                (crossProduct (Mat.toMatrix 2 3 (unitTangents ℝ) 0)
                  (Mat.toMatrix 2 3 (unitTangents ℝ) 1))))⁻¹
            • crossProduct (Mat.toMatrix 2 3 (unitTangents ℝ) 0)
                (Mat.toMatrix 2 3 (unitTangents ℝ) 1)
      ∧ Real.sqrt (n0 ^ 2 + n1 ^ 2 + n2 ^ 2) = 1
      ∧ Matrix.dotProduct ![n0, n1, n2] (Mat.toMatrix 2 3 (unitTangents ℝ) 0) = 0
      ∧ Matrix.dotProduct ![n0, n1, n2] (Mat.toMatrix 2 3 (unitTangents ℝ) 1) = 0 :=
  ⟨⟨hasShape_unitTangents ℝ, rowsIndependent_unitTangents ℝ⟩,
    compute_normal_2_3_unit_normal (unitTangents ℝ) [] (hasShape_unitTangents ℝ)
      (rowsIndependent_unitTangents ℝ)⟩

/-- C11 fails as stated: for the tangent `(3, 0, 4)`, which is not zero, the `(1,3)`
`compute_normal` returns a vector whose Euclidean norm is not `1`. -/
theorem compute_normal_1_3_norm_counterexample :
    (∃ d < 3, Mat.entry (tiltedTangent ℝ) 0 d ≠ 0)
    ∧ ∃ n0 n1 n2 : ℝ, compute_normal_1_3 Real.sqrt (tiltedTangent ℝ) [] = Except.ok [n0, n1, n2]
      ∧ Real.sqrt (n0 ^ 2 + n1 ^ 2 + n2 ^ 2) ≠ 1 := by
  refine ⟨tangent_tiltedTangent, _, _, _,
    compute_normal_1_3_eq Real.sqrt (tiltedTangent ℝ) [] (hasShape_tiltedTangent ℝ), ?_⟩
  intro h
  have h4 := (normal_1_3_norm _ _ _ (Or.inr (Or.inr (by
    rw [(entry_tiltedTangent ℝ).2.2]; norm_num)))).mp h
  rw [(entry_tiltedTangent ℝ).2.2] at h4
  norm_num at h4

/-- C11 as amended: over the reals, for every `1 × 3` matrix `Jac` with a non-zero tangent,
the `(1,3)` `compute_normal` returns a vector with zero dot product with `Jac[0]`, and its
Euclidean norm is `1` exactly when `Jac[0][2] = 0`. -/
theorem compute_normal_1_3_orthogonal (Jac : Mat ℝ) (normal : List ℝ)
    (hJ : Mat.hasShape 1 3 Jac) (ht : ∃ d < 3, Mat.entry Jac 0 d ≠ 0) :
    ∃ n0 n1 n2 : ℝ, compute_normal_1_3 Real.sqrt Jac normal = Except.ok [n0, n1, n2]
      ∧ n0 * Mat.entry Jac 0 0 + n1 * Mat.entry Jac 0 1 + n2 * Mat.entry Jac 0 2 = 0
      ∧ (Real.sqrt (n0 ^ 2 + n1 ^ 2 + n2 ^ 2) = 1 ↔ Mat.entry Jac 0 2 = 0) := by
  refine ⟨_, _, _, compute_normal_1_3_eq Real.sqrt Jac normal hJ, by ring, ?_⟩
  apply normal_1_3_norm
  obtain ⟨d, hd, hne⟩ := ht
  interval_cases d
  · exact Or.inl hne
  · exact Or.inr (Or.inl hne)
  · exact Or.inr (Or.inr hne)

/-- The amended C11 at the tangent `(3, 0, 4)`. -/
theorem compute_normal_1_3_orthogonal_witness :
    (Mat.hasShape 1 3 (tiltedTangent ℝ) ∧ ∃ d < 3, Mat.entry (tiltedTangent ℝ) 0 d ≠ 0)
    ∧ ∃ n0 n1 n2 : ℝ, compute_normal_1_3 Real.sqrt (tiltedTangent ℝ) [] = Except.ok [n0, n1, n2]
      ∧ n0 * Mat.entry (tiltedTangent ℝ) 0 0 + n1 * Mat.entry (tiltedTangent ℝ) 0 1
          + n2 * Mat.entry (tiltedTangent ℝ) 0 2 = 0
      ∧ (Real.sqrt (n0 ^ 2 + n1 ^ 2 + n2 ^ 2) = 1 ↔ Mat.entry (tiltedTangent ℝ) 0 2 = 0) :=
  ⟨⟨hasShape_tiltedTangent ℝ, tangent_tiltedTangent⟩,
    compute_normal_1_3_orthogonal (tiltedTangent ℝ) [] (hasShape_tiltedTangent ℝ)
      tangent_tiltedTangent⟩

/-- C12: over the reals, for every `1 × 3` matrix `Jac` with a non-zero tangent, the `(1,3)`
`compute_normal` returns `(Jac[0][1], -Jac[0][0], 0) / detJac` with
`detJac = sqrt (Jac[0][0]² + Jac[0][1]² + Jac[0][2]²)`; and for the `Jac` and `detJac` that
`Jacobian_geometry_templ` of the `(1,3)` specialisation returns, `detJac` is that square root
and the normal is `(Jac[0][1], -Jac[0][0], 0) / detJac`. -/
theorem compute_normal_1_3_formula (Jac : Mat ℝ) (normal : List ℝ)
    (hJ : Mat.hasShape 1 3 Jac) (ht : ∃ d < 3, Mat.entry Jac 0 d ≠ 0)
    (e : elem_type ℝ) (vt : Mat ℝ) (ig : Nat) (Jac0 JacI0 : Mat ℝ)
    (hvt : Mat.hasShape 3 e._nc vt) :
    compute_normal_1_3 Real.sqrt Jac normal
      = Except.ok
        [Mat.entry Jac 0 1
            / Real.sqrt (Mat.entry Jac 0 0 ^ 2 + Mat.entry Jac 0 1 ^ 2 + Mat.entry Jac 0 2 ^ 2),
          -Mat.entry Jac 0 0
            / Real.sqrt (Mat.entry Jac 0 0 ^ 2 + Mat.entry Jac 0 1 ^ 2 + Mat.entry Jac 0 2 ^ 2),
          0]
    ∧ ∃ out, Jacobian_geometry_templ_1_3 Real.sqrt e vt ig Jac0 JacI0 1 3 = Except.ok out
      ∧ out.detJac = Real.sqrt (Mat.entry out.Jac 0 0 ^ 2 + Mat.entry out.Jac 0 1 ^ 2
          + Mat.entry out.Jac 0 2 ^ 2)
      ∧ ((∃ d < 3, Mat.entry out.Jac 0 d ≠ 0) →
        compute_normal_1_3 Real.sqrt out.Jac normal
          = Except.ok [Mat.entry out.Jac 0 1 / out.detJac,
              -Mat.entry out.Jac 0 0 / out.detJac, 0]) := by
  have hc := Mat.covers_of_hasShape 3 e._nc vt hvt
  refine ⟨?_, _, Jacobian_geometry_templ_1_3_eq Real.sqrt e vt ig Jac0 JacI0 3 hc, ?_, ?_⟩
  · rw [compute_normal_1_3_eq Real.sqrt Jac normal hJ]
    simp only [sq]
  · simp only [JacJacT_1_3, Finset.sum_range_succ, Finset.sum_range_zero, zero_add,
      Mat.entry_ofFn 1 3 _ 0 0 (by omega) (by omega),
      Mat.entry_ofFn 1 3 _ 0 1 (by omega) (by omega),
      Mat.entry_ofFn 1 3 _ 0 2 (by omega) (by omega), sq]
  · intro _
    rw [compute_normal_1_3_eq Real.sqrt _ normal (Mat.hasShape_ofFn 1 3 _)]
    simp only [JacJacT_1_3, Finset.sum_range_succ, Finset.sum_range_zero, zero_add,
      Mat.entry_ofFn 1 3 _ 0 0 (by omega) (by omega),
      Mat.entry_ofFn 1 3 _ 0 1 (by omega) (by omega),
      Mat.entry_ofFn 1 3 _ 0 2 (by omega) (by omega)]

/-- C12 at the tangent `(3, 0, 4)` and at the segment from the origin to `(2, 0, 0)`. -/
theorem compute_normal_1_3_formula_witness :
    (Mat.hasShape 1 3 (tiltedTangent ℝ) ∧ (∃ d < 3, Mat.entry (tiltedTangent ℝ) 0 d ≠ 0)
      ∧ Mat.hasShape 3 (line2 ℝ)._nc (refLine ℝ))
    ∧ compute_normal_1_3 Real.sqrt (tiltedTangent ℝ) []
      = Except.ok
        [Mat.entry (tiltedTangent ℝ) 0 1
            / Real.sqrt (Mat.entry (tiltedTangent ℝ) 0 0 ^ 2 + Mat.entry (tiltedTangent ℝ) 0 1 ^ 2
              + Mat.entry (tiltedTangent ℝ) 0 2 ^ 2),
          -Mat.entry (tiltedTangent ℝ) 0 0
            / Real.sqrt (Mat.entry (tiltedTangent ℝ) 0 0 ^ 2 + Mat.entry (tiltedTangent ℝ) 0 1 ^ 2
              + Mat.entry (tiltedTangent ℝ) 0 2 ^ 2),
          0]
    ∧ ∃ out, Jacobian_geometry_templ_1_3 Real.sqrt (line2 ℝ) (refLine ℝ) 0 [] [] 1 3
        = Except.ok out
      ∧ out.detJac = Real.sqrt (Mat.entry out.Jac 0 0 ^ 2 + Mat.entry out.Jac 0 1 ^ 2
          + Mat.entry out.Jac 0 2 ^ 2)
      ∧ ((∃ d < 3, Mat.entry out.Jac 0 d ≠ 0) →
        compute_normal_1_3 Real.sqrt out.Jac []
          = Except.ok [Mat.entry out.Jac 0 1 / out.detJac,
              -Mat.entry out.Jac 0 0 / out.detJac, 0]) :=
  ⟨⟨hasShape_tiltedTangent ℝ, tangent_tiltedTangent, hasShape_refLine ℝ⟩,
    compute_normal_1_3_formula (tiltedTangent ℝ) [] (hasShape_tiltedTangent ℝ)
      tangent_tiltedTangent (line2 ℝ) (refLine ℝ) 0 [] [] (hasShape_refLine ℝ)⟩

/-- C13: for each of the three specialisations, called with `dim = D`, `space_dim = 3`, and
every geometry source whose `Jacobian_geometry_templ` returns `geom` with a `3 × D` matrix
`JacI` at the same `vt` and `ig`, the evaluator returns
`Weight = geom.detJac · w[ig]`, `w` being the Gauss weights of the evaluating element. -/
theorem Jacobian_non_isoparametric_templ_Weight [LinearOrderedField K] (sqrt : K → K)
    (self fe : elem_type_jac_templ_base K) (vt : Mat K) (ig : Nat)
    (phi gradphi : List K) (nablaphi : Option (List K)) (geom : JacOut K)
    (hgeom : fe.Jacobian_geometry_templ sqrt vt ig [] [] self.dim 3 = Except.ok geom)
    (hI : Mat.hasShape 3 self.dim geom.JacI) :
    ∃ res, self.Jacobian_non_isoparametric_templ sqrt fe vt ig phi gradphi nablaphi self.dim 3
        = Except.ok res
      ∧ res.Weight = geom.detJac * self.tables.GetGaussWeightsPointer ig := by
  obtain ⟨res, hres, hW, _, _⟩ := Jacobian_non_isoparametric_templ_eq sqrt self fe vt ig phi
    gradphi nablaphi geom hgeom hI
  exact ⟨res, hres, hW⟩

/-- C13 at the linear tetrahedron on the reference tetrahedron. -/
theorem Jacobian_non_isoparametric_templ_Weight_witness :
    ((elem_type_jac_templ_base.templ_3_3 (tet4 ℝ)).Jacobian_geometry_templ Real.sqrt (refTet ℝ)
        0 [] [] (elem_type_jac_templ_base.templ_3_3 (tet4 ℝ)).dim 3 = Except.ok (refTetGeom ℝ)
      ∧ Mat.hasShape 3 (elem_type_jac_templ_base.templ_3_3 (tet4 ℝ)).dim (refTetGeom ℝ).JacI)
    ∧ ∃ res, (elem_type_jac_templ_base.templ_3_3 (tet4 ℝ)).Jacobian_non_isoparametric_templ
          Real.sqrt (elem_type_jac_templ_base.templ_3_3 (tet4 ℝ)) (refTet ℝ) 0 [] [] none
          (elem_type_jac_templ_base.templ_3_3 (tet4 ℝ)).dim 3 = Except.ok res
      ∧ res.Weight = (refTetGeom ℝ).detJac
          * (elem_type_jac_templ_base.templ_3_3 (tet4 ℝ)).tables.GetGaussWeightsPointer 0 :=
  ⟨⟨geometry_refTet ℝ Real.sqrt, hasShape_refTetGeom ℝ⟩,
    Jacobian_non_isoparametric_templ_Weight Real.sqrt _ _ (refTet ℝ) 0 [] [] none
      (refTetGeom ℝ) (geometry_refTet ℝ Real.sqrt) (hasShape_refTetGeom ℝ)⟩

/-- C14: for each of the three specialisations, every `vt` and every geometry source whose
`Jacobian_geometry_templ` returns a `3 × D` matrix `JacI` there, the returned `phi` has length `_nc` and `phi[i] = _phi[ig][i]` for every `i < _nc`; hence if
the reference values at `ig` sum to `1`, so do the entries of `phi`. -/
theorem Jacobian_non_isoparametric_templ_phi [LinearOrderedField K] (sqrt : K → K)
    (self fe : elem_type_jac_templ_base K) (vt : Mat K) (ig : Nat)
    (phi gradphi : List K) (nablaphi : Option (List K)) (geom : JacOut K)
    (hgeom : fe.Jacobian_geometry_templ sqrt vt ig [] [] self.dim 3 = Except.ok geom)
    (hI : Mat.hasShape 3 self.dim geom.JacI) :
    ∃ res, self.Jacobian_non_isoparametric_templ sqrt fe vt ig phi gradphi nablaphi self.dim 3
        = Except.ok res
      ∧ res.phi.length = self.tables._nc
      ∧ (∀ i < self.tables._nc, Vec.read res.phi i = Except.ok (self.tables._phi ig i))
      ∧ (∑ i in Finset.range self.tables._nc, self.tables._phi ig i = 1 →
          ∑ i in Finset.range self.tables._nc, Vec.entry res.phi i = 1) := by
  obtain ⟨res, hres, _, hphi, _⟩ := Jacobian_non_isoparametric_templ_eq sqrt self fe vt ig phi
    gradphi nablaphi geom hgeom hI
  refine ⟨res, hres, ?_, ?_, ?_⟩
  · rw [hphi, Vec.ofFn_length]
  · intro i hi
    rw [hphi, Vec.ofFn_read _ _ i hi]
  · intro h1
    rw [← h1, hphi]
    apply Finset.sum_congr rfl
    intro i hi
    exact Vec.ofFn_entry _ _ i (Finset.mem_range.mp hi)

/-- C14 at the linear tetrahedron on the reference tetrahedron, whose reference values
sum to `1`. -/
theorem Jacobian_non_isoparametric_templ_phi_witness :
    ((elem_type_jac_templ_base.templ_3_3 (tet4 ℝ)).Jacobian_geometry_templ Real.sqrt (refTet ℝ)
        0 [] [] (elem_type_jac_templ_base.templ_3_3 (tet4 ℝ)).dim 3 = Except.ok (refTetGeom ℝ)
      ∧ Mat.hasShape 3 (elem_type_jac_templ_base.templ_3_3 (tet4 ℝ)).dim (refTetGeom ℝ).JacI)
    ∧ ∃ res, (elem_type_jac_templ_base.templ_3_3 (tet4 ℝ)).Jacobian_non_isoparametric_templ
          Real.sqrt (elem_type_jac_templ_base.templ_3_3 (tet4 ℝ)) (refTet ℝ) 0 [] [] none
          (elem_type_jac_templ_base.templ_3_3 (tet4 ℝ)).dim 3 = Except.ok res
      ∧ res.phi.length = (tet4 ℝ)._nc
      ∧ (∀ i < (tet4 ℝ)._nc, Vec.read res.phi i = Except.ok ((tet4 ℝ)._phi 0 i))
      ∧ ∑ i in Finset.range (tet4 ℝ)._nc, (tet4 ℝ)._phi 0 i = 1
      ∧ ∑ i in Finset.range (tet4 ℝ)._nc, Vec.entry res.phi i = 1 := by
  obtain ⟨res, hres, hlen, hread, hsum⟩ :=
    Jacobian_non_isoparametric_templ_phi Real.sqrt
      (elem_type_jac_templ_base.templ_3_3 (tet4 ℝ)) (elem_type_jac_templ_base.templ_3_3 (tet4 ℝ))
      (refTet ℝ) 0 [] [] none (refTetGeom ℝ) (geometry_refTet ℝ Real.sqrt)
      (hasShape_refTetGeom ℝ)
  exact ⟨⟨geometry_refTet ℝ Real.sqrt, hasShape_refTetGeom ℝ⟩, res, hres, hlen, hread,
    phi_sum_tet4 ℝ, hsum (phi_sum_tet4 ℝ)⟩

/-- C15: for each of the three specialisations `(D,3)` and every geometry source whose
`Jacobian_geometry_templ` returns `geom` with a `3 × D` matrix `JacI`, the returned `gradphi` has length `_nc · 3` and, for every node `i` and direction `d < 3`,
`gradphi[i · 3 + d] = Σ_{a < D} (∂φ_i/∂ξ_a at ig) · JacI[d][a]`. -/
theorem Jacobian_non_isoparametric_templ_gradphi [LinearOrderedField K] (sqrt : K → K)
    (self fe : elem_type_jac_templ_base K) (vt : Mat K) (ig : Nat)
    (phi gradphi : List K) (nablaphi : Option (List K)) (geom : JacOut K)
    (hgeom : fe.Jacobian_geometry_templ sqrt vt ig [] [] self.dim 3 = Except.ok geom)
    (hI : Mat.hasShape 3 self.dim geom.JacI) :
    ∃ res, self.Jacobian_non_isoparametric_templ sqrt fe vt ig phi gradphi nablaphi self.dim 3
        = Except.ok res
      ∧ res.gradphi.length = self.tables._nc * 3
      ∧ ∀ i < self.tables._nc, ∀ d < 3, Vec.read res.gradphi (i * 3 + d)
          = Except.ok (∑ a in Finset.range self.dim,
              self.tables.dphi a ig i * Mat.entry geom.JacI d a) := by
  obtain ⟨res, hres, _, _, hgrad⟩ := Jacobian_non_isoparametric_templ_eq sqrt self fe vt ig phi
    gradphi nablaphi geom hgeom hI
  refine ⟨res, hres, ?_, ?_⟩
  · rw [hgrad, Vec.ofFn_length]
  · intro i hi d hd
    rw [hgrad, Vec.ofFn_read _ _ (i * 3 + d) (by omega), (block_index i d hd).1,
      (block_index i d hd).2]
    rfl

/-- C15 at the linear tetrahedron on the reference tetrahedron. -/
theorem Jacobian_non_isoparametric_templ_gradphi_witness :
    ((elem_type_jac_templ_base.templ_3_3 (tet4 ℝ)).Jacobian_geometry_templ Real.sqrt (refTet ℝ)
        0 [] [] (elem_type_jac_templ_base.templ_3_3 (tet4 ℝ)).dim 3 = Except.ok (refTetGeom ℝ)
      ∧ Mat.hasShape 3 (elem_type_jac_templ_base.templ_3_3 (tet4 ℝ)).dim (refTetGeom ℝ).JacI)
    ∧ ∃ res, (elem_type_jac_templ_base.templ_3_3 (tet4 ℝ)).Jacobian_non_isoparametric_templ
          Real.sqrt (elem_type_jac_templ_base.templ_3_3 (tet4 ℝ)) (refTet ℝ) 0 [] [] none
          (elem_type_jac_templ_base.templ_3_3 (tet4 ℝ)).dim 3 = Except.ok res
      ∧ res.gradphi.length = (tet4 ℝ)._nc * 3
      ∧ ∀ i < (tet4 ℝ)._nc, ∀ d < 3, Vec.read res.gradphi (i * 3 + d)
          = Except.ok (∑ a in Finset.range 3,
              (tet4 ℝ).dphi a 0 i * Mat.entry (refTetGeom ℝ).JacI d a) :=
  ⟨⟨geometry_refTet ℝ Real.sqrt, hasShape_refTetGeom ℝ⟩,
    Jacobian_non_isoparametric_templ_gradphi Real.sqrt
      (elem_type_jac_templ_base.templ_3_3 (tet4 ℝ)) (elem_type_jac_templ_base.templ_3_3 (tet4 ℝ))
      (refTet ℝ) 0 [] [] none (refTetGeom ℝ) (geometry_refTet ℝ Real.sqrt)
      (hasShape_refTetGeom ℝ)⟩

/-- C16: for each of the three specialisations `(D,3)` and every geometry source whose
`Jacobian_geometry_templ` returns `geom` with a `3 × D` matrix `JacI`, the evaluator returns
`_nc · 3` gradients, `gradphi[i · 3 + d] = Σ_{a < D} (∂φ_i/∂ξ_a at ig) · JacI[d][a]`; if
every reference first-derivative row at `ig` sums to zero over the nodes, then in every
direction `d < 3` the returned gradients sum to zero: `Σ_i gradphi[i · 3 + d] = 0`. -/
theorem Jacobian_non_isoparametric_templ_gradphi_sum [LinearOrderedField K] (sqrt : K → K)
    (self fe : elem_type_jac_templ_base K) (vt : Mat K) (ig : Nat)
    (phi gradphi : List K) (nablaphi : Option (List K)) (geom : JacOut K)
    (hgeom : fe.Jacobian_geometry_templ sqrt vt ig [] [] self.dim 3 = Except.ok geom)
    (hI : Mat.hasShape 3 self.dim geom.JacI)
    (h0 : ∀ a < self.dim, ∑ i in Finset.range self.tables._nc, self.tables.dphi a ig i = 0) :
    ∃ res, self.Jacobian_non_isoparametric_templ sqrt fe vt ig phi gradphi nablaphi self.dim 3
        = Except.ok res
      ∧ res.gradphi.length = self.tables._nc * 3
      ∧ (∀ i < self.tables._nc, ∀ d < 3, Vec.read res.gradphi (i * 3 + d)
          = Except.ok (∑ a in Finset.range self.dim,
              self.tables.dphi a ig i * Mat.entry geom.JacI d a))
      ∧ (∀ i < self.tables._nc, ∀ d < 3, Vec.read res.gradphi (i * 3 + d)
          = Except.ok (Vec.entry res.gradphi (i * 3 + d)))
      ∧ ∀ d < 3, ∑ i in Finset.range self.tables._nc, Vec.entry res.gradphi (i * 3 + d) = 0 := by
  obtain ⟨res, hres, _, _, hgrad⟩ := Jacobian_non_isoparametric_templ_eq sqrt self fe vt ig phi
    gradphi nablaphi geom hgeom hI
  have hentry : ∀ i < self.tables._nc, ∀ d < 3, Vec.entry res.gradphi (i * 3 + d)
      = ∑ a in Finset.range self.dim, self.tables.dphi a ig i * Mat.entry geom.JacI d a := by
    intro i hi d hd
    rw [hgrad, Vec.ofFn_entry _ _ (i * 3 + d) (by omega), (block_index i d hd).1,
      (block_index i d hd).2]
    rfl
  have hread : ∀ i < self.tables._nc, ∀ d < 3, Vec.read res.gradphi (i * 3 + d)
      = Except.ok (∑ a in Finset.range self.dim,
          self.tables.dphi a ig i * Mat.entry geom.JacI d a) := by
    intro i hi d hd
    rw [hgrad, Vec.ofFn_read _ _ (i * 3 + d) (by omega), (block_index i d hd).1,
      (block_index i d hd).2]
    rfl
  refine ⟨res, hres, ?_, hread, ?_, ?_⟩
  · rw [hgrad, Vec.ofFn_length]
  · intro i hi d hd
    rw [hread i hi d hd, hentry i hi d hd]
  · intro d hd
    rw [Finset.sum_congr rfl (fun i hi => hentry i (Finset.mem_range.mp hi) d hd),
      Finset.sum_comm]
    apply Finset.sum_eq_zero
    intro a ha
    rw [← Finset.sum_mul, h0 a (Finset.mem_range.mp ha), zero_mul]

/-- C16 at the linear tetrahedron on the reference tetrahedron, whose reference derivatives
sum to zero in each direction. -/
theorem Jacobian_non_isoparametric_templ_gradphi_sum_witness :
    ((elem_type_jac_templ_base.templ_3_3 (tet4 ℝ)).Jacobian_geometry_templ Real.sqrt (refTet ℝ)
        0 [] [] (elem_type_jac_templ_base.templ_3_3 (tet4 ℝ)).dim 3 = Except.ok (refTetGeom ℝ)
      ∧ Mat.hasShape 3 (elem_type_jac_templ_base.templ_3_3 (tet4 ℝ)).dim (refTetGeom ℝ).JacI
      ∧ ∀ a < 3, ∑ i in Finset.range (tet4 ℝ)._nc, (tet4 ℝ).dphi a 0 i = 0)
    ∧ ∃ res, (elem_type_jac_templ_base.templ_3_3 (tet4 ℝ)).Jacobian_non_isoparametric_templ
          Real.sqrt (elem_type_jac_templ_base.templ_3_3 (tet4 ℝ)) (refTet ℝ) 0 [] [] none
          (elem_type_jac_templ_base.templ_3_3 (tet4 ℝ)).dim 3 = Except.ok res
      ∧ res.gradphi.length = (tet4 ℝ)._nc * 3
      ∧ (∀ i < (tet4 ℝ)._nc, ∀ d < 3, Vec.read res.gradphi (i * 3 + d)
          = Except.ok (∑ a in Finset.range 3,
              (tet4 ℝ).dphi a 0 i * Mat.entry (refTetGeom ℝ).JacI d a))
      ∧ (∀ i < (tet4 ℝ)._nc, ∀ d < 3, Vec.read res.gradphi (i * 3 + d)
          = Except.ok (Vec.entry res.gradphi (i * 3 + d)))
      ∧ ∀ d < 3, ∑ i in Finset.range (tet4 ℝ)._nc, Vec.entry res.gradphi (i * 3 + d) = 0 :=
  ⟨⟨geometry_refTet ℝ Real.sqrt, hasShape_refTetGeom ℝ, dphi_sum_tet4 ℝ⟩,
    Jacobian_non_isoparametric_templ_gradphi_sum Real.sqrt
      (elem_type_jac_templ_base.templ_3_3 (tet4 ℝ)) (elem_type_jac_templ_base.templ_3_3 (tet4 ℝ))
      (refTet ℝ) 0 [] [] none (refTetGeom ℝ) (geometry_refTet ℝ Real.sqrt)
      (hasShape_refTetGeom ℝ) (dphi_sum_tet4 ℝ)⟩

/-- C17: patch test of the `(3,3)` specialisation with the evaluating element as its own
geometry source: the geometry and the evaluator return, and whenever `detJac ≠ 0`, for every
coordinate `k < 3` and direction `d < 3`,
`Σ_i gradphi[3 i + d] · vt[k][i]` is `1` if `d = k` and `0` otherwise. -/
theorem Jacobian_non_isoparametric_templ_3_3_patch_test [LinearOrderedField K] (sqrt : K → K)
    (e : elem_type K) (vt : Mat K) (ig : Nat) (phi gradphi : List K)
    (nablaphi : Option (List K)) (hvt : Mat.hasShape 3 e._nc vt) :
    ∃ geom res, Jacobian_geometry_templ_3_3 e vt ig [] [] 3 3 = Except.ok geom
      ∧ Jacobian_non_isoparametric_templ_3_3 sqrt e (elem_type_jac_templ_base.templ_3_3 e) vt ig
          phi gradphi nablaphi 3 3 = Except.ok res
      ∧ (geom.detJac ≠ 0 → ∀ k < 3, ∀ d < 3,
          ∑ i in Finset.range e._nc, Vec.entry res.gradphi (3 * i + d) * Mat.entry vt k i
            = if d = k then 1 else 0) := by
  have hgeom := Jacobian_geometry_templ_3_3_eq e vt ig [] []
    (Mat.covers_of_hasShape 3 e._nc vt hvt)
  refine ⟨_, _, hgeom, Jacobian_non_isoparametric_templ_3_3_eq sqrt e
    (elem_type_jac_templ_base.templ_3_3 e) vt ig phi gradphi nablaphi 3 3 _ hgeom
    (Mat.covers_of_hasShape 3 3 _ (Mat.hasShape_ofFn 3 3 _)), ?_⟩
  intro hdet k hk d hd
  rw [← gradphiSum_patch e vt ig hdet d k hd hk]
  apply Finset.sum_congr rfl
  intro i hi
  have hi' := Finset.mem_range.mp hi
  have hq : (3 * i + d) / 3 = i := by omega
  have hr : (3 * i + d) % 3 = d := by omega
  simp only []
  rw [Vec.ofFn_entry _ _ (3 * i + d) (by omega), hq, hr]

/-- C17 at the linear tetrahedron on the reference tetrahedron, whose `detJac` is `1`. -/
theorem Jacobian_non_isoparametric_templ_3_3_patch_test_witness :
    Mat.hasShape 3 (tet4 ℝ)._nc (refTet ℝ)
    ∧ ∃ geom res, Jacobian_geometry_templ_3_3 (tet4 ℝ) (refTet ℝ) 0 [] [] 3 3 = Except.ok geom
      ∧ Jacobian_non_isoparametric_templ_3_3 Real.sqrt (tet4 ℝ)
          (elem_type_jac_templ_base.templ_3_3 (tet4 ℝ)) (refTet ℝ) 0 [] [] none 3 3
          = Except.ok res
      ∧ geom.detJac ≠ 0
      ∧ ∀ k < 3, ∀ d < 3,
          ∑ i in Finset.range (tet4 ℝ)._nc,
              Vec.entry res.gradphi (3 * i + d) * Mat.entry (refTet ℝ) k i
            = if d = k then 1 else 0 := by
  obtain ⟨geom, res, hgeom, hres, h⟩ :=
    Jacobian_non_isoparametric_templ_3_3_patch_test Real.sqrt (tet4 ℝ) (refTet ℝ) 0 [] [] none
      (hasShape_refTet ℝ)
  have hdet : geom.detJac ≠ 0 := by
    have h2 := geometry_refTet ℝ Real.sqrt
    change Jacobian_geometry_templ_3_3 (tet4 ℝ) (refTet ℝ) 0 [] [] 3 3 = _ at h2
    rw [hgeom] at h2
    injection h2 with h2
    rw [h2]
    exact one_ne_zero
  exact ⟨hasShape_refTet ℝ, geom, res, hgeom, hres, hdet, h hdet⟩

/-- C18 at three elements, with the second derivatives requested into an empty vector: the
`(1,3)` evaluator of the two-node line returns a `nablaphi` of length `6 = _nc · space_dim`
and not `_nc = 2`, while the `(2,3)` evaluator of the three-node triangle returns length
`9 = 3 · _nc` and the `(3,3)` evaluator of the four-node tetrahedron length `24 = 6 · _nc`. -/
theorem nablaphi_length_evaluated :
    (∃ res v, Jacobian_non_isoparametric_templ_1_3 Real.sqrt (line2 ℝ)
          (elem_type_jac_templ_base.templ_1_3 (line2 ℝ)) (refLine ℝ) 0 [] [] (some []) 1 3
          = Except.ok res
      ∧ res.nablaphi = some v ∧ v.length = 6 ∧ (line2 ℝ)._nc = 2)
    ∧ (∃ res v, Jacobian_non_isoparametric_templ_2_3 Real.sqrt (tri3 ℝ)
          (elem_type_jac_templ_base.templ_2_3 (tri3 ℝ)) (refTri ℝ) 0 [] [] (some []) 2 3
          = Except.ok res
      ∧ res.nablaphi = some v ∧ v.length = 9 ∧ (tri3 ℝ)._nc = 3)
    ∧ (∃ res v, Jacobian_non_isoparametric_templ_3_3 Real.sqrt (tet4 ℝ)
          (elem_type_jac_templ_base.templ_3_3 (tet4 ℝ)) (refTet ℝ) 0 [] [] (some []) 3 3
          = Except.ok res
      ∧ res.nablaphi = some v ∧ v.length = 24 ∧ (tet4 ℝ)._nc = 4) := by
  refine ⟨⟨_, _, Jacobian_non_isoparametric_templ_1_3_eq Real.sqrt (line2 ℝ)
      (elem_type_jac_templ_base.templ_1_3 (line2 ℝ)) (refLine ℝ) 0 [] [] (some []) 1 _
      (Jacobian_geometry_templ_1_3_eq Real.sqrt (line2 ℝ) (refLine ℝ) 0 [] [] 3
        (Mat.covers_of_hasShape 3 _ _ (hasShape_refLine ℝ)))
      (Mat.covers_of_hasShape 3 1 _ (Mat.hasShape_ofFn 3 1 _)), rfl, ?_, rfl⟩,
    ⟨_, _, Jacobian_non_isoparametric_templ_2_3_eq Real.sqrt (tri3 ℝ)
      (elem_type_jac_templ_base.templ_2_3 (tri3 ℝ)) (refTri ℝ) 0 [] [] (some []) 2 _
      geometry_refTri (Mat.covers_of_hasShape 3 2 _ hasShape_refTriGeom), rfl, ?_, rfl⟩,
    ⟨_, _, Jacobian_non_isoparametric_templ_3_3_eq Real.sqrt (tet4 ℝ)
      (elem_type_jac_templ_base.templ_3_3 (tet4 ℝ)) (refTet ℝ) 0 [] [] (some []) 3 3 _
      (geometry_refTet ℝ Real.sqrt) (Mat.covers_of_hasShape 3 3 _ (hasShape_refTetGeom ℝ)),
      rfl, ?_, rfl⟩⟩
  · rw [Vec.ofFn_length]; rfl
  · rw [Vec.ofFn_length]; rfl
  · rw [Vec.ofFn_length]; rfl

/-- C19: with the second derivatives requested, for geometry sources that return `geom2`
with a `3 × 2` and `geom3` with a `3 × 3` matrix `JacI`: the `(2,3)` evaluator returns a
`nablaphi` with `nablaphi[3 i + c] = Σ_{a,b<2} H[a][b] · JacI[p][a] · JacI[q][b]` for
`(p,q) = (0,0), (1,1), (0,1)` at `c = 0, 1, 2`, and the `(3,3)` evaluator one with
`nablaphi[6 i + c] = Σ_{a,b<3} H[a][b] · JacI[p][a] · JacI[q][b]` for
`(p,q) = (0,0), (1,1), (2,2), (0,1), (1,2), (2,0)` at `c = 0, …, 5`, `H` being the symmetric
reference Hessian of shape function `i` at `ig`. -/
theorem Jacobian_non_isoparametric_templ_nablaphi [LinearOrderedField K] (sqrt : K → K)
    (e2 e3 : elem_type K) (fe2 fe3 : elem_type_jac_templ_base K) (vt2 vt3 : Mat K)
    (ig : Nat) (phi gradphi v : List K) (geom2 geom3 : JacOut K)
    (hgeom2 : fe2.Jacobian_geometry_templ sqrt vt2 ig [] [] 2 3 = Except.ok geom2)
    (hI2 : Mat.hasShape 3 2 geom2.JacI)
    (hgeom3 : fe3.Jacobian_geometry_templ sqrt vt3 ig [] [] 3 3 = Except.ok geom3)
    (hI3 : Mat.hasShape 3 3 geom3.JacI) :
    (∃ res w, Jacobian_non_isoparametric_templ_2_3 sqrt e2 fe2 vt2 ig phi gradphi (some v) 2 3
          = Except.ok res
      ∧ res.nablaphi = some w
      ∧ ∀ i < e2._nc,
          Vec.read w (3 * i + 0) = Except.ok (nablaphiSum 2 e2 ig geom2.JacI i 0 0)
          ∧ Vec.read w (3 * i + 1) = Except.ok (nablaphiSum 2 e2 ig geom2.JacI i 1 1)
          ∧ Vec.read w (3 * i + 2) = Except.ok (nablaphiSum 2 e2 ig geom2.JacI i 0 1))
    ∧ (∃ res w, Jacobian_non_isoparametric_templ_3_3 sqrt e3 fe3 vt3 ig phi gradphi (some v) 3 3
          = Except.ok res
      ∧ res.nablaphi = some w
      ∧ ∀ i < e3._nc,
          Vec.read w (6 * i + 0) = Except.ok (nablaphiSum 3 e3 ig geom3.JacI i 0 0)
          ∧ Vec.read w (6 * i + 1) = Except.ok (nablaphiSum 3 e3 ig geom3.JacI i 1 1)
          ∧ Vec.read w (6 * i + 2) = Except.ok (nablaphiSum 3 e3 ig geom3.JacI i 2 2)
          ∧ Vec.read w (6 * i + 3) = Except.ok (nablaphiSum 3 e3 ig geom3.JacI i 0 1)
          ∧ Vec.read w (6 * i + 4) = Except.ok (nablaphiSum 3 e3 ig geom3.JacI i 1 2)
          ∧ Vec.read w (6 * i + 5) = Except.ok (nablaphiSum 3 e3 ig geom3.JacI i 2 0)) := by
  refine ⟨⟨_, _, Jacobian_non_isoparametric_templ_2_3_eq sqrt e2 fe2 vt2 ig phi gradphi
      (some v) 2 geom2 hgeom2 (Mat.covers_of_hasShape 3 2 _ hI2), rfl, ?_⟩,
    ⟨_, _, Jacobian_non_isoparametric_templ_3_3_eq sqrt e3 fe3 vt3 ig phi gradphi
      (some v) 3 3 geom3 hgeom3 (Mat.covers_of_hasShape 3 3 _ hI3), rfl, ?_⟩⟩
  · intro i hi
    refine ⟨?_, ?_, ?_⟩
    · rw [Vec.ofFn_read _ _ (3 * i + 0) (by omega), (block_index_left 3 i 0 (by omega)).1,
        (block_index_left 3 i 0 (by omega)).2]
      rfl
    · rw [Vec.ofFn_read _ _ (3 * i + 1) (by omega), (block_index_left 3 i 1 (by omega)).1,
        (block_index_left 3 i 1 (by omega)).2]
      rfl
    · rw [Vec.ofFn_read _ _ (3 * i + 2) (by omega), (block_index_left 3 i 2 (by omega)).1,
        (block_index_left 3 i 2 (by omega)).2]
      rfl
  · intro i hi
    refine ⟨?_, ?_, ?_, ?_, ?_, ?_⟩
    · rw [Vec.ofFn_read _ _ (6 * i + 0) (by omega), (block_index_left 6 i 0 (by omega)).1,
        (block_index_left 6 i 0 (by omega)).2]
      rfl
    · rw [Vec.ofFn_read _ _ (6 * i + 1) (by omega), (block_index_left 6 i 1 (by omega)).1,
        (block_index_left 6 i 1 (by omega)).2]
      rfl
    · rw [Vec.ofFn_read _ _ (6 * i + 2) (by omega), (block_index_left 6 i 2 (by omega)).1,
        (block_index_left 6 i 2 (by omega)).2]
      rfl
    · rw [Vec.ofFn_read _ _ (6 * i + 3) (by omega), (block_index_left 6 i 3 (by omega)).1,
        (block_index_left 6 i 3 (by omega)).2]
      rfl
    · rw [Vec.ofFn_read _ _ (6 * i + 4) (by omega), (block_index_left 6 i 4 (by omega)).1,
        (block_index_left 6 i 4 (by omega)).2]
      rfl
    · rw [Vec.ofFn_read _ _ (6 * i + 5) (by omega), (block_index_left 6 i 5 (by omega)).1,
        (block_index_left 6 i 5 (by omega)).2]
      rfl

/-- C19 at the linear triangle on the reference triangle and at the linear tetrahedron on
the reference tetrahedron. -/
theorem Jacobian_non_isoparametric_templ_nablaphi_witness :
    ((elem_type_jac_templ_base.templ_2_3 (tri3 ℝ)).Jacobian_geometry_templ Real.sqrt (refTri ℝ)
        0 [] [] 2 3 = Except.ok refTriGeom
      ∧ Mat.hasShape 3 2 refTriGeom.JacI
      ∧ (elem_type_jac_templ_base.templ_3_3 (tet4 ℝ)).Jacobian_geometry_templ Real.sqrt
        (refTet ℝ) 0 [] [] 3 3 = Except.ok (refTetGeom ℝ)
      ∧ Mat.hasShape 3 3 (refTetGeom ℝ).JacI)
    ∧ (∃ res w, Jacobian_non_isoparametric_templ_2_3 Real.sqrt (tri3 ℝ)
          (elem_type_jac_templ_base.templ_2_3 (tri3 ℝ)) (refTri ℝ) 0 [] [] (some []) 2 3
          = Except.ok res
      ∧ res.nablaphi = some w
      ∧ ∀ i < (tri3 ℝ)._nc,
          Vec.read w (3 * i + 0) = Except.ok (nablaphiSum 2 (tri3 ℝ) 0 refTriGeom.JacI i 0 0)
          ∧ Vec.read w (3 * i + 1) = Except.ok (nablaphiSum 2 (tri3 ℝ) 0 refTriGeom.JacI i 1 1)
          ∧ Vec.read w (3 * i + 2) = Except.ok (nablaphiSum 2 (tri3 ℝ) 0 refTriGeom.JacI i 0 1))
    ∧ (∃ res w, Jacobian_non_isoparametric_templ_3_3 Real.sqrt (tet4 ℝ)
          (elem_type_jac_templ_base.templ_3_3 (tet4 ℝ)) (refTet ℝ) 0 [] [] (some []) 3 3
          = Except.ok res
      ∧ res.nablaphi = some w
      ∧ ∀ i < (tet4 ℝ)._nc,
          Vec.read w (6 * i + 0)
            = Except.ok (nablaphiSum 3 (tet4 ℝ) 0 (refTetGeom ℝ).JacI i 0 0)
          ∧ Vec.read w (6 * i + 1)
            = Except.ok (nablaphiSum 3 (tet4 ℝ) 0 (refTetGeom ℝ).JacI i 1 1)
          ∧ Vec.read w (6 * i + 2)
            = Except.ok (nablaphiSum 3 (tet4 ℝ) 0 (refTetGeom ℝ).JacI i 2 2)
          ∧ Vec.read w (6 * i + 3)
            = Except.ok (nablaphiSum 3 (tet4 ℝ) 0 (refTetGeom ℝ).JacI i 0 1)
          ∧ Vec.read w (6 * i + 4)
            = Except.ok (nablaphiSum 3 (tet4 ℝ) 0 (refTetGeom ℝ).JacI i 1 2)
          ∧ Vec.read w (6 * i + 5)
            = Except.ok (nablaphiSum 3 (tet4 ℝ) 0 (refTetGeom ℝ).JacI i 2 0)) :=
  ⟨⟨geometry_refTri, hasShape_refTriGeom, geometry_refTet ℝ Real.sqrt, hasShape_refTetGeom ℝ⟩,
    Jacobian_non_isoparametric_templ_nablaphi Real.sqrt (tri3 ℝ) (tet4 ℝ)
      (elem_type_jac_templ_base.templ_2_3 (tri3 ℝ)) (elem_type_jac_templ_base.templ_3_3 (tet4 ℝ))
      (refTri ℝ) (refTet ℝ) 0 [] [] [] refTriGeom (refTetGeom ℝ) geometry_refTri
      hasShape_refTriGeom (geometry_refTet ℝ Real.sqrt) (hasShape_refTetGeom ℝ)⟩

/-- C20: `build` returns, whenever the constructor of the base class returns the tables `e`,
the `(3,3)` specialisation for `"hex"`, `"tet"`, `"wedge"`, the `(2,3)` specialisation for
`"quad"`, `"tri"` and the `(1,3)` specialisation for `"line"`; for every name outside
`geom_elems` it aborts; every object it returns has `space_dim = 3` and a `dim` that is a
function of `geom_elem` alone, and `space_dimension` is not used. -/
theorem build_selects
    (elem_type_1D elem_type_2D elem_type_3D : String → String → String → Run (elem_type K))
    (geom_elem fe_fam order_gauss : String) (space_dimension : Nat) :
    (geom_elem = "hex" ∨ geom_elem = "tet" ∨ geom_elem = "wedge" →
      ∀ e, elem_type_3D geom_elem fe_fam order_gauss = Except.ok e →
        elem_type_jac_templ_base.build elem_type_1D elem_type_2D elem_type_3D geom_elem fe_fam
          order_gauss space_dimension = Except.ok (elem_type_jac_templ_base.templ_3_3 e))
    ∧ (geom_elem = "quad" ∨ geom_elem = "tri" →
      ∀ e, elem_type_2D geom_elem fe_fam order_gauss = Except.ok e →
        elem_type_jac_templ_base.build elem_type_1D elem_type_2D elem_type_3D geom_elem fe_fam
          order_gauss space_dimension = Except.ok (elem_type_jac_templ_base.templ_2_3 e))
    ∧ (geom_elem = "line" →
      ∀ e, elem_type_1D geom_elem fe_fam order_gauss = Except.ok e →
        elem_type_jac_templ_base.build elem_type_1D elem_type_2D elem_type_3D geom_elem fe_fam
          order_gauss space_dimension = Except.ok (elem_type_jac_templ_base.templ_1_3 e))
    ∧ (geom_elem ∉ geom_elems →
      elem_type_jac_templ_base.build elem_type_1D elem_type_2D elem_type_3D geom_elem fe_fam
        order_gauss space_dimension = Except.error (Fault.abort "Not implemented"))
    ∧ (∀ obj, elem_type_jac_templ_base.build elem_type_1D elem_type_2D elem_type_3D geom_elem
        fe_fam order_gauss space_dimension = Except.ok obj →
      geom_elem ∈ geom_elems ∧ obj.dim = build_dim geom_elem ∧ obj.space_dim = 3)
    ∧ (∀ space_dimension' : Nat,
      elem_type_jac_templ_base.build elem_type_1D elem_type_2D elem_type_3D geom_elem fe_fam
        order_gauss space_dimension'
      = elem_type_jac_templ_base.build elem_type_1D elem_type_2D elem_type_3D geom_elem fe_fam
        order_gauss space_dimension) := by
  refine ⟨?_, ?_, ?_, ?_, ?_, fun _ => rfl⟩
  · rintro (h | h | h) e he <;> subst h <;>
      simp [elem_type_jac_templ_base.build, he]
  · rintro (h | h) e he <;> subst h <;>
      simp [elem_type_jac_templ_base.build, he]
  · rintro h e he
    subst h
    simp [elem_type_jac_templ_base.build, he]
  · intro h
    simp only [geom_elems, List.mem_cons, List.mem_singleton, List.not_mem_nil, or_false,
      not_or] at h
    obtain ⟨h1, h2, h3, h4, h5, h6⟩ := h
    simp [elem_type_jac_templ_base.build, h1, h2, h3, h4, h5, h6]
  · intro obj hobj
    unfold elem_type_jac_templ_base.build at hobj
    split_ifs at hobj with h1 h2 h3 h4 h5 h6
    · cases h3D : elem_type_3D geom_elem fe_fam order_gauss with
      | error x => rw [h3D] at hobj; cases hobj
      | ok e =>
        rw [h3D] at hobj
        cases hobj
        subst h1
        simp [geom_elems, build_dim, elem_type_jac_templ_base.dim,
          elem_type_jac_templ_base.space_dim]
    · cases h3D : elem_type_3D geom_elem fe_fam order_gauss with
      | error x => rw [h3D] at hobj; cases hobj
      | ok e =>
        rw [h3D] at hobj
        cases hobj
        subst h2
        simp [geom_elems, build_dim, elem_type_jac_templ_base.dim,
          elem_type_jac_templ_base.space_dim]
    · cases h3D : elem_type_3D geom_elem fe_fam order_gauss with
      | error x => rw [h3D] at hobj; cases hobj
      | ok e =>
        rw [h3D] at hobj
        cases hobj
        subst h3
        simp [geom_elems, build_dim, elem_type_jac_templ_base.dim,
          elem_type_jac_templ_base.space_dim]
    · cases h2D : elem_type_2D geom_elem fe_fam order_gauss with
      | error x => rw [h2D] at hobj; cases hobj
      | ok e =>
        rw [h2D] at hobj
        cases hobj
        subst h4
        simp [geom_elems, build_dim, elem_type_jac_templ_base.dim,
          elem_type_jac_templ_base.space_dim]
    · cases h2D : elem_type_2D geom_elem fe_fam order_gauss with
      | error x => rw [h2D] at hobj; cases hobj
      | ok e =>
        rw [h2D] at hobj
        cases hobj
        subst h5
        simp [geom_elems, build_dim, elem_type_jac_templ_base.dim,
          elem_type_jac_templ_base.space_dim]
    · cases h1D : elem_type_1D geom_elem fe_fam order_gauss with
      | error x => rw [h1D] at hobj; cases hobj
      | ok e =>
        rw [h1D] at hobj
        cases hobj
        subst h6
        simp [geom_elems, build_dim, elem_type_jac_templ_base.dim,
          elem_type_jac_templ_base.space_dim]

/-- C20 at the name `"hex"`, with constructors that return the tables of the linear line,
triangle and tetrahedron. -/
theorem build_selects_witness :
    ("hex" = "hex" ∨ "hex" = "tet" ∨ "hex" = "wedge")
    ∧ constant_elem_type (tet4 ℚ) "hex" "linear" "seventh" = Except.ok (tet4 ℚ)
    ∧ elem_type_jac_templ_base.build (constant_elem_type (line2 ℚ)) (constant_elem_type (tri3 ℚ))
        (constant_elem_type (tet4 ℚ)) "hex" "linear" "seventh" 3
      = Except.ok (elem_type_jac_templ_base.templ_3_3 (tet4 ℚ)) :=
  ⟨Or.inl rfl, rfl,
    (build_selects (constant_elem_type (line2 ℚ)) (constant_elem_type (tri3 ℚ))
      (constant_elem_type (tet4 ℚ)) "hex" "linear" "seventh" 3).1 (Or.inl rfl) (tet4 ℚ) rfl⟩

/-- C21: `AssembleStandardProblem` returns when the system `"Poisson"` and the unknown `"u"`
are found, the dimension is at least `2`, every owned element has `nDofs > 0` and a shape
evaluator that returns, and no variable is registered on the tape; the global residual it
returns is the zeroed `RES` to which, for every owned element in turn, the local residual
`Res[i] = −aRes[i]`, `i < nDofs`, has been added under `sysDof`, then closed, with
`aRes[i] = Σ_ig weight · ((−Δu_e(x_ig)) · φ_i − Σ_jdim ∂φ_i/∂x_jdim · Σ_j ∂φ_j/∂x_jdim · solu[j])`
where `Δu_e` is the value of `GetExactSolutionLaplace` at `x_ig = Σ_j x[·][j] · φ_j`. -/
theorem AssembleStandardProblem_residual {V M : Type} [Field K] (acos cos sin : K → K)
    (RESops : NumericVector K V) (KKops : SparseMatrix K M) (ml_prob : MultiLevelProblem K V M)
    (s : Stack K) (mlPdeSys : ImplicitSystem V M) (soluIndex soluPdeIndex : Nat)
    (msh : Mesh K) (sol : Solution K) (pdeSys : LinearEquationSolver V M) (soluType : Nat)
    (hsys : ml_prob.get_system "Poisson" = Except.ok mlPdeSys)
    (hidx : ml_prob.ml_sol.GetIndex "u" = Except.ok soluIndex)
    (hpde : mlPdeSys.GetSolPdeIndex "u" = Except.ok soluPdeIndex)
    (hmsh : msh = ml_prob.ml_msh.GetLevel mlPdeSys.GetLevelToAssemble)
    (hsol : sol = ml_prob.ml_sol.GetSolutionLevel mlPdeSys.GetLevelToAssemble)
    (hlin : pdeSys = mlPdeSys.LinSolver mlPdeSys.GetLevelToAssemble)
    (htype : soluType = ml_prob.ml_sol.GetSolutionType soluIndex)
    (hdim : 2 ≤ msh.GetDimension)
    (hel : ∀ iel, msh.elementOffset msh.processor_id ≤ iel →
      iel < msh.elementOffset (msh.processor_id + 1) →
      0 < msh.GetElementDofNumber iel soluType ∧ msh.evaluates soluType iel)
    (hind : s.independent_index = []) (hdep : s.dependent_index = []) :
    (∃ s' KK', AssembleStandardProblem acos cos sin RESops KKops ml_prob s
        = Except.ok (s', KK',
          RESops.close (assembled_RES acos cos RESops msh sol pdeSys soluIndex soluType
            soluPdeIndex (msh.elementOffset msh.processor_id)
            (msh.elementOffset (msh.processor_id + 1)) (RESops.zero pdeSys.RES))))
    ∧ (∀ iel i, local_aRes acos cos msh sol soluIndex soluType iel i
        = ∑ ig in Finset.range
            (msh.finiteElement (msh.GetElementType iel) soluType).GetGaussPointNumber,
          msh.weight soluType iel ig
            * ((-exactSolLaplace acos cos (msh.xGauss soluType iel ig 0)
                  (msh.xGauss soluType iel ig 1)) * msh.phi soluType iel ig i
              - ∑ jdim in Finset.range msh.GetDimension, msh.phi_x soluType iel ig i jdim
                  * ∑ j in Finset.range (msh.GetElementDofNumber iel soluType),
                      msh.phi_x soluType iel ig j jdim
                        * sol.Sol soluIndex (msh.GetSolutionDof j iel soluType)))
    ∧ (∀ x0 x1 : K, ∀ rest : List K,
        GetExactSolutionLaplace acos cos (x0 :: x1 :: rest)
          = Except.ok (exactSolLaplace acos cos x0 x1)) := by
  obtain ⟨s', h, _, _⟩ := AssembleStandardProblem_run acos cos sin RESops KKops ml_prob s
    mlPdeSys soluIndex soluPdeIndex msh sol pdeSys soluType hsys hidx hpde hmsh hsol hlin htype
    hdim hel hind hdep
  exact ⟨⟨s', _, h⟩, fun _ _ => rfl,
    fun x0 x1 rest => GetExactSolutionLaplace_eq acos cos x0 x1 rest⟩

/-- C21 on the mesh of one triangle, with the identity for the three functions of
`<cmath>`: the run returns and one block of three residuals is added. -/
theorem AssembleStandardProblem_residual_witness :
    (2 ≤ (oneTriangle ℚ).GetDimension
      ∧ (emptyStack ℚ).independent_index = [] ∧ (emptyStack ℚ).dependent_index = [])
    ∧ ∃ s' KK', AssembleStandardProblem (fun x => x) (fun x => x) (fun x => x)
        (blockVector ℚ) (blockMatrix ℚ) (oneTriangleProblem ℚ) (emptyStack ℚ)
        = Except.ok (s', KK',
          (blockVector ℚ).close (assembled_RES (fun x => x) (fun x => x) (blockVector ℚ)
            (oneTriangle ℚ) (nodeNumberSolution ℚ) (oneTriangleSolver ℚ) 0 0 0 0 1
            ((blockVector ℚ).zero []))) :=
  ⟨⟨by decide, rfl, rfl⟩,
    (AssembleStandardProblem_residual (fun x => x) (fun x => x) (fun x => x) (blockVector ℚ)
      (blockMatrix ℚ) (oneTriangleProblem ℚ) (emptyStack ℚ) (oneTriangleSystem ℚ) 0 0
      (oneTriangle ℚ) (nodeNumberSolution ℚ) (oneTriangleSolver ℚ) 0 rfl rfl rfl rfl rfl rfl rfl
      (by decide) (fun iel _ _ => oneTriangle_evaluates ℚ iel) rfl rfl).1⟩

/-- C22: under the conditions of a returning run, the global matrix that
`AssembleStandardProblem` returns is the zeroed `KK` to which, for every owned element in
turn, the local matrix with the entries
`(i, j) ↦ −Σ_ig weight · Σ_jdim ∂φ_i/∂x_jdim · ∂φ_j/∂x_jdim`, stored row by row (which,
the matrix being symmetric, is also its order by column, the order of the extraction), has
been added under `sysDof` for rows and columns, then closed.  This local matrix is the exact
derivative of the local residual accumulator with respect to the local unknowns (`aRes` is
affine in `solu` with this matrix as linear part), it is the same for every solution, and it
is symmetric. -/
theorem AssembleStandardProblem_jacobian {V M : Type} [Field K] (acos cos sin : K → K)
    (RESops : NumericVector K V) (KKops : SparseMatrix K M) (ml_prob : MultiLevelProblem K V M)
    (s : Stack K) (mlPdeSys : ImplicitSystem V M) (soluIndex soluPdeIndex : Nat)
    (msh : Mesh K) (sol : Solution K) (pdeSys : LinearEquationSolver V M) (soluType : Nat)
    (hsys : ml_prob.get_system "Poisson" = Except.ok mlPdeSys)
    (hidx : ml_prob.ml_sol.GetIndex "u" = Except.ok soluIndex)
    (hpde : mlPdeSys.GetSolPdeIndex "u" = Except.ok soluPdeIndex)
    (hmsh : msh = ml_prob.ml_msh.GetLevel mlPdeSys.GetLevelToAssemble)
    (hsol : sol = ml_prob.ml_sol.GetSolutionLevel mlPdeSys.GetLevelToAssemble)
    (hlin : pdeSys = mlPdeSys.LinSolver mlPdeSys.GetLevelToAssemble)
    (htype : soluType = ml_prob.ml_sol.GetSolutionType soluIndex)
    (hdim : 2 ≤ msh.GetDimension)
    (hel : ∀ iel, msh.elementOffset msh.processor_id ≤ iel →
      iel < msh.elementOffset (msh.processor_id + 1) →
      0 < msh.GetElementDofNumber iel soluType ∧ msh.evaluates soluType iel)
    (hind : s.independent_index = []) (hdep : s.dependent_index = []) :
    (∃ s' RES', AssembleStandardProblem acos cos sin RESops KKops ml_prob s
        = Except.ok (s',
          KKops.close (assembled_KK KKops msh pdeSys soluIndex soluType soluPdeIndex
            (msh.elementOffset msh.processor_id) (msh.elementOffset (msh.processor_id + 1))
            (KKops.zero pdeSys.KK)), RES'))
    ∧ (∀ iel i j, local_Jac msh soluType iel i j
        = -∑ ig in Finset.range
            (msh.finiteElement (msh.GetElementType iel) soluType).GetGaussPointNumber,
          msh.weight soluType iel ig
            * ∑ jdim in Finset.range msh.GetDimension,
                msh.phi_x soluType iel ig i jdim * msh.phi_x soluType iel ig j jdim)
    ∧ (∀ (u u' : Solution K) (iel i : Nat),
        local_aRes acos cos msh u soluIndex soluType iel i
            - local_aRes acos cos msh u' soluIndex soluType iel i
          = ∑ j in Finset.range (msh.GetElementDofNumber iel soluType),
              local_Jac msh soluType iel i j
                * (u.Sol soluIndex (msh.GetSolutionDof j iel soluType)
                  - u'.Sol soluIndex (msh.GetSolutionDof j iel soluType)))
    ∧ (∀ iel i j, local_Jac msh soluType iel i j = local_Jac msh soluType iel j i) := by
  obtain ⟨s', h, _, _⟩ := AssembleStandardProblem_run acos cos sin RESops KKops ml_prob s
    mlPdeSys soluIndex soluPdeIndex msh sol pdeSys soluType hsys hidx hpde hmsh hsol hlin htype
    hdim hel hind hdep
  exact ⟨⟨s', _, h⟩, fun _ _ _ => rfl,
    fun u u' iel i => local_aRes_sub acos cos msh u u' soluIndex soluType iel i,
    fun iel i j => local_Jac_symm msh soluType iel i j⟩

/-- C22 on the mesh of one triangle: the run returns and one block of nine matrix entries
is added. -/
theorem AssembleStandardProblem_jacobian_witness :
    (2 ≤ (oneTriangle ℚ).GetDimension
      ∧ (emptyStack ℚ).independent_index = [] ∧ (emptyStack ℚ).dependent_index = [])
    ∧ ∃ s' RES', AssembleStandardProblem (fun x => x) (fun x => x) (fun x => x)
        (blockVector ℚ) (blockMatrix ℚ) (oneTriangleProblem ℚ) (emptyStack ℚ)
        = Except.ok (s',
          (blockMatrix ℚ).close (assembled_KK (blockMatrix ℚ) (oneTriangle ℚ)
            (oneTriangleSolver ℚ) 0 0 0 0 1 ((blockMatrix ℚ).zero [])), RES') :=
  ⟨⟨by decide, rfl, rfl⟩,
    (AssembleStandardProblem_jacobian (fun x => x) (fun x => x) (fun x => x) (blockVector ℚ)
      (blockMatrix ℚ) (oneTriangleProblem ℚ) (emptyStack ℚ) (oneTriangleSystem ℚ) 0 0
      (oneTriangle ℚ) (nodeNumberSolution ℚ) (oneTriangleSolver ℚ) 0 rfl rfl rfl rfl rfl rfl rfl
      (by decide) (fun iel _ _ => oneTriangle_evaluates ℚ iel) rfl rfl).1⟩

/-- C23: the tape discipline of the element loops of `AssembleStandardProblem` (for
`dim ≥ 2`) and of `BuidProjection`, started on a tape without registered variables, when
every element from the first owned one up to `iel` has `nDofs > 0` and a shape evaluator that
returns.  The loop up to `iel` returns a state `st` with no independent and no dependent
variable registered; the iteration of `iel` returns a state `st'` with no independent and no
dependent variable registered.  In `AssembleStandardProblem` the tape at the extraction of
the Jacobian, after `record`, has the `nDofs` local unknowns `solu` as its independent
variables and the `nDofs` entries of `aRes` as its dependent variables, all with different
gradient indices.  In `BuidProjection` the tape after `record` has the `nDofs` local unknowns
as its independent variables and no dependent variable, and at the extraction of every
direction `k < dim`, after the rounds of the directions before `k` and the registration of
direction `k`, its independent variables are the `nDofs` local unknowns and its dependent
variables are the `nDofs` residuals `aRes[k]`, none of which is a residual of a direction
`k' < k`. -/
theorem tape_discipline {V M : Type} [Field K] (acos cos sin : K → K)
    (RESops : NumericVector K V) (KKops Pops : SparseMatrix K M) (msh : Mesh K)
    (sol : Solution K) (pdeSys sysP0 : LinearEquationSolver V M)
    (soluIndex soluType soluPdeIndex : Nat) (s : Stack K) (KK0 : M) (RES0 : V) (P0 : Nat → M)
    (iel : Nat)
    (hlo : msh.elementOffset msh.processor_id ≤ iel)
    (hel : ∀ e, msh.elementOffset msh.processor_id ≤ e → e ≤ iel →
      0 < msh.GetElementDofNumber e soluType ∧ msh.evaluates soluType e)
    (hind : s.independent_index = []) (hdep : s.dependent_index = []) :
    (2 ≤ msh.GetDimension → ∃ st st1 st',
      forRange (msh.elementOffset msh.processor_id) iel
          (AssembleStandardProblem.element acos cos sin RESops KKops msh sol pdeSys soluIndex
            soluType soluPdeIndex)
          ⟨s, KK0, RES0, [], List.replicate msh.GetDimension [], [], [], [], 0, [], [], []⟩
        = Except.ok st
      ∧ st.s.independent_index = [] ∧ st.s.dependent_index = []
      ∧ AssembleStandardProblem.record acos cos sin RESops msh sol pdeSys soluIndex soluType
          soluPdeIndex iel st = Except.ok st1
      ∧ st1.solu.length = msh.GetElementDofNumber iel soluType
      ∧ st1.aRes.length = msh.GetElementDofNumber iel soluType
      ∧ st1.s.tracks st1.solu st1.aRes
      ∧ st1.s.independent_index
          = Vec.ofFn (msh.GetElementDofNumber iel soluType) (adouble.index st1.solu)
      ∧ st1.s.dependent_index
          = Vec.ofFn (msh.GetElementDofNumber iel soluType) (adouble.index st1.aRes)
      ∧ AssembleStandardProblem.element acos cos sin RESops KKops msh sol pdeSys soluIndex
          soluType soluPdeIndex iel st = Except.ok st'
      ∧ st'.s.independent_index = [] ∧ st'.s.dependent_index = [])
    ∧ (∃ st st1 st',
      forRange (msh.elementOffset msh.processor_id) iel
          (BuidProjection.element Pops msh sol sysP0 soluIndex soluType soluPdeIndex)
          ⟨s, Vec.ofFn msh.GetDimension P0, [], List.replicate msh.GetDimension [], [], [], [],
            0, [], List.replicate msh.GetDimension []⟩
        = Except.ok st
      ∧ st.s.independent_index = [] ∧ st.s.dependent_index = []
      ∧ BuidProjection.record msh sol sysP0 soluIndex soluType soluPdeIndex iel st
          = Except.ok st1
      ∧ st1.solu.length = msh.GetElementDofNumber iel soluType
      ∧ st1.aRes.length = msh.GetDimension
      ∧ st1.s.tracks_rows st1.solu st1.aRes
      ∧ st1.s.independent_index
          = Vec.ofFn (msh.GetElementDofNumber iel soluType) (adouble.index st1.solu)
      ∧ st1.s.dependent_index = []
      ∧ (∀ k < msh.GetDimension,
          (st1.aRes.getD k []).length = msh.GetElementDofNumber iel soluType
          ∧ ∃ r sk, BuidProjection.extract Pops k (msh.GetElementDofNumber iel soluType)
                st1.aRes st1.sysDof (st1.s, st1.P, st1.Jac) = Except.ok r
            ∧ BuidProjection.register (msh.GetElementDofNumber iel soluType) st1.aRes k r.1
                = Except.ok sk
            ∧ sk.independent_index
                = Vec.ofFn (msh.GetElementDofNumber iel soluType) (adouble.index st1.solu)
            ∧ sk.dependent_index
                = Vec.ofFn (msh.GetElementDofNumber iel soluType) (adouble.index2 st1.aRes k)
            ∧ (∀ k' < k, ∀ i < msh.GetElementDofNumber iel soluType,
                ∀ i' < msh.GetElementDofNumber iel soluType,
                adouble.index2 st1.aRes k i ≠ adouble.index2 st1.aRes k' i'))
      ∧ BuidProjection.element Pops msh sol sysP0 soluIndex soluType soluPdeIndex iel st
          = Except.ok st'
      ∧ st'.s.independent_index = [] ∧ st'.s.dependent_index = []) := by
  constructor
  · intro hdim
    obtain ⟨st, h, i1, i2, i3, i4⟩ := AssembleStandardProblem.iteration_state acos cos sin
      RESops KKops msh sol pdeSys soluIndex soluType soluPdeIndex
      (msh.elementOffset msh.processor_id) iel s KK0 RES0 hdim hind hdep
      (fun e h1 h2 => hel e h1 (Nat.le_of_lt h2))
    obtain ⟨st1, st', h1, t1, t2, t3, t4, t5, _, _, _, _, h', t6, t7⟩ :=
      AssembleStandardProblem.extraction_tape acos cos sin RESops KKops msh sol pdeSys soluIndex
        soluType soluPdeIndex iel st hdim (hel iel hlo (Nat.le_refl _)).1 i1 i2 i3 i4
        (hel iel hlo (Nat.le_refl _)).2
    exact ⟨st, st1, st', h, i3, i4, h1, t1, t2, t3, t4, t5, h', t6, t7⟩
  · obtain ⟨st, h, i1, i2, i3, i4, i5, Q, hQ⟩ := BuidProjection.iteration_start Pops msh sol
      sysP0 soluIndex soluType soluPdeIndex (msh.elementOffset msh.processor_id) iel s P0 hind
      hdep (fun e h1 h2 => hel e h1 (Nat.le_of_lt h2))
    obtain ⟨st1, st', h1, t1, t2, t3, t4, t5, t6, h', t7, t8⟩ :=
      BuidProjection.extractions_tape Pops msh sol sysP0 soluIndex soluType soluPdeIndex iel st Q
        (hel iel hlo (Nat.le_refl _)).1 i1 i2 i3 i4 i5 hQ (hel iel hlo (Nat.le_refl _)).2
    refine ⟨st, st1, st', h, i4, i5, h1, t1, t2, t3, t4, t5, ?_, h', t7, t8⟩
    intro k hk
    obtain ⟨q1, r, sk, q2, q3, q4, q5, q6, _⟩ := t6 k hk
    exact ⟨q1, r, sk, q2, q3, q4, q5, q6⟩

/-- C23 on the mesh of one triangle, for its element `0`: in `BuidProjection` the three
local unknowns are the independent variables after the recording, and no variable is
registered after the iteration. -/
theorem tape_discipline_witness :
    ((oneTriangle ℚ).elementOffset (oneTriangle ℚ).processor_id ≤ 0
      ∧ (emptyStack ℚ).independent_index = [] ∧ (emptyStack ℚ).dependent_index = [])
    ∧ ∃ st st1 st',
      forRange 0 0
          (BuidProjection.element (blockMatrix ℚ) (oneTriangle ℚ) (nodeNumberSolution ℚ)
            (oneTriangleSolver ℚ) 0 0 0)
          ⟨emptyStack ℚ, Vec.ofFn 2 (fun _ => []), [], List.replicate 2 [], [], [], [], 0, [],
            List.replicate 2 []⟩
        = Except.ok st
      ∧ BuidProjection.record (oneTriangle ℚ) (nodeNumberSolution ℚ) (oneTriangleSolver ℚ)
          0 0 0 0 st = Except.ok st1
      ∧ st1.s.independent_index = Vec.ofFn 3 (adouble.index st1.solu)
      ∧ st1.s.dependent_index = []
      ∧ BuidProjection.element (blockMatrix ℚ) (oneTriangle ℚ) (nodeNumberSolution ℚ)
          (oneTriangleSolver ℚ) 0 0 0 0 st = Except.ok st'
      ∧ st'.s.independent_index = [] ∧ st'.s.dependent_index = [] :=
  ⟨⟨Nat.le_refl 0, rfl, rfl⟩,
    match (tape_discipline (fun x => x) (fun x => x) (fun x => x) (blockVector ℚ)
      (blockMatrix ℚ) (blockMatrix ℚ) (oneTriangle ℚ) (nodeNumberSolution ℚ)
      (oneTriangleSolver ℚ) (oneTriangleSolver ℚ) 0 0 0 (emptyStack ℚ) [] [] (fun _ => []) 0
      (Nat.le_refl 0) (fun e _ _ => oneTriangle_evaluates ℚ e) rfl rfl).2 with
    | ⟨st, st1, st', h0, _, _, h1, _, _, _, h2, h3, _, h4, h5, h6⟩ =>
      ⟨st, st1, st', h0, h1, h2, h3, h4, h5, h6⟩⟩

/-- C24: `BuidProjection` returns when the systems `Pname[k]`, `k < dim`, and the unknowns
`"u"` and `"ux"` are found, `1 ≤ dim ≤ 3`, every owned element has `nDofs > 0` and a shape
evaluator that returns, and no variable is registered on the tape; it returns one matrix per
direction `k < dim`: the zeroed matrix of the system `Pname[k]` to which, for every owned
element in turn, the local block with the entries `(i, j) ↦ Σ_ig weight · φ_i · ∂φ_j/∂x_k`,
ordered by column (entry `(i, j)` at position `j · nDofs + i`), has been added under `sysDof`
for rows and columns, then closed.  The block does not depend on the solution; for every
solution `sol` it is the derivative of the recorded residual
`aRes[k][i] = Σ_ig (Σ_j ∂φ_j/∂x_k · solu[j]) · φ_i · weight` with respect to `solu[j]`, on
the tape after the recording of the element and as the matrix of the map from the local
unknowns to the residuals; and at the extraction of direction `k`, after the rounds of the
earlier directions and the registration of `aRes[k]`, the tape has a recording with declared
independent and dependent variables and the extraction returns a buffer of `nDofs · nDofs`
entries whose entry `j · nDofs + i` is the entry `(i, j)` of the block. -/
theorem BuidProjection_local_blocks {V M : Type} [Field K] (Pops : SparseMatrix K M)
    (ml_prob : MultiLevelProblem K V M) (s : Stack K) (mlSysP : Nat → ImplicitSystem V M)
    (soluIndex soluPdeIndex : Nat) (msh : Mesh K) (sol : Solution K)
    (sysP0 : LinearEquationSolver V M) (soluType level : Nat)
    (hlevel : level = (ml_prob.ml_sol.mlMesh.GetNumberOfLevels + 4294967295) % 4294967296)
    (hmsh : msh = ml_prob.ml_msh.GetLevel level)
    (hlin : sysP0 = (mlSysP 0).LinSolver level)
    (htype : soluType = ml_prob.ml_sol.GetSolutionType soluIndex)
    (hdim1 : 1 ≤ msh.GetDimension) (hdim3 : msh.GetDimension ≤ 3)
    (hsys : ∀ k < msh.GetDimension,
      ml_prob.get_system (Pname.getD k "") = Except.ok (mlSysP k))
    (hidx : ml_prob.ml_sol.GetIndex "u" = Except.ok soluIndex)
    (hpde : (mlSysP 0).GetSolPdeIndex "ux" = Except.ok soluPdeIndex)
    (hel : ∀ iel, msh.elementOffset msh.processor_id ≤ iel →
      iel < msh.elementOffset (msh.processor_id + 1) →
      0 < msh.GetElementDofNumber iel soluType ∧ msh.evaluates soluType iel)
    (hind : s.independent_index = []) (hdep : s.dependent_index = []) :
    (∃ s', BuidProjection Pops ml_prob s
        = Except.ok (s', Vec.ofFn msh.GetDimension (fun k =>
            Pops.close (assembled_P Pops msh sysP0 soluIndex soluType soluPdeIndex k
              (msh.elementOffset msh.processor_id) (msh.elementOffset (msh.processor_id + 1))
              (Pops.zero ((mlSysP k).LinSolver level).KK)))))
    ∧ (∀ iel k i j, local_P msh soluType iel k i j
        = ∑ ig in Finset.range
            (msh.finiteElement (msh.GetElementType iel) soluType).GetGaussPointNumber,
          msh.weight soluType iel ig * msh.phi soluType iel ig i
            * msh.phi_x soluType iel ig j k)
    ∧ (∀ (u : Solution K) (iel k i : Nat), local_aResP msh u soluIndex soluType iel k i
        = ∑ ig in Finset.range
            (msh.finiteElement (msh.GetElementType iel) soluType).GetGaussPointNumber,
          (∑ j in Finset.range (msh.GetElementDofNumber iel soluType),
              msh.phi_x soluType iel ig j k
                * u.Sol soluIndex (msh.GetSolutionDof j iel soluType))
            * msh.phi soluType iel ig i * msh.weight soluType iel ig)
    ∧ (∀ (u u' : Solution K) (iel k i : Nat),
        local_aResP msh u soluIndex soluType iel k i
            - local_aResP msh u' soluIndex soluType iel k i
          = ∑ j in Finset.range (msh.GetElementDofNumber iel soluType),
              local_P msh soluType iel k i j
                * (u.Sol soluIndex (msh.GetSolutionDof j iel soluType)
                  - u'.Sol soluIndex (msh.GetSolutionDof j iel soluType)))
    ∧ (∀ (iel : Nat) (st : ProjectionState K M),
        msh.elementOffset msh.processor_id ≤ iel →
        iel < msh.elementOffset (msh.processor_id + 1) →
        st.x.length = msh.GetDimension → st.aRes.length = msh.GetDimension →
        st.s.tracks_rows st.solu st.aRes →
        st.s.independent_index = [] → st.s.dependent_index = [] →
        ∃ st', BuidProjection.record msh sol sysP0 soluIndex soluType soluPdeIndex iel st
            = Except.ok st'
          ∧ (∀ k < msh.GetDimension, ∀ i < msh.GetElementDofNumber iel soluType,
              ((st'.aRes.getD k []).getD i ⟨0, 0⟩).value
                  = local_aResP msh sol soluIndex soluType iel k i
              ∧ ∀ j < msh.GetElementDofNumber iel soluType,
                st'.s.gradient (adouble.index st'.solu j) (adouble.index2 st'.aRes k i)
                  = local_P msh soluType iel k i j)
          ∧ (∀ Q : Nat → M, st.P = Vec.ofFn msh.GetDimension Q →
              ∀ k < msh.GetDimension, ∃ r sk Jac,
                BuidProjection.extract Pops k (msh.GetElementDofNumber iel soluType)
                    st'.aRes st'.sysDof (st'.s, st'.P, st'.Jac) = Except.ok r
                ∧ BuidProjection.register (msh.GetElementDofNumber iel soluType) st'.aRes k r.1
                    = Except.ok sk
                ∧ sk.recording = true ∧ sk.independents_declared = true
                ∧ sk.dependents_declared = true
                ∧ sk.jacobian r.2.2 = Except.ok Jac
                ∧ Jac.length
                    = msh.GetElementDofNumber iel soluType * msh.GetElementDofNumber iel soluType
                ∧ ∀ i < msh.GetElementDofNumber iel soluType,
                    ∀ j < msh.GetElementDofNumber iel soluType,
                    Vec.read Jac (j * msh.GetElementDofNumber iel soluType + i)
                      = Except.ok (local_P msh soluType iel k i j))) := by
  obtain ⟨s', h, _, _⟩ := BuidProjection_run Pops ml_prob s mlSysP soluIndex soluPdeIndex msh
    sysP0 soluType level hlevel hmsh hlin htype hdim1 hdim3 hsys hidx hpde hel hind hdep
  refine ⟨⟨s', h⟩, fun _ _ _ _ => rfl, fun _ _ _ _ => rfl,
    fun u u' iel k i => local_aResP_sub msh u u' soluIndex soluType iel k i, ?_⟩
  intro iel st hlo hhi hx ha htr hi hd
  obtain ⟨st', h', _, _, _, _, _, _, _, _, _, _, r11, r12⟩ := BuidProjection.record_local msh
    sol sysP0 soluIndex soluType soluPdeIndex iel st hx ha htr hi hd (hel iel hlo hhi).2
  refine ⟨st', h', fun k hk i hi => ⟨r12 k hk i hi, fun j hj => r11 k hk i hi j hj⟩, ?_⟩
  intro Q hQ k hk
  obtain ⟨st1, _, h1, _, _, _, _, _, t6, _⟩ :=
    BuidProjection.extractions_tape Pops msh sol sysP0 soluIndex soluType soluPdeIndex iel st Q
      (hel iel hlo hhi).1 hx ha htr hi hd hQ (hel iel hlo hhi).2
  rw [h'] at h1
  injection h1 with h1
  subst h1
  obtain ⟨_, r, sk, q2, q3, _, _, _, f1, f2, f3, q7⟩ := t6 k hk
  exact ⟨r, sk, _, q2, q3, f1, f2, f3, q7, Vec.ofFn_length _ _,
    fun i hi j hj => Vec.read_col_major _ (local_P msh soluType iel k) i j hi hj⟩

/-- C24 on the mesh of one triangle: the run returns two matrices, each with one block of
nine entries ordered by column; in the block of direction `0` the entry `(0, 1)`, at
position `3`, is `1/6` and the entry `(1, 0)`, at position `1`, is `−1/6`. -/
theorem BuidProjection_local_blocks_witness :
    (1 ≤ (oneTriangle ℚ).GetDimension ∧ (oneTriangle ℚ).GetDimension ≤ 3
      ∧ (emptyStack ℚ).independent_index = [] ∧ (emptyStack ℚ).dependent_index = []
      ∧ local_P (oneTriangle ℚ) 0 0 0 0 1 = 1 / 6
      ∧ local_P (oneTriangle ℚ) 0 0 0 1 0 = -1 / 6)
    ∧ ∃ s', BuidProjection (blockMatrix ℚ) (oneTriangleProblem ℚ) (emptyStack ℚ)
        = Except.ok (s', Vec.ofFn 2 (fun k =>
            (blockMatrix ℚ).close (assembled_P (blockMatrix ℚ) (oneTriangle ℚ)
              (oneTriangleSolver ℚ) 0 0 0 k 0 1 ((blockMatrix ℚ).zero [])))) :=
  ⟨⟨by decide, by decide, rfl, rfl, oneTriangle_local_entries.1,
      oneTriangle_local_entries.2.1⟩,
    (BuidProjection_local_blocks (blockMatrix ℚ) (oneTriangleProblem ℚ) (emptyStack ℚ)
      (fun _ => oneTriangleSystem ℚ) 0 0 (oneTriangle ℚ) (nodeNumberSolution ℚ)
      (oneTriangleSolver ℚ) 0 0 rfl rfl rfl rfl (by decide) (by decide)
      (fun _ _ => rfl) rfl rfl (fun iel _ _ => oneTriangle_evaluates ℚ iel) rfl rfl).1⟩

/-- C25: over the reals, when the unknown `"u"` is found, the dimension is at least `2` and,
for every element owned by a process, `nDofs ≤ nDofs2` and the shape evaluator returns:
`GetErrorNorm` returns the pair `(sqrt (Σ_r |s_r|), sqrt (Σ_r |g_r|))` over the process ranks
`r`, with `s_r = Σ_{owned el} Σ_ig (u_exact (x_ig) − u_h (x_ig))² · weight_ig` and
`g_r = Σ_{owned el} Σ_ig Σ_{j < dim} (∂_j u_h (x_ig) − ∂_j u_exact (x_ig))² · weight_ig`;
when all the weights are non-negative the absolute values change nothing, and both results
are square roots of the total sums, hence non-negative. -/
theorem GetErrorNorm_pair (acos cos sin : ℝ → ℝ) (mlSol : MultiLevelSolution ℝ)
    (soluIndex : Nat) (msh : Mesh ℝ) (sol : Solution ℝ) (soluType : Nat)
    (hmsh : msh = mlSol.mlMesh.GetLevel
      ((mlSol.mlMesh.GetNumberOfLevels + 4294967295) % 4294967296))
    (hsol : sol = mlSol.GetSolutionLevel
      ((mlSol.mlMesh.GetNumberOfLevels + 4294967295) % 4294967296))
    (htype : soluType = mlSol.GetSolutionType soluIndex)
    (hidx : mlSol.GetIndex "u" = Except.ok soluIndex)
    (hdim : 2 ≤ msh.GetDimension)
    (hel : ∀ r < msh.n_processors, ∀ iel, msh.elementOffset r ≤ iel →
      iel < msh.elementOffset (r + 1) →
      msh.GetElementDofNumber iel soluType ≤ msh.GetElementDofNumber iel 2
      ∧ msh.evaluates_xx soluType iel) :
    GetErrorNorm Real.sqrt acos cos sin mlSol
      = Except.ok
        (Real.sqrt (∑ r in Finset.range msh.n_processors,
          |rank_l2norm acos cos msh sol soluIndex soluType r|),
        Real.sqrt (∑ r in Finset.range msh.n_processors,
          |rank_seminorm acos cos sin msh sol soluIndex soluType r|))
    ∧ (∀ r, rank_l2norm acos cos msh sol soluIndex soluType r
        = ∑ iel in Finset.Ico (msh.elementOffset r) (msh.elementOffset (r + 1)),
          ∑ ig in Finset.range
              (msh.finiteElement (msh.GetElementType iel) soluType).GetGaussPointNumber,
            (exactSolValue acos cos (msh.x_at soluType iel ig 0) (msh.x_at soluType iel ig 1)
                - msh.solu_at sol soluIndex soluType iel ig)
              * (exactSolValue acos cos (msh.x_at soluType iel ig 0) (msh.x_at soluType iel ig 1)
                - msh.solu_at sol soluIndex soluType iel ig)
              * (msh.shape_xx soluType iel ig).Weight)
    ∧ (∀ r, rank_seminorm acos cos sin msh sol soluIndex soluType r
        = ∑ iel in Finset.Ico (msh.elementOffset r) (msh.elementOffset (r + 1)),
          ∑ ig in Finset.range
              (msh.finiteElement (msh.GetElementType iel) soluType).GetGaussPointNumber,
            ∑ j in Finset.range msh.GetDimension,
              ((msh.solu_x_at sol soluIndex soluType iel ig j
                  - exactSolGrad acos cos sin (msh.x_at soluType iel ig 0)
                      (msh.x_at soluType iel ig 1) j)
                * (msh.solu_x_at sol soluIndex soluType iel ig j
                  - exactSolGrad acos cos sin (msh.x_at soluType iel ig 0)
                      (msh.x_at soluType iel ig 1) j))
              * (msh.shape_xx soluType iel ig).Weight)
    ∧ (∀ x0 x1 : ℝ, ∀ rest : List ℝ,
        GetExactSolutionValue acos cos (x0 :: x1 :: rest)
          = Except.ok (exactSolValue acos cos x0 x1))
    ∧ ((∀ iel ig, 0 ≤ (msh.shape_xx soluType iel ig).Weight) →
        (∀ r, |rank_l2norm acos cos msh sol soluIndex soluType r|
            = rank_l2norm acos cos msh sol soluIndex soluType r
          ∧ |rank_seminorm acos cos sin msh sol soluIndex soluType r|
            = rank_seminorm acos cos sin msh sol soluIndex soluType r)
        ∧ GetErrorNorm Real.sqrt acos cos sin mlSol
          = Except.ok
            (Real.sqrt (∑ r in Finset.range msh.n_processors,
              rank_l2norm acos cos msh sol soluIndex soluType r),
            Real.sqrt (∑ r in Finset.range msh.n_processors,
              rank_seminorm acos cos sin msh sol soluIndex soluType r))
        ∧ 0 ≤ Real.sqrt (∑ r in Finset.range msh.n_processors,
              rank_l2norm acos cos msh sol soluIndex soluType r)
        ∧ 0 ≤ Real.sqrt (∑ r in Finset.range msh.n_processors,
              rank_seminorm acos cos sin msh sol soluIndex soluType r)) := by
  have hrun := GetErrorNorm_eq Real.sqrt acos cos sin mlSol soluIndex msh sol soluType hmsh hsol
    htype hidx hdim hel
  refine ⟨hrun, fun _ => rfl, fun _ => rfl,
    fun x0 x1 rest => GetExactSolutionValue_eq acos cos x0 x1 rest, ?_⟩
  intro hw
  have h1 : ∀ r, 0 ≤ rank_l2norm acos cos msh sol soluIndex soluType r := fun r =>
    Finset.sum_nonneg (fun iel _ =>
      element_l2norm_nonneg acos cos msh sol soluIndex soluType iel (hw iel))
  have h2 : ∀ r, 0 ≤ rank_seminorm acos cos sin msh sol soluIndex soluType r := fun r =>
    Finset.sum_nonneg (fun iel _ =>
      element_seminorm_nonneg acos cos sin msh sol soluIndex soluType iel (hw iel))
  refine ⟨fun r => ⟨abs_of_nonneg (h1 r), abs_of_nonneg (h2 r)⟩, ?_, Real.sqrt_nonneg _,
    Real.sqrt_nonneg _⟩
  rw [hrun]
  simp only [abs_of_nonneg (h1 _), abs_of_nonneg (h2 _)]

/-- C25 on the mesh of one triangle, with the identity for the three functions of
`<cmath>`. -/
theorem GetErrorNorm_pair_witness :
    (2 ≤ (oneTriangle ℝ).GetDimension
      ∧ (oneTriangleProblem ℝ).ml_sol.GetIndex "u" = Except.ok 0)
    ∧ GetErrorNorm Real.sqrt (fun x => x) (fun x => x) (fun x => x)
        (oneTriangleProblem ℝ).ml_sol
      = Except.ok
        (Real.sqrt (∑ r in Finset.range (oneTriangle ℝ).n_processors,
          |rank_l2norm (fun x => x) (fun x => x) (oneTriangle ℝ) (nodeNumberSolution ℝ) 0 0 r|),
        Real.sqrt (∑ r in Finset.range (oneTriangle ℝ).n_processors,
          |rank_seminorm (fun x => x) (fun x => x) (fun x => x) (oneTriangle ℝ)
            (nodeNumberSolution ℝ) 0 0 r|)) :=
  ⟨⟨Nat.le_refl 2, rfl⟩,
    (GetErrorNorm_pair (fun x => x) (fun x => x) (fun x => x) (oneTriangleProblem ℝ).ml_sol 0
      (oneTriangle ℝ) (nodeNumberSolution ℝ) 0 rfl rfl rfl rfl (Nat.le_refl 2)
      (fun _ _ iel _ _ => oneTriangle_evaluates_xx ℝ iel)).1⟩

/-- The recording of the element of a mesh whose only element has no DOF, from the state in
which `AssembleStandardProblem` enters its element loop: the element is not skipped.  The
blocked add of the residual is called, with an empty block and an empty DOF map; a recording
is started and the three temporaries of the only Gauss point are declared on the tape; both
registrations are called, with zero entries. -/
theorem AssembleStandardProblem_zero_dofs_counterexample :
    (emptyElementMesh ℚ).GetElementDofNumber 0 0 = 0
    ∧ (AssembleStandardProblem.record (fun x => x) (fun x => x) (fun x => x) (blockVector ℚ)
          (emptyElementMesh ℚ) (nodeNumberSolution ℚ) (oneTriangleSolver ℚ) 0 0 0 0
          ⟨emptyStack ℚ, [], [], [], List.replicate 2 [], [], [], [], 0, [], [], []⟩).map
        (fun st => (st.RES, st.KK, st.s.n_gradients_registered, st.s.recording,
          st.s.dependents_declared, st.s.independents_declared, st.s.dependent_index,
          st.s.independent_index))
      = Except.ok ([([], [])], [], 3, true, true, true, [], []) := by
  refine ⟨rfl, ?_⟩
  rfl

/-- C26, amended: `AssembleStandardProblem` has no guard on the local DOF count.  For an
element with `nDofs = 0` whose shape evaluator returns, in a state of the element loop (the
coordinate buffer has `dim` rows, `dim ≥ 2`, the unknowns and residuals of the state are on
the tape), the body of the element loop up to the extraction of the Jacobian returns like
for any other element: the blocked add of the residual is called with an empty block and an
empty DOF map, the matrix is not touched, the local vectors and the Jacobian buffer are
empty, a recording has been started and both registrations have been called, registering no
variable. -/
theorem AssembleStandardProblem_zero_dofs {V M : Type} [Field K] (acos cos sin : K → K)
    (RESops : NumericVector K V) (msh : Mesh K) (sol : Solution K)
    (pdeSys : LinearEquationSolver V M) (soluIndex soluType soluPdeIndex iel : Nat)
    (st : AssembleState K V M)
    (hzero : msh.GetElementDofNumber iel soluType = 0)
    (hdim : 2 ≤ msh.GetDimension)
    (hx : st.x.length = msh.GetDimension)
    (htr : st.s.tracks st.solu st.aRes)
    (hev : msh.evaluates soluType iel) :
    ∃ st1, AssembleStandardProblem.record acos cos sin RESops msh sol pdeSys soluIndex soluType
        soluPdeIndex iel st = Except.ok st1
      ∧ st1.RES = RESops.add_vector_blocked st.RES [] []
      ∧ st1.KK = st.KK
      ∧ st1.solu = [] ∧ st1.aRes = [] ∧ st1.sysDof = [] ∧ st1.Jac = []
      ∧ st1.s.recording = true
      ∧ st1.s.dependents_declared = true ∧ st1.s.independents_declared = true
      ∧ st1.s.dependent_index = st.s.dependent_index
      ∧ st1.s.independent_index = st.s.independent_index := by
  obtain ⟨st1, h1, r1, r2, r3, r4, _, r6, r7, _, r9, r10, _⟩ :=
    AssembleStandardProblem.record_spec acos cos sin RESops msh sol pdeSys soluIndex soluType
      soluPdeIndex iel st (msh.shape soluType iel)
      (fun ig i => msh.phi soluType iel ig i)
      (fun ig k => Vec.entry (msh.shape soluType iel ig).gradphi k)
      hdim hx htr
      (fun ig hig => (msh.shape_eq soluType iel hev ig hig).1)
      (fun ig hig i hi => msh.read_phi soluType iel hev ig hig i hi)
      (fun ig hig i hi jdim hj => msh.read_phi_x soluType iel hev ig hig i hi jdim hj)
  obtain ⟨f1, f2, f3⟩ := AssembleStandardProblem.record_sequence acos cos sin RESops msh sol
    pdeSys soluIndex soluType soluPdeIndex iel st st1 h1
  rw [hzero] at r2 r3 r4 r6 r7 r9 r10
  refine ⟨st1, h1, r2, r1, List.length_eq_zero.mp r6, List.length_eq_zero.mp r7, r3,
    List.length_eq_zero.mp r4, f1, f3, f2, ?_, ?_⟩
  · rw [r10]
    exact List.append_nil _
  · rw [r9]
    exact List.append_nil _

/-- C26, amended, on the mesh whose only element has no DOF, from the state in which
`AssembleStandardProblem` enters its element loop. -/
theorem AssembleStandardProblem_zero_dofs_witness :
    ((emptyElementMesh ℚ).GetElementDofNumber 0 0 = 0
      ∧ 2 ≤ (emptyElementMesh ℚ).GetDimension
      ∧ (List.replicate 2 ([] : List ℚ)).length = (emptyElementMesh ℚ).GetDimension
      ∧ (emptyStack ℚ).tracks [] []
      ∧ (emptyElementMesh ℚ).evaluates 0 0)
    ∧ ∃ st1, AssembleStandardProblem.record (fun x => x) (fun x => x) (fun x => x)
        (blockVector ℚ) (emptyElementMesh ℚ) (nodeNumberSolution ℚ) (oneTriangleSolver ℚ)
        0 0 0 0 ⟨emptyStack ℚ, [], [], [], List.replicate 2 [], [], [], [], 0, [], [], []⟩
          = Except.ok st1
      ∧ st1.RES = [([], [])]
      ∧ st1.KK = []
      ∧ st1.solu = [] ∧ st1.aRes = [] ∧ st1.sysDof = [] ∧ st1.Jac = []
      ∧ st1.s.recording = true
      ∧ st1.s.dependents_declared = true ∧ st1.s.independents_declared = true
      ∧ st1.s.dependent_index = []
      ∧ st1.s.independent_index = [] :=
  ⟨⟨rfl, by decide, rfl,
      ⟨fun _ h => absurd h (Nat.not_lt_zero _), fun _ h => absurd h (Nat.not_lt_zero _),
        fun _ h => absurd h (Nat.not_lt_zero _), fun _ h => absurd h (Nat.not_lt_zero _),
        fun _ h => absurd h (Nat.not_lt_zero _)⟩,
      fun _ _ => ⟨_, rfl, Nat.zero_le _, Nat.zero_le _⟩⟩,
    AssembleStandardProblem_zero_dofs (fun x => x) (fun x => x) (fun x => x) (blockVector ℚ)
      (emptyElementMesh ℚ) (nodeNumberSolution ℚ) (oneTriangleSolver ℚ) 0 0 0 0
      ⟨emptyStack ℚ, [], [], [], List.replicate 2 [], [], [], [], 0, [], [], []⟩
      rfl (by decide)
      rfl
      ⟨fun _ h => absurd h (Nat.not_lt_zero _), fun _ h => absurd h (Nat.not_lt_zero _),
        fun _ h => absurd h (Nat.not_lt_zero _), fun _ h => absurd h (Nat.not_lt_zero _),
        fun _ h => absurd h (Nat.not_lt_zero _)⟩
      (fun _ _ => ⟨_, rfl, Nat.zero_le _, Nat.zero_le _⟩)⟩

/-- C27: the `(2,3)` specialisation called with `dim = 2`, `space_dim = 2` returns `2 × 2`
matrices `Jac` and `JacI`, and whenever `Jac00 · Jac11 − Jac01 · Jac10 ≠ 0` the returned
`JacI`, which is `Jacᵗ · (Jac · Jacᵗ)⁻¹`, has the entries of the closed cofactor inverse
`(1 / det Jac) · [[Jac11, −Jac01], [−Jac10, Jac00]]`. -/
theorem Jacobian_geometry_templ_2_3_planar_inverse [LinearOrderedField K] (sqrt : K → K)
    (e : elem_type K) (vt : Mat K) (ig : Nat) (Jac JacI : Mat K)
    (hvt : Mat.hasShape 2 e._nc vt) :
    ∃ out, Jacobian_geometry_templ_2_3 sqrt e vt ig Jac JacI 2 2 = Except.ok out
      ∧ Mat.hasShape 2 2 out.Jac ∧ Mat.hasShape 2 2 out.JacI
      ∧ (det_2_2 (Mat.entry out.Jac) ≠ 0 →
        Mat.toMatrix 2 2 out.JacI
          = (Mat.toMatrix 2 2 out.Jac).transpose
            * (Mat.toMatrix 2 2 out.Jac * (Mat.toMatrix 2 2 out.Jac).transpose)⁻¹
        ∧ ∀ i < 2, ∀ j < 2,
          Mat.entry out.JacI i j = cofactor_inverse_2_2 (Mat.entry out.Jac) i j) := by
  have hc := Mat.covers_of_hasShape 2 e._nc vt hvt
  refine ⟨_, Jacobian_geometry_templ_2_3_eq sqrt e vt ig Jac JacI 2 hc,
    Mat.hasShape_ofFn 2 2 _, Mat.hasShape_ofFn 2 2 _, ?_⟩
  intro hdet
  simp only [] at hdet ⊢
  rw [det_2_2_ofFn] at hdet
  have hd2 : detJacJacT_2_3 e vt ig 2 ≠ 0 := by
    rw [detJacJacT_2_3_planar]
    exact pow_ne_zero 2 hdet
  refine ⟨(pseudo_inverse_2_3 e vt ig 2 hd2).1, ?_⟩
  intro i hi j hj
  rw [Mat.entry_ofFn 2 2 _ i j hi hj, cofactor_inverse_2_2_ofFn]
  exact JacI_2_3_planar e vt ig hdet i j hi hj

/-- C27 at the triangle with nodes `(0,0)`, `(2,0)`, `(1,3)`, where `det Jac = 6`. -/
theorem Jacobian_geometry_templ_2_3_planar_inverse_witness :
    Mat.hasShape 2 (tri3 ℚ)._nc (skewTri ℚ)
    ∧ ∃ out, Jacobian_geometry_templ_2_3 (fun x => x) (tri3 ℚ) (skewTri ℚ) 0 [] [] 2 2
        = Except.ok out
      ∧ Mat.hasShape 2 2 out.Jac ∧ Mat.hasShape 2 2 out.JacI
      ∧ det_2_2 (Mat.entry out.Jac) ≠ 0
      ∧ Mat.toMatrix 2 2 out.JacI
          = (Mat.toMatrix 2 2 out.Jac).transpose
            * (Mat.toMatrix 2 2 out.Jac * (Mat.toMatrix 2 2 out.Jac).transpose)⁻¹
      ∧ ∀ i < 2, ∀ j < 2,
          Mat.entry out.JacI i j = cofactor_inverse_2_2 (Mat.entry out.Jac) i j := by
  obtain ⟨out, hout, hs1, hs2, h⟩ := Jacobian_geometry_templ_2_3_planar_inverse (fun x => x)
    (tri3 ℚ) (skewTri ℚ) 0 [] [] (hasShape_skewTri ℚ)
  have hdet : det_2_2 (Mat.entry out.Jac) ≠ 0 := by
    have h2 := Jacobian_geometry_templ_2_3_eq (fun x => x) (tri3 ℚ) (skewTri ℚ) 0 [] [] 2
      (Mat.covers_of_hasShape 2 _ _ (hasShape_skewTri ℚ))
    rw [hout] at h2
    injection h2 with h2
    rw [h2]
    simp only []
    rw [det_2_2_ofFn, det_2_2_skewTri]
    norm_num
  exact ⟨hasShape_skewTri ℚ, out, hout, hs1, hs2, hdet, h hdet⟩

/-- C28 fails as stated: for the triangle with nodes `(0,0)`, `(0,1)`, `(1,0)` the `(2,3)`
specialisation called with `dim = 2`, `space_dim = 2` returns `detJac = 1`, while
`Jac00 · Jac11 − Jac01 · Jac10 = −1`. -/
theorem planar_detJac_signed_counterexample :
    ∃ out, Jacobian_geometry_templ_2_3 Real.sqrt (tri3 ℝ) (mirroredTri ℝ) 0 [] [] 2 2
        = Except.ok out
      ∧ out.detJac = 1 ∧ det_2_2 (Mat.entry out.Jac) = -1
      ∧ out.detJac ≠ det_2_2 (Mat.entry out.Jac) := by
  refine ⟨_, Jacobian_geometry_templ_2_3_eq Real.sqrt (tri3 ℝ) (mirroredTri ℝ) 0 [] [] 2
    (Mat.covers_of_hasShape 2 _ _ (hasShape_mirroredTri ℝ)), ?_, ?_, ?_⟩
  · simp only []
    rw [detJacJacT_2_3_planar, det_2_2_mirroredTri]
    norm_num
  · simp only []
    rw [det_2_2_ofFn, det_2_2_mirroredTri]
  · simp only []
    rw [det_2_2_ofFn, detJacJacT_2_3_planar, det_2_2_mirroredTri]
    norm_num

/-- C28 as amended: over the reals, the `(2,3)` specialisation called with `dim = 2`,
`space_dim = 2` returns for every input the absolute value of the `2 × 2` determinant,
`detJac = |Jac00 · Jac11 − Jac01 · Jac10|`. -/
theorem Jacobian_geometry_templ_2_3_planar_detJac (e : elem_type ℝ) (vt : Mat ℝ) (ig : Nat)
    (Jac JacI : Mat ℝ) (hvt : Mat.hasShape 2 e._nc vt) :
    ∃ out, Jacobian_geometry_templ_2_3 Real.sqrt e vt ig Jac JacI 2 2 = Except.ok out
      ∧ Mat.hasShape 2 2 out.Jac
      ∧ out.detJac = |det_2_2 (Mat.entry out.Jac)| := by
  refine ⟨_, Jacobian_geometry_templ_2_3_eq Real.sqrt e vt ig Jac JacI 2
    (Mat.covers_of_hasShape 2 e._nc vt hvt), Mat.hasShape_ofFn 2 2 _, ?_⟩
  simp only []
  rw [det_2_2_ofFn, detJacJacT_2_3_planar, abs_of_nonneg (sq_nonneg _), Real.sqrt_sq_eq_abs]

/-- The amended C28 at the triangle with nodes `(0,0)`, `(0,1)`, `(1,0)`. -/
theorem Jacobian_geometry_templ_2_3_planar_detJac_witness :
    Mat.hasShape 2 (tri3 ℝ)._nc (mirroredTri ℝ)
    ∧ ∃ out, Jacobian_geometry_templ_2_3 Real.sqrt (tri3 ℝ) (mirroredTri ℝ) 0 [] [] 2 2
        = Except.ok out
      ∧ Mat.hasShape 2 2 out.Jac
      ∧ out.detJac = |det_2_2 (Mat.entry out.Jac)| :=
  ⟨hasShape_mirroredTri ℝ, Jacobian_geometry_templ_2_3_planar_detJac (tri3 ℝ) (mirroredTri ℝ) 0
    [] [] (hasShape_mirroredTri ℝ)⟩

/-- C29: over the reals, with the functions of `<cmath>`: at every point `(x, y)`
`GetExactSolutionValue` returns `cos (π x) · cos (π y)`, `GetExactSolutionGradient` writes
the two partial derivatives of that function into `solGrad`, and `GetExactSolutionLaplace`
returns the sum of its two second partial derivatives, which is `−2 π²` times the value; so
the opposite of the returned Laplacian is `−Δu_e`. -/
theorem GetExactSolution_consistent (x y : ℝ) (rest : List ℝ) (g0 g1 : ℝ) (gs : List ℝ) :
    (∀ a b : ℝ, GetExactSolutionValue Real.arccos Real.cos (a :: b :: rest)
      = Except.ok (Real.cos (Real.pi * a) * Real.cos (Real.pi * b)))
    ∧ (∃ ux uy : ℝ,
      GetExactSolutionGradient Real.arccos Real.cos Real.sin (x :: y :: rest) (g0 :: g1 :: gs)
        = Except.ok (ux :: uy :: gs)
      ∧ HasDerivAt (fun t : ℝ => Real.cos (Real.pi * t) * Real.cos (Real.pi * y)) ux x
      ∧ HasDerivAt (fun t : ℝ => Real.cos (Real.pi * x) * Real.cos (Real.pi * t)) uy y)
    ∧ (∀ a b : ℝ,
      GetExactSolutionGradient Real.arccos Real.cos Real.sin (a :: b :: rest) (g0 :: g1 :: gs)
        = Except.ok (-Real.pi * Real.sin (Real.pi * a) * Real.cos (Real.pi * b)
          :: -Real.pi * Real.cos (Real.pi * a) * Real.sin (Real.pi * b) :: gs))
    ∧ (∃ lap uxx uyy : ℝ,
      GetExactSolutionLaplace Real.arccos Real.cos (x :: y :: rest) = Except.ok lap
      ∧ HasDerivAt (fun t : ℝ => -Real.pi * Real.sin (Real.pi * t) * Real.cos (Real.pi * y))
          uxx x
      ∧ HasDerivAt (fun t : ℝ => -Real.pi * Real.cos (Real.pi * x) * Real.sin (Real.pi * t))
          uyy y
      ∧ lap = uxx + uyy
      ∧ lap = -2 * Real.pi ^ 2 * (Real.cos (Real.pi * x) * Real.cos (Real.pi * y))
      ∧ -lap = -(uxx + uyy)) := by
  refine ⟨?_, ?_, ?_, ?_⟩
  · intro a b
    rw [GetExactSolutionValue_eq, Real.arccos_neg_one]
  · refine ⟨-Real.pi * Real.sin (Real.pi * x) * Real.cos (Real.pi * y),
      -Real.pi * Real.cos (Real.pi * x) * Real.sin (Real.pi * y), ?_, ?_, ?_⟩
    · rw [GetExactSolutionGradient_eq, Real.arccos_neg_one]
    · exact (hasDerivAt_cos_pi x).mul_const _
    · have h := (hasDerivAt_cos_pi y).const_mul (Real.cos (Real.pi * x))
      convert h using 1
      ring
  · intro a b
    rw [GetExactSolutionGradient_eq, Real.arccos_neg_one]
  · refine ⟨-2 * Real.pi * Real.pi * Real.cos (Real.pi * x) * Real.cos (Real.pi * y),
      -Real.pi * (Real.pi * Real.cos (Real.pi * x)) * Real.cos (Real.pi * y),
      -Real.pi * Real.cos (Real.pi * x) * (Real.pi * Real.cos (Real.pi * y)), ?_, ?_, ?_, ?_, ?_,
      ?_⟩
    · rw [GetExactSolutionLaplace_eq, Real.arccos_neg_one]
    · exact ((hasDerivAt_sin_pi x).const_mul (-Real.pi)).mul_const _
    · exact (hasDerivAt_sin_pi y).const_mul (-Real.pi * Real.cos (Real.pi * x))
    · ring
    · ring
    · ring

/-- C30: over the reals, for every `1 × 3` matrix `Jac` with `Jac[0][2] = 0` and a non-zero
tangent, the `(1,3)` `compute_normal` returns a vector of Euclidean norm `1`, with zero dot
product with the tangent `Jac[0]` and with zero third component. -/
theorem compute_normal_1_3_planar (Jac : Mat ℝ) (normal : List ℝ)
    (hJ : Mat.hasShape 1 3 Jac) (hz : Mat.entry Jac 0 2 = 0)
    (ht : ∃ d < 3, Mat.entry Jac 0 d ≠ 0) :
    ∃ n0 n1 n2 : ℝ, compute_normal_1_3 Real.sqrt Jac normal = Except.ok [n0, n1, n2]
      ∧ Real.sqrt (n0 ^ 2 + n1 ^ 2 + n2 ^ 2) = 1
      ∧ n0 * Mat.entry Jac 0 0 + n1 * Mat.entry Jac 0 1 + n2 * Mat.entry Jac 0 2 = 0
      ∧ n2 = 0 := by
  refine ⟨_, _, _, compute_normal_1_3_eq Real.sqrt Jac normal hJ, ?_, by ring, rfl⟩
  apply (normal_1_3_norm _ _ _ _).mpr hz
  obtain ⟨d, hd, hne⟩ := ht
  interval_cases d
  · exact Or.inl hne
  · exact Or.inr (Or.inl hne)
  · exact Or.inr (Or.inr hne)

/-- C30 at the tangent `(3, 4, 0)`. -/
theorem compute_normal_1_3_planar_witness :
    (Mat.hasShape 1 3 (planarTangent ℝ) ∧ Mat.entry (planarTangent ℝ) 0 2 = 0
      ∧ ∃ d < 3, Mat.entry (planarTangent ℝ) 0 d ≠ 0)
    ∧ ∃ n0 n1 n2 : ℝ, compute_normal_1_3 Real.sqrt (planarTangent ℝ) [] = Except.ok [n0, n1, n2]
      ∧ Real.sqrt (n0 ^ 2 + n1 ^ 2 + n2 ^ 2) = 1
      ∧ n0 * Mat.entry (planarTangent ℝ) 0 0 + n1 * Mat.entry (planarTangent ℝ) 0 1
          + n2 * Mat.entry (planarTangent ℝ) 0 2 = 0
      ∧ n2 = 0 :=
  ⟨⟨hasShape_planarTangent ℝ, (entry_planarTangent ℝ).2.2, tangent_planarTangent⟩,
    compute_normal_1_3_planar (planarTangent ℝ) [] (hasShape_planarTangent ℝ)
      (entry_planarTangent ℝ).2.2 tangent_planarTangent⟩

/-- C32: translation invariance.  For each specialisation `(D,3)`, if every reference
derivative row `r < D` at `ig` sums to zero over the nodes and the nodes `vt'` are the nodes
`vt` moved by the same vector `c` (`vt'[d][i] = vt[d][i] + c_d`), then the run on `vt'`
returns the same `Jac`, `JacI` and `detJac` as the run on `vt`. -/
theorem Jacobian_geometry_templ_translation [LinearOrderedField K] (sqrt : K → K)
    (e : elem_type K) (vt vt' : Mat K) (ig : Nat) (Jac JacI : Mat K) (c : Nat → K)
    (hvt : Mat.hasShape 3 e._nc vt) (hvt' : Mat.hasShape 3 e._nc vt')
    (hshift : ∀ d < 3, ∀ i < e._nc, Mat.entry vt' d i = Mat.entry vt d i + c d) :
    ((∀ r < 1, ∑ inode in Finset.range e._nc, e.dphi r ig inode = 0) →
      ∃ out, Jacobian_geometry_templ_1_3 sqrt e vt ig Jac JacI 1 3 = Except.ok out
        ∧ Jacobian_geometry_templ_1_3 sqrt e vt' ig Jac JacI 1 3 = Except.ok out)
    ∧ ((∀ r < 2, ∑ inode in Finset.range e._nc, e.dphi r ig inode = 0) →
      ∃ out, Jacobian_geometry_templ_2_3 sqrt e vt ig Jac JacI 2 3 = Except.ok out
        ∧ Jacobian_geometry_templ_2_3 sqrt e vt' ig Jac JacI 2 3 = Except.ok out)
    ∧ ((∀ r < 3, ∑ inode in Finset.range e._nc, e.dphi r ig inode = 0) →
      ∃ out, Jacobian_geometry_templ_3_3 e vt ig Jac JacI 3 3 = Except.ok out
        ∧ Jacobian_geometry_templ_3_3 e vt' ig Jac JacI 3 3 = Except.ok out) := by
  have hc := Mat.covers_of_hasShape 3 e._nc vt hvt
  have hc' := Mat.covers_of_hasShape 3 e._nc vt' hvt'
  refine ⟨fun hsum => ?_, fun hsum => ?_, fun hsum => ?_⟩
  · refine ⟨_, Jacobian_geometry_templ_1_3_eq sqrt e vt ig Jac JacI 3 hc, ?_⟩
    rw [Jacobian_geometry_templ_1_3_congr sqrt e vt vt' ig Jac JacI hc hc'
      (fun d hd => JacSum_translate e vt vt' ig 0 d (c d) (hsum 0 (by omega)) (hshift d hd))]
    exact Jacobian_geometry_templ_1_3_eq sqrt e vt ig Jac JacI 3 hc
  · refine ⟨_, Jacobian_geometry_templ_2_3_eq sqrt e vt ig Jac JacI 3 hc, ?_⟩
    rw [Jacobian_geometry_templ_2_3_congr sqrt e vt vt' ig Jac JacI hc hc'
      (fun r hr d hd => JacSum_translate e vt vt' ig r d (c d) (hsum r hr) (hshift d hd))]
    exact Jacobian_geometry_templ_2_3_eq sqrt e vt ig Jac JacI 3 hc
  · refine ⟨_, Jacobian_geometry_templ_3_3_eq e vt ig Jac JacI hc, ?_⟩
    rw [Jacobian_geometry_templ_3_3_congr e vt vt' ig Jac JacI hc hc'
      (fun r hr d hd => JacSum_translate e vt vt' ig r d (c d) (hsum r hr) (hshift d hd))]
    exact Jacobian_geometry_templ_3_3_eq e vt ig Jac JacI hc

/-- C32 at the reference tetrahedron moved by `(1, 2, 3)`, whose three reference derivative
rows sum to zero. -/
theorem Jacobian_geometry_templ_translation_witness :
    (Mat.hasShape 3 (tet4 ℚ)._nc (refTet ℚ) ∧ Mat.hasShape 3 (tet4 ℚ)._nc (shiftedTet ℚ)
      ∧ (∀ d < 3, ∀ i < (tet4 ℚ)._nc,
          Mat.entry (shiftedTet ℚ) d i = Mat.entry (refTet ℚ) d i + ((d : ℚ) + 1))
      ∧ ∀ r < 3, ∑ inode in Finset.range (tet4 ℚ)._nc, (tet4 ℚ).dphi r 0 inode = 0)
    ∧ ∃ out, Jacobian_geometry_templ_3_3 (tet4 ℚ) (refTet ℚ) 0 [] [] 3 3 = Except.ok out
        ∧ Jacobian_geometry_templ_3_3 (tet4 ℚ) (shiftedTet ℚ) 0 [] [] 3 3 = Except.ok out :=
  ⟨⟨hasShape_refTet ℚ, hasShape_shiftedTet ℚ, shiftedTet_entries ℚ, dphi_sum_tet4 ℚ⟩,
    (Jacobian_geometry_templ_translation (fun x => x) (tet4 ℚ) (refTet ℚ) (shiftedTet ℚ) 0 [] []
      (fun d => (d : ℚ) + 1) (hasShape_refTet ℚ) (hasShape_shiftedTet ℚ)
      (shiftedTet_entries ℚ)).2.2 (dphi_sum_tet4 ℚ)⟩

/-- C33: scaling homogeneity, over the reals.  For each specialisation `(D,3)` and every
factor `s > 0`, when the nodes `vt'` are the nodes `vt` times `s`, the runs on `vt` and on
`vt'` return matrices `Jac` of `D` rows of `3` entries and `JacI` of `3` rows of `D` entries,
with `Jac[r][d] = Σ_{inode < _nc} (∂φ_inode/∂ξ_r at ig) · vt[d][inode]` on `vt`; the entries
of `Jac` are multiplied by `s`, `detJac` is multiplied by `s ^ D` and, when the element is
not degenerate (`detJac ≠ 0` on `vt`), `JacI` is a right inverse of `Jac` and its entries are
multiplied by `1 / s`. -/
theorem Jacobian_geometry_templ_scaling (e : elem_type ℝ) (vt vt' : Mat ℝ) (ig : Nat)
    (Jac JacI : Mat ℝ) (s : ℝ) (hs : 0 < s)
    (hvt : Mat.hasShape 3 e._nc vt) (hvt' : Mat.hasShape 3 e._nc vt')
    (hscale : ∀ d < 3, ∀ i < e._nc, Mat.entry vt' d i = s * Mat.entry vt d i) :
    (∃ out out', Jacobian_geometry_templ_1_3 Real.sqrt e vt ig Jac JacI 1 3 = Except.ok out
      ∧ Jacobian_geometry_templ_1_3 Real.sqrt e vt' ig Jac JacI 1 3 = Except.ok out'
      ∧ Mat.hasShape 1 3 out.Jac ∧ Mat.hasShape 1 3 out'.Jac
      ∧ Mat.hasShape 3 1 out.JacI ∧ Mat.hasShape 3 1 out'.JacI
      ∧ (∀ r < 1, ∀ d < 3, Mat.read out.Jac r d
          = Except.ok (∑ inode in Finset.range e._nc, e.dphi r ig inode * Mat.entry vt d inode))
      ∧ (∀ r < 1, ∀ d < 3, Mat.read out'.Jac r d = Except.ok (s * Mat.entry out.Jac r d))
      ∧ (∀ r < 1, ∀ d < 3, Mat.entry out'.Jac r d = s * Mat.entry out.Jac r d)
      ∧ out'.detJac = s ^ 1 * out.detJac
      ∧ (out.detJac ≠ 0 →
          ∑ d in Finset.range 3, Mat.entry out.Jac 0 d * Mat.entry out.JacI d 0 = 1
          ∧ (∀ d < 3, ∀ r < 1, Mat.read out'.JacI d r
              = Except.ok (1 / s * Mat.entry out.JacI d r))
          ∧ ∀ d < 3, ∀ r < 1, Mat.entry out'.JacI d r = 1 / s * Mat.entry out.JacI d r))
    ∧ (∃ out out', Jacobian_geometry_templ_2_3 Real.sqrt e vt ig Jac JacI 2 3 = Except.ok out
      ∧ Jacobian_geometry_templ_2_3 Real.sqrt e vt' ig Jac JacI 2 3 = Except.ok out'
      ∧ Mat.hasShape 2 3 out.Jac ∧ Mat.hasShape 2 3 out'.Jac
      ∧ Mat.hasShape 3 2 out.JacI ∧ Mat.hasShape 3 2 out'.JacI
      ∧ (∀ r < 2, ∀ d < 3, Mat.read out.Jac r d
          = Except.ok (∑ inode in Finset.range e._nc, e.dphi r ig inode * Mat.entry vt d inode))
      ∧ (∀ r < 2, ∀ d < 3, Mat.read out'.Jac r d = Except.ok (s * Mat.entry out.Jac r d))
      ∧ (∀ r < 2, ∀ d < 3, Mat.entry out'.Jac r d = s * Mat.entry out.Jac r d)
      ∧ out'.detJac = s ^ 2 * out.detJac
      ∧ (out.detJac ≠ 0 →
          Mat.toMatrix 2 3 out.Jac * Mat.toMatrix 3 2 out.JacI = 1
          ∧ (∀ d < 3, ∀ r < 2, Mat.read out'.JacI d r
              = Except.ok (1 / s * Mat.entry out.JacI d r))
          ∧ ∀ d < 3, ∀ r < 2, Mat.entry out'.JacI d r = 1 / s * Mat.entry out.JacI d r))
    ∧ (∃ out out', Jacobian_geometry_templ_3_3 e vt ig Jac JacI 3 3 = Except.ok out
      ∧ Jacobian_geometry_templ_3_3 e vt' ig Jac JacI 3 3 = Except.ok out'
      ∧ Mat.hasShape 3 3 out.Jac ∧ Mat.hasShape 3 3 out'.Jac
      ∧ Mat.hasShape 3 3 out.JacI ∧ Mat.hasShape 3 3 out'.JacI
      ∧ (∀ r < 3, ∀ d < 3, Mat.read out.Jac r d
          = Except.ok (∑ inode in Finset.range e._nc, e.dphi r ig inode * Mat.entry vt d inode))
      ∧ (∀ r < 3, ∀ d < 3, Mat.read out'.Jac r d = Except.ok (s * Mat.entry out.Jac r d))
      ∧ (∀ r < 3, ∀ d < 3, Mat.entry out'.Jac r d = s * Mat.entry out.Jac r d)
      ∧ out'.detJac = s ^ 3 * out.detJac
      ∧ (out.detJac ≠ 0 →
          Mat.toMatrix 3 3 out.Jac * Mat.toMatrix 3 3 out.JacI = 1
          ∧ (∀ d < 3, ∀ r < 3, Mat.read out'.JacI d r
              = Except.ok (1 / s * Mat.entry out.JacI d r))
          ∧ ∀ d < 3, ∀ r < 3, Mat.entry out'.JacI d r = 1 / s * Mat.entry out.JacI d r)) := by
  have hc := Mat.covers_of_hasShape 3 e._nc vt hvt
  have hc' := Mat.covers_of_hasShape 3 e._nc vt' hvt'
  have hJ : ∀ r d, d < 3 → JacSum e vt' ig r d = s * JacSum e vt ig r d :=
    fun r d hd => JacSum_scale e vt vt' ig r d s (hscale d hd)
  have hs0 : s ≠ 0 := ne_of_gt hs
  have hshape : ∀ (r c : Nat) (f : Nat → Nat → ℝ), Mat.hasShape r c (Mat.ofFn r c f) :=
    fun r c f => Mat.hasShape_ofFn r c f
  refine ⟨⟨_, _, Jacobian_geometry_templ_1_3_eq Real.sqrt e vt ig Jac JacI 3 hc,
      Jacobian_geometry_templ_1_3_eq Real.sqrt e vt' ig Jac JacI 3 hc',
      hshape _ _ _, hshape _ _ _, hshape _ _ _, hshape _ _ _,
      fun r hr d hd => Mat.read_ofFn 1 3 _ r d hr hd, ?_, ?_, ?_, ?_⟩,
    ⟨_, _, Jacobian_geometry_templ_2_3_eq Real.sqrt e vt ig Jac JacI 3 hc,
      Jacobian_geometry_templ_2_3_eq Real.sqrt e vt' ig Jac JacI 3 hc',
      hshape _ _ _, hshape _ _ _, hshape _ _ _, hshape _ _ _,
      fun r hr d hd => Mat.read_ofFn 2 3 _ r d hr hd, ?_, ?_, ?_, ?_⟩,
    ⟨_, _, Jacobian_geometry_templ_3_3_eq e vt ig Jac JacI hc,
      Jacobian_geometry_templ_3_3_eq e vt' ig Jac JacI hc',
      hshape _ _ _, hshape _ _ _, hshape _ _ _, hshape _ _ _,
      fun r hr d hd => Mat.read_ofFn 3 3 _ r d hr hd, ?_, ?_, ?_, ?_⟩⟩
  · intro r hr d hd
    simp only [Mat.read_ofFn 1 3 _ r d hr hd, Mat.entry_ofFn 1 3 _ r d hr hd]
    rw [hJ r d hd]
  · intro r hr d hd
    simp only [Mat.entry_ofFn 1 3 _ r d hr hd]
    exact hJ r d hd
  · simp only []
    rw [JacJacT_1_3_scale e vt vt' ig s (fun d hd => hJ 0 d hd), sqrt_scale_sq _ _ hs, pow_one]
  · intro hdet
    simp only [] at hdet
    have hQ : JacJacT_1_3 e vt ig 3 ≠ 0 := by
      intro h0
      apply hdet
      rw [h0, Real.sqrt_zero]
    have hI : ∀ d < 3, ∀ r < 1, Mat.entry (Mat.ofFn 3 1
        (fun d _ => JacSum e vt' ig 0 d * 1 / JacJacT_1_3 e vt' ig 3)) d r
          = 1 / s * Mat.entry (Mat.ofFn 3 1
        (fun d _ => JacSum e vt ig 0 d * 1 / JacJacT_1_3 e vt ig 3)) d r := by
      intro d hd r hr
      simp only [Mat.entry_ofFn 3 1 _ d r hd hr]
      rw [JacJacT_1_3_scale e vt vt' ig s (fun d hd => hJ 0 d hd), hJ 0 d hd]
      field_simp
      ring
    refine ⟨?_, ?_, hI⟩
    · simp only [Finset.sum_range_succ, Finset.sum_range_zero, zero_add,
        Mat.entry_ofFn 1 3 _ 0 0 (by omega) (by omega),
        Mat.entry_ofFn 1 3 _ 0 1 (by omega) (by omega),
        Mat.entry_ofFn 1 3 _ 0 2 (by omega) (by omega),
        Mat.entry_ofFn 3 1 _ 0 0 (by omega) (by omega),
        Mat.entry_ofFn 3 1 _ 1 0 (by omega) (by omega),
        Mat.entry_ofFn 3 1 _ 2 0 (by omega) (by omega)]
      have hQ' : JacSum e vt ig 0 0 * JacSum e vt ig 0 0 + JacSum e vt ig 0 1 * JacSum e vt ig 0 1
          + JacSum e vt ig 0 2 * JacSum e vt ig 0 2 ≠ 0 := by
        have h := hQ
        simp only [JacJacT_1_3, Finset.sum_range_succ, Finset.sum_range_zero, zero_add] at h
        exact h
      simp only [JacJacT_1_3, Finset.sum_range_succ, Finset.sum_range_zero, zero_add]
      field_simp
    · intro d hd r hr
      rw [← hI d hd r hr, Mat.read_ofFn 3 1 _ d r hd hr, Mat.entry_ofFn 3 1 _ d r hd hr]
  · intro r hr d hd
    simp only [Mat.read_ofFn 2 3 _ r d hr hd, Mat.entry_ofFn 2 3 _ r d hr hd]
    rw [hJ r d hd]
  · intro r hr d hd
    simp only [Mat.entry_ofFn 2 3 _ r d hr hd]
    exact hJ r d hd
  · simp only []
    rw [detJacJacT_2_3_scale e vt vt' ig s (fun r _ d hd => hJ r d hd), sqrt_abs_scale_four]
  · intro hdet
    simp only [] at hdet
    have hQ : detJacJacT_2_3 e vt ig 3 ≠ 0 := by
      intro h0
      apply hdet
      rw [h0, abs_zero, Real.sqrt_zero]
    have hI : ∀ d < 3, ∀ r < 2, Mat.entry (Mat.ofFn 3 2 (JacI_2_3 e vt' ig 3)) d r
        = 1 / s * Mat.entry (Mat.ofFn 3 2 (JacI_2_3 e vt ig 3)) d r := by
      intro d hd r hr
      simp only [Mat.entry_ofFn 3 2 _ d r hd hr]
      exact JacI_2_3_scale e vt vt' ig s hs0 hQ (fun r _ d hd => hJ r d hd) d r hd hr
    refine ⟨(pseudo_inverse_2_3 e vt ig 3 hQ).2, ?_, hI⟩
    intro d hd r hr
    rw [← hI d hd r hr, Mat.read_ofFn 3 2 _ d r hd hr, Mat.entry_ofFn 3 2 _ d r hd hr]
  · intro r hr d hd
    simp only [Mat.read_ofFn 3 3 _ r d hr hd, Mat.entry_ofFn 3 3 _ r d hr hd]
    rw [hJ r d hd]
  · intro r hr d hd
    simp only [Mat.entry_ofFn 3 3 _ r d hr hd]
    exact hJ r d hd
  · exact detJac_3_3_scale _ _ s (fun r _ d hd => hJ r d hd)
  · intro hdet
    have hI : ∀ d < 3, ∀ r < 3, Mat.entry (Mat.ofFn 3 3 (JacI_3_3 (JacSum e vt' ig))) d r
        = 1 / s * Mat.entry (Mat.ofFn 3 3 (JacI_3_3 (JacSum e vt ig))) d r := by
      intro d hd r hr
      simp only [Mat.entry_ofFn 3 3 _ d r hd hr]
      exact JacI_3_3_scale _ _ s hs0 hdet (fun r _ d hd => hJ r d hd) d r hd hr
    refine ⟨(inverse_3_3 (JacSum e vt ig) hdet).1, ?_, hI⟩
    intro d hd r hr
    rw [← hI d hd r hr, Mat.read_ofFn 3 3 _ d r hd hr, Mat.entry_ofFn 3 3 _ d r hd hr]

/-- C33 at the reference tetrahedron scaled by `2`, for the `(3,3)` specialisation: `detJac`
is `1` on the reference tetrahedron, so the element is not degenerate, `detJac` is `8` on the
scaled one and the entries of `JacI` are halved. -/
theorem Jacobian_geometry_templ_scaling_witness :
    ((0 : ℝ) < 2 ∧ Mat.hasShape 3 (tet4 ℝ)._nc (refTet ℝ)
      ∧ Mat.hasShape 3 (tet4 ℝ)._nc (scaledTet ℝ)
      ∧ ∀ d < 3, ∀ i < (tet4 ℝ)._nc,
          Mat.entry (scaledTet ℝ) d i = 2 * Mat.entry (refTet ℝ) d i)
    ∧ ∃ out out', Jacobian_geometry_templ_3_3 (tet4 ℝ) (refTet ℝ) 0 [] [] 3 3 = Except.ok out
      ∧ Jacobian_geometry_templ_3_3 (tet4 ℝ) (scaledTet ℝ) 0 [] [] 3 3 = Except.ok out'
      ∧ Mat.hasShape 3 3 out.Jac ∧ Mat.hasShape 3 3 out'.Jac
      ∧ Mat.hasShape 3 3 out.JacI ∧ Mat.hasShape 3 3 out'.JacI
      ∧ (∀ r < 3, ∀ d < 3, Mat.read out'.Jac r d = Except.ok (2 * Mat.entry out.Jac r d))
      ∧ out.detJac = 1 ∧ out.detJac ≠ 0
      ∧ out'.detJac = 2 ^ 3 * out.detJac
      ∧ Mat.toMatrix 3 3 out.Jac * Mat.toMatrix 3 3 out.JacI = 1
      ∧ (∀ d < 3, ∀ r < 3, Mat.read out'.JacI d r
          = Except.ok (1 / 2 * Mat.entry out.JacI d r)) := by
  obtain ⟨out, out', h, h', s1, s2, s3, s4, _, r2, _, hd, hI⟩ :=
    (Jacobian_geometry_templ_scaling (tet4 ℝ) (refTet ℝ) (scaledTet ℝ) 0 [] [] 2 two_pos
      (hasShape_refTet ℝ) (hasShape_scaledTet ℝ) (scaledTet_entries ℝ)).2.2
  have hdet : out.detJac = 1 :=
    congrArg JacOut.detJac (Except.ok.inj (h.symm.trans (geometry_refTet ℝ Real.sqrt)))
  have hne : out.detJac ≠ 0 := by
    rw [hdet]
    exact one_ne_zero
  exact ⟨⟨two_pos, hasShape_refTet ℝ, hasShape_scaledTet ℝ, scaledTet_entries ℝ⟩,
    out, out', h, h', s1, s2, s3, s4, r2, hdet, hne, hd, (hI hne).1, (hI hne).2.1⟩

/-- C34: surface gradients are tangential, over the reals.  For the `(2,3)` specialisation
with `space_dim = 3`, a `(2,3)` geometry source and linearly independent tangent rows of
`Jac`: the geometry, the evaluator and `compute_normal` return; the geometry returns a
`3 × 2` matrix `JacI`, the evaluator returns `3 · _nc` gradients
`gradphi[3i + d] = Σ_{a < 2} (∂φ_i/∂ξ_a at ig) · JacI[d][a]`; for every node `i` the
gradient `(gradphi[3i], gradphi[3i+1], gradphi[3i+2])` has zero dot product with the normal
returned for the same `Jac`; and `P = JacI · Jac` is symmetric and idempotent, keeps the
tangent rows (`Jac · P = Jac`), sends the normal to zero and is not the identity. -/
theorem Jacobian_non_isoparametric_templ_2_3_tangential (e eg : elem_type ℝ) (vt : Mat ℝ)
    (ig : Nat) (phi gradphi : List ℝ) (nablaphi : Option (List ℝ)) (normal : List ℝ)
    (hvt : Mat.hasShape 3 eg._nc vt)
    (hind : Mat.rowsIndependent 2 (Mat.ofFn 2 3 (JacSum eg vt ig))) :
    ∃ geom res, ∃ n0 n1 n2 : ℝ,
      Jacobian_geometry_templ_2_3 Real.sqrt eg vt ig [] [] 2 3 = Except.ok geom
      ∧ geom.Jac = Mat.ofFn 2 3 (JacSum eg vt ig)
      ∧ Jacobian_non_isoparametric_templ_2_3 Real.sqrt e (elem_type_jac_templ_base.templ_2_3 eg)
          vt ig phi gradphi nablaphi 2 3 = Except.ok res
      ∧ compute_normal_2_3 Real.sqrt geom.Jac normal = Except.ok [n0, n1, n2]
      ∧ Mat.hasShape 3 2 geom.JacI
      ∧ res.gradphi.length = e._nc * 3
      ∧ (∀ i < e._nc, ∀ d < 3, Vec.read res.gradphi (3 * i + d)
          = Except.ok (∑ a in Finset.range 2, e.dphi a ig i * Mat.entry geom.JacI d a))
      ∧ (∀ i < e._nc, ∀ d < 3, Vec.read res.gradphi (3 * i + d)
          = Except.ok (Vec.entry res.gradphi (3 * i + d)))
      ∧ (∀ i < e._nc, Vec.entry res.gradphi (3 * i) * n0 + Vec.entry res.gradphi (3 * i + 1) * n1
          + Vec.entry res.gradphi (3 * i + 2) * n2 = 0)
      ∧ (Mat.toMatrix 3 2 geom.JacI * Mat.toMatrix 2 3 geom.Jac).transpose
          = Mat.toMatrix 3 2 geom.JacI * Mat.toMatrix 2 3 geom.Jac
      ∧ (Mat.toMatrix 3 2 geom.JacI * Mat.toMatrix 2 3 geom.Jac)
          * (Mat.toMatrix 3 2 geom.JacI * Mat.toMatrix 2 3 geom.Jac)
          = Mat.toMatrix 3 2 geom.JacI * Mat.toMatrix 2 3 geom.Jac
      ∧ Mat.toMatrix 2 3 geom.Jac * (Mat.toMatrix 3 2 geom.JacI * Mat.toMatrix 2 3 geom.Jac)
          = Mat.toMatrix 2 3 geom.Jac
      ∧ (Mat.toMatrix 3 2 geom.JacI * Mat.toMatrix 2 3 geom.Jac).mulVec ![n0, n1, n2] = 0
      ∧ ![n0, n1, n2] ≠ 0
      ∧ Mat.toMatrix 3 2 geom.JacI * Mat.toMatrix 2 3 geom.Jac ≠ 1 := by
  have hc := Mat.covers_of_hasShape 3 eg._nc vt hvt
  have hgeom := Jacobian_geometry_templ_2_3_eq Real.sqrt eg vt ig [] [] 3 hc
  have hdet : detJacJacT_2_3 eg vt ig 3 ≠ 0 :=
    ne_of_gt ((detJacJacT_2_3_pos_iff eg vt ig).mpr hind)
  have hpos : 0 < nx_2_3 (Mat.ofFn 2 3 (JacSum eg vt ig)) * nx_2_3 (Mat.ofFn 2 3 (JacSum eg vt ig))
      + ny_2_3 (Mat.ofFn 2 3 (JacSum eg vt ig)) * ny_2_3 (Mat.ofFn 2 3 (JacSum eg vt ig))
      + nz_2_3 (Mat.ofFn 2 3 (JacSum eg vt ig)) * nz_2_3 (Mat.ofFn 2 3 (JacSum eg vt ig)) := by
    rw [← gram_det_eq_normal_sq, det_JacJacT_2_3]
    exact (detJacJacT_2_3_pos_iff eg vt ig).mpr hind
  have hm : invModn_2_3 Real.sqrt (Mat.ofFn 2 3 (JacSum eg vt ig)) ≠ 0 := by
    unfold invModn_2_3
    exact one_div_ne_zero (ne_of_gt (Real.sqrt_pos.mpr hpos))
  obtain ⟨hP1, hP2, hP3, hP4⟩ := projector_2_3 eg vt ig hdet
    (invModn_2_3 Real.sqrt (Mat.ofFn 2 3 (JacSum eg vt ig)))
  have hn : ![nx_2_3 (Mat.ofFn 2 3 (JacSum eg vt ig))
        * invModn_2_3 Real.sqrt (Mat.ofFn 2 3 (JacSum eg vt ig)),
      ny_2_3 (Mat.ofFn 2 3 (JacSum eg vt ig))
        * invModn_2_3 Real.sqrt (Mat.ofFn 2 3 (JacSum eg vt ig)),
      nz_2_3 (Mat.ofFn 2 3 (JacSum eg vt ig))
        * invModn_2_3 Real.sqrt (Mat.ofFn 2 3 (JacSum eg vt ig))] ≠ 0 := by
    intro h0
    have e0 := congrFun h0 0
    have e1 := congrFun h0 1
    have e2 := congrFun h0 2
    simp only [Matrix.cons_val_zero, Matrix.cons_val_one, Matrix.cons_val_two, Matrix.head_cons,
      Matrix.tail_cons, Pi.zero_apply] at e0 e1 e2
    have x0 := (mul_eq_zero.mp e0).resolve_right hm
    have x1 := (mul_eq_zero.mp e1).resolve_right hm
    have x2 := (mul_eq_zero.mp e2).resolve_right hm
    rw [x0, x1, x2] at hpos
    simp at hpos
  refine ⟨_, _, _, _, _, hgeom, rfl,
    Jacobian_non_isoparametric_templ_2_3_eq Real.sqrt e _ vt ig phi gradphi nablaphi 2 _ hgeom
      (Mat.covers_of_hasShape 3 2 _ (Mat.hasShape_ofFn 3 2 _)),
    compute_normal_2_3_eq Real.sqrt _ normal (Mat.hasShape_ofFn 2 3 _), Mat.hasShape_ofFn 3 2 _,
    Vec.ofFn_length _ _, ?_, ?_, ?_, hP1, hP2, hP3, hP4, hn, ?_⟩
  · intro i hi d hd
    simp only []
    have hdiv : (3 * i + d) / 3 = i ∧ (3 * i + d) % 3 = d := by constructor <;> omega
    rw [Vec.ofFn_read _ _ (3 * i + d) (by omega), hdiv.1, hdiv.2]
    rfl
  · intro i hi d hd
    simp only []
    rw [Vec.ofFn_read _ _ (3 * i + d) (by omega), Vec.ofFn_entry _ _ (3 * i + d) (by omega)]
  · intro i hi
    simp only []
    rw [Vec.ofFn_entry _ _ (3 * i) (by omega), Vec.ofFn_entry _ _ (3 * i + 1) (by omega),
      Vec.ofFn_entry _ _ (3 * i + 2) (by omega)]
    have d0 : 3 * i / 3 = i ∧ 3 * i % 3 = 0 := by constructor <;> omega
    have d1 : (3 * i + 1) / 3 = i ∧ (3 * i + 1) % 3 = 1 := by constructor <;> omega
    have d2 : (3 * i + 2) / 3 = i ∧ (3 * i + 2) % 3 = 2 := by constructor <;> omega
    rw [d0.1, d0.2, d1.1, d1.2, d2.1, d2.2]
    exact gradphiSum_dot_normal e eg vt ig i _
  · intro h1
    simp only [] at h1
    rw [h1, Matrix.one_mulVec] at hP4
    exact hn hP4

/-- C34 at the linear triangle on the reference triangle. -/
theorem Jacobian_non_isoparametric_templ_2_3_tangential_witness :
    (Mat.hasShape 3 (tri3 ℝ)._nc (refTri ℝ)
      ∧ Mat.rowsIndependent 2 (Mat.ofFn 2 3 (JacSum (tri3 ℝ) (refTri ℝ) 0)))
    ∧ ∃ geom res, ∃ n0 n1 n2 : ℝ,
      Jacobian_geometry_templ_2_3 Real.sqrt (tri3 ℝ) (refTri ℝ) 0 [] [] 2 3 = Except.ok geom
      ∧ Jacobian_non_isoparametric_templ_2_3 Real.sqrt (tri3 ℝ)
          (elem_type_jac_templ_base.templ_2_3 (tri3 ℝ)) (refTri ℝ) 0 [] [] none 2 3
          = Except.ok res
      ∧ compute_normal_2_3 Real.sqrt geom.Jac [] = Except.ok [n0, n1, n2]
      ∧ Mat.hasShape 3 2 geom.JacI
      ∧ res.gradphi.length = (tri3 ℝ)._nc * 3
      ∧ (∀ i < (tri3 ℝ)._nc, ∀ d < 3, Vec.read res.gradphi (3 * i + d)
          = Except.ok (∑ a in Finset.range 2, (tri3 ℝ).dphi a 0 i * Mat.entry geom.JacI d a))
      ∧ (∀ i < (tri3 ℝ)._nc, ∀ d < 3, Vec.read res.gradphi (3 * i + d)
          = Except.ok (Vec.entry res.gradphi (3 * i + d)))
      ∧ ![n0, n1, n2] ≠ 0
      ∧ (∀ i < (tri3 ℝ)._nc,
          Vec.entry res.gradphi (3 * i) * n0 + Vec.entry res.gradphi (3 * i + 1) * n1
            + Vec.entry res.gradphi (3 * i + 2) * n2 = 0) :=
  ⟨⟨hasShape_refTri ℝ, rowsIndependent_refTri ℝ⟩,
    let ⟨geom, res, n0, n1, n2, h1, _, h2, h3, s1, s2, s3, s4, h4, _, _, _, _, h5, _⟩ :=
      Jacobian_non_isoparametric_templ_2_3_tangential (tri3 ℝ) (tri3 ℝ) (refTri ℝ) 0 [] [] none
        [] (hasShape_refTri ℝ) (rowsIndependent_refTri ℝ)
    ⟨geom, res, n0, n1, n2, h1, h2, h3, s1, s2, s3, s4, h5, h4⟩⟩

/-- C35: orientation of the normal, over the reals.  For a `2 × 3` matrix `Jac` with
linearly independent rows, the `(2,3)` `compute_normal` called on `Jac` with its two rows
swapped returns the opposite of the normal it returns for `Jac`; for a `1 × 3` matrix `Jac`
with a non-zero tangent, the modulus it divides by is positive and the `(1,3)`
`compute_normal` called on the negated tangent returns the opposite of the normal it returns
for `Jac`. -/
theorem compute_normal_orientation (Jac2 Jac1 : Mat ℝ) (normal : List ℝ)
    (h2 : Mat.hasShape 2 3 Jac2) (hind2 : Mat.rowsIndependent 2 Jac2)
    (h1 : Mat.hasShape 1 3 Jac1) (hind1 : Mat.rowsIndependent 1 Jac1) :
    (∃ n0 n1 n2 : ℝ, compute_normal_2_3 Real.sqrt Jac2 normal = Except.ok [n0, n1, n2]
      ∧ compute_normal_2_3 Real.sqrt Jac2.reverse normal = Except.ok [-n0, -n1, -n2]
      ∧ (∀ d, Mat.entry Jac2.reverse 0 d = Mat.entry Jac2 1 d
          ∧ Mat.entry Jac2.reverse 1 d = Mat.entry Jac2 0 d)
      ∧ ¬ (n0 = 0 ∧ n1 = 0 ∧ n2 = 0))
    ∧ (∃ n0 n1 n2 : ℝ, compute_normal_1_3 Real.sqrt Jac1 normal = Except.ok [n0, n1, n2]
      ∧ compute_normal_1_3 Real.sqrt (Jac1.map (fun row => row.map (fun x => -x))) normal
          = Except.ok [-n0, -n1, -n2]
      ∧ (∀ d, Mat.entry (Jac1.map (fun row => row.map (fun x => -x))) 0 d
          = -Mat.entry Jac1 0 d)
      ∧ 0 < Real.sqrt (Mat.entry Jac1 0 0 * Mat.entry Jac1 0 0
          + Mat.entry Jac1 0 1 * Mat.entry Jac1 0 1 + Mat.entry Jac1 0 2 * Mat.entry Jac1 0 2)) := by
  have hsw := entry_reverse_two Jac2 h2.1
  have hne := (rowsIndependent_two_iff Jac2).mp hind2
  refine ⟨⟨_, _, _, compute_normal_2_3_eq Real.sqrt Jac2 normal h2, ?_, hsw, ?_⟩,
    ⟨_, _, _, compute_normal_1_3_eq Real.sqrt Jac1 normal h1, ?_, entry_map_neg Jac1 0, ?_⟩⟩
  · rw [compute_normal_2_3_eq Real.sqrt _ normal (hasShape_reverse 2 3 Jac2 h2)]
    have hx : nx_2_3 Jac2.reverse = -nx_2_3 Jac2 := by
      simp only [nx_2_3, (hsw _).1, (hsw _).2]
      ring
    have hy : ny_2_3 Jac2.reverse = -ny_2_3 Jac2 := by
      simp only [ny_2_3, (hsw _).1, (hsw _).2]
      ring
    have hz : nz_2_3 Jac2.reverse = -nz_2_3 Jac2 := by
      simp only [nz_2_3, (hsw _).1, (hsw _).2]
      ring
    have hm : invModn_2_3 Real.sqrt Jac2.reverse = invModn_2_3 Real.sqrt Jac2 := by
      simp only [invModn_2_3, hx, hy, hz, neg_mul_neg]
    rw [hx, hy, hz, hm, neg_mul, neg_mul, neg_mul]
  · have hS : 0 < nx_2_3 Jac2 * nx_2_3 Jac2 + ny_2_3 Jac2 * ny_2_3 Jac2
        + nz_2_3 Jac2 * nz_2_3 Jac2 := by
      have h0 := mul_self_nonneg (nx_2_3 Jac2)
      have h1 := mul_self_nonneg (ny_2_3 Jac2)
      have h2 := mul_self_nonneg (nz_2_3 Jac2)
      by_contra hcon
      apply hne
      have e0 : nx_2_3 Jac2 * nx_2_3 Jac2 = 0 := by linarith
      have e1 : ny_2_3 Jac2 * ny_2_3 Jac2 = 0 := by linarith
      have e2 : nz_2_3 Jac2 * nz_2_3 Jac2 = 0 := by linarith
      exact ⟨mul_self_eq_zero.mp e0, mul_self_eq_zero.mp e1, mul_self_eq_zero.mp e2⟩
    have hinv : invModn_2_3 Real.sqrt Jac2 ≠ 0 := by
      unfold invModn_2_3
      exact one_div_ne_zero (ne_of_gt (Real.sqrt_pos.mpr hS))
    rintro ⟨e0, e1, e2⟩
    apply hne
    exact ⟨(mul_eq_zero.mp e0).resolve_right hinv, (mul_eq_zero.mp e1).resolve_right hinv,
      (mul_eq_zero.mp e2).resolve_right hinv⟩
  · rw [compute_normal_1_3_eq Real.sqrt _ normal (hasShape_map_neg 1 3 Jac1 h1)]
    simp only [entry_map_neg, neg_mul_neg, neg_neg, neg_zero]
    congr 2
    · rw [neg_div]
    · congr 1
      rw [neg_div, neg_neg]
  · obtain ⟨d, hd, hne1⟩ := (rowsIndependent_one_iff Jac1).mp hind1
    have h0 := mul_self_nonneg (Mat.entry Jac1 0 0)
    have h1 := mul_self_nonneg (Mat.entry Jac1 0 1)
    have h2 := mul_self_nonneg (Mat.entry Jac1 0 2)
    have hp := mul_self_pos.mpr hne1
    apply Real.sqrt_pos.mpr
    interval_cases d <;> linarith

/-- C35 at the two unit tangents and at the tangent `(3, 4, 0)`. -/
theorem compute_normal_orientation_witness :
    (Mat.hasShape 2 3 (unitTangents ℝ) ∧ Mat.rowsIndependent 2 (unitTangents ℝ)
      ∧ Mat.hasShape 1 3 (planarTangent ℝ) ∧ Mat.rowsIndependent 1 (planarTangent ℝ))
    ∧ (∃ n0 n1 n2 : ℝ, compute_normal_2_3 Real.sqrt (unitTangents ℝ) [] = Except.ok [n0, n1, n2]
      ∧ compute_normal_2_3 Real.sqrt (unitTangents ℝ).reverse [] = Except.ok [-n0, -n1, -n2])
    ∧ (∃ n0 n1 n2 : ℝ, compute_normal_1_3 Real.sqrt (planarTangent ℝ) []
          = Except.ok [n0, n1, n2]
      ∧ compute_normal_1_3 Real.sqrt ((planarTangent ℝ).map (fun row => row.map (fun x => -x)))
          [] = Except.ok [-n0, -n1, -n2]) :=
  ⟨⟨hasShape_unitTangents ℝ, rowsIndependent_unitTangents ℝ, hasShape_planarTangent ℝ,
      (rowsIndependent_one_iff _).mpr tangent_planarTangent⟩,
    let ⟨⟨a0, a1, a2, ha, ha', _⟩, ⟨b0, b1, b2, hb, hb', _⟩⟩ :=
      compute_normal_orientation (unitTangents ℝ) (planarTangent ℝ) []
        (hasShape_unitTangents ℝ) (rowsIndependent_unitTangents ℝ) (hasShape_planarTangent ℝ)
        ((rowsIndependent_one_iff _).mpr tangent_planarTangent)
    ⟨⟨a0, a1, a2, ha, ha'⟩, ⟨b0, b1, b2, hb, hb'⟩⟩⟩

/-- C36: when the derivatives `∂φ_j/∂x_jdim` that the shape evaluator returns for element
`iel` sum to zero over the nodes `j < nDofs` at every Gauss point and for every direction,
every row of the local matrix `local_Jac` of `AssembleStandardProblem` and every row of the
local matrix `local_P` of every direction `k < dim` of `BuidProjection` sums to zero; these
are the matrices that the runs extract from the tape: in the element loops started on a tape
without registered variables, with `nDofs > 0` and a shape evaluator that returns for every
element from the first owned one up to `iel`, the Jacobian that `AssembleStandardProblem`
(for `dim ≥ 2`) extracts for `iel` and the Jacobian that `BuidProjection` extracts for `iel`
and direction `k` are buffers of `nDofs · nDofs` entries, ordered by column (entry `(i, j)`
at position `j · nDofs + i`), whose rows `i < nDofs` sum to zero. -/
theorem constants_in_kernel {V M : Type} [Field K] (acos cos sin : K → K)
    (RESops : NumericVector K V) (KKops Pops : SparseMatrix K M) (msh : Mesh K)
    (sol : Solution K) (pdeSys sysP0 : LinearEquationSolver V M)
    (soluIndex soluType soluPdeIndex : Nat) (s : Stack K) (KK0 : M) (RES0 : V) (P0 : Nat → M)
    (iel : Nat)
    (hlo : msh.elementOffset msh.processor_id ≤ iel)
    (hel : ∀ e, msh.elementOffset msh.processor_id ≤ e → e ≤ iel →
      0 < msh.GetElementDofNumber e soluType ∧ msh.evaluates soluType e)
    (hind : s.independent_index = []) (hdep : s.dependent_index = [])
    (hsum : ∀ ig < (msh.finiteElement (msh.GetElementType iel) soluType).GetGaussPointNumber,
      ∀ jdim < msh.GetDimension,
        ∑ j in Finset.range (msh.GetElementDofNumber iel soluType),
          msh.phi_x soluType iel ig j jdim = 0) :
    (∀ i, ∑ j in Finset.range (msh.GetElementDofNumber iel soluType),
        local_Jac msh soluType iel i j = 0)
    ∧ (∀ k < msh.GetDimension, ∀ i,
        ∑ j in Finset.range (msh.GetElementDofNumber iel soluType),
          local_P msh soluType iel k i j = 0)
    ∧ (2 ≤ msh.GetDimension → ∃ st st1 Jac,
        forRange (msh.elementOffset msh.processor_id) iel
            (AssembleStandardProblem.element acos cos sin RESops KKops msh sol pdeSys
              soluIndex soluType soluPdeIndex)
            ⟨s, KK0, RES0, [], List.replicate msh.GetDimension [], [], [], [], 0, [], [], []⟩
          = Except.ok st
        ∧ AssembleStandardProblem.record acos cos sin RESops msh sol pdeSys soluIndex soluType
            soluPdeIndex iel st = Except.ok st1
        ∧ st1.s.jacobian st1.Jac = Except.ok Jac
        ∧ Jac.length
            = msh.GetElementDofNumber iel soluType * msh.GetElementDofNumber iel soluType
        ∧ (∀ i < msh.GetElementDofNumber iel soluType,
            ∀ j < msh.GetElementDofNumber iel soluType,
            Vec.read Jac (j * msh.GetElementDofNumber iel soluType + i)
              = Except.ok (local_Jac msh soluType iel i j))
        ∧ ∀ i < msh.GetElementDofNumber iel soluType,
            ∑ j in Finset.range (msh.GetElementDofNumber iel soluType),
              Vec.entry Jac (j * msh.GetElementDofNumber iel soluType + i) = 0)
    ∧ (∃ st st1,
        forRange (msh.elementOffset msh.processor_id) iel
            (BuidProjection.element Pops msh sol sysP0 soluIndex soluType soluPdeIndex)
            ⟨s, Vec.ofFn msh.GetDimension P0, [], List.replicate msh.GetDimension [], [], [],
              [], 0, [], List.replicate msh.GetDimension []⟩
          = Except.ok st
        ∧ BuidProjection.record msh sol sysP0 soluIndex soluType soluPdeIndex iel st
            = Except.ok st1
        ∧ ∀ k < msh.GetDimension, ∃ r sk Jac,
            BuidProjection.extract Pops k (msh.GetElementDofNumber iel soluType)
                st1.aRes st1.sysDof (st1.s, st1.P, st1.Jac) = Except.ok r
            ∧ BuidProjection.register (msh.GetElementDofNumber iel soluType) st1.aRes k r.1
                = Except.ok sk
            ∧ sk.jacobian r.2.2 = Except.ok Jac
            ∧ Jac.length
                = msh.GetElementDofNumber iel soluType * msh.GetElementDofNumber iel soluType
            ∧ (∀ i < msh.GetElementDofNumber iel soluType,
                ∀ j < msh.GetElementDofNumber iel soluType,
                Vec.read Jac (j * msh.GetElementDofNumber iel soluType + i)
                  = Except.ok (local_P msh soluType iel k i j))
            ∧ ∀ i < msh.GetElementDofNumber iel soluType,
                ∑ j in Finset.range (msh.GetElementDofNumber iel soluType),
                  Vec.entry Jac (j * msh.GetElementDofNumber iel soluType + i) = 0) := by
  have hrow : ∀ (f : Nat → Nat → K),
      (∀ i, ∑ j in Finset.range (msh.GetElementDofNumber iel soluType), f i j = 0) →
      ∀ i < msh.GetElementDofNumber iel soluType,
        ∑ j in Finset.range (msh.GetElementDofNumber iel soluType),
          Vec.entry (Vec.ofFn
            (msh.GetElementDofNumber iel soluType * msh.GetElementDofNumber iel soluType)
            (fun e => f (e % msh.GetElementDofNumber iel soluType)
              (e / msh.GetElementDofNumber iel soluType)))
            (j * msh.GetElementDofNumber iel soluType + i) = 0 := by
    intro f hf i hi
    rw [← hf i]
    apply Finset.sum_congr rfl
    intro j hj
    exact Vec.entry_col_major _ f i j hi (Finset.mem_range.mp hj)
  refine ⟨fun i => local_Jac_row_sum msh soluType iel i hsum,
    fun k hk i => local_P_row_sum msh soluType iel k i hk hsum, ?_, ?_⟩
  · intro hdim
    obtain ⟨st, h, i1, i2, i3, i4⟩ := AssembleStandardProblem.iteration_state acos cos sin
      RESops KKops msh sol pdeSys soluIndex soluType soluPdeIndex
      (msh.elementOffset msh.processor_id) iel s KK0 RES0 hdim hind hdep
      (fun e h1 h2 => hel e h1 (Nat.le_of_lt h2))
    obtain ⟨st1, st', h1, _, _, _, _, _, _, _, _, hjac, _⟩ :=
      AssembleStandardProblem.extraction_tape acos cos sin RESops KKops msh sol pdeSys soluIndex
        soluType soluPdeIndex iel st hdim (hel iel hlo (Nat.le_refl _)).1 i1 i2 i3 i4
        (hel iel hlo (Nat.le_refl _)).2
    exact ⟨st, st1, _, h, h1, hjac, Vec.ofFn_length _ _,
      fun i hi j hj => Vec.read_col_major _ (local_Jac msh soluType iel) i j hi hj,
      hrow _ (fun i => local_Jac_row_sum msh soluType iel i hsum)⟩
  · obtain ⟨st, h, i1, i2, i3, i4, i5, Q, hQ⟩ := BuidProjection.iteration_start Pops msh sol
      sysP0 soluIndex soluType soluPdeIndex (msh.elementOffset msh.processor_id) iel s P0 hind
      hdep (fun e h1 h2 => hel e h1 (Nat.le_of_lt h2))
    obtain ⟨st1, st', h1, _, _, _, _, _, t6, _⟩ :=
      BuidProjection.extractions_tape Pops msh sol sysP0 soluIndex soluType soluPdeIndex iel st Q
        (hel iel hlo (Nat.le_refl _)).1 i1 i2 i3 i4 i5 hQ (hel iel hlo (Nat.le_refl _)).2
    refine ⟨st, st1, h, h1, ?_⟩
    intro k hk
    obtain ⟨_, r, sk, q2, q3, _, _, _, _, _, _, q7⟩ := t6 k hk
    exact ⟨r, sk, _, q2, q3, q7, Vec.ofFn_length _ _,
      fun i hi j hj => Vec.read_col_major _ (local_P msh soluType iel k) i j hi hj,
      hrow _ (fun i => local_P_row_sum msh soluType iel k i hk hsum)⟩

/-- C36 on the mesh of one triangle, whose gradients `(−1, −1)`, `(1, 0)`, `(0, 1)` sum to
zero: the rows of the local matrix of the assembler and of the two local projection matrices
sum to zero, the entry `(0, 1)` of the local matrix of the assembler is `1/2`, and the
Jacobians that the two element loops extract for the element are buffers of nine entries,
ordered by column, whose rows sum to zero. -/
theorem constants_in_kernel_witness :
    ((oneTriangle ℚ).elementOffset (oneTriangle ℚ).processor_id ≤ 0
      ∧ (emptyStack ℚ).independent_index = [] ∧ (emptyStack ℚ).dependent_index = []
      ∧ 2 ≤ (oneTriangle ℚ).GetDimension
      ∧ local_Jac (oneTriangle ℚ) 0 0 0 1 = 1 / 2)
    ∧ (∀ i, ∑ j in Finset.range 3, local_Jac (oneTriangle ℚ) 0 0 i j = 0)
    ∧ (∀ k < 2, ∀ i, ∑ j in Finset.range 3, local_P (oneTriangle ℚ) 0 0 k i j = 0)
    ∧ (∃ st st1 Jac,
        forRange 0 0
            (AssembleStandardProblem.element (fun x => x) (fun x => x) (fun x => x)
              (blockVector ℚ) (blockMatrix ℚ) (oneTriangle ℚ) (nodeNumberSolution ℚ)
              (oneTriangleSolver ℚ) 0 0 0)
            ⟨emptyStack ℚ, [], [], [], List.replicate 2 [], [], [], [], 0, [], [], []⟩
          = Except.ok st
        ∧ AssembleStandardProblem.record (fun x => x) (fun x => x) (fun x => x)
            (blockVector ℚ) (oneTriangle ℚ) (nodeNumberSolution ℚ) (oneTriangleSolver ℚ)
            0 0 0 0 st = Except.ok st1
        ∧ st1.s.jacobian st1.Jac = Except.ok Jac
        ∧ Jac.length = 3 * 3
        ∧ (∀ i < 3, ∀ j < 3,
            Vec.read Jac (j * 3 + i) = Except.ok (local_Jac (oneTriangle ℚ) 0 0 i j))
        ∧ ∀ i < 3, ∑ j in Finset.range 3, Vec.entry Jac (j * 3 + i) = 0)
    ∧ (∃ st st1,
        forRange 0 0
            (BuidProjection.element (blockMatrix ℚ) (oneTriangle ℚ) (nodeNumberSolution ℚ)
              (oneTriangleSolver ℚ) 0 0 0)
            ⟨emptyStack ℚ, Vec.ofFn 2 (fun _ => []), [], List.replicate 2 [], [], [], [], 0,
              [], List.replicate 2 []⟩
          = Except.ok st
        ∧ BuidProjection.record (oneTriangle ℚ) (nodeNumberSolution ℚ) (oneTriangleSolver ℚ)
            0 0 0 0 st = Except.ok st1
        ∧ ∀ k < 2, ∃ r sk Jac,
            BuidProjection.extract (blockMatrix ℚ) k 3 st1.aRes st1.sysDof
                (st1.s, st1.P, st1.Jac) = Except.ok r
            ∧ BuidProjection.register 3 st1.aRes k r.1 = Except.ok sk
            ∧ sk.jacobian r.2.2 = Except.ok Jac
            ∧ Jac.length = 3 * 3
            ∧ (∀ i < 3, ∀ j < 3,
                Vec.read Jac (j * 3 + i) = Except.ok (local_P (oneTriangle ℚ) 0 0 k i j))
            ∧ ∀ i < 3, ∑ j in Finset.range 3, Vec.entry Jac (j * 3 + i) = 0) :=
  ⟨⟨Nat.le_refl 0, rfl, rfl, by decide, oneTriangle_local_entries.2.2⟩,
    match constants_in_kernel (fun x => x) (fun x => x) (fun x => x) (blockVector ℚ)
      (blockMatrix ℚ) (blockMatrix ℚ) (oneTriangle ℚ) (nodeNumberSolution ℚ)
      (oneTriangleSolver ℚ) (oneTriangleSolver ℚ) 0 0 0 (emptyStack ℚ) [] [] (fun _ => []) 0
      (Nat.le_refl 0) (fun e _ _ => oneTriangle_evaluates ℚ e) rfl rfl
      (fun ig _ jdim hj => oneTriangle_gradients_sum 0 ig jdim hj) with
    | ⟨h1, h2, h3, h4⟩ => ⟨h1, h2, h3 (by decide), h4⟩⟩

/-- C37: with global containers for which `zero` clears whatever they hold, under the
conditions of a returning run: `AssembleStandardProblem` returns a residual `RES1` and a
matrix `KK1`; a second run on the same mesh and solution, started from the containers and
the tape that the first run left, returns the same `RES1` and `KK1`; and so does a run
started from any other content `KK0`, `RES0` of the containers. -/
theorem AssembleStandardProblem_idempotent {V M : Type} [Field K] (acos cos sin : K → K)
    (RESops : NumericVector K V) (KKops : SparseMatrix K M) (ml_prob : MultiLevelProblem K V M)
    (s : Stack K) (mlPdeSys : ImplicitSystem V M) (soluIndex soluPdeIndex : Nat)
    (msh : Mesh K) (sol : Solution K) (pdeSys : LinearEquationSolver V M) (soluType : Nat)
    (hsys : ml_prob.get_system "Poisson" = Except.ok mlPdeSys)
    (hidx : ml_prob.ml_sol.GetIndex "u" = Except.ok soluIndex)
    (hpde : mlPdeSys.GetSolPdeIndex "u" = Except.ok soluPdeIndex)
    (hmsh : msh = ml_prob.ml_msh.GetLevel mlPdeSys.GetLevelToAssemble)
    (hsol : sol = ml_prob.ml_sol.GetSolutionLevel mlPdeSys.GetLevelToAssemble)
    (hlin : pdeSys = mlPdeSys.LinSolver mlPdeSys.GetLevelToAssemble)
    (htype : soluType = ml_prob.ml_sol.GetSolutionType soluIndex)
    (hdim : 2 ≤ msh.GetDimension)
    (hel : ∀ iel, msh.elementOffset msh.processor_id ≤ iel →
      iel < msh.elementOffset (msh.processor_id + 1) →
      0 < msh.GetElementDofNumber iel soluType ∧ msh.evaluates soluType iel)
    (hind : s.independent_index = []) (hdep : s.dependent_index = [])
    (hzeroV : ∀ v v' : V, RESops.zero v = RESops.zero v')
    (hzeroM : ∀ m m' : M, KKops.zero m = KKops.zero m') :
    ∃ s1 KK1 RES1,
      AssembleStandardProblem acos cos sin RESops KKops ml_prob s = Except.ok (s1, KK1, RES1)
      ∧ (∃ s2, AssembleStandardProblem acos cos sin RESops KKops (ml_prob.store KK1 RES1) s1
          = Except.ok (s2, KK1, RES1))
      ∧ (∀ (KK0 : M) (RES0 : V), ∃ s', AssembleStandardProblem acos cos sin RESops KKops
          (ml_prob.store KK0 RES0) s = Except.ok (s', KK1, RES1)) := by
  obtain ⟨s1, h, h1, h2⟩ := AssembleStandardProblem_run acos cos sin RESops KKops ml_prob s
    mlPdeSys soluIndex soluPdeIndex msh sol pdeSys soluType hsys hidx hpde hmsh hsol hlin htype
    hdim hel hind hdep
  refine ⟨s1, _, _, h, ?_, ?_⟩
  · obtain ⟨s2, h', _, _⟩ := AssembleStandardProblem_run_store acos cos sin RESops KKops ml_prob
      s1 mlPdeSys soluIndex soluPdeIndex msh sol pdeSys soluType hsys hidx hpde hmsh hsol hlin
      htype hdim hel hzeroV hzeroM _ _ h1 h2
    exact ⟨s2, h'⟩
  · intro KK0 RES0
    obtain ⟨s', h', _, _⟩ := AssembleStandardProblem_run_store acos cos sin RESops KKops ml_prob
      s mlPdeSys soluIndex soluPdeIndex msh sol pdeSys soluType hsys hidx hpde hmsh hsol hlin
      htype hdim hel hzeroV hzeroM KK0 RES0 hind hdep
    exact ⟨s', h'⟩

/-- C37 on the mesh of one triangle, with the containers that record the blocks added
since they were zeroed. -/
theorem AssembleStandardProblem_idempotent_witness :
    (2 ≤ (oneTriangle ℚ).GetDimension
      ∧ (emptyStack ℚ).independent_index = [] ∧ (emptyStack ℚ).dependent_index = []
      ∧ (∀ v v', (blockVector ℚ).zero v = (blockVector ℚ).zero v')
      ∧ (∀ m m', (blockMatrix ℚ).zero m = (blockMatrix ℚ).zero m'))
    ∧ ∃ s1 KK1 RES1,
      AssembleStandardProblem (fun x => x) (fun x => x) (fun x => x) (blockVector ℚ)
          (blockMatrix ℚ) (oneTriangleProblem ℚ) (emptyStack ℚ) = Except.ok (s1, KK1, RES1)
      ∧ (∃ s2, AssembleStandardProblem (fun x => x) (fun x => x) (fun x => x) (blockVector ℚ)
          (blockMatrix ℚ) ((oneTriangleProblem ℚ).store KK1 RES1) s1
          = Except.ok (s2, KK1, RES1)) :=
  ⟨⟨by decide, rfl, rfl, fun _ _ => rfl, fun _ _ => rfl⟩,
    let ⟨s1, KK1, RES1, h, h2, _⟩ :=
      AssembleStandardProblem_idempotent (fun x => x) (fun x => x) (fun x => x) (blockVector ℚ)
        (blockMatrix ℚ) (oneTriangleProblem ℚ) (emptyStack ℚ) (oneTriangleSystem ℚ) 0 0
        (oneTriangle ℚ) (nodeNumberSolution ℚ) (oneTriangleSolver ℚ) 0 rfl rfl rfl rfl rfl rfl
        rfl (by decide) (fun iel _ _ => oneTriangle_evaluates ℚ iel) rfl rfl (fun _ _ => rfl)
        (fun _ _ => rfl)
    ⟨s1, KK1, RES1, h, h2⟩⟩

/-- C38 fails for `dim = 1`: with `xGauss` and the gradient buffer of length `1`, each of the
three helpers reads `x[1]` outside `xGauss`, and on the mesh of one segment, of dimension
`1`, the runs of `AssembleStandardProblem` and of `GetErrorNorm` end with this fault. -/
theorem GetExactSolution_dim_one_counterexample :
    (List.replicate 1 (0 : ℚ)).length = 1 ∧ (oneSegment ℚ).GetDimension = 1
    ∧ GetExactSolutionValue (fun x => x) (fun x => x) (List.replicate 1 (0 : ℚ))
        = Except.error Fault.out_of_range
    ∧ GetExactSolutionGradient (fun x => x) (fun x => x) (fun x => x) (List.replicate 1 (0 : ℚ))
        (List.replicate 1 0) = Except.error Fault.out_of_range
    ∧ GetExactSolutionLaplace (fun x => x) (fun x => x) (List.replicate 1 (0 : ℚ))
        = Except.error Fault.out_of_range
    ∧ AssembleStandardProblem (fun x => x) (fun x => x) (fun x => x) (blockVector ℚ)
        (blockMatrix ℚ) (oneSegmentProblem ℚ) (emptyStack ℚ) = Except.error Fault.out_of_range
    ∧ GetErrorNorm (fun x => x) (fun x => x) (fun x => x) (fun x => x)
        (oneSegmentProblem ℚ).ml_sol = Except.error Fault.out_of_range := by
  refine ⟨rfl, rfl, rfl, rfl, rfl, ?_, ?_⟩
  · rfl
  · rfl

/-- C38, amended: for every dimension `dim ≥ 2`, so for `dim = 2` and `dim = 3`, with
`xGauss` of length `dim` and the zeroed gradient buffer of length `dim` that
`AssembleStandardProblem` and `GetErrorNorm` pass, the calls of `GetExactSolutionValue`,
`GetExactSolutionGradient` and `GetExactSolutionLaplace` return: they read `x[0]`, `x[1]` and
write `solGrad[0]`, `solGrad[1]` inside the bounds, and the buffer keeps its length `dim` with
its other entries untouched.  For `dim = 1` each of the three helpers ends with an access
outside the bounds.  At the two call sites `xGauss` has length `dim`. -/
theorem GetExactSolution_index_safety [Field K] (acos cos sin : K → K) (dim : Nat)
    (xGauss : List K) (hx : xGauss.length = dim) :
    (2 ≤ dim →
      (∃ v, GetExactSolutionValue acos cos xGauss = Except.ok v)
      ∧ (∃ g, GetExactSolutionGradient acos cos sin xGauss (List.replicate dim 0) = Except.ok g
        ∧ g.length = dim ∧ ∀ j, 2 ≤ j → g[j]? = (List.replicate dim (0 : K))[j]?)
      ∧ (∃ l, GetExactSolutionLaplace acos cos xGauss = Except.ok l))
    ∧ (dim = 1 →
      GetExactSolutionValue acos cos xGauss = Except.error Fault.out_of_range
      ∧ GetExactSolutionGradient acos cos sin xGauss (List.replicate dim 0)
          = Except.error Fault.out_of_range
      ∧ GetExactSolutionLaplace acos cos xGauss = Except.error Fault.out_of_range)
    ∧ (∀ (nDofs : Nat) (phi phi_x : List K) (x : Mat K) (solu : List (adouble K)) (s : Stack K)
        (g : GaussPoint K),
        AssembleStandardProblem.gauss_point dim nDofs phi phi_x x solu s = Except.ok g →
        g.xGauss.length = dim)
    ∧ (∀ (nDofs : Nat) (phi phi_x : List K) (x : Mat K) (solu : List K) (g : ErrorGaussPoint K),
        GetErrorNorm.gauss_point dim nDofs phi phi_x x solu = Except.ok g →
        g.xGauss.length = dim) := by
  refine ⟨fun hdim => ?_, fun hdim => ?_,
    fun nDofs phi phi_x x solu s g h =>
      AssembleStandardProblem.gauss_point_xGauss dim nDofs phi phi_x x solu s g h,
    fun nDofs phi phi_x x solu g h =>
      GetErrorNorm.xGauss_length dim nDofs phi phi_x x solu g h⟩
  · obtain ⟨h1, ⟨g, h2, h3, h4⟩, h5⟩ := GetExactSolution_returns acos cos sin xGauss
      (List.replicate dim 0) (by omega) (by rw [List.length_replicate]; exact hdim)
    exact ⟨h1, ⟨g, h2, by rw [h3, List.length_replicate], h4⟩, h5⟩
  · exact GetExactSolution_fault_one acos cos sin xGauss (List.replicate dim 0)
      (by rw [hx, hdim])

/-- C38, amended, at a point of a mesh of dimension `3`. -/
theorem GetExactSolution_index_safety_witness :
    ([1, 2, 3] : List ℚ).length = 3
    ∧ (∃ v, GetExactSolutionValue (fun x => x) (fun x => x) ([1, 2, 3] : List ℚ) = Except.ok v)
    ∧ (∃ g, GetExactSolutionGradient (fun x => x) (fun x => x) (fun x => x)
          ([1, 2, 3] : List ℚ) (List.replicate 3 0) = Except.ok g
        ∧ g.length = 3 ∧ ∀ j, 2 ≤ j → g[j]? = (List.replicate 3 (0 : ℚ))[j]?)
    ∧ (∃ l, GetExactSolutionLaplace (fun x => x) (fun x => x) ([1, 2, 3] : List ℚ)
        = Except.ok l) :=
  ⟨rfl, (GetExactSolution_index_safety (fun x => x) (fun x => x) (fun x => x) 3
    ([1, 2, 3] : List ℚ) rfl).1 (by decide)⟩

/-- C39: the vector `geom_elems` has exactly `N_GEOM_ELS = 6` entries, every value of the
enumeration `GeomElType` is an index inside it, the six values are the six indices, and the
entries read at the enumerators are `geom_elems[HEX] = "hex"`, `geom_elems[TET] = "tet"`,
`geom_elems[WEDGE] = "wedge"`, `geom_elems[QUAD] = "quad"`, `geom_elems[TRI] = "tri"` and
`geom_elems[LINE] = "line"`. -/
theorem geom_elems_agree :
    geom_elems.length = N_GEOM_ELS ∧ N_GEOM_ELS = 6
    ∧ (∀ t : GeomElType, t.val < geom_elems.length)
    ∧ (∀ t u : GeomElType, t.val = u.val → t = u)
    ∧ (∀ i < N_GEOM_ELS, ∃ t : GeomElType, t.val = i)
    ∧ Vec.read geom_elems GeomElType.HEX.val = Except.ok "hex"
    ∧ Vec.read geom_elems GeomElType.TET.val = Except.ok "tet"
    ∧ Vec.read geom_elems GeomElType.WEDGE.val = Except.ok "wedge"
    ∧ Vec.read geom_elems GeomElType.QUAD.val = Except.ok "quad"
    ∧ Vec.read geom_elems GeomElType.TRI.val = Except.ok "tri"
    ∧ Vec.read geom_elems GeomElType.LINE.val = Except.ok "line" := by
  refine ⟨rfl, rfl, ?_, ?_, ?_, rfl, rfl, rfl, rfl, rfl, rfl⟩
  · intro t
    cases t <;> decide
  · intro t u h
    cases t <;> cases u <;> first | rfl | (exact absurd h (by decide))
  · intro i hi
    have hi6 : i < 6 := hi
    interval_cases i
    · exact ⟨GeomElType.HEX, rfl⟩
    · exact ⟨GeomElType.TET, rfl⟩
    · exact ⟨GeomElType.WEDGE, rfl⟩
    · exact ⟨GeomElType.QUAD, rfl⟩
    · exact ⟨GeomElType.TRI, rfl⟩
    · exact ⟨GeomElType.LINE, rfl⟩

end claims

end femus

